import Mathlib

/-!
# KK-Poti: potentiometer value pipeline

A shallow embedding of the classes `Poti`, `StablePoti`, `MappedPoti` and
`CenteredPoti` (files `src/Poti.h`, `src/StablePoti.h`, `src/MappedPoti.h`,
`src/CenteredPoti.h`) and theorems about them.

Conventions of the embedding.

* An object is a structure holding the member variables under their source
  names; inheritance is `extends`.  A member function is a function from the
  object (and the values it obtains from its collaborators) to its return
  value and the object afterwards.
* `millis()` and `getRawValue()` are the two collaborators.  A poll receives
  `current`, the value `millis()` returns, and `raw`, the value
  `getRawValue()` returns if it is called in this poll.
* `unsigned long` is 32 bits wide on every Arduino core: clock arithmetic is
  arithmetic modulo `2 ^ 32`.
* `uint8_t` values are naturals below 256.
* `int` is `Platform.intBits` wide (16 on AVR, 32 on ARM and ESP32) and its
  arithmetic wraps around in two's complement (`Platform.wrap`).
* `float` and `double` are binary floating point with `Platform.floatPrec`
  and `Platform.doublePrec` significant bits (24 and 24 on AVR, where `double`
  is `float`; 24 and 53 on ARM and ESP32).  A finite floating-point value is the
  rational number it denotes; every operation rounds its exact result once, to
  nearest, ties to even, in the type the C++ conversion rules give the
  operation (`roundFloat`).  The exponent range is not modelled (no overflow
  or underflow occurs for the magnitudes the program handles).  A
  floating-point division by zero and a conversion to `uint8_t` of a value
  outside `0..255` have no defined result in C++; `getMapping` returns `none`
  there, and so does a `hasChanged()` that needs such a level.
-/

/-! ## Machine arithmetic -/

/-- Arithmetic model of the target: width of `int` and precision (number of
significand bits) of `float` and `double`. -/
structure Platform where
  intBits : Nat
  floatPrec : Nat
  doublePrec : Nat
deriving DecidableEq, Repr

/-- AVR based boards (Uno, Nano): 16 bit `int`, `double` is the same type as `float`. -/
def Platform.avr : Platform := ⟨16, 24, 24⟩

/-- ARM and ESP32 based boards: 32 bit `int`, 64 bit `double`. -/
def Platform.arm32 : Platform := ⟨32, 24, 53⟩

/-- Two's complement wrap-around of an integer to `bits` bits. -/
def wrapInt (bits : Nat) (x : Int) : Int :=
  (x + 2 ^ (bits - 1)) % 2 ^ bits - 2 ^ (bits - 1)

/-- Result of an `int` operation whose exact value is `x`. -/
def Platform.wrap (pf : Platform) (x : Int) : Int := wrapInt pf.intBits x

/-- Largest value of `int`. -/
def Platform.intMax (pf : Platform) : Int := 2 ^ (pf.intBits - 1) - 1

/-- Smallest value of `int`. -/
def Platform.intMin (pf : Platform) : Int := -(2 ^ (pf.intBits - 1))

/-- The difference `current - last` of two `unsigned long` values. -/
def elapsedMillis (current last : Nat) : Nat :=
  (current + (4294967296 - last % 4294967296)) % 4294967296

/-- Nearest natural number to `n / d`, ties to the even one (`0 < d`). -/
def divRoundEven (n d : Nat) : Nat :=
  if 2 * (n % d) < d then n / d
  else if d < 2 * (n % d) then n / d + 1
  else if (n / d) % 2 = 0 then n / d else n / d + 1

/-- Number of binary digits, with the recursion depth bounded by `fuel`. -/
def bitLenAux : Nat → Nat → Nat
  | 0, _ => 0
  | fuel + 1, n => if n = 0 then 0 else bitLenAux fuel (n / 2) + 1

/-- Number of binary digits of `n`. -/
def bitLen (n : Nat) : Nat := bitLenAux n n

/-- Exponent `e` of the unit in the last place when the positive rational
`n / d` is written with `prec` significant bits:
`2 ^ (prec - 1) ≤ (n / d) / 2 ^ e < 2 ^ prec`. -/
def ulpExponent (prec n d : Nat) : Int :=
  let l : Int := (bitLen n : Int) - (bitLen d : Int)
  (if d * 2 ^ l.toNat ≤ n * 2 ^ (-l).toNat then l else l - 1) - ((prec : Int) - 1)

/-- Magnitude `n / d` rounded to `prec` significant bits: the significand. -/
def roundSignificand (prec n d : Nat) : Nat :=
  divRoundEven (n * 2 ^ (-(ulpExponent prec n d)).toNat) (d * 2 ^ (ulpExponent prec n d).toNat)

/-- Rounding of a rational number to the nearest binary floating-point number
with `prec` significant bits, ties to even. -/
def roundFloat (prec : Nat) (q : ℚ) : ℚ :=
  if q.num = 0 then 0
  else if q.num < 0 then
    -(mkRat (roundSignificand prec q.num.natAbs q.den)
        (2 ^ (-(ulpExponent prec q.num.natAbs q.den)).toNat)
      * ((2 ^ (ulpExponent prec q.num.natAbs q.den).toNat : Nat) : ℚ))
  else
    mkRat (roundSignificand prec q.num.natAbs q.den)
        (2 ^ (-(ulpExponent prec q.num.natAbs q.den)).toNat)
      * ((2 ^ (ulpExponent prec q.num.natAbs q.den).toNat : Nat) : ℚ)

/-- Result of a `float` operation whose exact value is `q`. -/
def Platform.toFloat (pf : Platform) (q : ℚ) : ℚ := roundFloat pf.floatPrec q

/-- Result of a `double` operation whose exact value is `q`. -/
def Platform.toDouble (pf : Platform) (q : ℚ) : ℚ := roundFloat pf.doublePrec q

/-- Floating-point division in `double`; no result for a zero divisor. -/
def Platform.divDouble (pf : Platform) (a b : ℚ) : Option ℚ :=
  if b = 0 then none else some (pf.toDouble (a / b))

/-- Floating-point division in `float`; no result for a zero divisor. -/
def Platform.divFloat (pf : Platform) (a b : ℚ) : Option ℚ :=
  if b = 0 then none else some (pf.toFloat (a / b))

/-- The function `trunc`: rounding toward zero to an integer. -/
def truncQ (q : ℚ) : Int := if 0 ≤ q then Rat.floor q else -Rat.floor (-q)

/-- Conversion `uint8_t(x)` of a floating-point value; no result when the
truncated value is not in `0..255`. -/
def floatToUint8 (q : ℚ) : Option Nat :=
  if 0 ≤ truncQ q ∧ truncQ q < 256 then some (truncQ q).toNat else none

/-! ## Constants -/

/-- Macro `POTI_VALUE_UNDEFINED`. -/
def POTI_VALUE_UNDEFINED : Int := 0x7FFF

/-- Macro `POTI_MAPPING_UNDEFINED`. -/
def POTI_MAPPING_UNDEFINED : Nat := 0xFF

/-- One call of `hasChanged()`: what the collaborators deliver in it. -/
structure Poll where
  current : Nat
  raw : Int
deriving DecidableEq, Repr

/-! ## Class `Poti` -/

/-- Member variables of class `Poti`. -/
structure Poti where
  _inputPin : Nat
  _readCycleMillis : Nat
  _lastReadMillis : Nat
  _curValue : Int
  _prevValue : Int

/-- Constructor `Poti::Poti(inputPin, readCycleMillis)`. -/
def Poti.new (inputPin readCycleMillis : Nat) : Poti :=
  { _inputPin := inputPin
    _readCycleMillis := readCycleMillis
    _lastReadMillis := 0
    _curValue := POTI_VALUE_UNDEFINED
    _prevValue := POTI_VALUE_UNDEFINED }

/-- Member `Poti::getValue`. -/
def Poti.getValue (p : Poti) : Int := p._curValue

/-- Member `Poti::getPrevValue`. -/
def Poti.getPrevValue (p : Poti) : Int := p._prevValue

/-- The cycle gate of `Poti::hasChanged` (and of `getStabilizedRawValue`
outside an averaging sequence): true when the call returns before
`getRawValue()` is reached. -/
def Poti.gatedOut (p : Poti) (current : Nat) : Bool :=
  decide (p._readCycleMillis > 0) && decide (p._lastReadMillis > 0)
    && decide (elapsedMillis current p._lastReadMillis < p._readCycleMillis)

/-- Member `Poti::hasChanged`: return value and object afterwards. -/
def Poti.hasChanged (p : Poti) (current : Nat) (raw : Int) : Bool × Poti :=
  if p.gatedOut current then (false, p)
  else if raw ≠ p._curValue then
    (true, { p with _lastReadMillis := current, _prevValue := p._curValue, _curValue := raw })
  else (false, { p with _lastReadMillis := current })

/-- Member `Poti::reset`. -/
def Poti.reset (p : Poti) : Poti :=
  { p with _curValue := POTI_VALUE_UNDEFINED
           _prevValue := POTI_VALUE_UNDEFINED
           _lastReadMillis := 0 }

/-- Object after a sequence of `hasChanged()` calls. -/
def Poti.run (p : Poti) : List Poll → Poti
  | [] => p
  | q :: qs => Poti.run (p.hasChanged q.current q.raw).2 qs

/-- Return values of a sequence of `hasChanged()` calls. -/
def Poti.results (p : Poti) : List Poll → List Bool
  | [] => []
  | q :: qs => (p.hasChanged q.current q.raw).1 :: Poti.results (p.hasChanged q.current q.raw).2 qs

/-- Clock values of those calls of a sequence in which `getRawValue()` is called. -/
def Poti.readTimes (p : Poti) : List Poll → List Nat
  | [] => []
  | q :: qs =>
    if p.gatedOut q.current then Poti.readTimes (p.hasChanged q.current q.raw).2 qs
    else q.current :: Poti.readTimes (p.hasChanged q.current q.raw).2 qs

/-! ## Class `StablePoti` -/

/-- Member variables of class `StablePoti`. -/
structure StablePoti extends Poti where
  _addNumRawAvg : Nat
  _openNumRawAvg : Nat
  _internalRawAvg : Int
  _weightPrev : Nat
  _prevValueInternal : Int

/-- Constructor `StablePoti::StablePoti(inputPin, readCycleMillis, weightPrev, addNumRawAvg)`. -/
def StablePoti.new (inputPin readCycleMillis weightPrev addNumRawAvg : Nat) : StablePoti :=
  { toPoti := Poti.new inputPin readCycleMillis
    _prevValueInternal := POTI_VALUE_UNDEFINED
    _weightPrev := if weightPrev > 12 then 12 else weightPrev
    _addNumRawAvg := if addNumRawAvg > 7 then 7 else addNumRawAvg
    _openNumRawAvg := 0
    _internalRawAvg := POTI_VALUE_UNDEFINED }

/-- The gate at the head of `StablePoti::getStabilizedRawValue`: true when the
call returns `POTI_VALUE_UNDEFINED` before `getRawValue()` is reached. -/
def StablePoti.gatedOut (p : StablePoti) (current : Nat) : Bool :=
  if p._openNumRawAvg = 0 then p.toPoti.gatedOut current
  else decide (elapsedMillis current p._lastReadMillis < 1)

/-- The weighting step that ends `StablePoti::getStabilizedRawValue`
(from the comment "summerize previous raw value and the new raw value by
weighting" to the `return`): `rawValue` is the measured or averaged value. -/
def StablePoti.weighting (pf : Platform) (p : StablePoti) (rawValue : Int) : Int × StablePoti :=
  if p._weightPrev > 0 ∧ p._prevValueInternal ≠ POTI_VALUE_UNDEFINED then
    (Int.tdiv (pf.wrap (rawValue * 4 + p._prevValueInternal * p._weightPrev
        + Int.tdiv (pf.wrap (p._weightPrev + 4)) 2)) (pf.wrap (p._weightPrev + 4)),
     { p with _prevValueInternal :=
        Int.tdiv (pf.wrap (rawValue * 4 + p._prevValueInternal * p._weightPrev
          + Int.tdiv (pf.wrap (p._weightPrev + 4)) 2)) (pf.wrap (p._weightPrev + 4)) })
  else (rawValue, { p with _prevValueInternal := rawValue })

/-- The body of `StablePoti::getStabilizedRawValue` after the gate, from
`_lastReadMillis = current` on. -/
def StablePoti.stabilize (pf : Platform) (p : StablePoti) (current : Nat) (raw : Int) :
    Int × StablePoti :=
  if p._addNumRawAvg > 0 then
    if p._internalRawAvg = POTI_VALUE_UNDEFINED then
      StablePoti.weighting pf { p with _lastReadMillis := current, _internalRawAvg := raw } raw
    else if p._openNumRawAvg = 0 then
      (POTI_VALUE_UNDEFINED,
        { p with _lastReadMillis := current
                 _openNumRawAvg := p._addNumRawAvg
                 _internalRawAvg := raw })
    else if (p._openNumRawAvg + 255) % 256 > 0 then
      (POTI_VALUE_UNDEFINED,
        { p with _lastReadMillis := current
                 _internalRawAvg := pf.wrap (p._internalRawAvg + raw)
                 _openNumRawAvg := (p._openNumRawAvg + 255) % 256 })
    else
      StablePoti.weighting pf
        { p with _lastReadMillis := current
                 _internalRawAvg := pf.wrap (p._internalRawAvg + raw)
                 _openNumRawAvg := (p._openNumRawAvg + 255) % 256 }
        (Int.tdiv (pf.wrap (pf.wrap (p._internalRawAvg + raw) * 2 + pf.wrap (p._addNumRawAvg + 1)))
          (pf.wrap (pf.wrap (p._addNumRawAvg + 1) * 2)))
  else
    StablePoti.weighting pf { p with _lastReadMillis := current } raw

/-- Member `StablePoti::getStabilizedRawValue`: return value and object afterwards. -/
def StablePoti.getStabilizedRawValue (pf : Platform) (p : StablePoti) (current : Nat) (raw : Int) :
    Int × StablePoti :=
  if p.gatedOut current then (POTI_VALUE_UNDEFINED, p)
  else StablePoti.stabilize pf p current raw

/-- Member `StablePoti::hasChanged`: return value and object afterwards. -/
def StablePoti.hasChanged (pf : Platform) (p : StablePoti) (current : Nat) (raw : Int) :
    Bool × StablePoti :=
  if (p.getStabilizedRawValue pf current raw).1 = POTI_VALUE_UNDEFINED then
    (false, (p.getStabilizedRawValue pf current raw).2)
  else if (p.getStabilizedRawValue pf current raw).1 ≠ (p.getStabilizedRawValue pf current raw).2._curValue then
    (true,
      { (p.getStabilizedRawValue pf current raw).2 with
        _prevValue := (p.getStabilizedRawValue pf current raw).2._curValue
        _curValue := (p.getStabilizedRawValue pf current raw).1 })
  else (false, (p.getStabilizedRawValue pf current raw).2)

/-- Member `StablePoti::reset`. -/
def StablePoti.reset (p : StablePoti) : StablePoti :=
  { p with toPoti := p.toPoti.reset
           _prevValueInternal := POTI_VALUE_UNDEFINED
           _internalRawAvg := POTI_VALUE_UNDEFINED
           _openNumRawAvg := 0 }

/-- Return values of `getStabilizedRawValue` over a sequence of calls. -/
def StablePoti.stabilized (pf : Platform) (p : StablePoti) : List Poll → List Int
  | [] => []
  | q :: qs =>
    (p.getStabilizedRawValue pf q.current q.raw).1
      :: StablePoti.stabilized pf (p.getStabilizedRawValue pf q.current q.raw).2 qs

/-- Object after a sequence of `getStabilizedRawValue` calls. -/
def StablePoti.runStabilized (pf : Platform) (p : StablePoti) : List Poll → StablePoti
  | [] => p
  | q :: qs => StablePoti.runStabilized pf (p.getStabilizedRawValue pf q.current q.raw).2 qs

/-- Object after a sequence of `hasChanged()` calls. -/
def StablePoti.run (pf : Platform) (p : StablePoti) : List Poll → StablePoti
  | [] => p
  | q :: qs => StablePoti.run pf (p.hasChanged pf q.current q.raw).2 qs

/-- Return values of a sequence of `hasChanged()` calls. -/
def StablePoti.results (pf : Platform) (p : StablePoti) : List Poll → List Bool
  | [] => []
  | q :: qs =>
    (p.hasChanged pf q.current q.raw).1 :: StablePoti.results pf (p.hasChanged pf q.current q.raw).2 qs

/-! ## Class `MappedPoti` -/

/-- Member variables of class `MappedPoti`. -/
structure MappedPoti extends StablePoti where
  _curMapValue : Nat
  _prevMapValue : Nat
  _numMapping : Nat
  _stretch : Nat
  _maxAnalogVal : Int

/-- Constructor `MappedPoti::MappedPoti(inputPin, readCycleMillis, weightPrev,
addNumRawAvg, numMapping, stretch)`. -/
def MappedPoti.new (inputPin readCycleMillis weightPrev addNumRawAvg numMapping stretch : Nat) :
    MappedPoti :=
  { toStablePoti := StablePoti.new inputPin readCycleMillis weightPrev addNumRawAvg
    _curMapValue := POTI_MAPPING_UNDEFINED
    _prevMapValue := POTI_MAPPING_UNDEFINED
    _numMapping :=
      if (if numMapping > 100 then 100 else numMapping) < 2 then 2
      else (if numMapping > 100 then 100 else numMapping)
    _stretch := if stretch > 20 then 20 else stretch
    _maxAnalogVal := 1023 }

/-- Member `MappedPoti::getNumMappingValues`. -/
def MappedPoti.getNumMappingValues (p : MappedPoti) : Nat := p._numMapping

/-- Member `MappedPoti::getMaxAnalogValue`. -/
def MappedPoti.getMaxAnalogValue (p : MappedPoti) : Int := p._maxAnalogVal

/-- Member `MappedPoti::setMaxAnalogValue`: return value and object afterwards. -/
def MappedPoti.setMaxAnalogValue (pf : Platform) (p : MappedPoti) (maxAnalogVal : Int) :
    Int × MappedPoti :=
  if maxAnalogVal % 2 = 0 then
    (pf.wrap (maxAnalogVal - 1), { p with _maxAnalogVal := pf.wrap (maxAnalogVal - 1) })
  else (maxAnalogVal, { p with _maxAnalogVal := maxAnalogVal })

/-- The sub-expression
`trunc(x / (stdDiv / scale * ((scale - 1.0 / scale) * x / valTot + 1.0 / scale)))`
of `MappedPoti::getMapping`, where `x` is the `int` value `rawValue` (left side)
or `_maxAnalogVal - rawValue` (right side).  `stdDiv`, `scale` and `valTot` are
`float`; the literal `1.0` makes the parenthesised factor, the product, the
quotient and the result of `trunc` a `double`. -/
def MappedPoti.bucket (pf : Platform) (stdDiv scale valTot : ℚ) (x : Int) : Option Int := do
  let a ← pf.divFloat stdDiv scale
  let inv ← pf.divDouble 1 scale
  let c ← pf.divDouble (pf.toDouble (pf.toDouble (scale - inv) * pf.toDouble x)) valTot
  let g ← pf.divDouble (pf.toDouble x) (pf.toDouble (a * pf.toDouble (c + inv)))
  pure (truncQ g)

/-- Whether `getMapping` derives an implicit center: no center given
(`centerValLow > 0` is false) and an uneven number of mapping values. -/
def MappedPoti.implicitCenter (p : MappedPoti) (centerValLow : Int) : Bool :=
  !decide (centerValLow > 0) && decide (p._numMapping % 2 > 0)

/-- Local variable `centered` of `getMapping` after the derivation of an implicit center. -/
def MappedPoti.centered (p : MappedPoti) (centerValLow : Int) : Bool :=
  decide (centerValLow > 0) || p.implicitCenter centerValLow

/-- Local variable `i` of `getMapping`: `((_maxAnalogVal + 1) / _numMapping)>>1`. -/
def MappedPoti.halfWidth (pf : Platform) (p : MappedPoti) : Int :=
  (Int.tdiv (pf.wrap (p._maxAnalogVal + 1)) p._numMapping) >>> 1

/-- Variable `centerValLow` of `getMapping` after the derivation of an implicit center. -/
def MappedPoti.centerValLow (pf : Platform) (p : MappedPoti) (centerValLow : Int) : Int :=
  if p.implicitCenter centerValLow then pf.wrap ((p._maxAnalogVal >>> 1) - p.halfWidth pf)
  else centerValLow

/-- Variable `centerValHigh` of `getMapping` after the derivation of an implicit center. -/
def MappedPoti.centerValHigh (pf : Platform) (p : MappedPoti) (centerValLow centerValHigh : Int) :
    Int :=
  if p.implicitCenter centerValLow then pf.wrap ((p._maxAnalogVal >>> 1) + p.halfWidth pf)
  else centerValHigh

/-- The condition of the early return of `getMapping`: the raw value lies in the center. -/
def MappedPoti.inCenter (pf : Platform) (p : MappedPoti)
    (rawValue centerValLow centerValHigh : Int) : Bool :=
  p.centered centerValLow && decide (rawValue ≥ p.centerValLow pf centerValLow)
    && decide (rawValue ≤ p.centerValHigh pf centerValLow centerValHigh)

/-- Local variable `leftSide` of `getMapping`. -/
def MappedPoti.leftSide (pf : Platform) (p : MappedPoti) (rawValue centerValLow : Int) : Bool :=
  (p.centered centerValLow && decide (rawValue < p.centerValLow pf centerValLow))
    || (!p.centered centerValLow && decide (rawValue < (pf.wrap (p._maxAnalogVal + 1)) >>> 1))

/-- Local variable `valTot` of `getMapping`: an `int` converted to `float`. -/
def MappedPoti.valTot (pf : Platform) (p : MappedPoti)
    (rawValue centerValLow centerValHigh : Int) : ℚ :=
  if p.leftSide pf rawValue centerValLow then
    pf.toFloat (((if !p.centered centerValLow then (pf.wrap (p._maxAnalogVal + 1)) >>> 1
      else p.centerValLow pf centerValLow : Int) : ℚ))
  else
    pf.toFloat (((if !p.centered centerValLow then (pf.wrap (p._maxAnalogVal + 1)) >>> 1
      else pf.wrap (p._maxAnalogVal - p.centerValHigh pf centerValLow centerValHigh) : Int) : ℚ))

/-- Local variable `mapTot` of `getMapping`: an `int` converted to `float`
(the same expression on both sides). -/
def MappedPoti.mapTot (pf : Platform) (p : MappedPoti) (centerValLow : Int) : ℚ :=
  pf.toFloat (((if !p.centered centerValLow then ((p._numMapping >>> 1 : Nat) : Int)
    else (pf.wrap ((p._numMapping : Int) - 1)) >>> 1 : Int) : ℚ))

/-- Local variable `scale` of `getMapping`: `1.0 + _stretch / 10.0`, computed
in `double` and stored in a `float`. -/
def MappedPoti.scale (pf : Platform) (p : MappedPoti) : ℚ :=
  pf.toFloat (pf.toDouble (1 + pf.toDouble ((p._stretch : ℚ) / 10)))

/-- Local variable `tmpFloat` of `getMapping` outside the center, with
`stdDiv = valTot / mapTot`; `none` where a division by zero occurs. -/
def MappedPoti.tmpFloat (pf : Platform) (p : MappedPoti)
    (rawValue centerValLow centerValHigh : Int) : Option ℚ :=
  (pf.divFloat (p.valTot pf rawValue centerValLow centerValHigh) (p.mapTot pf centerValLow)).bind
    fun stdDiv =>
      if p.leftSide pf rawValue centerValLow then
        (MappedPoti.bucket pf stdDiv (p.scale pf)
            (p.valTot pf rawValue centerValLow centerValHigh) rawValue).map
          fun (t : Int) => pf.toFloat (t : ℚ)
      else
        (MappedPoti.bucket pf stdDiv (p.scale pf)
            (p.valTot pf rawValue centerValLow centerValHigh)
            (pf.wrap (p._maxAnalogVal - rawValue))).map
          fun (t : Int) =>
            pf.toFloat (pf.toDouble
              (pf.toDouble ((pf.wrap ((p._numMapping : Int) - 1) : Int) : ℚ) - (t : ℚ)))

/-- The "potential correction of calculation errors" at the end of `getMapping`. -/
def MappedPoti.correction (p : MappedPoti) (mapValue : Nat) : Nat :=
  if mapValue > p._numMapping then 0
  else if mapValue = p._numMapping then (p._numMapping + 255) % 256
  else mapValue

/-- Member `MappedPoti::getMapping(rawValue, centerValLow, centerValHigh)`;
`none` where the floating-point computation has no defined result. -/
def MappedPoti.getMapping (pf : Platform) (p : MappedPoti)
    (rawValue centerValLow centerValHigh : Int) : Option Nat :=
  if p.inCenter pf rawValue centerValLow centerValHigh then some (p._numMapping >>> 1)
  else
    (p.tmpFloat pf rawValue centerValLow centerValHigh).bind fun tmpFloat =>
      (floatToUint8 tmpFloat).map p.correction

/-- Member `MappedPoti::hasChanged`: return value and object afterwards;
`none` where `getMapping` has no defined result. -/
def MappedPoti.hasChanged (pf : Platform) (p : MappedPoti) (current : Nat) (raw : Int) :
    Option (Bool × MappedPoti) :=
  if (p.toStablePoti.getStabilizedRawValue pf current raw).1 = POTI_VALUE_UNDEFINED then
    some (false, { p with toStablePoti := (p.toStablePoti.getStabilizedRawValue pf current raw).2 })
  else if (p.toStablePoti.getStabilizedRawValue pf current raw).1 = p._prevValueInternal then
    some (false, { p with toStablePoti := (p.toStablePoti.getStabilizedRawValue pf current raw).2 })
  else
    (MappedPoti.getMapping pf p (p.toStablePoti.getStabilizedRawValue pf current raw).1 0 0).map
      fun mapValue =>
        if mapValue ≠ p._curMapValue then
          (true,
            { p with
              toStablePoti :=
                { (p.toStablePoti.getStabilizedRawValue pf current raw).2 with
                  _prevValue := p._curValue
                  _curValue := (p.toStablePoti.getStabilizedRawValue pf current raw).1 }
              _prevMapValue := p._curMapValue
              _curMapValue := mapValue })
        else
          (false, { p with toStablePoti := (p.toStablePoti.getStabilizedRawValue pf current raw).2 })

/-- Member `MappedPoti::getMappedValue`. -/
def MappedPoti.getMappedValue (p : MappedPoti) : Nat := p._curMapValue

/-- Member `MappedPoti::getMappedPrevValue`. -/
def MappedPoti.getMappedPrevValue (p : MappedPoti) : Nat := p._prevMapValue

/-- Member `MappedPoti::reset`. -/
def MappedPoti.reset (p : MappedPoti) : MappedPoti :=
  { p with toStablePoti := p.toStablePoti.reset
           _curMapValue := POTI_MAPPING_UNDEFINED
           _prevMapValue := POTI_MAPPING_UNDEFINED }

/-! ## Class `CenteredPoti` -/

/-- Member variables of class `CenteredPoti`. -/
structure CenteredPoti extends MappedPoti where
  _centerValLow : Int
  _centerValHigh : Int

/-- The level count the constructor of `CenteredPoti` stores for the argument `numMapping`. -/
def CenteredPoti.levelCount (numMapping : Nat) : Nat :=
  if (if (if numMapping < 3 then 3 else numMapping) > 101 then 101
      else (if numMapping < 3 then 3 else numMapping)) % 2 = 0 then
    ((if (if numMapping < 3 then 3 else numMapping) > 101 then 101
      else (if numMapping < 3 then 3 else numMapping)) + 1) % 256
  else
    (if (if numMapping < 3 then 3 else numMapping) > 101 then 101
      else (if numMapping < 3 then 3 else numMapping))

/-- Constructor `CenteredPoti::CenteredPoti(inputPin, readCycleMillis, weightPrev,
addNumRawAvg, numMapping, stretch, centerTol, centerVal)`. -/
def CenteredPoti.new (pf : Platform)
    (inputPin readCycleMillis weightPrev addNumRawAvg numMapping stretch centerTol : Nat)
    (centerVal : Int) : CenteredPoti :=
  { toMappedPoti :=
      { MappedPoti.new inputPin readCycleMillis weightPrev addNumRawAvg numMapping stretch with
        _numMapping := CenteredPoti.levelCount numMapping }
    _centerValLow :=
      if centerVal = 0 then
        pf.wrap (((MappedPoti.new inputPin readCycleMillis weightPrev addNumRawAvg numMapping
          stretch)._maxAnalogVal >>> 1) - ((if centerTol < 10 then 10 else centerTol : Nat) : Int))
      else pf.wrap (centerVal - ((if centerTol < 10 then 10 else centerTol : Nat) : Int))
    _centerValHigh :=
      if centerVal = 0 then
        pf.wrap (((MappedPoti.new inputPin readCycleMillis weightPrev addNumRawAvg numMapping
          stretch)._maxAnalogVal >>> 1) + ((if centerTol < 10 then 10 else centerTol : Nat) : Int))
      else pf.wrap (centerVal + ((if centerTol < 10 then 10 else centerTol : Nat) : Int)) }

/-- Member `CenteredPoti::hasChanged`: return value and object afterwards;
`none` where `getMapping` has no defined result. -/
def CenteredPoti.hasChanged (pf : Platform) (p : CenteredPoti) (current : Nat) (raw : Int) :
    Option (Bool × CenteredPoti) :=
  if (p.toStablePoti.getStabilizedRawValue pf current raw).1 = POTI_VALUE_UNDEFINED then
    some (false, { p with toStablePoti := (p.toStablePoti.getStabilizedRawValue pf current raw).2 })
  else if (p.toStablePoti.getStabilizedRawValue pf current raw).1 = p._prevValueInternal then
    some (false, { p with toStablePoti := (p.toStablePoti.getStabilizedRawValue pf current raw).2 })
  else
    (MappedPoti.getMapping pf p.toMappedPoti (p.toStablePoti.getStabilizedRawValue pf current raw).1
        p._centerValLow p._centerValHigh).map
      fun mapValue =>
        if mapValue ≠ p._curMapValue then
          (true,
            { p with
              toStablePoti :=
                { (p.toStablePoti.getStabilizedRawValue pf current raw).2 with
                  _prevValue := p._curValue
                  _curValue := (p.toStablePoti.getStabilizedRawValue pf current raw).1 }
              _prevMapValue := p._curMapValue
              _curMapValue := mapValue })
        else
          (false, { p with toStablePoti := (p.toStablePoti.getStabilizedRawValue pf current raw).2 })

/-- Member `CenteredPoti::getCenteredValue`. -/
def CenteredPoti.getCenteredValue (pf : Platform) (p : CenteredPoti) : Int :=
  if p._curValue = POTI_VALUE_UNDEFINED then POTI_VALUE_UNDEFINED
  else if p._curValue < p._centerValLow then pf.wrap (p._curValue - p._centerValLow)
  else if p._curValue > p._centerValHigh then pf.wrap (p._curValue - p._centerValHigh)
  else 0

/-- Member `CenteredPoti::getCenteredMappedValue`. -/
def CenteredPoti.getCenteredMappedValue (p : CenteredPoti) : Int :=
  if p._curMapValue = POTI_MAPPING_UNDEFINED then POTI_MAPPING_UNDEFINED
  else (p._curMapValue : Int) - ((p._numMapping >>> 1 : Nat) : Int)

/-- Member `CenteredPoti::getCenteredPrevValue`. -/
def CenteredPoti.getCenteredPrevValue (pf : Platform) (p : CenteredPoti) : Int :=
  if p._prevValue = POTI_VALUE_UNDEFINED then POTI_VALUE_UNDEFINED
  else if p._prevValue < p._centerValLow then pf.wrap (p._prevValue - p._centerValLow)
  else if p._prevValue > p._centerValHigh then pf.wrap (p._prevValue - p._centerValHigh)
  else 0

/-- Member `CenteredPoti::getCenteredMappedPrevValue`. -/
def CenteredPoti.getCenteredMappedPrevValue (p : CenteredPoti) : Int :=
  if p._prevMapValue = POTI_MAPPING_UNDEFINED then POTI_MAPPING_UNDEFINED
  else (p._prevMapValue : Int) - ((p._numMapping >>> 1 : Nat) : Int)

/-- The inherited member `reset` (`MappedPoti::reset`) on a `CenteredPoti`. -/
def CenteredPoti.reset (p : CenteredPoti) : CenteredPoti :=
  { p with toMappedPoti := p.toMappedPoti.reset }

/-! ## Traces of `StablePoti` -/

/-- Whether every call of a sequence of `getStabilizedRawValue` calls passes
the gate, so that a sample is read in it. -/
def StablePoti.allAccepted (pf : Platform) (p : StablePoti) : List Poll → Bool
  | [] => true
  | q :: qs =>
    !p.gatedOut q.current
      && StablePoti.allAccepted pf (p.getStabilizedRawValue pf q.current q.raw).2 qs

/-- One entry per `hasChanged()` call of a sequence: whether the call passed
the gate (read a sample), what `getStabilizedRawValue` returned in it, and what
`hasChanged()` returned. -/
def StablePoti.trace (pf : Platform) (p : StablePoti) : List Poll → List (Bool × Int × Bool)
  | [] => []
  | q :: qs =>
    (!p.gatedOut q.current, (p.getStabilizedRawValue pf q.current q.raw).1,
        (p.hasChanged pf q.current q.raw).1)
      :: StablePoti.trace pf (p.hasChanged pf q.current q.raw).2 qs

/-- Which accepted samples produce a stabilized value, in the words of the
averaging rule as the code implements it: `c` counts the samples accepted since
construction or reset; a call produces a value when it is accepted and `c` is a
multiple of `k + 1`, that is, for the first accepted sample and then for every
accepted sample that completes a group of `k + 1`.  The list holds, per call,
whether it was accepted. -/
def producesValue (k : Nat) : Nat → List Bool → List Bool
  | _, [] => []
  | c, a :: as => (a && decide (c % (k + 1) = 0)) :: producesValue k (if a then c + 1 else c) as

/-- Position of the next accepted sample in the averaging cycle of length
`_addNumRawAvg + 1`, read off the object: 0 when the next accepted sample
produces a value. -/
def StablePoti.position (s : StablePoti) : Nat :=
  if s._internalRawAvg = POTI_VALUE_UNDEFINED then 0
  else if s._openNumRawAvg = 0 then 1
  else if s._openNumRawAvg = 1 then 0
  else s._addNumRawAvg + 2 - s._openNumRawAvg

/-- Invariant of the averaging and weighting state for samples in `0..M`. -/
def StablePoti.Inv (M : Int) (k : Nat) (s : StablePoti) : Prop :=
  s._addNumRawAvg = k ∧ s._weightPrev ≤ 12 ∧ s._openNumRawAvg ≤ k
    ∧ (s._prevValueInternal = POTI_VALUE_UNDEFINED
        ∨ (0 ≤ s._prevValueInternal ∧ s._prevValueInternal ≤ M))
    ∧ ((s._internalRawAvg = POTI_VALUE_UNDEFINED ∧ s._openNumRawAvg = 0)
        ∨ (0 ≤ s._internalRawAvg
            ∧ s._internalRawAvg ≤ M * ((k : Int) + 1 - (s._openNumRawAvg : Int))))

/-! ## Runs of `MappedPoti` and `CenteredPoti` -/

/-- Return values of a sequence of `MappedPoti::hasChanged` calls and the
object after it; `none` when one of the calls has no defined result. -/
def MappedPoti.run (pf : Platform) (p : MappedPoti) : List Poll → Option (List Bool × MappedPoti)
  | [] => some ([], p)
  | q :: qs =>
    (p.hasChanged pf q.current q.raw).bind fun r =>
      (MappedPoti.run pf r.2 qs).map fun t => (r.1 :: t.1, t.2)

/-- Return values of a sequence of `CenteredPoti::hasChanged` calls and the
object after it; `none` when one of the calls has no defined result. -/
def CenteredPoti.run (pf : Platform) (p : CenteredPoti) :
    List Poll → Option (List Bool × CenteredPoti)
  | [] => some ([], p)
  | q :: qs =>
    (p.hasChanged pf q.current q.raw).bind fun r =>
      (CenteredPoti.run pf r.2 qs).map fun t => (r.1 :: t.1, t.2)

/-! ## Constructed and reset objects -/

/-- State of a `Poti` after construction or `reset()`: nothing read yet. -/
def Poti.Fresh (p : Poti) : Prop :=
  p._lastReadMillis = 0 ∧ p._curValue = POTI_VALUE_UNDEFINED ∧ p._prevValue = POTI_VALUE_UNDEFINED

/-- State of a `StablePoti` after construction or `reset()`. -/
def StablePoti.Fresh (p : StablePoti) : Prop :=
  p.toPoti.Fresh ∧ p._prevValueInternal = POTI_VALUE_UNDEFINED
    ∧ p._internalRawAvg = POTI_VALUE_UNDEFINED ∧ p._openNumRawAvg = 0

/-- State of a `MappedPoti` after construction or `reset()`. -/
def MappedPoti.Fresh (p : MappedPoti) : Prop :=
  p.toStablePoti.Fresh ∧ p._curMapValue = POTI_MAPPING_UNDEFINED
    ∧ p._prevMapValue = POTI_MAPPING_UNDEFINED

/-- State of a `CenteredPoti` after construction or `reset()`. -/
def CenteredPoti.Fresh (p : CenteredPoti) : Prop := p.toMappedPoti.Fresh

/-! ## Configuration of an object -/

/-- The member variables of a `Poti` that only the constructor sets. -/
def Poti.config (p : Poti) : Nat × Nat := (p._inputPin, p._readCycleMillis)

/-- The member variables of a `StablePoti` that `hasChanged()` and `reset()` never assign. -/
def StablePoti.config (p : StablePoti) : (Nat × Nat) × Nat × Nat :=
  (p.toPoti.config, p._weightPrev, p._addNumRawAvg)

/-- The member variables of a `MappedPoti` that `hasChanged()` and `reset()` never assign. -/
def MappedPoti.config (p : MappedPoti) : ((Nat × Nat) × Nat × Nat) × Nat × Nat × Int :=
  (p.toStablePoti.config, p._numMapping, p._stretch, p._maxAnalogVal)

/-- The member variables of a `CenteredPoti` that `hasChanged()` and `reset()` never assign. -/
def CenteredPoti.config (p : CenteredPoti) :
    (((Nat × Nat) × Nat × Nat) × Nat × Nat × Int) × Int × Int :=
  (p.toMappedPoti.config, p._centerValLow, p._centerValHigh)

/-! ## The quotient of `getMapping` -/

/-- The divisor `stdDiv / scale * ((scale - 1.0 / scale) * x / valTot + 1.0 / scale)`
of `getMapping` as it is computed (`float` quotient, the rest in `double`). -/
def MappedPoti.divisor (pf : Platform) (stdDiv scale valTot : ℚ) (x : Int) : ℚ :=
  pf.toDouble (pf.toFloat (stdDiv / scale)
    * pf.toDouble (pf.toDouble (pf.toDouble (pf.toDouble (scale - pf.toDouble (1 / scale))
        * pf.toDouble x) / valTot) + pf.toDouble (1 / scale)))

/-- The quotient `x / divisor` of `getMapping` as it is computed, before `trunc`. -/
def MappedPoti.quotient (pf : Platform) (stdDiv scale valTot : ℚ) (x : Int) : ℚ :=
  pf.toDouble (pf.toDouble x / MappedPoti.divisor pf stdDiv scale valTot x)

/-! ## Sweeps of `MappedPoti` -/

/-- What a sweep test of `doMappedPotiTest` sees of one pass of its loop: the
raw value set before `hasChanged()`, the variable `j` of the test before the
call (`getValue()` after the last call that returned true, 0 before the first),
the return value of the call and the four accessors after it. -/
structure SweepReport where
  raw : Int
  j : Int
  changed : Bool
  value : Int
  prevValue : Int
  mapped : Nat
  mappedPrev : Nat
deriving DecidableEq, Repr

/-- The loop of a sweep test of `doMappedPotiTest` with one `hasChanged()` per
raw value: `j` becomes `getValue()` after a call that returned true.  The
result holds the reports, the object and `j` after the loop; `none` when a
call has no defined result. -/
def MappedPoti.sweep (pf : Platform) (p : MappedPoti) (j : Int) :
    List Poll → Option (List SweepReport × MappedPoti × Int)
  | [] => some ([], p, j)
  | q :: qs =>
    (p.hasChanged pf q.current q.raw).bind fun r =>
      (MappedPoti.sweep pf r.2 (if r.1 then r.2.getValue else j) qs).map fun t =>
        (⟨q.raw, j, r.1, r.2.getValue, r.2.getPrevValue, r.2.getMappedValue,
            r.2.getMappedPrevValue⟩ :: t.1, t.2)

/-! ## Sequences of polls and resets -/

/-- A call on an object: `hasChanged()` with what the collaborators deliver in
it, or `reset()`. -/
inductive PotiCall where
  | poll (q : Poll)
  | reset
deriving DecidableEq, Repr

/-- Object after a sequence of `hasChanged()` and `reset()` calls on a
`MappedPoti`; `none` when one of the calls has no defined result. -/
def MappedPoti.exec (pf : Platform) : MappedPoti → List PotiCall → Option MappedPoti
  | p, [] => some p
  | p, PotiCall.poll q :: cs =>
    (p.hasChanged pf q.current q.raw).bind fun r => MappedPoti.exec pf r.2 cs
  | p, PotiCall.reset :: cs => MappedPoti.exec pf p.reset cs

/-- Object after a sequence of `hasChanged()` and `reset()` calls on a
`CenteredPoti`; `none` when one of the calls has no defined result. -/
def CenteredPoti.exec (pf : Platform) : CenteredPoti → List PotiCall → Option CenteredPoti
  | p, [] => some p
  | p, PotiCall.poll q :: cs =>
    (p.hasChanged pf q.current q.raw).bind fun r => CenteredPoti.exec pf r.2 cs
  | p, PotiCall.reset :: cs => CenteredPoti.exec pf p.reset cs

/-- A value and a level that belong together: both are undefined, or the level
is `getMapping` of the value with the given center arguments. -/
def MappedPoti.Paired (pf : Platform) (p : MappedPoti) (centerValLow centerValHigh : Int)
    (value : Int) (level : Nat) : Prop :=
  (value = POTI_VALUE_UNDEFINED ∧ level = POTI_MAPPING_UNDEFINED)
    ∨ MappedPoti.getMapping pf p value centerValLow centerValHigh = some level

/-- Object after a sequence of `hasChanged()` and `reset()` calls on a `Poti`. -/
def Poti.exec : Poti → List PotiCall → Poti
  | p, [] => p
  | p, PotiCall.poll q :: cs => Poti.exec (p.hasChanged q.current q.raw).2 cs
  | p, PotiCall.reset :: cs => Poti.exec p.reset cs

/-- Object after a sequence of `hasChanged()` and `reset()` calls on a `StablePoti`. -/
def StablePoti.exec (pf : Platform) : StablePoti → List PotiCall → StablePoti
  | p, [] => p
  | p, PotiCall.poll q :: cs => StablePoti.exec pf (p.hasChanged pf q.current q.raw).2 cs
  | p, PotiCall.reset :: cs => StablePoti.exec pf p.reset cs

/-- State of a `StablePoti` whose samples so far all lie in `lo..hi`: it is
within `0..hi` (`Inv`), the smoothed previous value is undefined or at least
`lo`, and within an averaging sequence the running sum is at least `lo` times
the number of samples it holds. -/
def StablePoti.InRange (lo hi : Int) (k : Nat) (s : StablePoti) : Prop :=
  StablePoti.Inv hi k s
    ∧ (s._prevValueInternal = POTI_VALUE_UNDEFINED ∨ lo ≤ s._prevValueInternal)
    ∧ (1 ≤ s._openNumRawAvg →
        lo * ((k : Int) + 1 - (s._openNumRawAvg : Int)) ≤ s._internalRawAvg)

/-! ## Linear bucketing -/

/-- Distance of a raw value from the outer end of its side, as the description
of linear bucketing uses it: `r` on the left side, `maxAnalogVal - r` on the
right side. -/
def MappedPoti.sideDistance (pf : Platform) (p : MappedPoti) (rawValue centerValLow : Int) : Int :=
  if p.leftSide pf rawValue centerValLow then rawValue else p._maxAnalogVal - rawValue

/-- The exact ratio `distance * mapTot / valTot` of linear bucketing, with the
`valTot` and `mapTot` of the side of the raw value. -/
def MappedPoti.sideRatio (pf : Platform) (p : MappedPoti)
    (rawValue centerValLow centerValHigh : Int) : ℚ :=
  (p.sideDistance pf rawValue centerValLow : ℚ) * p.mapTot pf centerValLow
    / p.valTot pf rawValue centerValLow centerValHigh

/-- Linear bucket index `floor(distance * mapTot / valTot)`. -/
def MappedPoti.linearBucket (pf : Platform) (p : MappedPoti)
    (rawValue centerValLow centerValHigh : Int) : Int :=
  Rat.floor (p.sideRatio pf rawValue centerValLow centerValHigh)

/-- Level of linear bucketing as the description of the standard case words it:
`floor(r * mapTot / valTot)` on the left side and
`(numMapping - 1) - floor((maxAnalogVal - r) * mapTot / valTot)` on the right side. -/
def MappedPoti.linearLevel (pf : Platform) (p : MappedPoti)
    (rawValue centerValLow centerValHigh : Int) : Int :=
  if p.leftSide pf rawValue centerValLow then p.linearBucket pf rawValue centerValLow centerValHigh
  else (p._numMapping : Int) - 1 - p.linearBucket pf rawValue centerValLow centerValHigh

/-- The inherited member `setMaxAnalogValue` (`MappedPoti::setMaxAnalogValue`) on a
`CenteredPoti`: return value and object afterwards. -/
def CenteredPoti.setMaxAnalogValue (pf : Platform) (p : CenteredPoti) (maxAnalogVal : Int) :
    Int × CenteredPoti :=
  ((p.toMappedPoti.setMaxAnalogValue pf maxAnalogVal).1,
    { p with toMappedPoti := (p.toMappedPoti.setMaxAnalogValue pf maxAnalogVal).2 })

/-! ## Levels as bytes -/

/-- Member `MappedPoti::getMapping` as a function into `uint8_t`: its result is
the variable `mapValue` of type `uint8_t` after the correction.  Where the
floating-point computation or the conversion `uint8_t(tmpFloat)` has no defined
result, `mapValue` holds the byte `byte % 256` before the correction, whatever
byte that is. -/
def MappedPoti.getMappingByte (pf : Platform) (p : MappedPoti) (byte : Nat)
    (rawValue centerValLow centerValHigh : Int) : Nat :=
  if p.inCenter pf rawValue centerValLow centerValHigh then p._numMapping >>> 1
  else
    p.correction
      (((p.tmpFloat pf rawValue centerValLow centerValHigh).bind floatToUint8).getD (byte % 256))

/-- Member `MappedPoti::hasChanged` with `getMapping` as a function into
`uint8_t`: return value and object afterwards. -/
def MappedPoti.hasChangedByte (pf : Platform) (p : MappedPoti) (byte current : Nat) (raw : Int) :
    Bool × MappedPoti :=
  if (p.toStablePoti.getStabilizedRawValue pf current raw).1 = POTI_VALUE_UNDEFINED then
    (false, { p with toStablePoti := (p.toStablePoti.getStabilizedRawValue pf current raw).2 })
  else if (p.toStablePoti.getStabilizedRawValue pf current raw).1 = p._prevValueInternal then
    (false, { p with toStablePoti := (p.toStablePoti.getStabilizedRawValue pf current raw).2 })
  else if MappedPoti.getMappingByte pf p byte
      (p.toStablePoti.getStabilizedRawValue pf current raw).1 0 0 ≠ p._curMapValue then
    (true,
      { p with
        toStablePoti :=
          { (p.toStablePoti.getStabilizedRawValue pf current raw).2 with
            _prevValue := p._curValue
            _curValue := (p.toStablePoti.getStabilizedRawValue pf current raw).1 }
        _prevMapValue := p._curMapValue
        _curMapValue := MappedPoti.getMappingByte pf p byte
          (p.toStablePoti.getStabilizedRawValue pf current raw).1 0 0 })
  else
    (false, { p with toStablePoti := (p.toStablePoti.getStabilizedRawValue pf current raw).2 })

/-- Member `CenteredPoti::hasChanged` with `getMapping` as a function into
`uint8_t`: return value and object afterwards. -/
def CenteredPoti.hasChangedByte (pf : Platform) (p : CenteredPoti) (byte current : Nat)
    (raw : Int) : Bool × CenteredPoti :=
  if (p.toStablePoti.getStabilizedRawValue pf current raw).1 = POTI_VALUE_UNDEFINED then
    (false, { p with toStablePoti := (p.toStablePoti.getStabilizedRawValue pf current raw).2 })
  else if (p.toStablePoti.getStabilizedRawValue pf current raw).1 = p._prevValueInternal then
    (false, { p with toStablePoti := (p.toStablePoti.getStabilizedRawValue pf current raw).2 })
  else if MappedPoti.getMappingByte pf p.toMappedPoti byte
      (p.toStablePoti.getStabilizedRawValue pf current raw).1 p._centerValLow p._centerValHigh
      ≠ p._curMapValue then
    (true,
      { p with
        toStablePoti :=
          { (p.toStablePoti.getStabilizedRawValue pf current raw).2 with
            _prevValue := p._curValue
            _curValue := (p.toStablePoti.getStabilizedRawValue pf current raw).1 }
        _prevMapValue := p._curMapValue
        _curMapValue := MappedPoti.getMappingByte pf p.toMappedPoti byte
          (p.toStablePoti.getStabilizedRawValue pf current raw).1 p._centerValLow
          p._centerValHigh })
  else
    (false, { p with toStablePoti := (p.toStablePoti.getStabilizedRawValue pf current raw).2 })

/-- Object after a sequence of `hasChanged()` and `reset()` calls on a
`MappedPoti`; each call comes with the byte an undefined conversion would leave
in `mapValue` in it. -/
def MappedPoti.execByte (pf : Platform) : MappedPoti → List (PotiCall × Nat) → MappedPoti
  | p, [] => p
  | p, (PotiCall.poll q, b) :: cs =>
    MappedPoti.execByte pf (p.hasChangedByte pf b q.current q.raw).2 cs
  | p, (PotiCall.reset, _) :: cs => MappedPoti.execByte pf p.reset cs

/-- Object after a sequence of `hasChanged()` and `reset()` calls on a
`CenteredPoti`; each call comes with the byte an undefined conversion would
leave in `mapValue` in it. -/
def CenteredPoti.execByte (pf : Platform) : CenteredPoti → List (PotiCall × Nat) → CenteredPoti
  | p, [] => p
  | p, (PotiCall.poll q, b) :: cs =>
    CenteredPoti.execByte pf (p.hasChangedByte pf b q.current q.raw).2 cs
  | p, (PotiCall.reset, _) :: cs => CenteredPoti.execByte pf p.reset cs

/-! ## Frame lemmas -/

theorem elapsedMillis_eq_sub (current last : Nat) (h1 : last ≤ current)
    (h2 : current < 4294967296) : elapsedMillis current last = current - last := by
  unfold elapsedMillis
  omega

theorem Poti.hasChanged_of_gatedOut (p : Poti) (current : Nat) (raw : Int)
    (h : p.gatedOut current = true) : p.hasChanged current raw = (false, p) := by
  simp [Poti.hasChanged, h]

theorem Poti.hasChanged_of_ne (p : Poti) (current : Nat) (raw : Int)
    (h : p.gatedOut current = false) (hne : raw ≠ p._curValue) :
    p.hasChanged current raw
      = (true, { p with _lastReadMillis := current, _prevValue := p._curValue, _curValue := raw }) := by
  simp [Poti.hasChanged, h, hne]

theorem Poti.hasChanged_of_eq (p : Poti) (current : Nat) (raw : Int)
    (h : p.gatedOut current = false) (heq : raw = p._curValue) :
    p.hasChanged current raw = (false, { p with _lastReadMillis := current }) := by
  simp [Poti.hasChanged, h, heq]

theorem Poti.hasChanged_false_frame (p : Poti) (current : Nat) (raw : Int)
    (h : (p.hasChanged current raw).1 = false) :
    (p.hasChanged current raw).2._curValue = p._curValue
      ∧ (p.hasChanged current raw).2._prevValue = p._prevValue := by
  unfold Poti.hasChanged at h ⊢
  split_ifs at h ⊢
  all_goals simp_all

theorem Poti.hasChanged_true_shift (p : Poti) (current : Nat) (raw : Int)
    (h : (p.hasChanged current raw).1 = true) :
    (p.hasChanged current raw).2._curValue = raw
      ∧ (p.hasChanged current raw).2._prevValue = p._curValue := by
  unfold Poti.hasChanged at h ⊢
  split_ifs at h ⊢
  all_goals simp_all

theorem Poti.run_append (p : Poti) (xs ys : List Poll) :
    p.run (xs ++ ys) = (p.run xs).run ys := by
  induction xs generalizing p with
  | nil => rfl
  | cons x xs ih => simp [Poti.run, ih]

theorem Poti.run_no_change (p : Poti) (qs : List Poll)
    (h : ∀ b ∈ Poti.results p qs, b = false) :
    (p.run qs)._curValue = p._curValue ∧ (p.run qs)._prevValue = p._prevValue := by
  induction qs generalizing p with
  | nil => exact ⟨rfl, rfl⟩
  | cons q qs ih =>
    simp only [Poti.results, List.mem_cons, forall_eq_or_imp] at h
    have hf := Poti.hasChanged_false_frame p q.current q.raw h.1
    have := ih (p.hasChanged q.current q.raw).2 h.2
    simp only [Poti.run]
    exact ⟨this.1.trans hf.1, this.2.trans hf.2⟩

/-! ## Claims on `Poti::hasChanged` -/

/-- C1. A poll of `Poti::hasChanged` that passes the cycle gate returns true,
moves the current value to the previous value and stores the sample when the
sample differs from the current value, and returns false with current and
previous value unchanged when it equals it.  Over a sequence of polls from any
object: after a poll that returned true and was followed only by polls that
returned false, the previous value is the value that was current just before
that poll; a sequence without a poll that returned true leaves both values as
they were. -/
theorem Poti.poti_change_detection (p : Poti) (current : Nat) (raw : Int)
    (hgate : p.gatedOut current = false) :
    (raw ≠ p._curValue →
        (p.hasChanged current raw).1 = true
        ∧ (p.hasChanged current raw).2.getPrevValue = p.getValue
        ∧ (p.hasChanged current raw).2.getValue = raw)
    ∧ (raw = p._curValue →
        (p.hasChanged current raw).1 = false
        ∧ (p.hasChanged current raw).2.getValue = p.getValue
        ∧ (p.hasChanged current raw).2.getPrevValue = p.getPrevValue)
    ∧ (∀ (pre post : List Poll) (q : Poll),
        ((p.run pre).hasChanged q.current q.raw).1 = true →
        (∀ b ∈ Poti.results ((p.run pre).hasChanged q.current q.raw).2 post, b = false) →
        (p.run (pre ++ q :: post)).getPrevValue = (p.run pre).getValue
        ∧ (p.run (pre ++ q :: post)).getValue = q.raw)
    ∧ (∀ qs : List Poll, (∀ b ∈ Poti.results p qs, b = false) →
        (p.run qs).getValue = p.getValue ∧ (p.run qs).getPrevValue = p.getPrevValue) := by
  refine ⟨fun hne => ?_, fun heq => ?_, fun pre post q hq hpost => ?_, fun qs hqs => ?_⟩
  · rw [Poti.hasChanged_of_ne p current raw hgate hne]
    exact ⟨rfl, rfl, rfl⟩
  · rw [Poti.hasChanged_of_eq p current raw hgate heq]
    exact ⟨rfl, rfl, rfl⟩
  · have hs := Poti.hasChanged_true_shift (p.run pre) q.current q.raw hq
    have hn := Poti.run_no_change _ post hpost
    rw [Poti.run_append]
    simp only [Poti.run, Poti.getPrevValue, Poti.getValue]
    exact ⟨hn.2.trans hs.2, hn.1.trans hs.1⟩
  · exact Poti.run_no_change p qs hqs

/-- Witness for C1: the sequence of the test `doPotiTest` (samples 10, 10, 0, 0
without cycle gate). -/
theorem Poti.poti_change_detection_witness :
    (Poti.new 7 0).gatedOut 5 = false
    ∧ ((Poti.new 7 0).hasChanged 5 10).1 = true
    ∧ ((Poti.new 7 0).run [⟨5, 10⟩, ⟨6, 10⟩, ⟨7, 0⟩, ⟨8, 0⟩]).getPrevValue = 10
    ∧ ((Poti.new 7 0).run [⟨5, 10⟩, ⟨6, 10⟩, ⟨7, 0⟩, ⟨8, 0⟩]).getValue = 0 :=
  ⟨by decide,
   ((Poti.poti_change_detection (Poti.new 7 0) 5 10 (by decide)).1 (by decide)).1,
   ((Poti.poti_change_detection (Poti.new 7 0) 5 10 (by decide)).2.2.1
      [⟨5, 10⟩, ⟨6, 10⟩] [⟨8, 0⟩] ⟨7, 0⟩ (by decide) (by decide)).1,
   ((Poti.poti_change_detection (Poti.new 7 0) 5 10 (by decide)).2.2.1
      [⟨5, 10⟩, ⟨6, 10⟩] [⟨8, 0⟩] ⟨7, 0⟩ (by decide) (by decide)).2⟩

/-- C8. A gated-out poll of `Poti::hasChanged` (cycle time positive, last-read
timestamp positive, less than the cycle time elapsed) returns false, leaves
the object as it is, and does not depend on what the sample source would
return. -/
theorem Poti.hasChanged_gated_out (p : Poti) (current : Nat)
    (hc : p._readCycleMillis > 0) (hl : p._lastReadMillis > 0)
    (he : elapsedMillis current p._lastReadMillis < p._readCycleMillis) :
    p.gatedOut current = true
    ∧ ∀ raw raw' : Int,
        p.hasChanged current raw = (false, p)
        ∧ p.hasChanged current raw = p.hasChanged current raw' := by
  have hg : p.gatedOut current = true := by simp [Poti.gatedOut, hc, hl, he]
  refine ⟨hg, fun raw raw' => ?_⟩
  rw [Poti.hasChanged_of_gatedOut p current raw hg, Poti.hasChanged_of_gatedOut p current raw' hg]
  exact ⟨rfl, rfl⟩

/-- Witness for C8: cycle time 100, last read at 1000, poll at 1050. -/
theorem Poti.hasChanged_gated_out_witness :
    Poti.hasChanged ⟨7, 100, 1000, 10, 20⟩ 1050 30 = (false, ⟨7, 100, 1000, 10, 20⟩)
    ∧ Poti.hasChanged ⟨7, 100, 1000, 10, 20⟩ 1050 30 = Poti.hasChanged ⟨7, 100, 1000, 10, 20⟩ 1050 40 :=
  (Poti.hasChanged_gated_out ⟨7, 100, 1000, 10, 20⟩ 1050 (by decide) (by decide) (by decide)).2 30 40

/-- C9 at its failing input: with a cycle time of 100 ms, a first poll at clock
value 0 and a second poll at clock value 1 both read a sample (and both report
a change), 1 ms apart: a read at clock value 0 stores the timestamp 0, which
the gate takes for "never read". -/
theorem Poti.readTimes_clock_zero :
    Poti.readTimes (Poti.new 7 100) [⟨0, 10⟩, ⟨1, 20⟩] = [0, 1]
    ∧ Poti.results (Poti.new 7 100) [⟨0, 10⟩, ⟨1, 20⟩] = [true, true]
    ∧ ((Poti.new 7 100).hasChanged 0 10).2._lastReadMillis = 0 := by
  decide

/-- The rate limit where the sentinel does not interfere: over polls at
non-decreasing positive clock values below `2 ^ 32`, starting at or after the
last read, successive reads (and the first read after a recorded one) are at
least the cycle time apart. -/
theorem Poti.readTimes_spaced (c : Nat) (hc0 : 0 < c) (qs : List Poll) :
    ∀ p : Poti, p._readCycleMillis = c →
      List.Chain (fun a b : Nat => a ≤ b) p._lastReadMillis (qs.map Poll.current) →
      (∀ q ∈ qs, 0 < q.current ∧ q.current < 4294967296) →
      (0 < p._lastReadMillis →
        List.Chain (fun a b : Nat => a + c ≤ b) p._lastReadMillis (Poti.readTimes p qs))
      ∧ (p._lastReadMillis = 0 →
        List.Chain' (fun a b : Nat => a + c ≤ b) (Poti.readTimes p qs)) := by
  induction qs with
  | nil => intro p _ _ _; simp [Poti.readTimes]
  | cons q qs ih =>
    intro p hc hs hb
    have hq := hb q (List.mem_cons_self _ _)
    have hqs : ∀ x ∈ qs, 0 < x.current ∧ x.current < 4294967296 :=
      fun x hx => hb x (List.mem_cons_of_mem _ hx)
    simp only [List.map_cons, List.chain_cons] at hs
    obtain ⟨hle, hs'⟩ := hs
    by_cases hg : p.gatedOut q.current = true
    · -- gated out: nothing read, object unchanged
      have hst := Poti.hasChanged_of_gatedOut p q.current q.raw hg
      have hs2 : List.Chain (fun a b : Nat => a ≤ b) p._lastReadMillis (qs.map Poll.current) := by
        cases qs with
        | nil => exact List.Chain.nil
        | cons y ys =>
          simp only [List.map_cons, List.chain_cons] at hs' ⊢
          exact ⟨le_trans hle hs'.1, hs'.2⟩
      have := ih p hc hs2 hqs
      simp only [Poti.readTimes, hg, if_true, hst]
      exact this
    · have hg' : p.gatedOut q.current = false := by simpa using hg
      have hlast : (p.hasChanged q.current q.raw).2._lastReadMillis = q.current := by
        unfold Poti.hasChanged
        rw [if_neg (by simp [hg'])]
        split_ifs <;> rfl
      have hcyc : (p.hasChanged q.current q.raw).2._readCycleMillis = c := by
        unfold Poti.hasChanged
        rw [if_neg (by simp [hg'])]
        split_ifs <;> exact hc
      have hih := ih (p.hasChanged q.current q.raw).2 hcyc (by rw [hlast]; exact hs') hqs
      rw [hlast] at hih
      have hchain := hih.1 hq.1
      simp only [Poti.readTimes, hg', Bool.false_eq_true, if_false]
      constructor
      · intro hpos
        refine List.Chain.cons ?_ hchain
        -- not gated with a recorded read: the cycle time has elapsed
        have he : ¬ elapsedMillis q.current p._lastReadMillis < c := by
          intro hlt
          have : p.gatedOut q.current = true := by
            simp [Poti.gatedOut, hc, hc0, hpos, hlt]
          rw [this] at hg'
          exact Bool.noConfusion hg'
        rw [elapsedMillis_eq_sub _ _ hle hq.2] at he
        omega
      · intro _
        exact hchain

/-! ## Claims on `StablePoti::hasChanged` -/

theorem StablePoti.weighting_frame (pf : Platform) (p : StablePoti) (v : Int) :
    (StablePoti.weighting pf p v).2.toPoti = p.toPoti
    ∧ (StablePoti.weighting pf p v).2._addNumRawAvg = p._addNumRawAvg
    ∧ (StablePoti.weighting pf p v).2._openNumRawAvg = p._openNumRawAvg
    ∧ (StablePoti.weighting pf p v).2._internalRawAvg = p._internalRawAvg
    ∧ (StablePoti.weighting pf p v).2._weightPrev = p._weightPrev
    ∧ (StablePoti.weighting pf p v).2._prevValueInternal = (StablePoti.weighting pf p v).1 := by
  unfold StablePoti.weighting
  split_ifs <;> exact ⟨rfl, rfl, rfl, rfl, rfl, rfl⟩

theorem StablePoti.getStabilizedRawValue_frame (pf : Platform) (p : StablePoti)
    (current : Nat) (raw : Int) :
    (p.getStabilizedRawValue pf current raw).2._curValue = p._curValue
    ∧ (p.getStabilizedRawValue pf current raw).2._prevValue = p._prevValue
    ∧ (p.getStabilizedRawValue pf current raw).2._readCycleMillis = p._readCycleMillis
    ∧ (p.getStabilizedRawValue pf current raw).2._inputPin = p._inputPin
    ∧ (p.getStabilizedRawValue pf current raw).2._addNumRawAvg = p._addNumRawAvg
    ∧ (p.getStabilizedRawValue pf current raw).2._weightPrev = p._weightPrev := by
  unfold StablePoti.getStabilizedRawValue StablePoti.stabilize
  split_ifs <;>
    simp [(StablePoti.weighting_frame pf _ _).1, (StablePoti.weighting_frame pf _ _).2.1,
      (StablePoti.weighting_frame pf _ _).2.2.2.2.1]

/-- C7. `StablePoti::hasChanged`: when `getStabilizedRawValue` returns
`POTI_VALUE_UNDEFINED` the call returns false and current and previous value
stay; otherwise it returns true exactly when the stabilized value differs from
the current value, then the previous value becomes the old current value and
the current value the stabilized value; when the stabilized value equals the
current value it returns false and both values stay.  In every case the rest of
the object is what `getStabilizedRawValue` left. -/
theorem StablePoti.stable_change_detection (pf : Platform) (p : StablePoti)
    (current : Nat) (raw : Int) :
    ((p.getStabilizedRawValue pf current raw).1 = POTI_VALUE_UNDEFINED →
        p.hasChanged pf current raw = (false, (p.getStabilizedRawValue pf current raw).2)
        ∧ (p.hasChanged pf current raw).2.getValue = p.getValue
        ∧ (p.hasChanged pf current raw).2.getPrevValue = p.getPrevValue)
    ∧ ((p.getStabilizedRawValue pf current raw).1 ≠ POTI_VALUE_UNDEFINED →
        ((p.hasChanged pf current raw).1 = true
          ↔ (p.getStabilizedRawValue pf current raw).1 ≠ p.getValue)
        ∧ ((p.getStabilizedRawValue pf current raw).1 ≠ p.getValue →
            p.hasChanged pf current raw
              = (true, { (p.getStabilizedRawValue pf current raw).2 with
                          _prevValue := p._curValue
                          _curValue := (p.getStabilizedRawValue pf current raw).1 })
            ∧ (p.hasChanged pf current raw).2.getPrevValue = p.getValue
            ∧ (p.hasChanged pf current raw).2.getValue
                = (p.getStabilizedRawValue pf current raw).1)
        ∧ ((p.getStabilizedRawValue pf current raw).1 = p.getValue →
            p.hasChanged pf current raw = (false, (p.getStabilizedRawValue pf current raw).2)
            ∧ (p.hasChanged pf current raw).2.getValue = p.getValue
            ∧ (p.hasChanged pf current raw).2.getPrevValue = p.getPrevValue)) := by
  have hf := StablePoti.getStabilizedRawValue_frame pf p current raw
  refine ⟨fun hu => ?_, fun hd => ⟨?_, fun hne => ?_, fun heq => ?_⟩⟩
  · have h : p.hasChanged pf current raw = (false, (p.getStabilizedRawValue pf current raw).2) := by
      simp [StablePoti.hasChanged, hu]
    rw [h]
    exact ⟨rfl, hf.1, hf.2.1⟩
  · simp only [StablePoti.hasChanged, Poti.getValue, if_neg hd, hf.1]
    split_ifs with h <;> simp [h]
  · simp only [Poti.getValue] at hne
    have h : p.hasChanged pf current raw
        = (true, { (p.getStabilizedRawValue pf current raw).2 with
                    _prevValue := p._curValue
                    _curValue := (p.getStabilizedRawValue pf current raw).1 }) := by
      simp [StablePoti.hasChanged, hd, hf.1, hne]
    rw [h]
    exact ⟨rfl, rfl, rfl⟩
  · simp only [Poti.getValue] at heq
    have h : p.hasChanged pf current raw = (false, (p.getStabilizedRawValue pf current raw).2) := by
      simp [StablePoti.hasChanged, hd, hf.1, heq]
    rw [h]
    exact ⟨rfl, hf.1, hf.2.1⟩

/-- Witness for C7: weight 4, no averaging, smoothed previous value 500,
current value 500, sample 700: the stabilized value 600 is stored. -/
theorem StablePoti.stable_change_detection_witness :
    (StablePoti.hasChanged Platform.avr ⟨⟨7, 0, 0, 500, 10⟩, 0, 0, 32767, 4, 500⟩ 1 700).1 = true
    ∧ (StablePoti.hasChanged Platform.avr ⟨⟨7, 0, 0, 500, 10⟩, 0, 0, 32767, 4, 500⟩ 1 700).2.getValue
        = 600
    ∧ (StablePoti.hasChanged Platform.avr ⟨⟨7, 0, 0, 500, 10⟩, 0, 0, 32767, 4, 500⟩ 1 700).2.getPrevValue
        = 500 :=
  ⟨(((StablePoti.stable_change_detection Platform.avr
        ⟨⟨7, 0, 0, 500, 10⟩, 0, 0, 32767, 4, 500⟩ 1 700).2 (by decide)).1).2 (by decide),
   ((((StablePoti.stable_change_detection Platform.avr
        ⟨⟨7, 0, 0, 500, 10⟩, 0, 0, 32767, 4, 500⟩ 1 700).2 (by decide)).2.1 (by decide)).2.2).trans
      (by decide),
   ((((StablePoti.stable_change_detection Platform.avr
        ⟨⟨7, 0, 0, 500, 10⟩, 0, 0, 32767, 4, 500⟩ 1 700).2 (by decide)).2.1 (by decide)).2.1).trans
      (by decide)⟩

/-! ## Wrap-around arithmetic -/

theorem wrapInt_eq_self (bits : Nat) (x : Int) (hb : 1 ≤ bits)
    (h1 : -(2 ^ (bits - 1)) ≤ x) (h2 : x < 2 ^ (bits - 1)) : wrapInt bits x = x := by
  unfold wrapInt
  have hp : (2 : Int) ^ bits = 2 * 2 ^ (bits - 1) := by
    conv_lhs => rw [show bits = (bits - 1) + 1 by omega]
    rw [pow_succ]
    ring
  rw [Int.emod_eq_of_lt (by omega) (by omega)]
  omega

theorem two_pow_fifteen_le (bits : Nat) (hb : 16 ≤ bits) : (32768 : Int) ≤ 2 ^ (bits - 1) := by
  have h : (2 : Int) ^ 15 ≤ 2 ^ (bits - 1) :=
    pow_le_pow_right₀ (by norm_num) (by omega)
  norm_num at h
  exact h

theorem Platform.wrap_eq_self (pf : Platform) (x : Int) (hb : 16 ≤ pf.intBits)
    (h1 : pf.intMin ≤ x) (h2 : x ≤ pf.intMax) : pf.wrap x = x := by
  unfold Platform.wrap
  unfold Platform.intMin at h1
  unfold Platform.intMax at h2
  exact wrapInt_eq_self _ _ (by omega) h1 (by omega)

theorem Platform.wrap_small (pf : Platform) (x : Int) (hb : 16 ≤ pf.intBits)
    (h1 : -32768 ≤ x) (h2 : x ≤ 32767) : pf.wrap x = x := by
  have h := two_pow_fifteen_le pf.intBits hb
  unfold Platform.wrap
  exact wrapInt_eq_self _ _ (by omega) (by omega) (by omega)

theorem Platform.intMax_ge (pf : Platform) (hb : 16 ≤ pf.intBits) : 32767 ≤ pf.intMax := by
  have h := two_pow_fifteen_le pf.intBits hb
  unfold Platform.intMax
  omega

theorem Platform.intMin_le (pf : Platform) (hb : 16 ≤ pf.intBits) : pf.intMin ≤ -32768 := by
  have h := two_pow_fifteen_le pf.intBits hb
  unfold Platform.intMin
  omega

/-! ## The weighting step -/

theorem weighting_round_half_up (N : Int) (w : Nat) (hw1 : 1 ≤ w) (hw2 : w ≤ 12) :
    ⌊(N : ℚ) / (((w : Int) + 4 : Int) : ℚ) + 1 / 2⌋ = (N + ((w : Int) + 4) / 2) / ((w : Int) + 4) := by
  have hj : (0 : ℚ) < (((w : Int) + 4 : Int) : ℚ) := by
    have : (0 : Int) < (w : Int) + 4 := by omega
    exact_mod_cast this
  have h1 : (N : ℚ) / (((w : Int) + 4 : Int) : ℚ) + 1 / 2
      = ((2 * N + ((w : Int) + 4) : Int) : ℚ) / ((2 * (w + 4) : Nat) : ℚ) := by
    push_cast at hj ⊢
    have hj' : ((w : ℚ) + 4) ≠ 0 := ne_of_gt hj
    field_simp
    ring
  rw [h1, Rat.floor_intCast_div_natCast]
  push_cast
  interval_cases w <;> omega

theorem StablePoti.weighting_passthrough (pf : Platform) (st : StablePoti) (n : Int)
    (h : st._weightPrev = 0 ∨ st._prevValueInternal = POTI_VALUE_UNDEFINED) :
    (StablePoti.weighting pf st n).1 = n := by
  unfold StablePoti.weighting
  rcases h with h | h <;> simp [h]

theorem StablePoti.weighting_exact (pf : Platform) (st : StablePoti) (n : Int)
    (hb : 16 ≤ pf.intBits)
    (hw1 : 1 ≤ st._weightPrev) (hw2 : st._weightPrev ≤ 12)
    (hp0 : 0 ≤ st._prevValueInternal) (hpd : st._prevValueInternal ≠ POTI_VALUE_UNDEFINED)
    (hn : 0 ≤ n)
    (hfit : 4 * n + st._weightPrev * st._prevValueInternal + ((st._weightPrev : Int) + 4) / 2
      ≤ pf.intMax) :
    (StablePoti.weighting pf st n).1
      = (4 * n + st._weightPrev * st._prevValueInternal + ((st._weightPrev : Int) + 4) / 2)
          / ((st._weightPrev : Int) + 4) := by
  have hj : pf.wrap ((st._weightPrev : Int) + 4) = (st._weightPrev : Int) + 4 :=
    pf.wrap_small _ hb (by omega) (by omega)
  have hwp : 0 ≤ (st._weightPrev : Int) * st._prevValueInternal :=
    mul_nonneg (by omega) hp0
  have hmin := pf.intMin_le hb
  have hhalf : Int.tdiv ((st._weightPrev : Int) + 4) 2 = ((st._weightPrev : Int) + 4) / 2 :=
    Int.tdiv_eq_ediv (by omega) (by omega)
  have hhalf0 : 0 ≤ ((st._weightPrev : Int) + 4) / 2 := by omega
  have hsum : pf.wrap (n * 4 + st._prevValueInternal * st._weightPrev
      + ((st._weightPrev : Int) + 4) / 2)
      = 4 * n + st._weightPrev * st._prevValueInternal + ((st._weightPrev : Int) + 4) / 2 := by
    have e : n * 4 + st._prevValueInternal * st._weightPrev + ((st._weightPrev : Int) + 4) / 2
        = 4 * n + st._weightPrev * st._prevValueInternal + ((st._weightPrev : Int) + 4) / 2 := by
      ring
    rw [e]
    exact pf.wrap_eq_self _ hb (by omega) hfit
  unfold StablePoti.weighting
  rw [if_pos ⟨by omega, hpd⟩]
  simp only [hj, hhalf, hsum]
  exact Int.tdiv_eq_ediv (by omega) (by omega)

/-- C4 as stated fails: with 16 bit `int`, weight 1, smoothed previous value 0
and new sample 8192 the product `rawValue * 4` leaves the range of `int`; the
step returns -6553 where the formula gives 6554.  With 32 bit `int` the same
happens at sample 536870912. -/
theorem StablePoti.weighting_overflow :
    (StablePoti.weighting Platform.avr ⟨⟨7, 0, 0, 32767, 32767⟩, 0, 0, 32767, 1, 0⟩ 8192).1 = -6553
    ∧ ((4 * 8192 + 1 * 0 + (1 + 4) / 2) / (1 + 4) : Int) = 6554
    ∧ (StablePoti.weighting Platform.arm32 ⟨⟨7, 0, 0, 32767, 32767⟩, 0, 0, 32767, 1, 0⟩
        536870912).1 = -429496729
    ∧ ((4 * 536870912 + 1 * 0 + (1 + 4) / 2) / (1 + 4) : Int) = 429496730 := by
  decide

/-- C4, amended.  On every platform whose `int` has at least 16 bits, for a
weight `w` in 1..12, a defined smoothed previous value `p ≥ 0` and a new value
`n ≥ 0` such that `4n + w*p + (w+4)/2` does not exceed the largest `int`, the
weighting step returns `(4n + w*p + (w+4)/2) / (w+4)` (integer division), which
is `(4n + w*p)/(w+4)` rounded to the nearest integer, halves up, and stores it
as smoothed previous value.  With weight 0 or without a smoothed previous
value the new value is returned unchanged.  For `p = 500`, `n = 700` the
result is 600, 660 and 550 for the weights 4, 1 and 12. -/
theorem StablePoti.weighting_value (pf : Platform) (st : StablePoti) (n : Int)
    (hb : 16 ≤ pf.intBits)
    (hw1 : 1 ≤ st._weightPrev) (hw2 : st._weightPrev ≤ 12)
    (hp0 : 0 ≤ st._prevValueInternal) (hpd : st._prevValueInternal ≠ POTI_VALUE_UNDEFINED)
    (hn : 0 ≤ n)
    (hfit : 4 * n + st._weightPrev * st._prevValueInternal + ((st._weightPrev : Int) + 4) / 2
      ≤ pf.intMax) :
    (StablePoti.weighting pf st n).1
        = (4 * n + st._weightPrev * st._prevValueInternal + ((st._weightPrev : Int) + 4) / 2)
            / ((st._weightPrev : Int) + 4)
    ∧ (StablePoti.weighting pf st n).1
        = ⌊((4 * n + st._weightPrev * st._prevValueInternal : Int) : ℚ)
            / (((st._weightPrev : Int) + 4 : Int) : ℚ) + 1 / 2⌋
    ∧ (StablePoti.weighting pf st n).2._prevValueInternal = (StablePoti.weighting pf st n).1
    ∧ (∀ (st' : StablePoti) (n' : Int),
        st'._weightPrev = 0 ∨ st'._prevValueInternal = POTI_VALUE_UNDEFINED →
        (StablePoti.weighting pf st' n').1 = n')
    ∧ (StablePoti.weighting Platform.avr ⟨⟨7, 0, 0, 500, 32767⟩, 0, 0, 32767, 4, 500⟩ 700).1 = 600
    ∧ (StablePoti.weighting Platform.avr ⟨⟨7, 0, 0, 500, 32767⟩, 0, 0, 32767, 1, 500⟩ 700).1 = 660
    ∧ (StablePoti.weighting Platform.avr ⟨⟨7, 0, 0, 500, 32767⟩, 0, 0, 32767, 12, 500⟩ 700).1 = 550
    ∧ (StablePoti.weighting Platform.arm32 ⟨⟨7, 0, 0, 500, 32767⟩, 0, 0, 32767, 4, 500⟩ 700).1 = 600
    ∧ (StablePoti.weighting Platform.arm32 ⟨⟨7, 0, 0, 500, 32767⟩, 0, 0, 32767, 1, 500⟩ 700).1 = 660
    ∧ (StablePoti.weighting Platform.arm32 ⟨⟨7, 0, 0, 500, 32767⟩, 0, 0, 32767, 12, 500⟩ 700).1
        = 550 := by
  have hex := StablePoti.weighting_exact pf st n hb hw1 hw2 hp0 hpd hn hfit
  have hwp : 0 ≤ (st._weightPrev : Int) * st._prevValueInternal :=
    mul_nonneg (by omega) hp0
  refine ⟨hex, ?_, (StablePoti.weighting_frame pf st n).2.2.2.2.2, fun st' n' h =>
    StablePoti.weighting_passthrough pf st' n' h, by decide, by decide, by decide, by decide,
    by decide, by decide⟩
  rw [hex, weighting_round_half_up _ _ hw1 hw2]

/-- Witness for C4: 16 bit `int`, weight 4, smoothed previous value 1023, new value 1023. -/
theorem StablePoti.weighting_value_witness :
    (StablePoti.weighting Platform.avr ⟨⟨7, 0, 0, 32767, 32767⟩, 0, 0, 32767, 4, 1023⟩ 1023).1
      = (4 * 1023 + 4 * 1023 + (4 + 4) / 2) / (4 + 4) :=
  (StablePoti.weighting_value Platform.avr ⟨⟨7, 0, 0, 32767, 32767⟩, 0, 0, 32767, 4, 1023⟩ 1023
    (by decide) (by decide) (by decide) (by decide) (by decide) (by decide) (by decide)).1

/-! ## The averaging sequence -/

theorem StablePoti.getStabilizedRawValue_of_accepted (pf : Platform) (p : StablePoti)
    (current : Nat) (raw : Int) (h : p.gatedOut current = false) :
    p.getStabilizedRawValue pf current raw = StablePoti.stabilize pf p current raw := by
  simp [StablePoti.getStabilizedRawValue, h]

theorem StablePoti.getStabilizedRawValue_of_gatedOut (pf : Platform) (p : StablePoti)
    (current : Nat) (raw : Int) (h : p.gatedOut current = true) :
    p.getStabilizedRawValue pf current raw = (POTI_VALUE_UNDEFINED, p) := by
  simp [StablePoti.getStabilizedRawValue, h]

theorem averaging_round_half_up (S : Int) (k : Nat) :
    ⌊(S : ℚ) / ((k : ℚ) + 1) + 1 / 2⌋ = (2 * S + ((k : Int) + 1)) / (2 * ((k : Int) + 1)) := by
  have hk : ((k : ℚ) + 1) ≠ 0 := by positivity
  have h1 : (S : ℚ) / ((k : ℚ) + 1) + 1 / 2
      = ((2 * S + ((k : Int) + 1) : Int) : ℚ) / ((2 * (k + 1) : Nat) : ℚ) := by
    push_cast
    field_simp
    ring
  rw [h1, Rat.floor_intCast_div_natCast]
  push_cast
  rfl

/-- The samples after the seed: with `m` samples still open and the running
sum `T`, the next `m` accepted samples return `POTI_VALUE_UNDEFINED` except
the last, which returns the rounded average. -/
theorem StablePoti.stabilized_open (pf : Platform) (hb : 16 ≤ pf.intBits) (k : Nat)
    (hk1 : 1 ≤ k) (hk2 : k ≤ 7) (xs : List Poll) :
    ∀ s : StablePoti, s._addNumRawAvg = k → s._weightPrev = 0 →
      s._openNumRawAvg = xs.length → 1 ≤ xs.length → xs.length ≤ k →
      0 ≤ s._internalRawAvg → (∀ x ∈ xs, 0 ≤ x.raw) →
      (∀ i, i < xs.length →
        s._internalRawAvg + ((xs.map Poll.raw).take i).sum ≠ POTI_VALUE_UNDEFINED) →
      2 * (s._internalRawAvg + (xs.map Poll.raw).sum) + ((k : Int) + 1) ≤ pf.intMax →
      StablePoti.allAccepted pf s xs = true →
      StablePoti.stabilized pf s xs
        = List.replicate (xs.length - 1) POTI_VALUE_UNDEFINED
          ++ [(2 * (s._internalRawAvg + (xs.map Poll.raw).sum) + ((k : Int) + 1))
                / (2 * ((k : Int) + 1))] := by
  have hmin := pf.intMin_le hb
  have hmax := pf.intMax_ge hb
  induction xs with
  | nil => intro s _ _ _ h; simp at h
  | cons x ys ih =>
    intro s hk hw hopen _ hlen hT hpos hpart hfit hacc
    have hx : 0 ≤ x.raw := hpos x (List.mem_cons_self _ _)
    have hys : ∀ y ∈ ys, 0 ≤ y.raw := fun y hy => hpos y (List.mem_cons_of_mem _ hy)
    have hsum0 : 0 ≤ (ys.map Poll.raw).sum :=
      List.sum_nonneg (by simpa using hys)
    simp only [List.map_cons, List.sum_cons] at hfit
    simp only [StablePoti.allAccepted, Bool.and_eq_true, Bool.not_eq_true'] at hacc
    have hTu : s._internalRawAvg ≠ POTI_VALUE_UNDEFINED := by
      simpa using hpart 0 (by simp)
    have hwrap : pf.wrap (s._internalRawAvg + x.raw) = s._internalRawAvg + x.raw :=
      pf.wrap_eq_self _ hb (by omega) (by omega)
    have hstep := StablePoti.getStabilizedRawValue_of_accepted pf s x.current x.raw hacc.1
    simp only [List.length_cons] at hopen hlen
    rcases ys with _ | ⟨y, zs⟩
    · -- the last sample of the sequence
      have ho : (s._openNumRawAvg + 255) % 256 = 0 := by rw [hopen]; rfl
      have hj : pf.wrap ((s._addNumRawAvg : Int) + 1) = (k : Int) + 1 := by
        rw [hk]; exact pf.wrap_small _ hb (by omega) (by omega)
      have hj2 : pf.wrap (((k : Int) + 1) * 2) = 2 * ((k : Int) + 1) := by
        rw [pf.wrap_small _ hb (by omega) (by omega)]; ring
      have hnum : pf.wrap ((s._internalRawAvg + x.raw) * 2 + ((k : Int) + 1))
          = 2 * (s._internalRawAvg + x.raw) + ((k : Int) + 1) := by
        rw [pf.wrap_eq_self _ hb (by omega) (by simp at hfit; omega)]; ring
      have hval : (StablePoti.stabilize pf s x.current x.raw).1
          = (2 * (s._internalRawAvg + x.raw) + ((k : Int) + 1)) / (2 * ((k : Int) + 1)) := by
        unfold StablePoti.stabilize
        rw [if_pos (by omega), if_neg hTu, if_neg (by omega), if_neg (by omega)]
        rw [StablePoti.weighting_passthrough pf _ _ (Or.inl (by exact hw))]
        rw [hwrap, hj, hj2, hnum]
        exact Int.tdiv_eq_ediv (by omega) (by omega)
      simp [StablePoti.stabilized, hstep, hval]
    · -- a sample in the middle of the sequence
      have ho : (s._openNumRawAvg + 255) % 256 = (y :: zs).length := by
        rw [hopen]; simp only [List.length_cons] at hlen ⊢; omega
      have hst : StablePoti.stabilize pf s x.current x.raw
          = (POTI_VALUE_UNDEFINED,
              { s with _lastReadMillis := x.current
                       _internalRawAvg := s._internalRawAvg + x.raw
                       _openNumRawAvg := (y :: zs).length }) := by
        unfold StablePoti.stabilize
        rw [if_pos (by omega), if_neg hTu, if_neg (by omega), if_pos (by rw [ho]; simp)]
        rw [hwrap, ho]
      rw [hstep, hst] at hacc
      have hih := ih { s with _lastReadMillis := x.current
                              _internalRawAvg := s._internalRawAvg + x.raw
                              _openNumRawAvg := (y :: zs).length }
        hk hw rfl (by simp) (by simp only [List.length_cons] at hlen ⊢; omega)
        (by simp only; omega) hys
        (fun i hi => by
          have := hpart (i + 1) (by simp only [List.length_cons] at hi ⊢; omega)
          simpa [add_assoc] using this)
        (by simp only [List.map_cons, List.sum_cons] at hfit ⊢; omega)
        hacc.2
      have e : StablePoti.stabilized pf s (x :: y :: zs)
          = POTI_VALUE_UNDEFINED
            :: StablePoti.stabilized pf
                { s with _lastReadMillis := x.current
                         _internalRawAvg := s._internalRawAvg + x.raw
                         _openNumRawAvg := (y :: zs).length } (y :: zs) := by
        rw [StablePoti.stabilized, hstep, hst]
      rw [e, hih]
      simp [List.replicate_succ, add_assoc]

/-- C5 as stated fails for non-negative samples in general.  With 16 bit `int`
and one extra sample, the samples 16000 and 16000 give -383, not 16000: the
doubled sum leaves the range of `int`.  On every platform a seed of 32767 is
taken for "no running sum yet", so that the next sample 1 is returned as it is,
not averaged to 16384. -/
theorem StablePoti.averaging_out_of_range :
    StablePoti.stabilized Platform.avr (StablePoti.new 7 0 0 1) [⟨1, 10⟩, ⟨2, 16000⟩, ⟨3, 16000⟩]
      = [10, POTI_VALUE_UNDEFINED, -383]
    ∧ ((2 * (16000 + 16000) + (1 + 1)) / (2 * (1 + 1)) : Int) = 16000
    ∧ StablePoti.stabilized Platform.avr (StablePoti.new 7 0 0 1) [⟨1, 10⟩, ⟨2, 32767⟩, ⟨3, 1⟩]
      = [10, POTI_VALUE_UNDEFINED, 1]
    ∧ StablePoti.stabilized Platform.arm32 (StablePoti.new 7 0 0 1) [⟨1, 10⟩, ⟨2, 32767⟩, ⟨3, 1⟩]
      = [10, POTI_VALUE_UNDEFINED, 1]
    ∧ ((2 * (32767 + 1) + (1 + 1)) / (2 * (1 + 1)) : Int) = 16384 := by
  decide

/-- C5, amended.  On every platform whose `int` has at least 16 bits, with
`k` in 1..7 extra samples and weight 0: when an averaging sequence of `k + 1`
accepted non-negative samples (the seed and `k` more) starts in an object that
is between two sequences, no sum of the first `i ≤ k` samples equals
`POTI_VALUE_UNDEFINED`, and `2 * S + (k + 1)` does not exceed the largest
`int` for the sum `S` of all samples, then the first `k` calls return
`POTI_VALUE_UNDEFINED` and the last returns `(2 * S + (k + 1)) / (2 * (k + 1))`,
which is `S / (k + 1)` rounded to the nearest integer, halves up.  The
sequences of the test (after a first sample): 10, 20 give 15; 500, 601, 701
give 601; 501, 601, 705 give 602. -/
theorem StablePoti.averaging_value (pf : Platform) (st : StablePoti) (seed : Poll)
    (rest : List Poll) (hb : 16 ≤ pf.intBits)
    (hk1 : 1 ≤ st._addNumRawAvg) (hk2 : st._addNumRawAvg ≤ 7)
    (hw : st._weightPrev = 0) (hopen : st._openNumRawAvg = 0)
    (hT : st._internalRawAvg ≠ POTI_VALUE_UNDEFINED)
    (hlen : rest.length = st._addNumRawAvg)
    (hpos : ∀ x ∈ seed :: rest, 0 ≤ x.raw)
    (hpart : ∀ i, 1 ≤ i → i ≤ st._addNumRawAvg →
      (((seed :: rest).map Poll.raw).take i).sum ≠ POTI_VALUE_UNDEFINED)
    (hfit : 2 * ((seed :: rest).map Poll.raw).sum + ((st._addNumRawAvg : Int) + 1) ≤ pf.intMax)
    (hacc : StablePoti.allAccepted pf st (seed :: rest) = true) :
    StablePoti.stabilized pf st (seed :: rest)
        = List.replicate st._addNumRawAvg POTI_VALUE_UNDEFINED
          ++ [(2 * ((seed :: rest).map Poll.raw).sum + ((st._addNumRawAvg : Int) + 1))
                / (2 * ((st._addNumRawAvg : Int) + 1))]
    ∧ (2 * ((seed :: rest).map Poll.raw).sum + ((st._addNumRawAvg : Int) + 1))
          / (2 * ((st._addNumRawAvg : Int) + 1))
        = ⌊((((seed :: rest).map Poll.raw).sum : Int) : ℚ) / ((st._addNumRawAvg : ℚ) + 1) + 1 / 2⌋
    ∧ StablePoti.stabilized Platform.avr (StablePoti.new 7 2 0 1) [⟨1, 10⟩, ⟨3, 10⟩, ⟨4, 20⟩]
        = [10, POTI_VALUE_UNDEFINED, 15]
    ∧ StablePoti.stabilized Platform.avr (StablePoti.new 7 2 0 2)
          [⟨1, 500⟩, ⟨3, 500⟩, ⟨4, 601⟩, ⟨5, 701⟩]
        = [500, POTI_VALUE_UNDEFINED, POTI_VALUE_UNDEFINED, 601]
    ∧ StablePoti.stabilized Platform.avr (StablePoti.new 7 2 0 2)
          [⟨1, 500⟩, ⟨3, 501⟩, ⟨4, 601⟩, ⟨5, 705⟩]
        = [500, POTI_VALUE_UNDEFINED, POTI_VALUE_UNDEFINED, 602]
    ∧ StablePoti.stabilized Platform.arm32 (StablePoti.new 7 2 0 1) [⟨1, 10⟩, ⟨3, 10⟩, ⟨4, 20⟩]
        = [10, POTI_VALUE_UNDEFINED, 15]
    ∧ StablePoti.stabilized Platform.arm32 (StablePoti.new 7 2 0 2)
          [⟨1, 500⟩, ⟨3, 500⟩, ⟨4, 601⟩, ⟨5, 701⟩]
        = [500, POTI_VALUE_UNDEFINED, POTI_VALUE_UNDEFINED, 601]
    ∧ StablePoti.stabilized Platform.arm32 (StablePoti.new 7 2 0 2)
          [⟨1, 500⟩, ⟨3, 501⟩, ⟨4, 601⟩, ⟨5, 705⟩]
        = [500, POTI_VALUE_UNDEFINED, POTI_VALUE_UNDEFINED, 602] := by
  refine ⟨?_, (averaging_round_half_up _ _).symm, by decide, by decide, by decide, by decide,
    by decide, by decide⟩
  simp only [StablePoti.allAccepted, Bool.and_eq_true, Bool.not_eq_true'] at hacc
  have hstep := StablePoti.getStabilizedRawValue_of_accepted pf st seed.current seed.raw hacc.1
  have hst : StablePoti.stabilize pf st seed.current seed.raw
      = (POTI_VALUE_UNDEFINED,
          { st with _lastReadMillis := seed.current
                    _openNumRawAvg := st._addNumRawAvg
                    _internalRawAvg := seed.raw }) := by
    unfold StablePoti.stabilize
    rw [if_pos (by omega), if_neg hT, if_pos hopen]
  rw [hstep, hst] at hacc
  have htail := StablePoti.stabilized_open pf hb st._addNumRawAvg hk1 hk2 rest
    { st with _lastReadMillis := seed.current
              _openNumRawAvg := st._addNumRawAvg
              _internalRawAvg := seed.raw }
    rfl hw hlen.symm (by omega) (by omega)
    (hpos seed (List.mem_cons_self _ _))
    (fun x hx => hpos x (List.mem_cons_of_mem _ hx))
    (fun i hi => by
      have := hpart (i + 1) (by omega) (by omega)
      simpa using this)
    (by simpa using hfit)
    hacc.2
  have e : StablePoti.stabilized pf st (seed :: rest)
      = POTI_VALUE_UNDEFINED
        :: StablePoti.stabilized pf
            { st with _lastReadMillis := seed.current
                      _openNumRawAvg := st._addNumRawAvg
                      _internalRawAvg := seed.raw } rest := by
    rw [StablePoti.stabilized, hstep, hst]
  have hrep : List.replicate st._addNumRawAvg POTI_VALUE_UNDEFINED
      = POTI_VALUE_UNDEFINED :: List.replicate (st._addNumRawAvg - 1) POTI_VALUE_UNDEFINED := by
    rw [← List.replicate_succ]
    congr 1
    omega
  rw [e, htail, hlen, hrep]
  simp

/-- Witness for C5: two extra samples, the sequence 500, 601, 701 of the test. -/
theorem StablePoti.averaging_value_witness :
    StablePoti.stabilized Platform.avr ⟨⟨7, 2, 1, 500, 32767⟩, 2, 0, 500, 0, 500⟩
        [⟨3, 500⟩, ⟨4, 601⟩, ⟨5, 701⟩]
      = List.replicate 2 POTI_VALUE_UNDEFINED
        ++ [(2 * (([⟨3, 500⟩, ⟨4, 601⟩, ⟨5, 701⟩] : List Poll).map Poll.raw).sum
              + (((2 : Nat) : Int) + 1)) / (2 * (((2 : Nat) : Int) + 1))] :=
  (StablePoti.averaging_value Platform.avr ⟨⟨7, 2, 1, 500, 32767⟩, 2, 0, 500, 0, 500⟩
    ⟨3, 500⟩ [⟨4, 601⟩, ⟨5, 701⟩] (by decide) (by decide) (by decide) rfl rfl (by decide) rfl
    (by decide) (by decide) (by decide) (by decide)).1

/-! ## The averaging cycle -/

theorem StablePoti.weighting_bounds (pf : Platform) (hb : 16 ≤ pf.intBits) (M : Int)
    (hM : 16 * M + 8 ≤ pf.intMax) (s : StablePoti) (n : Int)
    (hw : s._weightPrev ≤ 12)
    (hp : s._prevValueInternal = POTI_VALUE_UNDEFINED
      ∨ (0 ≤ s._prevValueInternal ∧ s._prevValueInternal ≤ M))
    (hn0 : 0 ≤ n) (hn1 : n ≤ M) :
    0 ≤ (StablePoti.weighting pf s n).1 ∧ (StablePoti.weighting pf s n).1 ≤ M := by
  by_cases hpass : s._weightPrev = 0 ∨ s._prevValueInternal = POTI_VALUE_UNDEFINED
  · rw [StablePoti.weighting_passthrough pf s n hpass]
    exact ⟨hn0, hn1⟩
  · push_neg at hpass
    rcases hp with hp | ⟨hp0, hp1⟩
    · exact absurd hp hpass.2
    · have hw1 : 1 ≤ s._weightPrev := by omega
      have hle : (s._weightPrev : Int) * s._prevValueInternal ≤ (s._weightPrev : Int) * M :=
        mul_le_mul_of_nonneg_left hp1 (by omega)
      have hge : 0 ≤ (s._weightPrev : Int) * s._prevValueInternal :=
        mul_nonneg (by omega) hp0
      have hwM : (s._weightPrev : Int) * M ≤ 12 * M :=
        mul_le_mul_of_nonneg_right (by omega) (by omega)
      rw [StablePoti.weighting_exact pf s n hb hw1 hw hp0 hpass.2 hn0 (by omega)]
      constructor
      · exact Int.ediv_nonneg (by omega) (by omega)
      · have hlt : 4 * n + (s._weightPrev : Int) * s._prevValueInternal
            + ((s._weightPrev : Int) + 4) / 2 < (M + 1) * ((s._weightPrev : Int) + 4) := by
          have e : (M + 1) * ((s._weightPrev : Int) + 4)
              = (s._weightPrev : Int) * M + 4 * M + (s._weightPrev : Int) + 4 := by ring
          rw [e]
          omega
        have := Int.ediv_lt_of_lt_mul (by omega) hlt
        omega

theorem averaging_bounds (M S : Int) (k : Nat) (hS0 : 0 ≤ S) (hS1 : S ≤ M * ((k : Int) + 1)) :
    0 ≤ (2 * S + ((k : Int) + 1)) / (2 * ((k : Int) + 1))
      ∧ (2 * S + ((k : Int) + 1)) / (2 * ((k : Int) + 1)) ≤ M := by
  constructor
  · exact Int.ediv_nonneg (by omega) (by omega)
  · have hlt : 2 * S + ((k : Int) + 1) < (M + 1) * (2 * ((k : Int) + 1)) := by
      have e : (M + 1) * (2 * ((k : Int) + 1)) = 2 * (M * ((k : Int) + 1)) + 2 * ((k : Int) + 1) := by
        ring
      rw [e]
      omega
    have := Int.ediv_lt_of_lt_mul (by omega) hlt
    omega

theorem StablePoti.stabilize_cycle (pf : Platform) (hb : 16 ≤ pf.intBits) (M : Int)
    (hM0 : 0 ≤ M) (hM : 16 * M + 8 ≤ pf.intMax) (hM2 : M ≤ 4095) (k : Nat)
    (hk1 : 1 ≤ k) (hk2 : k ≤ 7) (s : StablePoti) (hinv : StablePoti.Inv M k s)
    (current : Nat) (raw : Int) (hr0 : 0 ≤ raw) (hr1 : raw ≤ M) :
    StablePoti.Inv M k (StablePoti.stabilize pf s current raw).2
    ∧ (StablePoti.stabilize pf s current raw).2.position = (s.position + 1) % (k + 1)
    ∧ ((StablePoti.stabilize pf s current raw).1 ≠ POTI_VALUE_UNDEFINED ↔ s.position = 0)
    ∧ ((StablePoti.stabilize pf s current raw).1 ≠ POTI_VALUE_UNDEFINED →
        0 ≤ (StablePoti.stabilize pf s current raw).1
          ∧ (StablePoti.stabilize pf s current raw).1 ≤ M) := by
  obtain ⟨hk, hw, hopen, hprev, hT⟩ := hinv
  have hU : POTI_VALUE_UNDEFINED = 32767 := rfl
  have hmin := pf.intMin_le hb
  have hMk : 0 ≤ M * (k : Int) := mul_nonneg hM0 (by omega)
  have hraw : raw ≠ POTI_VALUE_UNDEFINED := by omega
  rcases hT with ⟨hTu, ho0⟩ | ⟨hT0, hT1⟩
  · -- first accepted sample after construction or reset
    have hpos : s.position = 0 := by simp [StablePoti.position, hTu]
    have hst : StablePoti.stabilize pf s current raw
        = StablePoti.weighting pf { s with _lastReadMillis := current, _internalRawAvg := raw } raw := by
      unfold StablePoti.stabilize
      rw [if_pos (by omega), if_pos hTu]
    have hfr := StablePoti.weighting_frame pf
      { s with _lastReadMillis := current, _internalRawAvg := raw } raw
    have hbd := StablePoti.weighting_bounds pf hb M hM
      { s with _lastReadMillis := current, _internalRawAvg := raw } raw hw hprev hr0 hr1
    rw [hst]
    obtain ⟨-, f2, f3, f4, f5, f6⟩ := hfr
    refine ⟨⟨f2.trans hk, by rw [f5]; exact hw, by rw [f3]; simp only; omega,
      Or.inr (by rw [f6]; exact hbd), Or.inr ?_⟩, ?_, ?_, fun _ => hbd⟩
    · rw [f4, f3]
      simp only
      constructor
      · exact hr0
      · have e : M * ((k : Int) + 1 - (s._openNumRawAvg : Int)) = M * k + M := by
          rw [ho0]; push_cast; ring
        rw [e]; omega
    · have hp1 : (StablePoti.weighting pf
          { s with _lastReadMillis := current, _internalRawAvg := raw } raw).2.position = 1 := by
        simp only [StablePoti.position, f4, f3]
        rw [if_neg hraw, if_pos ho0]
      rw [hp1, hpos]
      exact (Nat.mod_eq_of_lt (by omega)).symm
    · constructor
      · intro _; exact hpos
      · intro _; omega
  · have hTu : s._internalRawAvg ≠ POTI_VALUE_UNDEFINED := by
      have : M * ((k : Int) + 1 - (s._openNumRawAvg : Int)) ≤ M * 8 :=
        mul_le_mul_of_nonneg_left (by omega) hM0
      omega
    by_cases ho0 : s._openNumRawAvg = 0
    · -- the seed of a sequence
      have hpos : s.position = 1 := by simp [StablePoti.position, hTu, ho0]
      have hst : StablePoti.stabilize pf s current raw
          = (POTI_VALUE_UNDEFINED,
              { s with _lastReadMillis := current
                       _openNumRawAvg := s._addNumRawAvg
                       _internalRawAvg := raw }) := by
        unfold StablePoti.stabilize
        rw [if_pos (by omega), if_neg hTu, if_pos ho0]
      rw [hst]
      refine ⟨⟨hk, hw, by simp only; omega, hprev, Or.inr ?_⟩, ?_, ?_, fun h => absurd rfl h⟩
      · simp only
        constructor
        · exact hr0
        · have e : M * ((k : Int) + 1 - (s._addNumRawAvg : Int)) = M := by
            rw [hk]; ring
          rw [e]; exact hr1
      · rw [hpos]
        simp only [StablePoti.position, if_neg hraw, hk]
        by_cases hk' : k = 1
        · subst hk'; simp
        · rw [if_neg (by omega), if_neg hk', Nat.mod_eq_of_lt (by omega)]
          omega
      · simp [hpos]
    · by_cases ho1 : s._openNumRawAvg = 1
      · -- the last sample of a sequence
        have hpos : s.position = 0 := by simp [StablePoti.position, hTu, ho1]
        have hT1' : s._internalRawAvg ≤ M * (k : Int) := by
          have e : M * ((k : Int) + 1 - (s._openNumRawAvg : Int)) = M * k := by
            rw [ho1]; push_cast; ring
          rw [e] at hT1; exact hT1
        have hS : s._internalRawAvg + raw ≤ M * ((k : Int) + 1) := by
          have e : M * ((k : Int) + 1) = M * k + M := by ring
          rw [e]; omega
        have hM8 : M * ((k : Int) + 1) ≤ M * 8 :=
          mul_le_mul_of_nonneg_left (by omega) hM0
        have hwrap : pf.wrap (s._internalRawAvg + raw) = s._internalRawAvg + raw :=
          pf.wrap_eq_self _ hb (by omega) (by omega)
        have hj : pf.wrap ((s._addNumRawAvg : Int) + 1) = (k : Int) + 1 := by
          rw [hk]; exact pf.wrap_small _ hb (by omega) (by omega)
        have hj2 : pf.wrap (((k : Int) + 1) * 2) = 2 * ((k : Int) + 1) := by
          rw [pf.wrap_small _ hb (by omega) (by omega)]; ring
        have hnum : pf.wrap ((s._internalRawAvg + raw) * 2 + ((k : Int) + 1))
            = 2 * (s._internalRawAvg + raw) + ((k : Int) + 1) := by
          rw [pf.wrap_eq_self _ hb (by omega) (by omega)]; ring
        have hdiv : Int.tdiv (2 * (s._internalRawAvg + raw) + ((k : Int) + 1)) (2 * ((k : Int) + 1))
            = (2 * (s._internalRawAvg + raw) + ((k : Int) + 1)) / (2 * ((k : Int) + 1)) :=
          Int.tdiv_eq_ediv (by omega) (by omega)
        have hst : StablePoti.stabilize pf s current raw
            = StablePoti.weighting pf
                { s with _lastReadMillis := current
                         _internalRawAvg := s._internalRawAvg + raw
                         _openNumRawAvg := 0 }
                ((2 * (s._internalRawAvg + raw) + ((k : Int) + 1)) / (2 * ((k : Int) + 1))) := by
          unfold StablePoti.stabilize
          rw [if_pos (by omega), if_neg hTu, if_neg ho0, if_neg (by rw [ho1]; decide)]
          rw [hwrap, hj, hj2, hnum, hdiv, ho1]
        have hab := averaging_bounds M (s._internalRawAvg + raw) k (by omega) hS
        have hfr := StablePoti.weighting_frame pf
          { s with _lastReadMillis := current
                   _internalRawAvg := s._internalRawAvg + raw
                   _openNumRawAvg := 0 }
          ((2 * (s._internalRawAvg + raw) + ((k : Int) + 1)) / (2 * ((k : Int) + 1)))
        have hbd := StablePoti.weighting_bounds pf hb M hM
          { s with _lastReadMillis := current
                   _internalRawAvg := s._internalRawAvg + raw
                   _openNumRawAvg := 0 }
          ((2 * (s._internalRawAvg + raw) + ((k : Int) + 1)) / (2 * ((k : Int) + 1)))
          hw hprev hab.1 hab.2
        rw [hst]
        obtain ⟨-, f2, f3, f4, f5, f6⟩ := hfr
        refine ⟨⟨f2.trans hk, by rw [f5]; exact hw, by rw [f3]; simp only; omega,
          Or.inr (by rw [f6]; exact hbd), Or.inr ?_⟩, ?_, ?_, fun _ => hbd⟩
        · rw [f4, f3]
          simp only
          constructor
          · omega
          · push_cast; simpa using hS
        · have hp1 : (StablePoti.weighting pf
              { s with _lastReadMillis := current
                       _internalRawAvg := s._internalRawAvg + raw
                       _openNumRawAvg := 0 }
              ((2 * (s._internalRawAvg + raw) + ((k : Int) + 1)) / (2 * ((k : Int) + 1)))).2.position
              = 1 := by
            simp only [StablePoti.position, f4, f3]
            rw [if_neg (by omega)]
            simp
          rw [hp1, hpos]
          exact (Nat.mod_eq_of_lt (by omega)).symm
        · constructor
          · intro _; exact hpos
          · intro _; omega
      · -- a sample in the middle of a sequence
        have hpos : s.position = k + 2 - s._openNumRawAvg := by
          simp [StablePoti.position, hTu, ho0, ho1, hk]
        have hwrap : pf.wrap (s._internalRawAvg + raw) = s._internalRawAvg + raw := by
          have : M * ((k : Int) + 1 - (s._openNumRawAvg : Int)) ≤ M * 8 :=
            mul_le_mul_of_nonneg_left (by omega) hM0
          exact pf.wrap_eq_self _ hb (by omega) (by omega)
        have hdec : (s._openNumRawAvg + 255) % 256 = s._openNumRawAvg - 1 := by omega
        have hst : StablePoti.stabilize pf s current raw
            = (POTI_VALUE_UNDEFINED,
                { s with _lastReadMillis := current
                         _internalRawAvg := s._internalRawAvg + raw
                         _openNumRawAvg := s._openNumRawAvg - 1 }) := by
          unfold StablePoti.stabilize
          rw [if_pos (by omega), if_neg hTu, if_neg ho0, if_pos (by omega)]
          rw [hwrap, hdec]
        rw [hst]
        refine ⟨⟨hk, hw, by simp only; omega, hprev, Or.inr ?_⟩, ?_, ?_, fun h => absurd rfl h⟩
        · simp only
          constructor
          · omega
          · have e : M * ((k : Int) + 1 - ((s._openNumRawAvg - 1 : Nat) : Int))
                = M * ((k : Int) + 1 - (s._openNumRawAvg : Int)) + M := by
              rw [Nat.cast_sub (by omega)]; push_cast; ring
            rw [e]; omega
        · rw [hpos]
          have hne : s._internalRawAvg + raw ≠ POTI_VALUE_UNDEFINED := by
            have : M * ((k : Int) + 1 - (s._openNumRawAvg : Int)) ≤ M * 7 :=
              mul_le_mul_of_nonneg_left (by omega) hM0
            omega
          simp only [StablePoti.position, if_neg hne, hk]
          rw [if_neg (by omega)]
          by_cases h2 : s._openNumRawAvg = 2
          · rw [if_pos (by omega), h2]
            have : k + 2 - 2 + 1 = k + 1 := by omega
            rw [this, Nat.mod_self]
          · rw [if_neg (by omega), Nat.mod_eq_of_lt (by omega)]
            omega
        · constructor
          · intro h; exact absurd rfl h
          · intro h; rw [hpos] at h; omega

theorem StablePoti.hasChanged_state (pf : Platform) (p : StablePoti) (current : Nat) (raw : Int) :
    (p.hasChanged pf current raw).2._addNumRawAvg
        = (p.getStabilizedRawValue pf current raw).2._addNumRawAvg
    ∧ (p.hasChanged pf current raw).2._openNumRawAvg
        = (p.getStabilizedRawValue pf current raw).2._openNumRawAvg
    ∧ (p.hasChanged pf current raw).2._internalRawAvg
        = (p.getStabilizedRawValue pf current raw).2._internalRawAvg
    ∧ (p.hasChanged pf current raw).2._weightPrev
        = (p.getStabilizedRawValue pf current raw).2._weightPrev
    ∧ (p.hasChanged pf current raw).2._prevValueInternal
        = (p.getStabilizedRawValue pf current raw).2._prevValueInternal
    ∧ (p.hasChanged pf current raw).2._lastReadMillis
        = (p.getStabilizedRawValue pf current raw).2._lastReadMillis
    ∧ (p.hasChanged pf current raw).2._readCycleMillis
        = (p.getStabilizedRawValue pf current raw).2._readCycleMillis := by
  unfold StablePoti.hasChanged
  split_ifs <;> exact ⟨rfl, rfl, rfl, rfl, rfl, rfl, rfl⟩

theorem StablePoti.hasChanged_of_undefined (pf : Platform) (p : StablePoti) (current : Nat)
    (raw : Int) (h : (p.getStabilizedRawValue pf current raw).1 = POTI_VALUE_UNDEFINED) :
    (p.hasChanged pf current raw).1 = false := by
  simp [StablePoti.hasChanged, h]

theorem StablePoti.trace_cycle (pf : Platform) (hb : 16 ≤ pf.intBits) (M : Int)
    (hM0 : 0 ≤ M) (hM : 16 * M + 8 ≤ pf.intMax) (hM2 : M ≤ 4095) (k : Nat)
    (hk1 : 1 ≤ k) (hk2 : k ≤ 7) (qs : List Poll) :
    ∀ (s : StablePoti) (c : Nat), StablePoti.Inv M k s → s.position = c % (k + 1) →
      (∀ q ∈ qs, 0 ≤ q.raw ∧ q.raw ≤ M) →
      (StablePoti.trace pf s qs).map (fun e => decide (e.2.1 ≠ POTI_VALUE_UNDEFINED))
          = producesValue k c ((StablePoti.trace pf s qs).map fun e => e.1)
      ∧ ∀ e ∈ StablePoti.trace pf s qs, e.2.1 = POTI_VALUE_UNDEFINED → e.2.2 = false := by
  induction qs with
  | nil => intro s c _ _ _; simp [StablePoti.trace, producesValue]
  | cons q qs ih =>
    intro s c hinv hpos hq
    have hq1 := hq q (List.mem_cons_self _ _)
    have hqs : ∀ x ∈ qs, 0 ≤ x.raw ∧ x.raw ≤ M := fun x hx => hq x (List.mem_cons_of_mem _ hx)
    obtain ⟨e1, e2, e3, e4, e5, -, -⟩ := StablePoti.hasChanged_state pf s q.current q.raw
    have hU := StablePoti.hasChanged_of_undefined pf s q.current q.raw
    by_cases hg : s.gatedOut q.current = true
    · have hgs := StablePoti.getStabilizedRawValue_of_gatedOut pf s q.current q.raw hg
      rw [hgs] at e1 e2 e3 e4 e5 hU
      have hinv' : StablePoti.Inv M k (s.hasChanged pf q.current q.raw).2 := by
        simp only [StablePoti.Inv, e1, e2, e3, e4, e5]
        exact hinv
      have hpos' : (s.hasChanged pf q.current q.raw).2.position = c % (k + 1) := by
        simp only [StablePoti.position, e1, e2, e3]
        exact hpos
      obtain ⟨ih1, ih2⟩ := ih _ c hinv' hpos' hqs
      constructor
      · simp only [StablePoti.trace, List.map_cons, producesValue, hg, hgs, ih1]
        simp
      · intro e he
        simp only [StablePoti.trace, List.mem_cons] at he
        rcases he with rfl | he
        · intro _; exact hU rfl
        · exact ih2 e he
    · have hg' : s.gatedOut q.current = false := by simpa using hg
      have hgs := StablePoti.getStabilizedRawValue_of_accepted pf s q.current q.raw hg'
      obtain ⟨c1, c2, c3, -⟩ := StablePoti.stabilize_cycle pf hb M hM0 hM hM2 k hk1 hk2 s hinv
        q.current q.raw hq1.1 hq1.2
      rw [← hgs] at c1 c2 c3
      have hinv' : StablePoti.Inv M k (s.hasChanged pf q.current q.raw).2 := by
        simp only [StablePoti.Inv, e1, e2, e3, e4, e5]
        exact c1
      have hpos' : (s.hasChanged pf q.current q.raw).2.position = (c + 1) % (k + 1) := by
        have : (s.hasChanged pf q.current q.raw).2.position
            = (s.getStabilizedRawValue pf q.current q.raw).2.position := by
          simp only [StablePoti.position, e1, e2, e3]
        rw [this, c2, hpos, Nat.add_mod, Nat.mod_mod, ← Nat.add_mod]
      obtain ⟨ih1, ih2⟩ := ih _ (c + 1) hinv' hpos' hqs
      constructor
      · simp only [StablePoti.trace, List.map_cons, producesValue, hg', ih1]
        simp only [Bool.not_false, Bool.true_and, if_true, List.cons.injEq, and_true]
        rw [hpos] at c3
        by_cases h0 : c % (k + 1) = 0
        · simp [h0, c3.2 h0]
        · have : (s.getStabilizedRawValue pf q.current q.raw).1 = POTI_VALUE_UNDEFINED := by
            by_contra hne
            exact h0 (c3.1 hne)
          simp [h0, this]
      · intro e he
        simp only [StablePoti.trace, List.mem_cons] at he
        rcases he with rfl | he
        · intro h; exact hU h
        · exact ih2 e he

/-- C6 as stated fails: with one extra sample (groups of two) the first poll
after construction passes its sample through at once, a stabilized value after
one accepted sample; the same after a reset. -/
theorem StablePoti.first_sample_not_averaged :
    StablePoti.trace Platform.avr (StablePoti.new 7 2 0 1) [⟨1, 10⟩] = [(true, 10, true)]
    ∧ StablePoti.trace Platform.avr
        (StablePoti.run Platform.avr (StablePoti.new 7 2 0 1) [⟨1, 10⟩, ⟨3, 10⟩]).reset
        [⟨4, 20⟩] = [(true, 20, true)] := by
  decide

/-- C6, amended.  On every platform whose `int` has at least 16 bits, for
`k` in 1..7 extra samples, any weight up to 12 and samples in `0..M`
(`M ≤ 4095`, `16 * M + 8` within `int`): over every run of polls of a
constructed or reset `StablePoti`, a poll returns a stabilized value (other
than `POTI_VALUE_UNDEFINED`) exactly when it is accepted and the number of
samples accepted before it is a multiple of `k + 1`: the first accepted sample
alone, and after that each accepted sample that completes a group of exactly
`k + 1`.  Every other poll returns `POTI_VALUE_UNDEFINED` from
`getStabilizedRawValue`, and every poll that does returns false from
`hasChanged`.  The sequence of the test with `k = 1`, weight 4 produces 500,
625, 788 and 432 at the first, third, fifth and seventh poll. -/
theorem StablePoti.averaging_count (pf : Platform) (M : Int) (s : StablePoti) (qs : List Poll)
    (hb : 16 ≤ pf.intBits) (hM0 : 0 ≤ M) (hM : 16 * M + 8 ≤ pf.intMax) (hM2 : M ≤ 4095)
    (hk1 : 1 ≤ s._addNumRawAvg) (hk2 : s._addNumRawAvg ≤ 7) (hw : s._weightPrev ≤ 12)
    (hfresh : s._internalRawAvg = POTI_VALUE_UNDEFINED ∧ s._openNumRawAvg = 0
      ∧ s._prevValueInternal = POTI_VALUE_UNDEFINED)
    (hq : ∀ q ∈ qs, 0 ≤ q.raw ∧ q.raw ≤ M) :
    (StablePoti.trace pf s qs).map (fun e => decide (e.2.1 ≠ POTI_VALUE_UNDEFINED))
        = producesValue s._addNumRawAvg 0 ((StablePoti.trace pf s qs).map fun e => e.1)
    ∧ (∀ e ∈ StablePoti.trace pf s qs, e.2.1 = POTI_VALUE_UNDEFINED → e.2.2 = false)
    ∧ (∀ a b c d : Nat,
        (StablePoti.new a b c d)._internalRawAvg = POTI_VALUE_UNDEFINED
        ∧ (StablePoti.new a b c d)._openNumRawAvg = 0
        ∧ (StablePoti.new a b c d)._prevValueInternal = POTI_VALUE_UNDEFINED)
    ∧ (∀ p : StablePoti,
        p.reset._internalRawAvg = POTI_VALUE_UNDEFINED ∧ p.reset._openNumRawAvg = 0
        ∧ p.reset._prevValueInternal = POTI_VALUE_UNDEFINED
        ∧ p.reset._addNumRawAvg = p._addNumRawAvg ∧ p.reset._weightPrev = p._weightPrev)
    ∧ StablePoti.trace Platform.avr (StablePoti.new 7 0 4 1)
        [⟨1, 500⟩, ⟨2, 700⟩, ⟨3, 800⟩, ⟨4, 900⟩, ⟨5, 1000⟩, ⟨6, 100⟩, ⟨7, 50⟩]
      = [(true, 500, true), (true, POTI_VALUE_UNDEFINED, false), (true, 625, true),
          (true, POTI_VALUE_UNDEFINED, false), (true, 788, true),
          (true, POTI_VALUE_UNDEFINED, false), (true, 432, true)] := by
  have hinv : StablePoti.Inv M s._addNumRawAvg s :=
    ⟨rfl, hw, by omega, Or.inl hfresh.2.2, Or.inl ⟨hfresh.1, hfresh.2.1⟩⟩
  have hpos : s.position = 0 % (s._addNumRawAvg + 1) := by
    simp [StablePoti.position, hfresh.1]
  obtain ⟨h1, h2⟩ := StablePoti.trace_cycle pf hb M hM0 hM hM2 s._addNumRawAvg hk1 hk2 qs s 0
    hinv hpos hq
  exact ⟨h1, h2, fun _ _ _ _ => ⟨rfl, rfl, rfl⟩, fun _ => ⟨rfl, rfl, rfl, rfl, rfl⟩, by decide⟩

/-- Witness for C6: two extra samples, cycle time 2 ms, five polls of which the
second is gated out. -/
theorem StablePoti.averaging_count_witness :
    (StablePoti.trace Platform.avr (StablePoti.new 7 2 4 2)
        [⟨1, 500⟩, ⟨2, 510⟩, ⟨3, 520⟩, ⟨4, 530⟩, ⟨5, 540⟩]).map
        (fun e => decide (e.2.1 ≠ POTI_VALUE_UNDEFINED))
      = producesValue 2 0 [true, false, true, true, true] :=
  ((StablePoti.averaging_count Platform.avr 1023 (StablePoti.new 7 2 4 2)
      [⟨1, 500⟩, ⟨2, 510⟩, ⟨3, 520⟩, ⟨4, 530⟩, ⟨5, 540⟩]
      (by decide) (by decide) (by decide) (by decide) (by decide) (by decide) (by decide)
      (by decide) (by decide)).1).trans (by decide)

/-! ## Exact floating-point operations -/

/-- The rounding function on known values: `0.1f`, `1.1f` and the `double` `1.1`,
a tie that goes to the even significand, and a negative value. -/
theorem roundFloat_examples :
    roundFloat 24 (1 / 10) = 13421773 / 134217728
    ∧ roundFloat 24 (11 / 10) = 9227469 / 8388608
    ∧ roundFloat 53 (11 / 10) = 2476979795053773 / 2251799813685248
    ∧ roundFloat 24 16777217 = 16777216
    ∧ roundFloat 24 16777219 = 16777220
    ∧ roundFloat 24 (-1 / 3) = -11184811 / 33554432 := by
  decide!


theorem bitLenAux_zero (fuel : Nat) : bitLenAux fuel 0 = 0 := by
  cases fuel <;> simp [bitLenAux]

theorem bitLenAux_spec (fuel : Nat) : ∀ n : Nat, n ≤ fuel → 0 < n →
    1 ≤ bitLenAux fuel n ∧ 2 ^ (bitLenAux fuel n - 1) ≤ n ∧ n < 2 ^ bitLenAux fuel n := by
  induction fuel with
  | zero => intro n h1 h2; omega
  | succ fuel ih =>
    intro n h1 h2
    have hn : n ≠ 0 := by omega
    simp only [bitLenAux, if_neg hn]
    by_cases h : n / 2 = 0
    · rw [h, bitLenAux_zero]
      have : n = 1 := by omega
      subst this
      simp
    · obtain ⟨i1, i2, i3⟩ := ih (n / 2) (by omega) (by omega)
      refine ⟨by omega, ?_, ?_⟩
      · have e : bitLenAux fuel (n / 2) + 1 - 1 = (bitLenAux fuel (n / 2) - 1) + 1 := by omega
        rw [e, pow_succ]
        omega
      · rw [pow_succ]
        omega

theorem bitLen_spec (n : Nat) (hn : 0 < n) :
    1 ≤ bitLen n ∧ 2 ^ (bitLen n - 1) ≤ n ∧ n < 2 ^ bitLen n :=
  bitLenAux_spec n n (le_refl n) hn

theorem bitLen_two_pow (j : Nat) : bitLen (2 ^ j) = j + 1 := by
  obtain ⟨h1, h2, h3⟩ := bitLen_spec (2 ^ j) (by positivity)
  have a := (Nat.pow_le_pow_iff_right (a := 2) (by norm_num)).1 h2
  have b := (Nat.pow_lt_pow_iff_right (a := 2) (by norm_num)).1 h3
  omega

theorem bitLen_le_of_lt (n prec : Nat) (hn : 0 < n) (h : n < 2 ^ prec) : bitLen n ≤ prec := by
  obtain ⟨h1, h2, -⟩ := bitLen_spec n hn
  have : 2 ^ (bitLen n - 1) < 2 ^ prec := lt_of_le_of_lt h2 h
  have := (Nat.pow_lt_pow_iff_right (a := 2) (by norm_num)).1 this
  omega

theorem ulpExponent_dyadic (prec n j : Nat) (hn : 0 < n) :
    ulpExponent prec n (2 ^ j) = (bitLen n : Int) - (j : Int) - (prec : Int) := by
  obtain ⟨h1, h2, -⟩ := bitLen_spec n hn
  unfold ulpExponent
  rw [bitLen_two_pow]
  simp only
  have hc : 2 ^ j * 2 ^ ((bitLen n : Int) - ((j + 1 : Nat) : Int)).toNat
      ≤ n * 2 ^ (-((bitLen n : Int) - ((j + 1 : Nat) : Int))).toNat := by
    by_cases hb : j + 1 ≤ bitLen n
    · have e1 : ((bitLen n : Int) - ((j + 1 : Nat) : Int)).toNat = bitLen n - (j + 1) := by omega
      have e2 : (-((bitLen n : Int) - ((j + 1 : Nat) : Int))).toNat = 0 := by omega
      rw [e1, e2, ← pow_add]
      have : j + (bitLen n - (j + 1)) = bitLen n - 1 := by omega
      rw [this]
      simpa using h2
    · have e1 : ((bitLen n : Int) - ((j + 1 : Nat) : Int)).toNat = 0 := by omega
      have e2 : (-((bitLen n : Int) - ((j + 1 : Nat) : Int))).toNat = j + 1 - bitLen n := by omega
      rw [e1, e2]
      have : 2 ^ j = 2 ^ (bitLen n - 1) * 2 ^ (j + 1 - bitLen n) := by
        rw [← pow_add]; congr 1; omega
      rw [pow_zero, mul_one, this]
      exact Nat.mul_le_mul_right _ h2
  rw [if_pos hc]
  push_cast
  ring

theorem roundSignificand_dyadic (prec n j : Nat) (hn : 0 < n) (hp : n < 2 ^ prec) :
    roundSignificand prec n (2 ^ j) = n * 2 ^ (prec - bitLen n) := by
  have hb := bitLen_le_of_lt n prec hn hp
  unfold roundSignificand
  rw [ulpExponent_dyadic prec n j hn]
  have e1 : (-((bitLen n : Int) - (j : Int) - (prec : Int))).toNat = (prec - bitLen n) + j := by omega
  have e2 : ((bitLen n : Int) - (j : Int) - (prec : Int)).toNat = 0 := by omega
  rw [e1, e2, pow_zero, mul_one, pow_add, ← mul_assoc]
  unfold divRoundEven
  have hpos : 0 < 2 ^ j := by positivity
  rw [Nat.mul_mod_left, Nat.mul_div_cancel _ hpos, if_pos (by omega)]

theorem roundFloat_of_num_den (prec : Nat) (q : ℚ) (j : Nat) (hq : 0 < q) (hd : q.den = 2 ^ j)
    (hp : q.num.natAbs < 2 ^ prec) : roundFloat prec q = q := by
  have hnum : 0 < q.num := Rat.num_pos.2 hq
  have hn : 0 < q.num.natAbs := by omega
  have hb := bitLen_le_of_lt _ prec hn hp
  unfold roundFloat
  rw [if_neg (by omega), if_neg (by omega), hd, roundSignificand_dyadic prec _ j hn hp,
    ulpExponent_dyadic prec _ j hn]
  have e1 : (-((bitLen q.num.natAbs : Int) - (j : Int) - (prec : Int))).toNat
      = (prec - bitLen q.num.natAbs) + j := by omega
  have e2 : ((bitLen q.num.natAbs : Int) - (j : Int) - (prec : Int)).toNat = 0 := by omega
  rw [e1, e2, Rat.mkRat_eq_div]
  have hcast : ((q.num.natAbs : Nat) : ℚ) = (q.num : ℚ) := by
    rw [Nat.cast_natAbs, abs_of_pos hnum]
  have hq' : (q.num : ℚ) / (2 ^ j : ℚ) = q := by
    conv_rhs => rw [← Rat.num_div_den q, hd]
    push_cast
    rfl
  have h2 : ((2 : ℚ) ^ (prec - bitLen q.num.natAbs)) ≠ 0 := by positivity
  have h3 : ((2 : ℚ) ^ j) ≠ 0 := by positivity
  rw [Int.cast_natCast, Nat.cast_mul, hcast]
  push_cast
  rw [pow_add]
  conv_rhs => rw [← hq']
  field_simp
  ring

theorem roundFloat_exact (prec m j : Nat) (hm : m < 2 ^ prec) :
    roundFloat prec ((m : ℚ) / 2 ^ j) = (m : ℚ) / 2 ^ j := by
  rcases Nat.eq_zero_or_pos m with rfl | hpos
  · simp [roundFloat]
  · have hq : (0 : ℚ) < (m : ℚ) / 2 ^ j := by positivity
    have hnum : 0 < ((m : ℚ) / 2 ^ j).num := Rat.num_pos.2 hq
    -- cross multiplication
    have hx : (((m : ℚ) / 2 ^ j).num : ℚ) * 2 ^ j = (m : ℚ) * (((m : ℚ) / 2 ^ j).den : ℚ) := by
      have h := Rat.num_div_den ((m : ℚ) / 2 ^ j)
      have hden : ((((m : ℚ) / 2 ^ j).den : ℚ)) ≠ 0 := by
        exact_mod_cast (Rat.den_pos _).ne'
      field_simp at h
      linarith
    have hcast : ((((m : ℚ) / 2 ^ j).num.natAbs : Nat) : ℚ) = (((m : ℚ) / 2 ^ j).num : ℚ) := by
      rw [Nat.cast_natAbs, abs_of_pos hnum]
    have hxn : ((m : ℚ) / 2 ^ j).num.natAbs * 2 ^ j = m * ((m : ℚ) / 2 ^ j).den := by
      have h2 : ((((m : ℚ) / 2 ^ j).num.natAbs * 2 ^ j : Nat) : ℚ)
          = ((m * ((m : ℚ) / 2 ^ j).den : Nat) : ℚ) := by
        rw [Nat.cast_mul, Nat.cast_mul, hcast, ← hx]
        push_cast
        rfl
      exact_mod_cast h2
    have hdvd : ((m : ℚ) / 2 ^ j).den ∣ 2 ^ j := by
      have hco := (Rat.reduced ((m : ℚ) / 2 ^ j)).symm
      exact hco.dvd_of_dvd_mul_left ⟨m, by rw [hxn]; ring⟩
    obtain ⟨k, hk, hden⟩ := (Nat.dvd_prime_pow Nat.prime_two).1 hdvd
    have hle : ((m : ℚ) / 2 ^ j).num.natAbs ≤ m := by
      rw [hden] at hxn
      have h2 : (2 : Nat) ^ k ≤ 2 ^ j := Nat.pow_le_pow_right (by norm_num) hk
      have h3 : 0 < (2 : Nat) ^ k := by positivity
      by_contra hcon
      push_neg at hcon
      have : m * 2 ^ k < ((m : ℚ) / 2 ^ j).num.natAbs * 2 ^ j :=
        calc m * 2 ^ k < ((m : ℚ) / 2 ^ j).num.natAbs * 2 ^ k := Nat.mul_lt_mul_of_pos_right hcon h3
          _ ≤ ((m : ℚ) / 2 ^ j).num.natAbs * 2 ^ j := Nat.mul_le_mul_left _ h2
      omega
    exact roundFloat_of_num_den prec _ k hq hden (lt_of_le_of_lt hle hm)

theorem roundFloat_natCast (prec m : Nat) (hm : m < 2 ^ prec) :
    roundFloat prec (m : ℚ) = (m : ℚ) := by
  have := roundFloat_exact prec m 0 hm
  simpa using this

theorem two_pow_ten_le (prec : Nat) (hp : 10 ≤ prec) : 1024 ≤ 2 ^ prec := by
  have h : 2 ^ 10 ≤ 2 ^ prec := Nat.pow_le_pow_right (by norm_num) hp
  norm_num at h
  exact h

theorem roundFloat_small (prec : Nat) (hp : 10 ≤ prec) (m j : Nat) (hm : m ≤ 1023) :
    roundFloat prec ((m : ℚ) / 2 ^ j) = (m : ℚ) / 2 ^ j :=
  roundFloat_exact prec m j (by have := two_pow_ten_le prec hp; omega)

theorem roundFloat_small_nat (prec : Nat) (hp : 10 ≤ prec) (m : Nat) (hm : m ≤ 1023) :
    roundFloat prec (m : ℚ) = (m : ℚ) := by
  have := roundFloat_small prec hp m 0 hm
  simpa using this

theorem truncQ_natCast_div (x d : Nat) : truncQ ((x : ℚ) / (d : ℚ)) = ((x / d : Nat) : Int) := by
  unfold truncQ
  rw [if_pos (by positivity)]
  have h := Rat.floor_intCast_div_natCast (x : Int) d
  rw [Int.cast_natCast] at h
  have h2 : Rat.floor ((x : ℚ) / (d : ℚ)) = ⌊(x : ℚ) / (d : ℚ)⌋ := rfl
  rw [h2, h]
  norm_cast

/-! ## Claims on `MappedPoti::getMapping` and `MappedPoti::hasChanged` -/

theorem MappedPoti.getMapping_congr (pf : Platform) (p p' : MappedPoti)
    (hn : p._numMapping = p'._numMapping) (hs : p._stretch = p'._stretch)
    (hm : p._maxAnalogVal = p'._maxAnalogVal) (raw lo hi : Int) :
    MappedPoti.getMapping pf p raw lo hi = MappedPoti.getMapping pf p' raw lo hi := by
  have hc : p.correction = p'.correction := by
    funext m
    simp only [MappedPoti.correction, hn]
  simp only [MappedPoti.getMapping, MappedPoti.inCenter, MappedPoti.tmpFloat, MappedPoti.valTot,
    MappedPoti.mapTot, MappedPoti.scale, MappedPoti.leftSide, MappedPoti.centerValLow,
    MappedPoti.centerValHigh, MappedPoti.halfWidth, MappedPoti.centered,
    MappedPoti.implicitCenter, hc, hn, hs, hm]

/-- At stretch 0 with 512 raw values and 2 levels on a side the bucket index is
the raw distance divided by 256, computed without rounding error. -/
theorem MappedPoti.bucket_linear (pf : Platform) (hf : 10 ≤ pf.floatPrec)
    (hd : 10 ≤ pf.doublePrec) (x : Nat) (hx : x ≤ 1023) :
    MappedPoti.bucket pf 256 1 512 (x : Int) = some ((x / 256 : Nat) : Int) := by
  have f256 : pf.toFloat 256 = 256 := by
    have := roundFloat_small_nat pf.floatPrec hf 256 (by norm_num)
    simpa [Platform.toFloat] using this
  have d0 : pf.toDouble 0 = 0 := by simp [Platform.toDouble, roundFloat]
  have d1 : pf.toDouble 1 = 1 := by
    have := roundFloat_small_nat pf.doublePrec hd 1 (by norm_num)
    simpa [Platform.toDouble] using this
  have d256 : pf.toDouble 256 = 256 := by
    have := roundFloat_small_nat pf.doublePrec hd 256 (by norm_num)
    simpa [Platform.toDouble] using this
  have dx : pf.toDouble (x : ℚ) = (x : ℚ) := roundFloat_small_nat pf.doublePrec hd x hx
  have dq : pf.toDouble ((x : ℚ) / 256) = (x : ℚ) / 256 := by
    have := roundFloat_small pf.doublePrec hd x 8 hx
    norm_num at this
    exact this
  have ht := truncQ_natCast_div x 256
  simp only [MappedPoti.bucket, Platform.divFloat, Platform.divDouble, bind, Option.bind,
    pure]
  norm_num [f256, d0, d1, d256, dx, dq]
  exact_mod_cast ht

theorem MappedPoti.getMapping_linear_four (pf : Platform) (hb : 16 ≤ pf.intBits)
    (hf : 10 ≤ pf.floatPrec) (hd : 10 ≤ pf.doublePrec) (p : MappedPoti) (raw : Nat)
    (hn : p._numMapping = 4) (hs : p._stretch = 0) (hm : p._maxAnalogVal = 1023)
    (hr : raw ≤ 1023) :
    MappedPoti.getMapping pf p (raw : Int) 0 0 = some (raw / 256) := by
  have f2 : pf.toFloat 2 = 2 := by
    have := roundFloat_small_nat pf.floatPrec hf 2 (by norm_num)
    simpa [Platform.toFloat] using this
  have f1 : pf.toFloat 1 = 1 := by
    have := roundFloat_small_nat pf.floatPrec hf 1 (by norm_num)
    simpa [Platform.toFloat] using this
  have f256 : pf.toFloat 256 = 256 := by
    have := roundFloat_small_nat pf.floatPrec hf 256 (by norm_num)
    simpa [Platform.toFloat] using this
  have f512 : pf.toFloat 512 = 512 := by
    have := roundFloat_small_nat pf.floatPrec hf 512 (by norm_num)
    simpa [Platform.toFloat] using this
  have fnat : ∀ m : Nat, m ≤ 1023 → pf.toFloat (m : ℚ) = (m : ℚ) := fun m h =>
    roundFloat_small_nat pf.floatPrec hf m h
  have dnat : ∀ m : Nat, m ≤ 1023 → pf.toDouble (m : ℚ) = (m : ℚ) := fun m h =>
    roundFloat_small_nat pf.doublePrec hd m h
  have d0 : pf.toDouble 0 = 0 := by simp [Platform.toDouble, roundFloat]
  have d1 : pf.toDouble 1 = 1 := by
    have := roundFloat_small_nat pf.doublePrec hd 1 (by norm_num)
    simpa [Platform.toDouble] using this
  have hic : p.implicitCenter 0 = false := by simp [MappedPoti.implicitCenter, hn]
  have hce : p.centered 0 = false := by simp [MappedPoti.centered, hic]
  have hin : p.inCenter pf raw 0 0 = false := by simp [MappedPoti.inCenter, hce]
  have hhalf : (pf.wrap (p._maxAnalogVal + 1)) >>> 1 = 512 := by
    rw [hm, pf.wrap_small _ hb (by norm_num) (by norm_num)]
    rfl
  have hls : p.leftSide pf raw 0 = decide ((raw : Int) < 512) := by
    simp [MappedPoti.leftSide, hce, hhalf]
  have hvt : p.valTot pf raw 0 0 = 512 := by
    simp [MappedPoti.valTot, hce, hhalf, f512]
  have hmt : p.mapTot pf 0 = 2 := by
    simp [MappedPoti.mapTot, hce, hn, Nat.shiftRight_eq_div_pow, f2]
  have hsc : p.scale pf = 1 := by
    simp [MappedPoti.scale, hs, d0, d1, f1]
  have hstd : pf.divFloat 512 2 = some 256 := by
    simp only [Platform.divFloat]
    norm_num [f256]
  have hw3 : pf.wrap ((p._numMapping : Int) - 1) = 3 := by
    rw [hn, pf.wrap_small _ hb (by norm_num) (by norm_num)]
    norm_num
  have d3 : pf.toDouble ((3 : Int) : ℚ) = ((3 : Int) : ℚ) := by
    have := roundFloat_small_nat pf.doublePrec hd 3 (by norm_num)
    simpa [Platform.toDouble] using this
  unfold MappedPoti.getMapping
  rw [hin]
  rw [if_neg (by simp)]
  unfold MappedPoti.tmpFloat
  rw [hvt, hmt, hstd, hsc, hls, Option.some_bind]
  by_cases hl : (raw : Int) < 512
  · have hl' : raw < 512 := by exact_mod_cast hl
    simp only [hl, decide_True, if_true, MappedPoti.bucket_linear pf hf hd raw hr,
      Option.map_some', Option.some_bind]
    have ht : pf.toFloat (((raw / 256 : Nat) : Int) : ℚ) = ((raw / 256 : Nat) : ℚ) := by
      rw [Int.cast_natCast]; exact fnat _ (by omega)
    have hu : floatToUint8 ((raw / 256 : Nat) : ℚ) = some (raw / 256) := by
      have := truncQ_natCast_div (raw / 256) 1
      simp only [Nat.cast_one, div_one, Nat.div_one] at this
      simp [floatToUint8, this]
      omega
    rw [ht, hu]
    simp only [Option.map_some', MappedPoti.correction, hn]
    rw [if_neg (by omega), if_neg (by omega)]
  · have hl' : 512 ≤ raw := by
      have : ¬ raw < 512 := fun h => hl (by exact_mod_cast h)
      omega
    have hx : pf.wrap (p._maxAnalogVal - (raw : Int)) = ((1023 - raw : Nat) : Int) := by
      rw [hm, pf.wrap_small _ hb (by omega) (by omega)]
      omega
    simp only [hl, decide_False, Bool.false_eq_true, if_false, hx, hw3, d3,
      MappedPoti.bucket_linear pf hf hd (1023 - raw) (by omega), Option.map_some',
      Option.some_bind]
    have e : (((3 : Int) : ℚ) - ((((1023 - raw) / 256 : Nat) : Int) : ℚ))
        = ((raw / 256 : Nat) : ℚ) := by
      have h : (((1023 - raw) / 256 : Nat) : Int) = 3 - ((raw / 256 : Nat) : Int) := by
        omega
      rw [h, Int.cast_sub, Int.cast_natCast]
      ring
    rw [e, dnat _ (by omega), fnat _ (by omega)]
    have hu : floatToUint8 ((raw / 256 : Nat) : ℚ) = some (raw / 256) := by
      have := truncQ_natCast_div (raw / 256) 1
      simp only [Nat.cast_one, div_one, Nat.div_one] at this
      simp [floatToUint8, this]
      omega
    rw [hu]
    simp only [Option.map_some', MappedPoti.correction, hn]
    rw [if_neg (by omega), if_neg (by omega)]

/-- C3. Mapping determinism: with 4 levels, stretch 0, largest analog value
1023 and no center (center arguments 0, 0), on every platform whose `int` has
at least 16 bits and whose `float` and `double` have at least 10 significant
bits (both platform models), `getMapping` maps every raw value in 0..255 to
level 0, 256..511 to level 1, 512..767 to level 2 and 768..1023 to level 3. -/
theorem MappedPoti.getMapping_four_levels (pf : Platform) (p : MappedPoti) (raw : Nat)
    (hb : 16 ≤ pf.intBits) (hf : 10 ≤ pf.floatPrec) (hd : 10 ≤ pf.doublePrec)
    (hn : p._numMapping = 4) (hs : p._stretch = 0) (hm : p._maxAnalogVal = 1023)
    (hr : raw ≤ 1023) :
    MappedPoti.getMapping pf p (raw : Int) 0 0
      = some (if raw ≤ 255 then 0 else if raw ≤ 511 then 1 else if raw ≤ 767 then 2 else 3) := by
  have hlvl : (if raw ≤ 255 then 0 else if raw ≤ 511 then 1 else if raw ≤ 767 then 2 else 3)
      = raw / 256 := by
    split_ifs <;> omega
  rw [hlvl]
  exact MappedPoti.getMapping_linear_four pf hb hf hd p raw hn hs hm hr

/-- Witness for C3: the raw values 255 and 256 at the first level boundary, on
the two platform models. -/
theorem MappedPoti.getMapping_four_levels_witness :
    MappedPoti.getMapping Platform.avr (MappedPoti.new 7 0 0 0 4 0) ((255 : Nat) : Int) 0 0
        = some (if 255 ≤ 255 then 0 else if 255 ≤ 511 then 1 else if 255 ≤ 767 then 2 else 3)
    ∧ MappedPoti.getMapping Platform.arm32 (MappedPoti.new 7 0 0 0 4 0) ((256 : Nat) : Int) 0 0
        = some (if 256 ≤ 255 then 0 else if 256 ≤ 511 then 1 else if 256 ≤ 767 then 2 else 3) :=
  ⟨MappedPoti.getMapping_four_levels Platform.avr (MappedPoti.new 7 0 0 0 4 0) 255
      (by decide) (by decide) (by decide) rfl rfl rfl (by decide),
   MappedPoti.getMapping_four_levels Platform.arm32 (MappedPoti.new 7 0 0 0 4 0) 256
      (by decide) (by decide) (by decide) rfl rfl rfl (by decide)⟩

theorem MappedPoti.hasChanged_of_mapping (pf : Platform) (p : MappedPoti) (current : Nat)
    (raw : Int) (lvl : Nat)
    (hd : (p.toStablePoti.getStabilizedRawValue pf current raw).1 ≠ POTI_VALUE_UNDEFINED)
    (hne : (p.toStablePoti.getStabilizedRawValue pf current raw).1 ≠ p._prevValueInternal)
    (hmap : MappedPoti.getMapping pf p (p.toStablePoti.getStabilizedRawValue pf current raw).1 0 0
      = some lvl) :
    p.hasChanged pf current raw
      = some (if lvl ≠ p._curMapValue then
          (true,
            { p with
              toStablePoti :=
                { (p.toStablePoti.getStabilizedRawValue pf current raw).2 with
                  _prevValue := p._curValue
                  _curValue := (p.toStablePoti.getStabilizedRawValue pf current raw).1 }
              _prevMapValue := p._curMapValue
              _curMapValue := lvl })
        else
          (false,
            { p with toStablePoti := (p.toStablePoti.getStabilizedRawValue pf current raw).2 })) := by
  unfold MappedPoti.hasChanged
  rw [if_neg hd, if_neg hne, hmap]
  rfl

theorem MappedPoti.hasChanged_of_no_sample (pf : Platform) (p : MappedPoti) (current : Nat)
    (raw : Int)
    (h : (p.toStablePoti.getStabilizedRawValue pf current raw).1 = POTI_VALUE_UNDEFINED
      ∨ (p.toStablePoti.getStabilizedRawValue pf current raw).1 = p._prevValueInternal) :
    p.hasChanged pf current raw
      = some (false,
          { p with toStablePoti := (p.toStablePoti.getStabilizedRawValue pf current raw).2 }) := by
  unfold MappedPoti.hasChanged
  rcases h with h | h
  · rw [if_pos h]
  · by_cases hu : (p.toStablePoti.getStabilizedRawValue pf current raw).1 = POTI_VALUE_UNDEFINED
    · rw [if_pos hu]
    · rw [if_neg hu, if_pos h]

/-- C2. `MappedPoti::hasChanged` returns a result whenever the level of the
stabilized sample is defined (or not needed).  It returns true exactly when the
stabilized sample is defined, differs from the previous stabilized sample and
its level differs from the current level.  When it returns true, previous
value and level become the old current value and level, and current value and
level become the sample and its level.  When it returns false, the four are
unchanged.  With 4 levels and stretch 1, on both platform models: after the
change at raw 0 a poll with raw 231 returns false and `getValue()` is still 0
although the smoothed previous value has moved to 231. -/
theorem MappedPoti.mapped_change_detection (pf : Platform) (p : MappedPoti) (current : Nat)
    (raw : Int) (res : Bool × MappedPoti) (h : p.hasChanged pf current raw = some res) :
    (res.1 = true
        ↔ ((p.toStablePoti.getStabilizedRawValue pf current raw).1 ≠ POTI_VALUE_UNDEFINED
          ∧ (p.toStablePoti.getStabilizedRawValue pf current raw).1 ≠ p._prevValueInternal
          ∧ MappedPoti.getMapping pf p (p.toStablePoti.getStabilizedRawValue pf current raw).1 0 0
              ≠ some p.getMappedValue))
    ∧ (res.1 = true →
        res.2.getPrevValue = p.getValue ∧ res.2.getMappedPrevValue = p.getMappedValue
        ∧ res.2.getValue = (p.toStablePoti.getStabilizedRawValue pf current raw).1
        ∧ MappedPoti.getMapping pf p (p.toStablePoti.getStabilizedRawValue pf current raw).1 0 0
            = some res.2.getMappedValue)
    ∧ (res.1 = false →
        res.2.getValue = p.getValue ∧ res.2.getMappedValue = p.getMappedValue
        ∧ res.2.getPrevValue = p.getPrevValue
        ∧ res.2.getMappedPrevValue = p.getMappedPrevValue)
    ∧ res.2.toStablePoti._prevValueInternal
        = (p.toStablePoti.getStabilizedRawValue pf current raw).2._prevValueInternal
    ∧ ((p.toStablePoti.getStabilizedRawValue pf current raw).1 = POTI_VALUE_UNDEFINED
          ∨ (p.toStablePoti.getStabilizedRawValue pf current raw).1 = p._prevValueInternal
          ∨ (MappedPoti.getMapping pf p
              (p.toStablePoti.getStabilizedRawValue pf current raw).1 0 0).isSome
        → (p.hasChanged pf current raw).isSome)
    ∧ (∀ pf' ∈ [Platform.avr, Platform.arm32],
        (MappedPoti.run pf' (MappedPoti.new 7 0 0 0 4 1) [⟨1, 0⟩]).map
            (fun t => (t.1, t.2.getValue, t.2.getMappedValue))
          = some ([true], 0, 0)
        ∧ (MappedPoti.run pf' (MappedPoti.new 7 0 0 0 4 1) [⟨1, 0⟩, ⟨2, 231⟩]).map
            (fun t => (t.1, t.2.getValue, t.2.getMappedValue, t.2._prevValueInternal))
          = some ([true, false], 0, 0, 231)) := by
  have hf := StablePoti.getStabilizedRawValue_frame pf p.toStablePoti current raw
  have hex : ∀ pf' ∈ [Platform.avr, Platform.arm32],
      (MappedPoti.run pf' (MappedPoti.new 7 0 0 0 4 1) [⟨1, 0⟩]).map
          (fun t => (t.1, t.2.getValue, t.2.getMappedValue))
        = some ([true], 0, 0)
      ∧ (MappedPoti.run pf' (MappedPoti.new 7 0 0 0 4 1) [⟨1, 0⟩, ⟨2, 231⟩]).map
          (fun t => (t.1, t.2.getValue, t.2.getMappedValue, t.2._prevValueInternal))
        = some ([true, false], 0, 0, 231) := by
    decide!
  have htot : ((p.toStablePoti.getStabilizedRawValue pf current raw).1 = POTI_VALUE_UNDEFINED
        ∨ (p.toStablePoti.getStabilizedRawValue pf current raw).1 = p._prevValueInternal
        ∨ (MappedPoti.getMapping pf p
            (p.toStablePoti.getStabilizedRawValue pf current raw).1 0 0).isSome
      → (p.hasChanged pf current raw).isSome) := fun _ => by rw [h]; rfl
  have main : (res.1 = true
        ↔ ((p.toStablePoti.getStabilizedRawValue pf current raw).1 ≠ POTI_VALUE_UNDEFINED
          ∧ (p.toStablePoti.getStabilizedRawValue pf current raw).1 ≠ p._prevValueInternal
          ∧ MappedPoti.getMapping pf p (p.toStablePoti.getStabilizedRawValue pf current raw).1 0 0
              ≠ some p.getMappedValue))
    ∧ (res.1 = true →
        res.2.getPrevValue = p.getValue ∧ res.2.getMappedPrevValue = p.getMappedValue
        ∧ res.2.getValue = (p.toStablePoti.getStabilizedRawValue pf current raw).1
        ∧ MappedPoti.getMapping pf p (p.toStablePoti.getStabilizedRawValue pf current raw).1 0 0
            = some res.2.getMappedValue)
    ∧ (res.1 = false →
        res.2.getValue = p.getValue ∧ res.2.getMappedValue = p.getMappedValue
        ∧ res.2.getPrevValue = p.getPrevValue
        ∧ res.2.getMappedPrevValue = p.getMappedPrevValue)
    ∧ res.2.toStablePoti._prevValueInternal
        = (p.toStablePoti.getStabilizedRawValue pf current raw).2._prevValueInternal := by
    by_cases hno : (p.toStablePoti.getStabilizedRawValue pf current raw).1 = POTI_VALUE_UNDEFINED
        ∨ (p.toStablePoti.getStabilizedRawValue pf current raw).1 = p._prevValueInternal
    · rw [MappedPoti.hasChanged_of_no_sample pf p current raw hno] at h
      obtain rfl := (Option.some.inj h).symm
      refine ⟨?_, fun hc => by simp at hc, fun _ => ⟨hf.1, rfl, hf.2.1, rfl⟩, rfl⟩
      constructor
      · intro hc; simp at hc
      · rintro ⟨h1, h2, -⟩
        rcases hno with hno | hno
        · exact absurd hno h1
        · exact absurd hno h2
    · push_neg at hno
      obtain ⟨hd, hne⟩ := hno
      rcases hm : MappedPoti.getMapping pf p
          (p.toStablePoti.getStabilizedRawValue pf current raw).1 0 0 with _ | lvl
      · exfalso
        unfold MappedPoti.hasChanged at h
        rw [if_neg hd, if_neg hne, hm] at h
        simp at h
      · rw [MappedPoti.hasChanged_of_mapping pf p current raw lvl hd hne hm] at h
        obtain rfl := (Option.some.inj h).symm
        by_cases hl : lvl = p._curMapValue
        · rw [if_neg (by simpa using hl)]
          refine ⟨?_, fun hc => by simp at hc, fun _ => ⟨hf.1, rfl, hf.2.1, rfl⟩, rfl⟩
          constructor
          · intro hc; simp at hc
          · rintro ⟨-, -, h3⟩
            exact absurd (by rw [hl]; rfl) h3
        · rw [if_pos hl]
          refine ⟨?_, fun _ => ⟨rfl, rfl, rfl, rfl⟩, fun hc => by simp at hc, rfl⟩
          constructor
          · intro _
            refine ⟨hd, hne, ?_⟩
            intro h3
            exact hl (Option.some.inj h3)
          · intro _; rfl
  exact ⟨main.1, main.2.1, main.2.2.1, main.2.2.2, htot, hex⟩

theorem MappedPoti.first_poll_defined :
    ((MappedPoti.new 7 0 0 0 4 1).hasChanged Platform.avr 1 0).isSome = true := by
  decide!

/-- Witness for C2: the first poll of the stretch test (4 levels, stretch 1, raw 0). -/
theorem MappedPoti.mapped_change_detection_witness :
    (((MappedPoti.new 7 0 0 0 4 1).hasChanged Platform.avr 1 0).get
        MappedPoti.first_poll_defined).2.getPrevValue = POTI_VALUE_UNDEFINED
    ∧ (((MappedPoti.new 7 0 0 0 4 1).hasChanged Platform.avr 1 0).get
        MappedPoti.first_poll_defined).2.getMappedPrevValue = POTI_MAPPING_UNDEFINED
    ∧ (((MappedPoti.new 7 0 0 0 4 1).hasChanged Platform.avr 1 0).get
        MappedPoti.first_poll_defined).2.getValue = 0 :=
  ⟨((MappedPoti.mapped_change_detection Platform.avr (MappedPoti.new 7 0 0 0 4 1) 1 0
      (((MappedPoti.new 7 0 0 0 4 1).hasChanged Platform.avr 1 0).get
        MappedPoti.first_poll_defined)
      (Option.some_get MappedPoti.first_poll_defined).symm).2.1 (by decide!)).1,
   ((MappedPoti.mapped_change_detection Platform.avr (MappedPoti.new 7 0 0 0 4 1) 1 0
      (((MappedPoti.new 7 0 0 0 4 1).hasChanged Platform.avr 1 0).get
        MappedPoti.first_poll_defined)
      (Option.some_get MappedPoti.first_poll_defined).symm).2.1 (by decide!)).2.1,
   (((MappedPoti.mapped_change_detection Platform.avr (MappedPoti.new 7 0 0 0 4 1) 1 0
      (((MappedPoti.new 7 0 0 0 4 1).hasChanged Platform.avr 1 0).get
        MappedPoti.first_poll_defined)
      (Option.some_get MappedPoti.first_poll_defined).symm).2.1 (by decide!)).2.2.1).trans
      (by decide)⟩

/-! ## The first poll -/

theorem MappedPoti.getMapping_lt (pf : Platform) (p : MappedPoti) (raw lo hi : Int) (lvl : Nat)
    (h : MappedPoti.getMapping pf p raw lo hi = some lvl)
    (hn1 : 1 ≤ p._numMapping) (hn2 : p._numMapping ≤ 255) : lvl < p._numMapping := by
  unfold MappedPoti.getMapping at h
  split_ifs at h
  · have := Option.some.inj h
    rw [Nat.shiftRight_eq_div_pow] at this
    omega
  · simp only [Option.bind_eq_some, Option.map_eq_some'] at h
    obtain ⟨_, _, mapValue, _, hm⟩ := h
    unfold MappedPoti.correction at hm
    split_ifs at hm <;> omega

theorem Poti.poti_first_poll (p : Poti) (current : Nat) (raw : Int) (hf : p.Fresh)
    (hraw : raw ≠ POTI_VALUE_UNDEFINED) :
    p.hasChanged current raw
      = (true, { p with _lastReadMillis := current, _prevValue := POTI_VALUE_UNDEFINED,
                        _curValue := raw }) := by
  obtain ⟨h1, h2, h3⟩ := hf
  have hg : p.gatedOut current = false := by simp [Poti.gatedOut, h1]
  rw [Poti.hasChanged_of_ne p current raw hg (by rw [h2]; exact hraw), h2]

theorem StablePoti.first_stabilized (pf : Platform) (p : StablePoti) (current : Nat) (raw : Int)
    (hf : p.Fresh) :
    (p.getStabilizedRawValue pf current raw).1 = raw := by
  obtain ⟨⟨h1, -, -⟩, h4, h5, h6⟩ := hf
  have hg : p.gatedOut current = false := by simp [StablePoti.gatedOut, Poti.gatedOut, h1, h6]
  rw [StablePoti.getStabilizedRawValue_of_accepted pf p current raw hg]
  unfold StablePoti.stabilize
  split_ifs
  · exact StablePoti.weighting_passthrough pf _ _ (Or.inr (by exact h4))
  · exact StablePoti.weighting_passthrough pf _ _ (Or.inr (by exact h4))

theorem StablePoti.stable_first_poll (pf : Platform) (p : StablePoti) (current : Nat) (raw : Int)
    (hf : p.Fresh) (hraw : raw ≠ POTI_VALUE_UNDEFINED) :
    (p.hasChanged pf current raw).1 = true
    ∧ (p.hasChanged pf current raw).2.getValue = raw
    ∧ (p.hasChanged pf current raw).2.getPrevValue = POTI_VALUE_UNDEFINED := by
  have hv := StablePoti.first_stabilized pf p current raw hf
  have hfr := StablePoti.getStabilizedRawValue_frame pf p current raw
  obtain ⟨⟨-, h2, -⟩, -⟩ := hf
  have hne : (p.getStabilizedRawValue pf current raw).1
      ≠ (p.getStabilizedRawValue pf current raw).2._curValue := by
    rw [hv, hfr.1, h2]; exact hraw
  have h : p.hasChanged pf current raw
      = (true, { (p.getStabilizedRawValue pf current raw).2 with
                  _prevValue := (p.getStabilizedRawValue pf current raw).2._curValue
                  _curValue := (p.getStabilizedRawValue pf current raw).1 }) := by
    unfold StablePoti.hasChanged
    rw [if_neg (by rw [hv]; exact hraw), if_pos hne]
  rw [h]
  exact ⟨rfl, hv, hfr.1.trans h2⟩

theorem MappedPoti.mapped_first_poll (pf : Platform) (p : MappedPoti) (current : Nat) (raw : Int)
    (lvl : Nat) (hf : p.Fresh) (hraw : raw ≠ POTI_VALUE_UNDEFINED)
    (hn1 : 1 ≤ p._numMapping) (hn2 : p._numMapping ≤ 255)
    (hmap : MappedPoti.getMapping pf p raw 0 0 = some lvl) :
    (p.hasChanged pf current raw).map
        (fun r => (r.1, r.2.getValue, r.2.getPrevValue, r.2.getMappedValue, r.2.getMappedPrevValue))
      = some (true, raw, POTI_VALUE_UNDEFINED, lvl, POTI_MAPPING_UNDEFINED) := by
  have hv := StablePoti.first_stabilized pf p.toStablePoti current raw hf.1
  obtain ⟨⟨⟨-, h2, -⟩, h4, -, -⟩, h7, -⟩ := hf
  have hlt := MappedPoti.getMapping_lt pf p raw 0 0 lvl hmap hn1 hn2
  have hl : lvl ≠ p._curMapValue := by
    rw [h7]; unfold POTI_MAPPING_UNDEFINED; omega
  rw [← hv] at hmap
  rw [MappedPoti.hasChanged_of_mapping pf p current raw lvl (by rw [hv]; exact hraw)
    (by rw [hv, h4]; exact hraw) hmap, if_pos hl]
  simp only [Option.map_some', MappedPoti.getMappedValue, MappedPoti.getMappedPrevValue,
    Poti.getValue, Poti.getPrevValue, hv, h2, h7]

theorem CenteredPoti.centered_first_poll (pf : Platform) (p : CenteredPoti) (current : Nat) (raw : Int)
    (lvl : Nat) (hf : p.Fresh) (hraw : raw ≠ POTI_VALUE_UNDEFINED)
    (hn1 : 1 ≤ p._numMapping) (hn2 : p._numMapping ≤ 255)
    (hmap : MappedPoti.getMapping pf p.toMappedPoti raw p._centerValLow p._centerValHigh
      = some lvl) :
    (p.hasChanged pf current raw).map
        (fun r => (r.1, r.2.getValue, r.2.getPrevValue, r.2.getMappedValue, r.2.getMappedPrevValue))
      = some (true, raw, POTI_VALUE_UNDEFINED, lvl, POTI_MAPPING_UNDEFINED) := by
  have hv := StablePoti.first_stabilized pf p.toStablePoti current raw hf.1
  obtain ⟨⟨⟨-, h2, -⟩, h4, -, -⟩, h7, -⟩ := hf
  have hlt := MappedPoti.getMapping_lt pf p.toMappedPoti raw _ _ lvl hmap hn1 hn2
  have hl : lvl ≠ p._curMapValue := by
    rw [h7]; unfold POTI_MAPPING_UNDEFINED; omega
  rw [← hv] at hmap
  unfold CenteredPoti.hasChanged
  rw [if_neg (by rw [hv]; exact hraw), if_neg (by rw [hv, h4]; exact hraw), hmap]
  simp only [Option.map_some']
  rw [if_pos hl]
  simp only [MappedPoti.getMappedValue, MappedPoti.getMappedPrevValue, Poti.getValue,
    Poti.getPrevValue, hv, h2, h7]

theorem CenteredPoti.levelCount_range (e : Nat) :
    3 ≤ CenteredPoti.levelCount e ∧ CenteredPoti.levelCount e ≤ 101 := by
  unfold CenteredPoti.levelCount
  by_cases h1 : e < 3
  · simp [h1]
  · by_cases h2 : e > 101
    · simp [h1, h2]
    · simp only [if_neg h1, if_neg h2]
      split_ifs <;> omega

theorem fresh_objects (pf : Platform) :
    (∀ a b : Nat, (Poti.new a b).Fresh)
    ∧ (∀ p : Poti, p.reset.Fresh)
    ∧ (∀ a b c d : Nat, (StablePoti.new a b c d).Fresh)
    ∧ (∀ p : StablePoti, p.reset.Fresh)
    ∧ (∀ a b c d e f : Nat, (MappedPoti.new a b c d e f).Fresh
        ∧ 2 ≤ (MappedPoti.new a b c d e f)._numMapping
        ∧ (MappedPoti.new a b c d e f)._numMapping ≤ 100)
    ∧ (∀ p : MappedPoti, p.reset.Fresh ∧ p.reset._numMapping = p._numMapping)
    ∧ (∀ (a b c d e f g : Nat) (v : Int), (CenteredPoti.new pf a b c d e f g v).Fresh
        ∧ 3 ≤ (CenteredPoti.new pf a b c d e f g v)._numMapping
        ∧ (CenteredPoti.new pf a b c d e f g v)._numMapping ≤ 101)
    ∧ (∀ p : CenteredPoti, p.reset.Fresh ∧ p.reset._numMapping = p._numMapping) := by
  refine ⟨fun _ _ => ⟨rfl, rfl, rfl⟩, fun _ => ⟨rfl, rfl, rfl⟩,
    fun _ _ _ _ => ⟨⟨rfl, rfl, rfl⟩, rfl, rfl, rfl⟩, fun _ => ⟨⟨rfl, rfl, rfl⟩, rfl, rfl, rfl⟩,
    fun a b c d e f => ⟨⟨⟨⟨rfl, rfl, rfl⟩, rfl, rfl, rfl⟩, rfl, rfl⟩, ?_, ?_⟩,
    fun _ => ⟨⟨⟨⟨rfl, rfl, rfl⟩, rfl, rfl, rfl⟩, rfl, rfl⟩, rfl⟩,
    fun a b c d e f g v => ⟨⟨⟨⟨rfl, rfl, rfl⟩, rfl, rfl, rfl⟩, rfl, rfl⟩, ?_, ?_⟩,
    fun _ => ⟨⟨⟨⟨rfl, rfl, rfl⟩, rfl, rfl, rfl⟩, rfl, rfl⟩, rfl⟩⟩
  · simp only [MappedPoti.new]
    by_cases h : e > 100
    · simp [h]
    · simp only [if_neg h]; split_ifs <;> omega
  · simp only [MappedPoti.new]
    by_cases h : e > 100
    · simp [h]
    · simp only [if_neg h]; split_ifs <;> omega
  · exact (CenteredPoti.levelCount_range e).1
  · exact (CenteredPoti.levelCount_range e).2

/-- C10 as stated fails where the sample is the sentinel: a `MappedPoti` whose
largest analog value is set to 32767 and whose first sample is 32767 (within
`0.._maxAnalogVal`) returns false and keeps `getValue()` and
`getMappedValue()` undefined; likewise the first poll of a `Poti` and of a
`StablePoti` with the sample 32767. -/
theorem first_poll_sentinel :
    ((MappedPoti.new 7 0 0 0 4 0).setMaxAnalogValue Platform.avr 32767).2.getMaxAnalogValue = 32767
    ∧ (MappedPoti.hasChanged Platform.avr
          ((MappedPoti.new 7 0 0 0 4 0).setMaxAnalogValue Platform.avr 32767).2 1 32767).map
        (fun r => (r.1, r.2.getValue, r.2.getMappedValue))
      = some (false, POTI_VALUE_UNDEFINED, POTI_MAPPING_UNDEFINED)
    ∧ ((Poti.new 7 0).hasChanged 1 32767).1 = false
    ∧ ((Poti.new 7 0).hasChanged 1 32767).2.getValue = POTI_VALUE_UNDEFINED
    ∧ ((StablePoti.new 7 0 4 2).hasChanged Platform.avr 1 32767).1 = false
    ∧ ((StablePoti.new 7 0 4 2).hasChanged Platform.arm32 1 32767).1 = false := by
  decide

/-- C10, amended.  For a constructed or reset `Poti`, `StablePoti`,
`MappedPoti` or `CenteredPoti`, for every configuration (any cycle time,
weight and number of extra samples), every clock value and every sample other
than `POTI_VALUE_UNDEFINED`, the first `hasChanged()` returns true; afterwards
`getValue()` is the sample and `getPrevValue()` is `POTI_VALUE_UNDEFINED`; for
the mapped layers, where `getMapping` yields a level for the sample,
`getMappedValue()` is that level and `getMappedPrevValue()` is
`POTI_MAPPING_UNDEFINED`.  Constructors and `reset()` yield such objects. -/
theorem first_poll_all_layers (pf : Platform) (current : Nat) (raw : Int)
    (hraw : raw ≠ POTI_VALUE_UNDEFINED) :
    (∀ p : Poti, p.Fresh →
        (p.hasChanged current raw).1 = true ∧ (p.hasChanged current raw).2.getValue = raw
        ∧ (p.hasChanged current raw).2.getPrevValue = POTI_VALUE_UNDEFINED)
    ∧ (∀ p : StablePoti, p.Fresh →
        (p.hasChanged pf current raw).1 = true ∧ (p.hasChanged pf current raw).2.getValue = raw
        ∧ (p.hasChanged pf current raw).2.getPrevValue = POTI_VALUE_UNDEFINED)
    ∧ (∀ (p : MappedPoti) (lvl : Nat), p.Fresh → 1 ≤ p._numMapping → p._numMapping ≤ 255 →
        MappedPoti.getMapping pf p raw 0 0 = some lvl →
        (p.hasChanged pf current raw).map
            (fun r => (r.1, r.2.getValue, r.2.getPrevValue, r.2.getMappedValue,
              r.2.getMappedPrevValue))
          = some (true, raw, POTI_VALUE_UNDEFINED, lvl, POTI_MAPPING_UNDEFINED))
    ∧ (∀ (p : CenteredPoti) (lvl : Nat), p.Fresh → 1 ≤ p._numMapping → p._numMapping ≤ 255 →
        MappedPoti.getMapping pf p.toMappedPoti raw p._centerValLow p._centerValHigh = some lvl →
        (p.hasChanged pf current raw).map
            (fun r => (r.1, r.2.getValue, r.2.getPrevValue, r.2.getMappedValue,
              r.2.getMappedPrevValue))
          = some (true, raw, POTI_VALUE_UNDEFINED, lvl, POTI_MAPPING_UNDEFINED))
    ∧ ((∀ a b : Nat, (Poti.new a b).Fresh)
      ∧ (∀ p : Poti, p.reset.Fresh)
      ∧ (∀ a b c d : Nat, (StablePoti.new a b c d).Fresh)
      ∧ (∀ p : StablePoti, p.reset.Fresh)
      ∧ (∀ a b c d e f : Nat, (MappedPoti.new a b c d e f).Fresh
          ∧ 2 ≤ (MappedPoti.new a b c d e f)._numMapping
          ∧ (MappedPoti.new a b c d e f)._numMapping ≤ 100)
      ∧ (∀ p : MappedPoti, p.reset.Fresh ∧ p.reset._numMapping = p._numMapping)
      ∧ (∀ (a b c d e f g : Nat) (v : Int), (CenteredPoti.new pf a b c d e f g v).Fresh
          ∧ 3 ≤ (CenteredPoti.new pf a b c d e f g v)._numMapping
          ∧ (CenteredPoti.new pf a b c d e f g v)._numMapping ≤ 101)
      ∧ (∀ p : CenteredPoti, p.reset.Fresh ∧ p.reset._numMapping = p._numMapping)) := by
  refine ⟨fun p hf => ?_, fun p hf => StablePoti.stable_first_poll pf p current raw hf hraw,
    fun p lvl hf h1 h2 hm => MappedPoti.mapped_first_poll pf p current raw lvl hf hraw h1 h2 hm,
    fun p lvl hf h1 h2 hm => CenteredPoti.centered_first_poll pf p current raw lvl hf hraw h1 h2 hm,
    fresh_objects pf⟩
  rw [Poti.poti_first_poll p current raw hf hraw]
  exact ⟨rfl, rfl, rfl⟩

/-- Witness for C10: the first polls of the tests, sample 10 for a `MappedPoti`
with 20 levels and sample 100 for a `CenteredPoti` with 25 levels, stretch 5,
weight 4 and two extra samples. -/
theorem first_poll_all_layers_witness :
    ((Poti.new 7 2).hasChanged 5 10).1 = true
    ∧ ((StablePoti.new 7 2 4 2).hasChanged Platform.avr 5 10).2.getValue = 10
    ∧ ((MappedPoti.new 7 0 0 0 20 0).hasChanged Platform.avr 5 10).map
          (fun r => (r.1, r.2.getValue, r.2.getPrevValue, r.2.getMappedValue,
            r.2.getMappedPrevValue))
        = some (true, 10, POTI_VALUE_UNDEFINED, 0, POTI_MAPPING_UNDEFINED)
    ∧ ((CenteredPoti.new Platform.avr 7 2 4 2 25 5 81 512).hasChanged Platform.avr 5 100).map
          (fun r => (r.1, r.2.getValue, r.2.getPrevValue, r.2.getMappedValue,
            r.2.getMappedPrevValue))
        = some (true, 100, POTI_VALUE_UNDEFINED, 4, POTI_MAPPING_UNDEFINED) :=
  ⟨((first_poll_all_layers Platform.avr 5 10 (by decide)).1 (Poti.new 7 2) ⟨rfl, rfl, rfl⟩).1,
   ((first_poll_all_layers Platform.avr 5 10 (by decide)).2.1 (StablePoti.new 7 2 4 2)
      ⟨⟨rfl, rfl, rfl⟩, rfl, rfl, rfl⟩).2.1,
   (first_poll_all_layers Platform.avr 5 10 (by decide)).2.2.1 (MappedPoti.new 7 0 0 0 20 0) 0
      ⟨⟨⟨rfl, rfl, rfl⟩, rfl, rfl, rfl⟩, rfl, rfl⟩ (by decide) (by decide) (by decide!),
   (first_poll_all_layers Platform.avr 5 100 (by decide)).2.2.2.1
      (CenteredPoti.new Platform.avr 7 2 4 2 25 5 81 512) 4
      ⟨⟨⟨rfl, rfl, rfl⟩, rfl, rfl, rfl⟩, rfl, rfl⟩ (by decide) (by decide) (by decide!)⟩

/-! ## Constructed objects and `reset()` -/

/-- C11. Before the first poll every accessor returns its sentinel, for all
constructor arguments of all four classes and also after
`setMaxAnalogValue`: `getValue()` and `getPrevValue()` return
`POTI_VALUE_UNDEFINED` (0x7FFF), `getMappedValue()` and `getMappedPrevValue()`
return `POTI_MAPPING_UNDEFINED` (0xFF), `getCenteredValue()` and
`getCenteredPrevValue()` return `POTI_VALUE_UNDEFINED`, and
`getCenteredMappedValue()` and `getCenteredMappedPrevValue()` return
`POTI_MAPPING_UNDEFINED`. -/
theorem fresh_accessors (pf : Platform) :
    POTI_VALUE_UNDEFINED = 0x7FFF ∧ POTI_MAPPING_UNDEFINED = 0xFF
    ∧ (∀ a b : Nat, (Poti.new a b).getValue = POTI_VALUE_UNDEFINED
        ∧ (Poti.new a b).getPrevValue = POTI_VALUE_UNDEFINED)
    ∧ (∀ a b c d : Nat, (StablePoti.new a b c d).getValue = POTI_VALUE_UNDEFINED
        ∧ (StablePoti.new a b c d).getPrevValue = POTI_VALUE_UNDEFINED)
    ∧ (∀ (a b c d e f : Nat) (m : Int),
        (MappedPoti.new a b c d e f).getValue = POTI_VALUE_UNDEFINED
        ∧ (MappedPoti.new a b c d e f).getPrevValue = POTI_VALUE_UNDEFINED
        ∧ (MappedPoti.new a b c d e f).getMappedValue = POTI_MAPPING_UNDEFINED
        ∧ (MappedPoti.new a b c d e f).getMappedPrevValue = POTI_MAPPING_UNDEFINED
        ∧ ((MappedPoti.new a b c d e f).setMaxAnalogValue pf m).2.getValue = POTI_VALUE_UNDEFINED
        ∧ ((MappedPoti.new a b c d e f).setMaxAnalogValue pf m).2.getPrevValue
            = POTI_VALUE_UNDEFINED
        ∧ ((MappedPoti.new a b c d e f).setMaxAnalogValue pf m).2.getMappedValue
            = POTI_MAPPING_UNDEFINED
        ∧ ((MappedPoti.new a b c d e f).setMaxAnalogValue pf m).2.getMappedPrevValue
            = POTI_MAPPING_UNDEFINED)
    ∧ (∀ (a b c d e f g : Nat) (v : Int),
        (CenteredPoti.new pf a b c d e f g v).getValue = POTI_VALUE_UNDEFINED
        ∧ (CenteredPoti.new pf a b c d e f g v).getPrevValue = POTI_VALUE_UNDEFINED
        ∧ (CenteredPoti.new pf a b c d e f g v).getMappedValue = POTI_MAPPING_UNDEFINED
        ∧ (CenteredPoti.new pf a b c d e f g v).getMappedPrevValue = POTI_MAPPING_UNDEFINED
        ∧ (CenteredPoti.new pf a b c d e f g v).getCenteredValue pf = POTI_VALUE_UNDEFINED
        ∧ (CenteredPoti.new pf a b c d e f g v).getCenteredPrevValue pf = POTI_VALUE_UNDEFINED
        ∧ (CenteredPoti.new pf a b c d e f g v).getCenteredMappedValue
            = (POTI_MAPPING_UNDEFINED : Int)
        ∧ (CenteredPoti.new pf a b c d e f g v).getCenteredMappedPrevValue
            = (POTI_MAPPING_UNDEFINED : Int)) := by
  refine ⟨rfl, rfl, fun _ _ => ⟨rfl, rfl⟩, fun _ _ _ _ => ⟨rfl, rfl⟩,
    fun a b c d e f m => ⟨rfl, rfl, rfl, rfl, ?_, ?_, ?_, ?_⟩,
    fun a b c d e f g v => ⟨rfl, rfl, rfl, rfl, ?_, ?_, ?_, ?_⟩⟩
  · unfold MappedPoti.setMaxAnalogValue; split_ifs <;> rfl
  · unfold MappedPoti.setMaxAnalogValue; split_ifs <;> rfl
  · unfold MappedPoti.setMaxAnalogValue; split_ifs <;> rfl
  · unfold MappedPoti.setMaxAnalogValue; split_ifs <;> rfl
  · exact if_pos rfl
  · exact if_pos rfl
  · exact if_pos rfl
  · exact if_pos rfl

theorem Poti.poti_hasChanged_config (p : Poti) (current : Nat) (raw : Int) :
    (p.hasChanged current raw).2.config = p.config := by
  unfold Poti.hasChanged
  split_ifs <;> rfl

theorem Poti.poti_run_config (p : Poti) (qs : List Poll) : (p.run qs).config = p.config := by
  induction qs generalizing p with
  | nil => rfl
  | cons q qs ih => exact (ih _).trans (Poti.poti_hasChanged_config p q.current q.raw)

theorem Poti.poti_reset_eq (p c : Poti) (hc : c.Fresh) (h : p.config = c.config) : p.reset = c := by
  obtain ⟨a, b, l, cu, pr⟩ := c
  obtain ⟨h3, h4, h5⟩ := hc
  simp only [Poti.config, Prod.mk.injEq] at h
  simp only at h3 h4 h5
  subst h3 h4 h5
  simp [Poti.reset, h.1, h.2]

theorem StablePoti.stable_hasChanged_config (pf : Platform) (p : StablePoti) (current : Nat) (raw : Int) :
    (p.hasChanged pf current raw).2.config = p.config := by
  have h := StablePoti.hasChanged_state pf p current raw
  have g := StablePoti.getStabilizedRawValue_frame pf p current raw
  have hp : (p.hasChanged pf current raw).2._inputPin = p._inputPin := by
    unfold StablePoti.hasChanged
    split_ifs <;> exact g.2.2.2.1
  simp only [StablePoti.config, Poti.config, Prod.mk.injEq]
  exact ⟨⟨hp, h.2.2.2.2.2.2.trans g.2.2.1⟩, h.2.2.2.1.trans g.2.2.2.2.2, h.1.trans g.2.2.2.2.1⟩

theorem StablePoti.stable_run_config (pf : Platform) (p : StablePoti) (qs : List Poll) :
    (p.run pf qs).config = p.config := by
  induction qs generalizing p with
  | nil => rfl
  | cons q qs ih => exact (ih _).trans (StablePoti.stable_hasChanged_config pf p q.current q.raw)

theorem StablePoti.stable_reset_eq (p c : StablePoti) (hc : c.Fresh) (h : p.config = c.config) :
    p.reset = c := by
  obtain ⟨cp, a, o, i, w, v⟩ := c
  obtain ⟨h1, h2, h3, h4⟩ := hc
  simp only [StablePoti.config, Prod.mk.injEq] at h
  simp only at h1 h2 h3 h4
  subst h2 h3 h4
  simp [StablePoti.reset, h.2.1, h.2.2, Poti.poti_reset_eq p.toPoti cp h1 h.1]

theorem MappedPoti.mapped_hasChanged_config (pf : Platform) (p : MappedPoti) (current : Nat) (raw : Int)
    (r : Bool × MappedPoti) (h : p.hasChanged pf current raw = some r) : r.2.config = p.config := by
  have g := StablePoti.getStabilizedRawValue_frame pf p.toStablePoti current raw
  have hc : ∀ s : StablePoti, s._inputPin = p._inputPin → s._readCycleMillis = p._readCycleMillis
      → s._weightPrev = p._weightPrev → s._addNumRawAvg = p._addNumRawAvg
      → s.config = p.toStablePoti.config := by
    intro s h1 h2 h3 h4
    simp only [StablePoti.config, Poti.config, h1, h2, h3, h4]
  unfold MappedPoti.hasChanged at h
  split_ifs at h
  · rw [← Option.some.inj h]
    simp only [MappedPoti.config, hc _ g.2.2.2.1 g.2.2.1 g.2.2.2.2.2 g.2.2.2.2.1]
  · rw [← Option.some.inj h]
    simp only [MappedPoti.config, hc _ g.2.2.2.1 g.2.2.1 g.2.2.2.2.2 g.2.2.2.2.1]
  · simp only [Option.map_eq_some'] at h
    obtain ⟨m, -, hm⟩ := h
    rw [← hm]
    split_ifs
    · simp only [MappedPoti.config]
      rw [hc _ (by exact g.2.2.2.1) (by exact g.2.2.1) (by exact g.2.2.2.2.2)
        (by exact g.2.2.2.2.1)]
    · simp only [MappedPoti.config, hc _ g.2.2.2.1 g.2.2.1 g.2.2.2.2.2 g.2.2.2.2.1]

theorem MappedPoti.mapped_run_config (pf : Platform) (p : MappedPoti) (qs : List Poll)
    (r : List Bool × MappedPoti) (h : MappedPoti.run pf p qs = some r) :
    r.2.config = p.config := by
  induction qs generalizing p r with
  | nil =>
    simp only [MappedPoti.run, Option.some.injEq] at h
    rw [← h]
  | cons q qs ih =>
    simp only [MappedPoti.run, Option.bind_eq_some, Option.map_eq_some'] at h
    obtain ⟨s, hs, t, ht, hr⟩ := h
    rw [← hr]
    exact (ih s.2 t ht).trans (MappedPoti.mapped_hasChanged_config pf p q.current q.raw s hs)

theorem MappedPoti.mapped_reset_eq (p c : MappedPoti) (hc : c.Fresh) (h : p.config = c.config) :
    p.reset = c := by
  obtain ⟨cs, cm, pm, n, s, m⟩ := c
  obtain ⟨h1, h2, h3⟩ := hc
  simp only [MappedPoti.config, Prod.mk.injEq] at h
  simp only at h1 h2 h3
  subst h2 h3
  simp [MappedPoti.reset, h.2.1, h.2.2.1, h.2.2.2, StablePoti.stable_reset_eq p.toStablePoti cs h1 h.1]

theorem CenteredPoti.centered_hasChanged_config (pf : Platform) (p : CenteredPoti) (current : Nat)
    (raw : Int) (r : Bool × CenteredPoti) (h : p.hasChanged pf current raw = some r) :
    r.2.config = p.config := by
  have g := StablePoti.getStabilizedRawValue_frame pf p.toStablePoti current raw
  have hc : ∀ s : StablePoti, s._inputPin = p._inputPin → s._readCycleMillis = p._readCycleMillis
      → s._weightPrev = p._weightPrev → s._addNumRawAvg = p._addNumRawAvg
      → s.config = p.toStablePoti.config := by
    intro s h1 h2 h3 h4
    simp only [StablePoti.config, Poti.config, h1, h2, h3, h4]
  unfold CenteredPoti.hasChanged at h
  split_ifs at h
  · rw [← Option.some.inj h]
    simp only [CenteredPoti.config, MappedPoti.config,
      hc _ g.2.2.2.1 g.2.2.1 g.2.2.2.2.2 g.2.2.2.2.1]
  · rw [← Option.some.inj h]
    simp only [CenteredPoti.config, MappedPoti.config,
      hc _ g.2.2.2.1 g.2.2.1 g.2.2.2.2.2 g.2.2.2.2.1]
  · simp only [Option.map_eq_some'] at h
    obtain ⟨m, -, hm⟩ := h
    rw [← hm]
    split_ifs
    · simp only [CenteredPoti.config, MappedPoti.config]
      rw [hc _ (by exact g.2.2.2.1) (by exact g.2.2.1) (by exact g.2.2.2.2.2)
        (by exact g.2.2.2.2.1)]
    · simp only [CenteredPoti.config, MappedPoti.config,
        hc _ g.2.2.2.1 g.2.2.1 g.2.2.2.2.2 g.2.2.2.2.1]

theorem CenteredPoti.centered_run_config (pf : Platform) (p : CenteredPoti) (qs : List Poll)
    (r : List Bool × CenteredPoti) (h : CenteredPoti.run pf p qs = some r) :
    r.2.config = p.config := by
  induction qs generalizing p r with
  | nil =>
    simp only [CenteredPoti.run, Option.some.injEq] at h
    rw [← h]
  | cons q qs ih =>
    simp only [CenteredPoti.run, Option.bind_eq_some, Option.map_eq_some'] at h
    obtain ⟨s, hs, t, ht, hr⟩ := h
    rw [← hr]
    exact (ih s.2 t ht).trans (CenteredPoti.centered_hasChanged_config pf p q.current q.raw s hs)

theorem CenteredPoti.centered_reset_eq (p c : CenteredPoti) (hc : c.Fresh) (h : p.config = c.config) :
    p.reset = c := by
  obtain ⟨cm, lo, hi⟩ := c
  simp only [CenteredPoti.config, Prod.mk.injEq] at h
  simp [CenteredPoti.reset, h.2.1, h.2.2, MappedPoti.mapped_reset_eq p.toMappedPoti cm hc h.1]

/-- C12. `reset()` after any sequence of polls gives back the constructed
object: for each of the four classes, for every object `c` in the state the
constructor leaves (current and previous value and level undefined, time of the
last read 0, running sum and smoothed previous value undefined, no average
pending; `Fresh`) and every sequence of polls, the object reached by the polls
and then reset is `c` itself, all configuration members (pin, cycle time,
weight, number of extra samples, number of levels, stretch, largest analog
value, center bounds) being unchanged by polls and by `reset()`.  Hence every
later sequence of polls gives the same return values and objects on both.  The
constructors yield such objects. -/
theorem reset_equals_construction (pf : Platform) :
    (∀ (c : Poti) (qs later : List Poll), c.Fresh →
        (c.run qs).reset = c ∧ (c.run qs).reset.config = (c.run qs).config
        ∧ (c.run qs).reset.results later = c.results later
        ∧ (c.run qs).reset.run later = c.run later)
    ∧ (∀ (c : StablePoti) (qs later : List Poll), c.Fresh →
        (c.run pf qs).reset = c ∧ (c.run pf qs).reset.config = (c.run pf qs).config
        ∧ (c.run pf qs).reset.results pf later = c.results pf later
        ∧ (c.run pf qs).reset.run pf later = c.run pf later)
    ∧ (∀ (c : MappedPoti) (qs later : List Poll) (r : List Bool × MappedPoti), c.Fresh →
        MappedPoti.run pf c qs = some r →
        r.2.reset = c ∧ r.2.reset.config = r.2.config
        ∧ MappedPoti.run pf r.2.reset later = MappedPoti.run pf c later)
    ∧ (∀ (c : CenteredPoti) (qs later : List Poll) (r : List Bool × CenteredPoti), c.Fresh →
        CenteredPoti.run pf c qs = some r →
        r.2.reset = c ∧ r.2.reset.config = r.2.config
        ∧ CenteredPoti.run pf r.2.reset later = CenteredPoti.run pf c later)
    ∧ (∀ a b : Nat, (Poti.new a b).Fresh)
    ∧ (∀ a b c d : Nat, (StablePoti.new a b c d).Fresh)
    ∧ (∀ a b c d e f : Nat, (MappedPoti.new a b c d e f).Fresh)
    ∧ (∀ (a b c d e f g : Nat) (v : Int), (CenteredPoti.new pf a b c d e f g v).Fresh) := by
  refine ⟨fun c qs later hc => ?_, fun c qs later hc => ?_, fun c qs later r hc hr => ?_,
    fun c qs later r hc hr => ?_, (fresh_objects pf).1, (fresh_objects pf).2.2.1,
    fun a b c d e f => ((fresh_objects pf).2.2.2.2.1 a b c d e f).1,
    fun a b c d e f g v => ((fresh_objects pf).2.2.2.2.2.2.1 a b c d e f g v).1⟩
  · have h := Poti.poti_reset_eq (c.run qs) c hc (Poti.poti_run_config c qs)
    rw [h]
    exact ⟨rfl, (Poti.poti_run_config c qs).symm, rfl, rfl⟩
  · have h := StablePoti.stable_reset_eq (c.run pf qs) c hc (StablePoti.stable_run_config pf c qs)
    rw [h]
    exact ⟨rfl, (StablePoti.stable_run_config pf c qs).symm, rfl, rfl⟩
  · have h := MappedPoti.mapped_reset_eq r.2 c hc (MappedPoti.mapped_run_config pf c qs r hr)
    rw [h]
    exact ⟨rfl, (MappedPoti.mapped_run_config pf c qs r hr).symm, rfl⟩
  · have h := CenteredPoti.centered_reset_eq r.2 c hc (CenteredPoti.centered_run_config pf c qs r hr)
    rw [h]
    exact ⟨rfl, (CenteredPoti.centered_run_config pf c qs r hr).symm, rfl⟩

theorem CenteredPoti.two_polls_defined :
    (CenteredPoti.run Platform.avr (CenteredPoti.new Platform.avr 7 0 0 0 25 0 81 512)
      [⟨1, 10⟩, ⟨2, 1023⟩]).isSome = true := by
  decide!

/-- Witness for C12: the reset of the tests, after the polls with raw 10 and
raw 1023, for a `Poti`, a `StablePoti` with weight 4 and two extra samples, and
the `CenteredPoti` of the tests. -/
theorem reset_equals_construction_witness :
    ((Poti.new 7 0).run [⟨1, 10⟩, ⟨2, 1023⟩]).reset = Poti.new 7 0
    ∧ ((StablePoti.new 7 0 4 2).run Platform.avr [⟨1, 10⟩, ⟨2, 1023⟩]).reset
        = StablePoti.new 7 0 4 2
    ∧ ((CenteredPoti.run Platform.avr (CenteredPoti.new Platform.avr 7 0 0 0 25 0 81 512)
          [⟨1, 10⟩, ⟨2, 1023⟩]).get CenteredPoti.two_polls_defined).2.reset
        = CenteredPoti.new Platform.avr 7 0 0 0 25 0 81 512 :=
  ⟨((reset_equals_construction Platform.avr).1 (Poti.new 7 0) [⟨1, 10⟩, ⟨2, 1023⟩] []
      ⟨rfl, rfl, rfl⟩).1,
   ((reset_equals_construction Platform.avr).2.1 (StablePoti.new 7 0 4 2) [⟨1, 10⟩, ⟨2, 1023⟩] []
      ⟨⟨rfl, rfl, rfl⟩, rfl, rfl, rfl⟩).1,
   ((reset_equals_construction Platform.avr).2.2.2.1
      (CenteredPoti.new Platform.avr 7 0 0 0 25 0 81 512) [⟨1, 10⟩, ⟨2, 1023⟩] []
      ((CenteredPoti.run Platform.avr (CenteredPoti.new Platform.avr 7 0 0 0 25 0 81 512)
          [⟨1, 10⟩, ⟨2, 1023⟩]).get CenteredPoti.two_polls_defined)
      ⟨⟨⟨rfl, rfl, rfl⟩, rfl, rfl, rfl⟩, rfl, rfl⟩
      (Option.some_get CenteredPoti.two_polls_defined).symm).1⟩

/-! ## Rounding error of a floating-point operation -/

theorem two_zpow_split (z : Int) :
    (2 : ℚ) ^ z = (2 : ℚ) ^ z.toNat / (2 : ℚ) ^ (-z).toNat := by
  rcases le_total 0 z with h | h
  · have e2 : (-z).toNat = 0 := by omega
    rw [e2, pow_zero, div_one, ← zpow_natCast, Int.toNat_of_nonneg h]
  · have e1 : z.toNat = 0 := by omega
    have e3 : z = -(((-z).toNat : Nat) : Int) := by omega
    rw [e1, pow_zero, one_div, ← zpow_natCast, ← zpow_neg, ← e3]

theorem divRoundEven_spec (N D : Nat) (hD : 0 < D) :
    2 * ((divRoundEven N D : Int) * D - N) ≤ D
    ∧ -(D : Int) ≤ 2 * ((divRoundEven N D : Int) * D - N) := by
  have hr := Nat.mod_lt N hD
  have hN : (N : Int) = (D : Int) * ((N / D : Nat) : Int) + ((N % D : Nat) : Int) := by
    exact_mod_cast (Nat.div_add_mod N D).symm
  generalize N / D = q at hN ⊢
  generalize N % D = r at hN hr ⊢
  have hr' : (r : Int) < D := by exact_mod_cast hr
  have hr0 : (0 : Int) ≤ r := by positivity
  unfold divRoundEven
  rw [hN]
  have hrec : D * q + r = N := by exact_mod_cast hN.symm
  have hq : (D * q + r) / D = q := by
    rw [Nat.mul_add_div hD, Nat.div_eq_of_lt hr, Nat.add_zero]
  have hm : (D * q + r) % D = r := by
    rw [Nat.mul_add_mod, Nat.mod_eq_of_lt hr]
  rw [← hrec, hq, hm]
  split_ifs with h1 h2 h3
  · have h1' : 2 * (r : Int) < D := by exact_mod_cast h1
    constructor <;> linarith
  · have h2' : (D : Int) < 2 * (r : Int) := by exact_mod_cast h2
    push_cast
    constructor <;> linarith
  · have h1' : (D : Int) ≤ 2 * (r : Int) := by exact_mod_cast (not_lt.1 h1)
    have h2' : 2 * (r : Int) ≤ D := by exact_mod_cast (not_lt.1 h2)
    constructor <;> linarith
  · have h1' : (D : Int) ≤ 2 * (r : Int) := by exact_mod_cast (not_lt.1 h1)
    have h2' : 2 * (r : Int) ≤ D := by exact_mod_cast (not_lt.1 h2)
    push_cast
    constructor <;> linarith

theorem ulpExponent_spec (prec n d : Nat) (hn : 0 < n) (hd : 0 < d) :
    (2 : ℚ) ^ (ulpExponent prec n d + ((prec : Int) - 1)) ≤ (n : ℚ) / d
    ∧ (n : ℚ) / d < (2 : ℚ) ^ (ulpExponent prec n d + (prec : Int)) := by
  obtain ⟨n1, n2, n3⟩ := bitLen_spec n hn
  obtain ⟨d1, d2, d3⟩ := bitLen_spec d hd
  have hdq : (0 : ℚ) < d := by exact_mod_cast hd
  have hnq : (0 : ℚ) < n := by exact_mod_cast hn
  have n2q : (2 : ℚ) ^ (((bitLen n : Int)) - 1) ≤ n := by
    have : ((2 ^ (bitLen n - 1) : Nat) : ℚ) ≤ n := by exact_mod_cast n2
    have e : ((bitLen n : Int)) - 1 = ((bitLen n - 1 : Nat) : Int) := by omega
    rw [e, zpow_natCast]
    exact_mod_cast this
  have n3q : (n : ℚ) < (2 : ℚ) ^ ((bitLen n : Int)) := by
    rw [zpow_natCast]
    exact_mod_cast n3
  have d2q : (2 : ℚ) ^ (((bitLen d : Int)) - 1) ≤ d := by
    have : ((2 ^ (bitLen d - 1) : Nat) : ℚ) ≤ d := by exact_mod_cast d2
    have e : ((bitLen d : Int)) - 1 = ((bitLen d - 1 : Nat) : Int) := by omega
    rw [e, zpow_natCast]
    exact_mod_cast this
  have d3q : (d : ℚ) < (2 : ℚ) ^ ((bitLen d : Int)) := by
    rw [zpow_natCast]
    exact_mod_cast d3
  -- the quotient lies strictly between 2^(l-1) and 2^(l+1)
  have hlow : (2 : ℚ) ^ ((bitLen n : Int) - (bitLen d : Int) - 1) < (n : ℚ) / d := by
    rw [lt_div_iff₀ hdq]
    calc (2 : ℚ) ^ ((bitLen n : Int) - (bitLen d : Int) - 1) * d
        < (2 : ℚ) ^ ((bitLen n : Int) - (bitLen d : Int) - 1) * (2 : ℚ) ^ ((bitLen d : Int)) :=
          mul_lt_mul_of_pos_left d3q (by positivity)
      _ = (2 : ℚ) ^ ((bitLen n : Int) - 1) := by
          rw [← zpow_add₀ (by norm_num : (2 : ℚ) ≠ 0)]; congr 1; ring
      _ ≤ n := n2q
  have hhigh : (n : ℚ) / d < (2 : ℚ) ^ ((bitLen n : Int) - (bitLen d : Int) + 1) := by
    rw [div_lt_iff₀ hdq]
    calc (n : ℚ) < (2 : ℚ) ^ ((bitLen n : Int)) := n3q
      _ = (2 : ℚ) ^ ((bitLen n : Int) - (bitLen d : Int) + 1) * (2 : ℚ) ^ ((bitLen d : Int) - 1) := by
          rw [← zpow_add₀ (by norm_num : (2 : ℚ) ≠ 0)]; congr 1; ring
      _ ≤ (2 : ℚ) ^ ((bitLen n : Int) - (bitLen d : Int) + 1) * d :=
          mul_le_mul_of_nonneg_left d2q (by positivity)
  -- the comparison in the definition decides on which side of 2^l it lies
  have hcond : (d * 2 ^ ((bitLen n : Int) - (bitLen d : Int)).toNat
        ≤ n * 2 ^ (-((bitLen n : Int) - (bitLen d : Int))).toNat)
      ↔ (2 : ℚ) ^ ((bitLen n : Int) - (bitLen d : Int)) ≤ (n : ℚ) / d := by
    rw [two_zpow_split, le_div_iff₀ hdq, div_mul_eq_mul_div, div_le_iff₀ (by positivity)]
    constructor
    · intro h
      have : ((d * 2 ^ ((bitLen n : Int) - (bitLen d : Int)).toNat : Nat) : ℚ)
          ≤ ((n * 2 ^ (-((bitLen n : Int) - (bitLen d : Int))).toNat : Nat) : ℚ) := by
        exact_mod_cast h
      push_cast at this
      linarith
    · intro h
      have : ((d * 2 ^ ((bitLen n : Int) - (bitLen d : Int)).toNat : Nat) : ℚ)
          ≤ ((n * 2 ^ (-((bitLen n : Int) - (bitLen d : Int))).toNat : Nat) : ℚ) := by
        push_cast
        linarith
      exact_mod_cast this
  unfold ulpExponent
  simp only
  by_cases hc : d * 2 ^ ((bitLen n : Int) - (bitLen d : Int)).toNat
        ≤ n * 2 ^ (-((bitLen n : Int) - (bitLen d : Int))).toNat
  · rw [if_pos hc]
    constructor
    · have e : (bitLen n : Int) - (bitLen d : Int) - ((prec : Int) - 1) + ((prec : Int) - 1)
          = (bitLen n : Int) - (bitLen d : Int) := by ring
      rw [e]
      exact hcond.1 hc
    · have e : (bitLen n : Int) - (bitLen d : Int) - ((prec : Int) - 1) + (prec : Int)
          = (bitLen n : Int) - (bitLen d : Int) + 1 := by ring
      rw [e]
      exact hhigh
  · rw [if_neg hc]
    constructor
    · have e : (bitLen n : Int) - (bitLen d : Int) - 1 - ((prec : Int) - 1) + ((prec : Int) - 1)
          = (bitLen n : Int) - (bitLen d : Int) - 1 := by ring
      rw [e]
      exact hlow.le
    · have e : (bitLen n : Int) - (bitLen d : Int) - 1 - ((prec : Int) - 1) + (prec : Int)
          = (bitLen n : Int) - (bitLen d : Int) := by ring
      rw [e]
      exact lt_of_not_le (fun h => hc (hcond.2 h))

theorem roundFloat_zero (prec : Nat) : roundFloat prec 0 = 0 := by
  simp [roundFloat]

theorem roundFloat_of_pos (prec : Nat) (q : ℚ) (hq : 0 < q) :
    roundFloat prec q
      = (roundSignificand prec q.num.natAbs q.den : ℚ)
          * (2 : ℚ) ^ (ulpExponent prec q.num.natAbs q.den) := by
  have hnum : 0 < q.num := Rat.num_pos.2 hq
  unfold roundFloat
  rw [if_neg (by omega), if_neg (by omega), Rat.mkRat_eq_div,
    two_zpow_split (ulpExponent prec q.num.natAbs q.den)]
  push_cast
  ring

theorem roundSignificand_spec (prec : Nat) (q : ℚ) (hq : 0 < q) :
    |(roundSignificand prec q.num.natAbs q.den : ℚ)
        - q / (2 : ℚ) ^ (ulpExponent prec q.num.natAbs q.den)| ≤ 1 / 2 := by
  have hnum : 0 < q.num := Rat.num_pos.2 hq
  have hden : 0 < q.den := Rat.den_pos q
  have hcast : ((q.num.natAbs : Nat) : ℚ) = (q.num : ℚ) := by
    rw [Nat.cast_natAbs, abs_of_pos hnum]
  have hD : 0 < q.den * 2 ^ (ulpExponent prec q.num.natAbs q.den).toNat := by positivity
  obtain ⟨h1, h2⟩ := divRoundEven_spec
    (q.num.natAbs * 2 ^ (-(ulpExponent prec q.num.natAbs q.den)).toNat)
    (q.den * 2 ^ (ulpExponent prec q.num.natAbs q.den).toNat) hD
  have hq' : q = (q.num.natAbs : ℚ) / (q.den : ℚ) := by
    rw [hcast]; exact (Rat.num_div_den q).symm
  unfold roundSignificand
  generalize divRoundEven (q.num.natAbs * 2 ^ (-(ulpExponent prec q.num.natAbs q.den)).toNat)
    (q.den * 2 ^ (ulpExponent prec q.num.natAbs q.den).toNat) = s at h1 h2 ⊢
  rw [two_zpow_split (ulpExponent prec q.num.natAbs q.den)]
  generalize (ulpExponent prec q.num.natAbs q.den).toNat = b at h1 h2 hD ⊢
  generalize (-(ulpExponent prec q.num.natAbs q.den)).toNat = a at h1 h2 ⊢
  have h1q : (2 : ℚ) * ((s : ℚ) * ((q.den : ℚ) * 2 ^ b) - (q.num.natAbs : ℚ) * 2 ^ a)
      ≤ (q.den : ℚ) * 2 ^ b := by exact_mod_cast h1
  have h2q : -((q.den : ℚ) * 2 ^ b)
      ≤ (2 : ℚ) * ((s : ℚ) * ((q.den : ℚ) * 2 ^ b) - (q.num.natAbs : ℚ) * 2 ^ a) := by
    exact_mod_cast h2
  have hdq : (0 : ℚ) < q.den := by exact_mod_cast hden
  have hb : (0 : ℚ) < 2 ^ b := by positivity
  have ha : (0 : ℚ) < 2 ^ a := by positivity
  have hDq : (0 : ℚ) < (q.den : ℚ) * 2 ^ b := by positivity
  have e : q / ((2 : ℚ) ^ b / 2 ^ a)
      = ((q.num.natAbs : ℚ) * 2 ^ a) / ((q.den : ℚ) * 2 ^ b) := by
    conv_lhs => rw [hq']
    field_simp
  rw [e, abs_le]
  generalize hX : ((q.num.natAbs : ℚ) * 2 ^ a) / ((q.den : ℚ) * 2 ^ b) = X
  have hXD : (q.num.natAbs : ℚ) * 2 ^ a = X * ((q.den : ℚ) * 2 ^ b) := by
    rw [← hX]; field_simp
  rw [hXD] at h1q h2q
  constructor
  · have h : (-(1 / 2 : ℚ)) * ((q.den : ℚ) * 2 ^ b) ≤ ((s : ℚ) - X) * ((q.den : ℚ) * 2 ^ b) := by
      linarith
    exact le_of_mul_le_mul_right h hDq
  · have h : ((s : ℚ) - X) * ((q.den : ℚ) * 2 ^ b) ≤ (1 / 2 : ℚ) * ((q.den : ℚ) * 2 ^ b) := by
      linarith
    exact le_of_mul_le_mul_right h hDq

/-- One rounding changes a positive value by at most the fraction `2 ^ -prec` of it. -/
theorem roundFloat_relerr (prec : Nat) (q : ℚ) (hq : 0 < q) :
    |roundFloat prec q - q| ≤ q / 2 ^ prec := by
  have hnum : 0 < q.num := Rat.num_pos.2 hq
  have hn : 0 < q.num.natAbs := by omega
  have hcast : ((q.num.natAbs : Nat) : ℚ) = (q.num : ℚ) := by
    rw [Nat.cast_natAbs, abs_of_pos hnum]
  have hq' : ((q.num.natAbs : Nat) : ℚ) / (q.den : ℚ) = q := by
    rw [hcast]; exact Rat.num_div_den q
  have hs := roundSignificand_spec prec q hq
  obtain ⟨hlo, -⟩ := ulpExponent_spec prec q.num.natAbs q.den hn (Rat.den_pos q)
  rw [hq'] at hlo
  rw [roundFloat_of_pos prec q hq]
  generalize (roundSignificand prec q.num.natAbs q.den : ℚ) = s at hs ⊢
  generalize ulpExponent prec q.num.natAbs q.den = e at hs hlo ⊢
  have he : (0 : ℚ) < (2 : ℚ) ^ e := by positivity
  have e1 : s * (2 : ℚ) ^ e - q = (s - q / (2 : ℚ) ^ e) * (2 : ℚ) ^ e := by
    field_simp
  have e2 : (2 : ℚ) ^ (e + ((prec : Int) - 1)) = (2 : ℚ) ^ e * 2 ^ prec / 2 := by
    rw [zpow_add₀ (by norm_num : (2 : ℚ) ≠ 0), zpow_sub₀ (by norm_num : (2 : ℚ) ≠ 0),
      zpow_natCast, zpow_one]
    ring
  rw [e2] at hlo
  rw [e1, abs_mul, abs_of_pos he, le_div_iff₀ (by positivity)]
  calc |s - q / (2 : ℚ) ^ e| * (2 : ℚ) ^ e * 2 ^ prec
      ≤ 1 / 2 * (2 : ℚ) ^ e * 2 ^ prec := by
        apply mul_le_mul_of_nonneg_right _ (by positivity)
        exact mul_le_mul_of_nonneg_right hs he.le
    _ = (2 : ℚ) ^ e * 2 ^ prec / 2 := by ring
    _ ≤ q := hlo

theorem roundFloat_bounds (prec : Nat) (q : ℚ) (hq : 0 ≤ q) :
    q * (1 - 1 / 2 ^ prec) ≤ roundFloat prec q ∧ roundFloat prec q ≤ q * (1 + 1 / 2 ^ prec) := by
  rcases hq.eq_or_lt with h | h
  · rw [← h, roundFloat_zero]; simp
  · have := abs_le.1 (roundFloat_relerr prec q h)
    constructor
    · have e : q * (1 - 1 / 2 ^ prec) = q - q / 2 ^ prec := by ring
      linarith
    · have e : q * (1 + 1 / 2 ^ prec) = q + q / 2 ^ prec := by ring
      linarith

theorem roundFloat_pos (prec : Nat) (hp : 1 ≤ prec) (q : ℚ) (hq : 0 < q) :
    0 < roundFloat prec q := by
  have h := (roundFloat_bounds prec q hq.le).1
  have h2 : (2 : ℚ) ^ 1 ≤ 2 ^ prec := pow_le_pow_right₀ (by norm_num) hp
  have h3 : (1 : ℚ) / 2 ^ prec ≤ 1 / 2 := by
    rw [div_le_div_iff₀ (by positivity) (by norm_num)]
    linarith
  have h4 : 0 < q * (1 - 1 / 2 ^ prec) := mul_pos hq (by linarith)
  linarith

theorem roundFloat_nonneg (prec : Nat) (q : ℚ) (hq : 0 ≤ q) : 0 ≤ roundFloat prec q := by
  have h := (roundFloat_bounds prec q hq).1
  have h3 : (1 : ℚ) / 2 ^ prec ≤ 1 := by
    rw [div_le_one (by positivity)]
    exact one_le_pow₀ (by norm_num)
  have h4 : 0 ≤ q * (1 - 1 / 2 ^ prec) := mul_nonneg hq (by linarith)
  linarith

/-! ## The center of the mapping -/

theorem shiftRight_one_eq_div (x : Int) : x >>> (1 : Int) = x / 2 := by
  cases x with
  | ofNat m =>
    have h := Int.shiftRight_coe_nat m 1
    simp only [Nat.cast_one, Nat.shiftRight_eq_div_pow, pow_one] at h
    rw [Int.ofNat_eq_coe, h]
    norm_cast
  | negSucc m =>
    have h := Int.shiftRight_negSucc m 1
    simp only [Nat.cast_one, Nat.shiftRight_eq_div_pow, pow_one] at h
    rw [h, Int.negSucc_eq, Int.negSucc_eq]
    have : ((m / 2 : Nat) : Int) = (m : Int) / 2 := by norm_cast
    rw [this]
    omega

theorem MappedPoti.getMapping_of_inCenter (pf : Platform) (p : MappedPoti) (raw lo hi : Int)
    (h : p.inCenter pf raw lo hi = true) :
    MappedPoti.getMapping pf p raw lo hi = some (p._numMapping / 2) := by
  unfold MappedPoti.getMapping
  rw [if_pos h, Nat.shiftRight_eq_div_pow, pow_one]

/-- With a largest analog value `0 ≤ m`, `m + 1` an `int`, and at least one
level, the implicit center of `getMapping` is computed without overflow:
half width `((m + 1) / n) / 2` around `m / 2`. -/
theorem MappedPoti.implicit_band (pf : Platform) (p : MappedPoti) (hb : 16 ≤ pf.intBits)
    (h0 : 0 ≤ p._maxAnalogVal) (h1 : p._maxAnalogVal < pf.intMax) (hn : 1 ≤ p._numMapping) :
    p.halfWidth pf = (p._maxAnalogVal + 1) / (p._numMapping : Int) / 2
    ∧ pf.wrap ((p._maxAnalogVal >>> 1) - p.halfWidth pf)
        = p._maxAnalogVal / 2 - (p._maxAnalogVal + 1) / (p._numMapping : Int) / 2
    ∧ pf.wrap ((p._maxAnalogVal >>> 1) + p.halfWidth pf)
        = p._maxAnalogVal / 2 + (p._maxAnalogVal + 1) / (p._numMapping : Int) / 2
    ∧ 0 ≤ (p._maxAnalogVal + 1) / (p._numMapping : Int) / 2
    ∧ p._maxAnalogVal / 2 + (p._maxAnalogVal + 1) / (p._numMapping : Int) / 2 ≤ p._maxAnalogVal
    ∧ -1 ≤ p._maxAnalogVal / 2 - (p._maxAnalogVal + 1) / (p._numMapping : Int) / 2 := by
  have hmin := Platform.intMin_le pf hb
  have hmax := Platform.intMax_ge pf hb
  have hw : pf.wrap (p._maxAnalogVal + 1) = p._maxAnalogVal + 1 :=
    Platform.wrap_eq_self pf _ hb (by omega) (by omega)
  have hnz : (0 : Int) < (p._numMapping : Int) := by exact_mod_cast hn
  have hq0 : 0 ≤ (p._maxAnalogVal + 1) / (p._numMapping : Int) :=
    Int.ediv_nonneg (by omega) hnz.le
  have hq1 : (p._maxAnalogVal + 1) / (p._numMapping : Int) ≤ p._maxAnalogVal + 1 :=
    Int.ediv_le_self _ (by omega)
  have hh : p.halfWidth pf = (p._maxAnalogVal + 1) / (p._numMapping : Int) / 2 := by
    unfold MappedPoti.halfWidth
    rw [hw, Int.tdiv_eq_ediv (by omega) hnz.le, shiftRight_one_eq_div]
  have hs : p._maxAnalogVal >>> 1 = p._maxAnalogVal / 2 := shiftRight_one_eq_div _
  rw [hh, hs]
  refine ⟨rfl, ?_, ?_, by omega, by omega, by omega⟩
  · exact Platform.wrap_eq_self pf _ hb (by omega) (by omega)
  · exact Platform.wrap_eq_self pf _ hb (by omega) (by omega)

/-- C16 as stated fails where `_maxAnalogVal + 1` is not an `int`: with 16 bit
`int`, largest analog value 32767 and 25 levels the claim's center is
`16383 ± 655`, but raw 16383 maps to level 11, not to the middle level 12 (the
sum wraps to -32768, the half width becomes negative and the center empty).
With 32 bit `int` the same happens at 2147483647. -/
theorem MappedPoti.implicit_center_overflow :
    (((MappedPoti.new 7 0 0 0 25 0).setMaxAnalogValue Platform.avr 32767).2._maxAnalogVal = 32767
      ∧ ((32767 : Int) / 2 - (32767 + 1) / 25 / 2 ≤ 16383
          ∧ (16383 : Int) ≤ 32767 / 2 + (32767 + 1) / 25 / 2)
      ∧ MappedPoti.getMapping Platform.avr
          ((MappedPoti.new 7 0 0 0 25 0).setMaxAnalogValue Platform.avr 32767).2 16383 0 0
        = some 11)
    ∧ MappedPoti.getMapping Platform.arm32
          ((MappedPoti.new 7 0 0 0 25 0).setMaxAnalogValue Platform.arm32 2147483647).2
          1073741823 0 0
        = some 11 := by
  decide!

/-- C16, amended.  When no center is given (`centerValLow = 0`), the number of
levels `n` is uneven and the largest analog value `m` satisfies `0 ≤ m` and
`m + 1` is an `int`, then for every stretch every raw value in
`[m / 2 - h, m / 2 + h]`, `h = ((m + 1) / n) / 2`, maps to the middle level
`n / 2`. -/
theorem MappedPoti.implicit_center (pf : Platform) (p : MappedPoti) (raw : Int)
    (hb : 16 ≤ pf.intBits) (h0 : 0 ≤ p._maxAnalogVal) (h1 : p._maxAnalogVal < pf.intMax)
    (hodd : p._numMapping % 2 = 1)
    (hlo : p._maxAnalogVal / 2 - (p._maxAnalogVal + 1) / (p._numMapping : Int) / 2 ≤ raw)
    (hhi : raw ≤ p._maxAnalogVal / 2 + (p._maxAnalogVal + 1) / (p._numMapping : Int) / 2) :
    MappedPoti.getMapping pf p raw 0 0 = some (p._numMapping / 2) := by
  obtain ⟨-, e2, e3, -, -, -⟩ := MappedPoti.implicit_band pf p hb h0 h1 (by omega)
  apply MappedPoti.getMapping_of_inCenter
  have hi : p.implicitCenter 0 = true := by
    simp [MappedPoti.implicitCenter, hodd]
  simp only [MappedPoti.inCenter, MappedPoti.centered, MappedPoti.centerValLow,
    MappedPoti.centerValHigh, hi, if_true, e2, e3, Bool.or_true, Bool.true_and, Bool.and_eq_true,
    decide_eq_true_eq]
  exact ⟨hlo, hhi⟩

/-- Witness for C16: the default largest analog value 1023 with 25 levels and
stretch 7, where the center is 491..531; raw 491 and raw 531 map to level 12. -/
theorem MappedPoti.implicit_center_witness :
    MappedPoti.getMapping Platform.avr (MappedPoti.new 7 0 0 0 25 7) 491 0 0 = some 12
    ∧ MappedPoti.getMapping Platform.arm32 (MappedPoti.new 7 0 0 0 25 7) 531 0 0 = some 12 :=
  ⟨MappedPoti.implicit_center Platform.avr (MappedPoti.new 7 0 0 0 25 7) 491 (by decide)
      (by decide) (by decide) (by decide) (by decide) (by decide),
   MappedPoti.implicit_center Platform.arm32 (MappedPoti.new 7 0 0 0 25 7) 531 (by decide)
      (by decide) (by decide) (by decide) (by decide) (by decide)⟩

/-- C15. Center dead zone of `CenteredPoti`: the code does not keep it for a
center band that starts at 0.  `getMapping` takes `centerValLow > 0` for "a
center is given".  The `CenteredPoti` with 5 levels, tolerance 100 and center
value 100 has the band `[0, 200]`; raw 100 lies in it and `getCenteredValue()`
is 0, but the level is 0, not the middle level 2, and the centered level is -2
(with 16 bit and with 32 bit `int`). -/
theorem CenteredPoti.dead_zone_ignored :
    ((CenteredPoti.new Platform.avr 7 0 0 0 5 0 100 100)._centerValLow = 0
      ∧ (CenteredPoti.new Platform.avr 7 0 0 0 5 0 100 100)._centerValHigh = 200
      ∧ (CenteredPoti.new Platform.avr 7 0 0 0 5 0 100 100)._numMapping = 5)
    ∧ MappedPoti.getMapping Platform.avr
        (CenteredPoti.new Platform.avr 7 0 0 0 5 0 100 100).toMappedPoti 100 0 200 = some 0
    ∧ ((CenteredPoti.new Platform.avr 7 0 0 0 5 0 100 100).hasChanged Platform.avr 1 100).map
        (fun r => (r.1, r.2.getValue, r.2.getCenteredValue Platform.avr, r.2.getMappedValue,
          r.2.getCenteredMappedValue))
      = some (true, 100, 0, 0, -2)
    ∧ ((CenteredPoti.new Platform.arm32 7 0 0 0 5 0 100 100).hasChanged Platform.arm32 1 100).map
        (fun r => (r.1, r.2.getValue, r.2.getCenteredValue Platform.arm32, r.2.getMappedValue,
          r.2.getCenteredMappedValue))
      = some (true, 100, 0, 0, -2) := by
  decide!

/-- The center dead zone where it is kept: for every `CenteredPoti` whose center band starts above 0
(`0 < _centerValLow`), for every stretch and every number of levels, every raw
value `v` with `_centerValLow ≤ v ≤ _centerValHigh` gets the middle level
`_numMapping / 2` from `getMapping`; a `hasChanged()` whose stabilized sample is
such a `v` is defined, and when it returns true `getValue()` is `v`,
`getMappedValue()` is `_numMapping / 2` and `getCenteredMappedValue()` is 0. -/
theorem CenteredPoti.center_dead_zone (pf : Platform) (p : CenteredPoti) (v : Int)
    (hlo : 0 < p._centerValLow) (h1 : p._centerValLow ≤ v) (h2 : v ≤ p._centerValHigh)
    (hn : p._numMapping ≤ 255) :
    MappedPoti.getMapping pf p.toMappedPoti v p._centerValLow p._centerValHigh
      = some (p._numMapping / 2)
    ∧ ∀ (current : Nat) (raw : Int),
        (p.toStablePoti.getStabilizedRawValue pf current raw).1 = v →
        ∃ r, p.hasChanged pf current raw = some r
          ∧ (r.1 = true → r.2.getValue = v ∧ r.2.getMappedValue = p._numMapping / 2
              ∧ r.2.getCenteredMappedValue = 0) := by
  have hm : MappedPoti.getMapping pf p.toMappedPoti v p._centerValLow p._centerValHigh
      = some (p._numMapping / 2) := by
    apply MappedPoti.getMapping_of_inCenter
    have hi : p.toMappedPoti.implicitCenter p._centerValLow = false := by
      simp [MappedPoti.implicitCenter, hlo]
    simp only [MappedPoti.inCenter, MappedPoti.centered, MappedPoti.centerValLow,
      MappedPoti.centerValHigh, hi, Bool.or_false, Bool.false_eq_true, if_false,
      Bool.and_eq_true, decide_eq_true_eq]
    exact ⟨⟨hlo, h1⟩, h2⟩
  refine ⟨hm, fun current raw hv => ?_⟩
  unfold CenteredPoti.hasChanged
  rw [hv]
  split_ifs with c1 c2
  · exact ⟨_, rfl, fun h => absurd h (by simp)⟩
  · exact ⟨_, rfl, fun h => absurd h (by simp)⟩
  · rw [hm, Option.map_some']
    split_ifs with c3
    · refine ⟨_, rfl, fun _ => ⟨rfl, rfl, ?_⟩⟩
      unfold CenteredPoti.getCenteredMappedValue
      have hne : p._numMapping / 2 ≠ POTI_MAPPING_UNDEFINED := by
        unfold POTI_MAPPING_UNDEFINED; omega
      simp only [if_neg hne, Nat.shiftRight_eq_div_pow, pow_one, sub_self]
    · exact ⟨_, rfl, fun h => absurd h (by simp)⟩

/-- Example of the dead zone: 5 levels with the dead zone `[410, 614]` (tolerance 102
around 512): raw 410 and raw 614 get level 2. -/
theorem CenteredPoti.center_dead_zone_witness :
    MappedPoti.getMapping Platform.avr
        (CenteredPoti.new Platform.avr 7 0 0 0 5 0 102 512).toMappedPoti 410 410 614 = some 2
    ∧ MappedPoti.getMapping Platform.avr
        (CenteredPoti.new Platform.avr 7 0 0 0 5 0 102 512).toMappedPoti 614 410 614 = some 2 :=
  ⟨(CenteredPoti.center_dead_zone Platform.avr (CenteredPoti.new Platform.avr 7 0 0 0 5 0 102 512)
      410 (by decide) (by decide) (by decide) (by decide)).1,
   (CenteredPoti.center_dead_zone Platform.avr (CenteredPoti.new Platform.avr 7 0 0 0 5 0 102 512)
      614 (by decide) (by decide) (by decide) (by decide)).1⟩

/-! ## Centered values of `CenteredPoti` -/

/-- C17 as stated fails where the difference is not an `int`: with 16 bit
`int`, the `CenteredPoti` constructed with tolerance 10 and center value -1010
has the band `[-1020, -1000]`; after the poll with raw 32000 `getValue()` is
32000, above the band, and `getCenteredValue()` is -32536, not
32000 - (-1000) = 33000. -/
theorem CenteredPoti.centered_value_overflow :
    ((CenteredPoti.new Platform.avr 7 0 0 0 5 0 10 (-1010)).hasChanged Platform.avr 1 32000).map
        (fun r => (r.1, r.2.getValue, r.2._centerValLow, r.2._centerValHigh,
          r.2.getCenteredValue Platform.avr))
      = some (true, 32000, -1020, -1000, -32536)
    ∧ (32000 : Int) - (-1000) = 33000 := by
  decide!

/-- C17, amended.  For a `CenteredPoti` with a defined current value `v` and
`_centerValLow ≤ _centerValHigh`, when the difference is an `int`
(`v - _centerValLow` for `v` below the band, `v - _centerValHigh` for `v` above
it; always so when `v` and `_centerValHigh` are not negative),
`getCenteredValue()` returns `v - _centerValLow` if `v < _centerValLow`,
`v - _centerValHigh` if `v > _centerValHigh`, and 0 otherwise, that is for `v`
in the band; `getCenteredPrevValue()` does the same for a defined previous
value. -/
theorem CenteredPoti.centered_value (pf : Platform) (p : CenteredPoti) (hb : 16 ≤ pf.intBits)
    (hband : p._centerValLow ≤ p._centerValHigh) :
    (p._curValue ≠ POTI_VALUE_UNDEFINED →
      (p._curValue < p._centerValLow → pf.intMin ≤ p._curValue - p._centerValLow) →
      (p._centerValHigh < p._curValue → p._curValue - p._centerValHigh ≤ pf.intMax) →
        (p._curValue < p._centerValLow →
          p.getCenteredValue pf = p._curValue - p._centerValLow)
        ∧ (p._centerValHigh < p._curValue →
          p.getCenteredValue pf = p._curValue - p._centerValHigh)
        ∧ (p._centerValLow ≤ p._curValue → p._curValue ≤ p._centerValHigh →
          p.getCenteredValue pf = 0))
    ∧ (p._prevValue ≠ POTI_VALUE_UNDEFINED →
      (p._prevValue < p._centerValLow → pf.intMin ≤ p._prevValue - p._centerValLow) →
      (p._centerValHigh < p._prevValue → p._prevValue - p._centerValHigh ≤ pf.intMax) →
        (p._prevValue < p._centerValLow →
          p.getCenteredPrevValue pf = p._prevValue - p._centerValLow)
        ∧ (p._centerValHigh < p._prevValue →
          p.getCenteredPrevValue pf = p._prevValue - p._centerValHigh)
        ∧ (p._centerValLow ≤ p._prevValue → p._prevValue ≤ p._centerValHigh →
          p.getCenteredPrevValue pf = 0))
    ∧ (∀ v : Int, 0 ≤ v → v ≤ pf.intMax → 0 ≤ p._centerValHigh → p._centerValHigh ≤ pf.intMax →
        (v < p._centerValLow → pf.intMin ≤ v - p._centerValLow)
        ∧ (p._centerValHigh < v → v - p._centerValHigh ≤ pf.intMax)) := by
  have hmin := Platform.intMin_le pf hb
  have hmax := Platform.intMax_ge pf hb
  have hmm : pf.intMin = -pf.intMax - 1 := by
    unfold Platform.intMin Platform.intMax; ring
  refine ⟨fun hd o1 o2 => ⟨fun h => ?_, fun h => ?_, fun h3 h4 => ?_⟩,
    fun hd o1 o2 => ⟨fun h => ?_, fun h => ?_, fun h3 h4 => ?_⟩,
    fun v v0 v1 c0 c1 => ⟨fun h => by omega, fun h => by omega⟩⟩
  · unfold CenteredPoti.getCenteredValue
    rw [if_neg hd, if_pos h]
    exact Platform.wrap_eq_self pf _ hb (o1 h) (by omega)
  · unfold CenteredPoti.getCenteredValue
    rw [if_neg hd, if_neg (by omega), if_pos h]
    exact Platform.wrap_eq_self pf _ hb (by omega) (o2 h)
  · unfold CenteredPoti.getCenteredValue
    rw [if_neg hd, if_neg (by omega), if_neg (by omega)]
  · unfold CenteredPoti.getCenteredPrevValue
    rw [if_neg hd, if_pos h]
    exact Platform.wrap_eq_self pf _ hb (o1 h) (by omega)
  · unfold CenteredPoti.getCenteredPrevValue
    rw [if_neg hd, if_neg (by omega), if_pos h]
    exact Platform.wrap_eq_self pf _ hb (by omega) (o2 h)
  · unfold CenteredPoti.getCenteredPrevValue
    rw [if_neg hd, if_neg (by omega), if_neg (by omega)]

/-- Witness for C17: the center band `[431, 593]` of the tests (tolerance 81
around 512): current value 1023 gives 430, previous value 10 gives -421, and
current value 100 gives -331. -/
theorem CenteredPoti.centered_value_witness :
    ({ CenteredPoti.new Platform.avr 7 0 0 0 25 0 81 512 with
        _curValue := 1023, _prevValue := 10 } : CenteredPoti).getCenteredValue Platform.avr = 430
    ∧ ({ CenteredPoti.new Platform.avr 7 0 0 0 25 0 81 512 with
        _curValue := 1023, _prevValue := 10 } : CenteredPoti).getCenteredPrevValue Platform.avr
      = -421
    ∧ ({ CenteredPoti.new Platform.avr 7 0 0 0 25 0 81 512 with
        _curValue := 100 } : CenteredPoti).getCenteredValue Platform.avr = -331 :=
  ⟨(((CenteredPoti.centered_value Platform.avr
        { CenteredPoti.new Platform.avr 7 0 0 0 25 0 81 512 with
          _curValue := 1023, _prevValue := 10 } (by decide) (by decide)).1
      (by decide) (by decide) (by decide)).2.1 (by decide)).trans (by decide),
   (((CenteredPoti.centered_value Platform.avr
        { CenteredPoti.new Platform.avr 7 0 0 0 25 0 81 512 with
          _curValue := 1023, _prevValue := 10 } (by decide) (by decide)).2.1
      (by decide) (by decide) (by decide)).1 (by decide)).trans (by decide),
   (((CenteredPoti.centered_value Platform.avr
        { CenteredPoti.new Platform.avr 7 0 0 0 25 0 81 512 with
          _curValue := 100 } (by decide) (by decide)).1
      (by decide) (by decide) (by decide)).1 (by decide)).trans (by decide)⟩

/-- C19 as stated fails where `centerVal + centerTol` is not an `int`: with
16 bit `int`, tolerance 10 and center value 32760 the constructor stores the
band `[32750, -32766]`, which holds no value at all, not the 21 values of
`[32750, 32770]`. -/
theorem CenteredPoti.center_band_overflow :
    (CenteredPoti.new Platform.avr 7 0 0 0 5 0 10 32760)._centerValLow = 32750
    ∧ (CenteredPoti.new Platform.avr 7 0 0 0 5 0 10 32760)._centerValHigh = -32766
    ∧ (Finset.Icc (CenteredPoti.new Platform.avr 7 0 0 0 5 0 10 32760)._centerValLow
        (CenteredPoti.new Platform.avr 7 0 0 0 5 0 10 32760)._centerValHigh).card = 0
    ∧ (32760 : Int) + 10 = 32770 := by
  decide

/-- C19, amended.  For every tolerance `centerTol` in 0..255 and every center
value `centerVal`, with `t = max(centerTol, 10)`: if `centerVal ≠ 0` and
`centerVal - t` and `centerVal + t` are `int` values, the constructor of
`CenteredPoti` stores the band `[centerVal - t, centerVal + t]`, which holds
exactly `2 * t + 1` values; if `centerVal = 0` it stores
`[m / 2 - t, m / 2 + t]` for the largest analog value `m`, which is 1023 at
construction, that is `[511 - t, 511 + t]`. -/
theorem CenteredPoti.center_band (pf : Platform) (hb : 16 ≤ pf.intBits)
    (inputPin readCycleMillis weightPrev addNumRawAvg numMapping stretch centerTol : Nat)
    (centerVal : Int) (ht : centerTol ≤ 255) :
    (centerVal ≠ 0 → pf.intMin ≤ centerVal - (max centerTol 10 : Nat) →
      centerVal + (max centerTol 10 : Nat) ≤ pf.intMax →
        (CenteredPoti.new pf inputPin readCycleMillis weightPrev addNumRawAvg numMapping stretch
            centerTol centerVal)._centerValLow = centerVal - (max centerTol 10 : Nat)
        ∧ (CenteredPoti.new pf inputPin readCycleMillis weightPrev addNumRawAvg numMapping stretch
            centerTol centerVal)._centerValHigh = centerVal + (max centerTol 10 : Nat)
        ∧ (Finset.Icc
            (CenteredPoti.new pf inputPin readCycleMillis weightPrev addNumRawAvg numMapping
              stretch centerTol centerVal)._centerValLow
            (CenteredPoti.new pf inputPin readCycleMillis weightPrev addNumRawAvg numMapping
              stretch centerTol centerVal)._centerValHigh).card = 2 * max centerTol 10 + 1)
    ∧ (centerVal = 0 →
        (CenteredPoti.new pf inputPin readCycleMillis weightPrev addNumRawAvg numMapping stretch
            centerTol centerVal).getMaxAnalogValue = 1023
        ∧ (CenteredPoti.new pf inputPin readCycleMillis weightPrev addNumRawAvg numMapping stretch
            centerTol centerVal)._centerValLow = 1023 / 2 - (max centerTol 10 : Nat)
        ∧ (CenteredPoti.new pf inputPin readCycleMillis weightPrev addNumRawAvg numMapping stretch
            centerTol centerVal)._centerValHigh = 1023 / 2 + (max centerTol 10 : Nat)
        ∧ (Finset.Icc
            (CenteredPoti.new pf inputPin readCycleMillis weightPrev addNumRawAvg numMapping
              stretch centerTol centerVal)._centerValLow
            (CenteredPoti.new pf inputPin readCycleMillis weightPrev addNumRawAvg numMapping
              stretch centerTol centerVal)._centerValHigh).card = 2 * max centerTol 10 + 1) := by
  have htol : (if centerTol < 10 then 10 else centerTol : Nat) = max centerTol 10 := by
    split_ifs <;> omega
  have hmax : max centerTol 10 ≤ 255 := by omega
  have hshift : ((1023 : Int) >>> (1 : Int)) = 511 := by decide
  constructor
  · intro hne h1 h2
    have elo : (CenteredPoti.new pf inputPin readCycleMillis weightPrev addNumRawAvg numMapping
        stretch centerTol centerVal)._centerValLow = centerVal - (max centerTol 10 : Nat) := by
      simp only [CenteredPoti.new, if_neg hne, htol]
      exact Platform.wrap_eq_self pf _ hb h1 (by omega)
    have ehi : (CenteredPoti.new pf inputPin readCycleMillis weightPrev addNumRawAvg numMapping
        stretch centerTol centerVal)._centerValHigh = centerVal + (max centerTol 10 : Nat) := by
      simp only [CenteredPoti.new, if_neg hne, htol]
      exact Platform.wrap_eq_self pf _ hb (by omega) h2
    refine ⟨elo, ehi, ?_⟩
    rw [elo, ehi, Int.card_Icc]
    omega
  · intro h0
    have elo : (CenteredPoti.new pf inputPin readCycleMillis weightPrev addNumRawAvg numMapping
        stretch centerTol centerVal)._centerValLow = 1023 / 2 - (max centerTol 10 : Nat) := by
      simp only [CenteredPoti.new, if_pos h0, htol, MappedPoti.new, hshift]
      exact Platform.wrap_small pf _ hb (by omega) (by omega)
    have ehi : (CenteredPoti.new pf inputPin readCycleMillis weightPrev addNumRawAvg numMapping
        stretch centerTol centerVal)._centerValHigh = 1023 / 2 + (max centerTol 10 : Nat) := by
      simp only [CenteredPoti.new, if_pos h0, htol, MappedPoti.new, hshift]
      exact Platform.wrap_small pf _ hb (by omega) (by omega)
    refine ⟨rfl, elo, ehi, ?_⟩
    rw [elo, ehi, Int.card_Icc]
    omega

/-- Witness for C19: tolerance 81 around center value 512 gives `[431, 593]`;
tolerance 3 around the default center gives `[501, 521]`. -/
theorem CenteredPoti.center_band_witness :
    ((CenteredPoti.new Platform.avr 7 0 0 0 25 0 81 512)._centerValLow = 431
      ∧ (CenteredPoti.new Platform.avr 7 0 0 0 25 0 81 512)._centerValHigh = 593)
    ∧ ((CenteredPoti.new Platform.arm32 7 0 0 0 25 0 3 0)._centerValLow = 501
      ∧ (CenteredPoti.new Platform.arm32 7 0 0 0 25 0 3 0)._centerValHigh = 521) :=
  ⟨⟨(((CenteredPoti.center_band Platform.avr (by decide) 7 0 0 0 25 0 81 512 (by decide)).1
        (by decide) (by decide) (by decide)).1).trans (by decide),
    (((CenteredPoti.center_band Platform.avr (by decide) 7 0 0 0 25 0 81 512 (by decide)).1
        (by decide) (by decide) (by decide)).2.1).trans (by decide)⟩,
   ⟨(((CenteredPoti.center_band Platform.arm32 (by decide) 7 0 0 0 25 0 3 0 (by decide)).2
        (by decide)).2.1).trans (by decide),
    (((CenteredPoti.center_band Platform.arm32 (by decide) 7 0 0 0 25 0 3 0 (by decide)).2
        (by decide)).2.2.1).trans (by decide)⟩⟩

/-! ## The extremes of the mapping -/

theorem Platform.toFloat_pos (pf : Platform) (hf : 1 ≤ pf.floatPrec) (q : ℚ) (hq : 0 < q) :
    0 < pf.toFloat q := roundFloat_pos _ hf q hq

theorem Platform.toDouble_pos (pf : Platform) (hd : 1 ≤ pf.doublePrec) (q : ℚ) (hq : 0 < q) :
    0 < pf.toDouble q := roundFloat_pos _ hd q hq

theorem Platform.toDouble_nonneg (pf : Platform) (q : ℚ) (hq : 0 ≤ q) : 0 ≤ pf.toDouble q :=
  roundFloat_nonneg _ q hq

theorem Platform.toDouble_zero (pf : Platform) : pf.toDouble 0 = 0 := roundFloat_zero _

theorem Platform.toFloat_zero (pf : Platform) : pf.toFloat 0 = 0 := roundFloat_zero _

theorem MappedPoti.scale_pos (pf : Platform) (p : MappedPoti) (hf : 1 ≤ pf.floatPrec)
    (hd : 1 ≤ pf.doublePrec) : 0 < p.scale pf := by
  unfold MappedPoti.scale
  apply pf.toFloat_pos hf
  apply pf.toDouble_pos hd
  have : 0 ≤ pf.toDouble ((p._stretch : ℚ) / 10) := pf.toDouble_nonneg _ (by positivity)
  linarith

/-- At `x = 0` the quotient of `getMapping` is 0 whatever the stretch. -/
theorem MappedPoti.bucket_zero (pf : Platform) (hf : 1 ≤ pf.floatPrec) (hd : 1 ≤ pf.doublePrec)
    (stdDiv scale valTot : ℚ) (h1 : 0 < stdDiv) (h2 : 0 < scale) (h3 : valTot ≠ 0) :
    MappedPoti.bucket pf stdDiv scale valTot 0 = some 0 := by
  have ha : 0 < pf.toFloat (stdDiv / scale) := pf.toFloat_pos hf _ (div_pos h1 h2)
  have hi : 0 < pf.toDouble (1 / scale) := pf.toDouble_pos hd _ (by positivity)
  have hden : pf.toDouble (pf.toFloat (stdDiv / scale) * pf.toDouble (0 + pf.toDouble (1 / scale)))
      ≠ 0 := by
    rw [zero_add]
    exact (pf.toDouble_pos hd _ (mul_pos ha (pf.toDouble_pos hd _ hi))).ne'
  simp only [MappedPoti.bucket, Platform.divFloat, Platform.divDouble, if_neg h2.ne', if_neg h3,
    Int.cast_zero, Platform.toDouble_zero, mul_zero, zero_div, Option.bind_eq_bind,
    Option.some_bind, if_neg hden, Option.pure_def]
  rfl

theorem floatToUint8_natCast (m : Nat) (hm : m < 256) : floatToUint8 (m : ℚ) = some m := by
  have ht : truncQ (m : ℚ) = (m : Int) := by
    unfold truncQ
    rw [if_pos (by positivity)]
    have h2 : Rat.floor (m : ℚ) = ⌊(m : ℚ)⌋ := rfl
    rw [h2, Int.floor_natCast]
  unfold floatToUint8
  rw [ht, if_pos ⟨by positivity, by exact_mod_cast hm⟩]
  simp

/-- Left of the center the level of raw value 0 is 0. -/
theorem MappedPoti.getMapping_left_zero (pf : Platform) (p : MappedPoti) (lo hi : Int)
    (hf : 1 ≤ pf.floatPrec) (hd : 1 ≤ pf.doublePrec) (hn : 1 ≤ p._numMapping)
    (hc : p.inCenter pf 0 lo hi = false) (hl : p.leftSide pf 0 lo = true)
    (hv : 0 < p.valTot pf 0 lo hi) (hm : 0 < p.mapTot pf lo) :
    MappedPoti.getMapping pf p 0 lo hi = some 0 := by
  have hs := p.scale_pos pf hf hd
  have hstd : 0 < pf.toFloat (p.valTot pf 0 lo hi / p.mapTot pf lo) :=
    pf.toFloat_pos hf _ (div_pos hv hm)
  unfold MappedPoti.getMapping
  rw [hc]
  rw [if_neg (by simp)]
  unfold MappedPoti.tmpFloat
  rw [hl]
  simp only [Platform.divFloat, if_neg hm.ne', Option.some_bind, if_true,
    MappedPoti.bucket_zero pf hf hd _ _ _ hstd hs hv.ne', Option.map_some', Int.cast_zero,
    Platform.toFloat_zero]
  have h0 : floatToUint8 0 = some 0 := by
    have := floatToUint8_natCast 0 (by norm_num)
    simpa using this
  rw [h0, Option.map_some']
  unfold MappedPoti.correction
  rw [if_neg (by omega), if_neg (by omega)]

/-- Right of the center the level of the largest raw value is the highest level. -/
theorem MappedPoti.getMapping_right_max (pf : Platform) (p : MappedPoti) (raw lo hi : Int)
    (hb : 16 ≤ pf.intBits) (hf : 10 ≤ pf.floatPrec) (hd : 10 ≤ pf.doublePrec)
    (hn : 1 ≤ p._numMapping) (hn2 : p._numMapping ≤ 255)
    (hc : p.inCenter pf raw lo hi = false) (hl : p.leftSide pf raw lo = false)
    (hx : pf.wrap (p._maxAnalogVal - raw) = 0)
    (hv : 0 < p.valTot pf raw lo hi) (hm : 0 < p.mapTot pf lo) :
    MappedPoti.getMapping pf p raw lo hi = some (p._numMapping - 1) := by
  have hs := p.scale_pos pf (by omega) (by omega)
  have hstd : 0 < pf.toFloat (p.valTot pf raw lo hi / p.mapTot pf lo) :=
    pf.toFloat_pos (by omega) _ (div_pos hv hm)
  have hw : pf.wrap ((p._numMapping : Int) - 1) = ((p._numMapping - 1 : Nat) : Int) := by
    rw [pf.wrap_small _ hb (by omega) (by omega)]
    omega
  have e1 : pf.toDouble (((p._numMapping - 1 : Nat) : Int) : ℚ) = ((p._numMapping - 1 : Nat) : ℚ) := by
    rw [Int.cast_natCast]
    exact roundFloat_small_nat _ hd _ (by omega)
  have e2 : pf.toDouble ((p._numMapping - 1 : Nat) : ℚ) = ((p._numMapping - 1 : Nat) : ℚ) :=
    roundFloat_small_nat _ hd _ (by omega)
  have e3 : pf.toFloat ((p._numMapping - 1 : Nat) : ℚ) = ((p._numMapping - 1 : Nat) : ℚ) :=
    roundFloat_small_nat _ hf _ (by omega)
  unfold MappedPoti.getMapping
  rw [hc]
  rw [if_neg (by simp)]
  unfold MappedPoti.tmpFloat
  rw [hl, hx]
  simp only [Platform.divFloat, if_neg hm.ne', Option.some_bind, Bool.false_eq_true, if_false,
    MappedPoti.bucket_zero pf (by omega) (by omega) _ _ _ hstd hs hv.ne', Option.map_some',
    Int.cast_zero, sub_zero, hw, e1, e2, e3]
  rw [floatToUint8_natCast _ (by omega), Option.map_some']
  unfold MappedPoti.correction
  rw [if_neg (by omega), if_neg (by omega)]

theorem MappedPoti.mapTot_pos (pf : Platform) (p : MappedPoti) (lo : Int) (hb : 16 ≤ pf.intBits)
    (hf : 1 ≤ pf.floatPrec) (hn1 : 2 ≤ p._numMapping) (hn2 : p._numMapping ≤ 255)
    (hc : p.centered lo = true → 3 ≤ p._numMapping) : 0 < p.mapTot pf lo := by
  unfold MappedPoti.mapTot
  apply pf.toFloat_pos hf
  by_cases h : p.centered lo = true
  · have h3 := hc h
    rw [h]
    simp only [Bool.not_true, Bool.false_eq_true, if_false]
    rw [pf.wrap_small _ hb (by omega) (by omega), shiftRight_one_eq_div]
    have : (0 : Int) < ((p._numMapping : Int) - 1) / 2 := by omega
    exact_mod_cast this
  · have h' : p.centered lo = false := by simpa using h
    rw [h']
    simp only [Bool.not_false, if_true, Nat.shiftRight_eq_div_pow, pow_one]
    have : (0 : Int) < ((p._numMapping / 2 : Nat) : Int) := by omega
    exact_mod_cast this

/-- Without a center given: where raw value 0 and the largest raw value lie,
and that the divisors of `getMapping` are positive there. -/
theorem MappedPoti.extremes_sides (pf : Platform) (p : MappedPoti) (hb : 16 ≤ pf.intBits)
    (hf : 1 ≤ pf.floatPrec) (hn1 : 2 ≤ p._numMapping) (hn2 : p._numMapping ≤ 255)
    (hm1 : 3 ≤ p._maxAnalogVal) (hm2 : p._maxAnalogVal < pf.intMax) :
    (p.inCenter pf 0 0 0 = false ∧ p.leftSide pf 0 0 = true ∧ 0 < p.valTot pf 0 0 0)
    ∧ (p.inCenter pf p._maxAnalogVal 0 0 = false ∧ p.leftSide pf p._maxAnalogVal 0 = false
        ∧ 0 < p.valTot pf p._maxAnalogVal 0 0)
    ∧ 0 < p.mapTot pf 0 := by
  have hmin := Platform.intMin_le pf hb
  have hmax := Platform.intMax_ge pf hb
  obtain ⟨e1, e2, e3, e4, e5, e6⟩ := MappedPoti.implicit_band pf p hb (by omega) hm2 (by omega)
  have hw : pf.wrap (p._maxAnalogVal + 1) = p._maxAnalogVal + 1 :=
    Platform.wrap_eq_self pf _ hb (by omega) (by omega)
  have hhalf : (pf.wrap (p._maxAnalogVal + 1)) >>> 1 = (p._maxAnalogVal + 1) / 2 := by
    rw [hw, shiftRight_one_eq_div]
  by_cases hodd : p._numMapping % 2 = 1
  · -- implicit center
    have hi : p.implicitCenter 0 = true := by simp [MappedPoti.implicitCenter, hodd]
    have hce : p.centered 0 = true := by simp [MappedPoti.centered, hi]
    have hn3 : (3 : Int) ≤ (p._numMapping : Int) := by omega
    have ha0 : 0 ≤ (p._maxAnalogVal + 1) / (p._numMapping : Int) :=
      Int.ediv_nonneg (by omega) (by omega)
    have ha : (p._maxAnalogVal + 1) / (p._numMapping : Int) * 3 ≤ p._maxAnalogVal + 1 :=
      calc (p._maxAnalogVal + 1) / (p._numMapping : Int) * 3
          ≤ (p._maxAnalogVal + 1) / (p._numMapping : Int) * (p._numMapping : Int) :=
            mul_le_mul_of_nonneg_left hn3 ha0
        _ ≤ p._maxAnalogVal + 1 := Int.ediv_mul_le _ (by omega)
    have hlo : p.centerValLow pf 0
        = p._maxAnalogVal / 2 - (p._maxAnalogVal + 1) / (p._numMapping : Int) / 2 := by
      simp only [MappedPoti.centerValLow, hi, if_true, e2]
    have hhi : p.centerValHigh pf 0 0
        = p._maxAnalogVal / 2 + (p._maxAnalogVal + 1) / (p._numMapping : Int) / 2 := by
      simp only [MappedPoti.centerValHigh, hi, if_true, e3]
    have hlopos : 0 < p._maxAnalogVal / 2 - (p._maxAnalogVal + 1) / (p._numMapping : Int) / 2 := by
      omega
    have hhilt : p._maxAnalogVal / 2 + (p._maxAnalogVal + 1) / (p._numMapping : Int) / 2
        < p._maxAnalogVal := by omega
    have hl0 : p.leftSide pf 0 0 = true := by
      simp only [MappedPoti.leftSide, hce, hlo, Bool.true_and, Bool.not_true, Bool.false_and,
        Bool.or_false, decide_eq_true_eq]
      exact hlopos
    have hlm : p.leftSide pf p._maxAnalogVal 0 = false := by
      simp only [MappedPoti.leftSide, hce, hlo, Bool.true_and, Bool.not_true, Bool.false_and,
        Bool.or_false, decide_eq_false_iff_not, not_lt]
      omega
    refine ⟨⟨?_, hl0, ?_⟩, ⟨?_, hlm, ?_⟩,
      MappedPoti.mapTot_pos pf p 0 hb hf hn1 hn2 (fun _ => by omega)⟩
    · simp only [MappedPoti.inCenter, hce, hlo, hhi, Bool.true_and, Bool.and_eq_false_imp,
        decide_eq_true_eq, decide_eq_false_iff_not, not_le]
      intro h
      omega
    · simp only [MappedPoti.valTot, hl0, if_true, hce, Bool.not_true, Bool.false_eq_true,
        if_false, hlo]
      apply pf.toFloat_pos hf
      exact_mod_cast hlopos
    · simp only [MappedPoti.inCenter, hce, hlo, hhi, Bool.true_and, Bool.and_eq_false_imp,
        decide_eq_true_eq, decide_eq_false_iff_not, not_le]
      intro _
      exact hhilt
    · simp only [MappedPoti.valTot, hlm, Bool.false_eq_true, if_false, hce, Bool.not_true, hhi]
      apply pf.toFloat_pos hf
      rw [Platform.wrap_eq_self pf _ hb (by omega) (by omega)]
      have : 0 < p._maxAnalogVal
          - (p._maxAnalogVal / 2 + (p._maxAnalogVal + 1) / (p._numMapping : Int) / 2) := by omega
      exact_mod_cast this
  · -- no center
    have hi : p.implicitCenter 0 = false := by
      simp only [MappedPoti.implicitCenter, lt_self_iff_false, decide_False, Bool.not_false,
        Bool.true_and, decide_eq_false_iff_not]
      omega
    have hce : p.centered 0 = false := by simp [MappedPoti.centered, hi]
    have hl0 : p.leftSide pf 0 0 = true := by
      simp only [MappedPoti.leftSide, hce, Bool.false_and, Bool.not_false, Bool.true_and,
        Bool.false_or, hhalf, decide_eq_true_eq]
      omega
    have hlm : p.leftSide pf p._maxAnalogVal 0 = false := by
      simp only [MappedPoti.leftSide, hce, Bool.false_and, Bool.not_false, Bool.true_and,
        Bool.false_or, hhalf, decide_eq_false_iff_not, not_lt]
      omega
    have hhp : (0 : ℚ) < (((p._maxAnalogVal + 1) / 2 : Int) : ℚ) := by
      have : 0 < (p._maxAnalogVal + 1) / 2 := by omega
      exact_mod_cast this
    refine ⟨⟨?_, hl0, ?_⟩, ⟨?_, hlm, ?_⟩,
      MappedPoti.mapTot_pos pf p 0 hb hf hn1 hn2 (fun h => by rw [hce] at h; simp at h)⟩
    · simp [MappedPoti.inCenter, hce]
    · simp only [MappedPoti.valTot, hl0, if_true, hce, Bool.not_false, hhalf]
      exact pf.toFloat_pos hf _ hhp
    · simp [MappedPoti.inCenter, hce]
    · simp only [MappedPoti.valTot, hlm, Bool.false_eq_true, if_false, hce, Bool.not_false,
        if_true, hhalf]
      exact pf.toFloat_pos hf _ hhp

/-- C20 as stated fails where `_maxAnalogVal + 1` is not an `int`: with 16 bit
`int` and the largest analog value 32767 (uneven, at least 3) raw value 0 gets
level 1 of 2 levels, and level 7 of 20 levels with stretch 20; with 32 bit
`int` the same happens at 2147483647. -/
theorem MappedPoti.extremes_overflow :
    ((MappedPoti.new 7 0 0 0 2 0).setMaxAnalogValue Platform.avr 32767).2._maxAnalogVal = 32767
    ∧ MappedPoti.getMapping Platform.avr
        ((MappedPoti.new 7 0 0 0 2 0).setMaxAnalogValue Platform.avr 32767).2 0 0 0 = some 1
    ∧ MappedPoti.getMapping Platform.avr
        ((MappedPoti.new 7 0 0 0 20 20).setMaxAnalogValue Platform.avr 32767).2 0 0 0 = some 7
    ∧ MappedPoti.getMapping Platform.arm32
        ((MappedPoti.new 7 0 0 0 2 0).setMaxAnalogValue Platform.arm32 2147483647).2 0 0 0
      = some 1 := by
  decide!

/-- C20, amended.  For every `MappedPoti` with 2 to 100 levels, any stretch and
a largest analog value `m` with `3 ≤ m` and `m + 1` an `int`, on every platform
with at least 16 bit `int` and 10 bit significands: `getMapping(0)` is level 0
and `getMapping(m)` is the highest level `_numMapping - 1`. -/
theorem MappedPoti.mapping_extremes (pf : Platform) (p : MappedPoti) (hb : 16 ≤ pf.intBits)
    (hf : 10 ≤ pf.floatPrec) (hd : 10 ≤ pf.doublePrec)
    (hn1 : 2 ≤ p._numMapping) (hn2 : p._numMapping ≤ 100)
    (hm1 : 3 ≤ p._maxAnalogVal) (hm2 : p._maxAnalogVal < pf.intMax) :
    MappedPoti.getMapping pf p 0 0 0 = some 0
    ∧ MappedPoti.getMapping pf p p._maxAnalogVal 0 0 = some (p._numMapping - 1) := by
  obtain ⟨⟨a1, a2, a3⟩, ⟨b1, b2, b3⟩, hm⟩ :=
    MappedPoti.extremes_sides pf p hb (by omega) hn1 (by omega) hm1 hm2
  refine ⟨MappedPoti.getMapping_left_zero pf p 0 0 (by omega) (by omega) (by omega) a1 a2 a3 hm,
    MappedPoti.getMapping_right_max pf p _ 0 0 hb hf hd (by omega) (by omega) b1 b2 ?_ b3 hm⟩
  rw [sub_self]
  exact pf.wrap_small _ hb (by norm_num) (by norm_num)

/-- Witness for C20: the test with 20 levels, and 25 levels with stretch 20 and
the largest analog value 4095. -/
theorem MappedPoti.mapping_extremes_witness :
    (MappedPoti.getMapping Platform.avr (MappedPoti.new 7 0 0 0 20 0) 0 0 0 = some 0
      ∧ MappedPoti.getMapping Platform.avr (MappedPoti.new 7 0 0 0 20 0) 1023 0 0 = some 19)
    ∧ (MappedPoti.getMapping Platform.arm32
          ((MappedPoti.new 7 0 0 0 25 20).setMaxAnalogValue Platform.arm32 4095).2 0 0 0 = some 0
      ∧ MappedPoti.getMapping Platform.arm32
          ((MappedPoti.new 7 0 0 0 25 20).setMaxAnalogValue Platform.arm32 4095).2 4095 0 0
        = some 24) :=
  ⟨MappedPoti.mapping_extremes Platform.avr (MappedPoti.new 7 0 0 0 20 0) (by decide) (by decide)
      (by decide) (by decide) (by decide) (by decide) (by decide),
   MappedPoti.mapping_extremes Platform.arm32
      ((MappedPoti.new 7 0 0 0 25 20).setMaxAnalogValue Platform.arm32 4095).2 (by decide)
      (by decide) (by decide) (by decide) (by decide) (by decide) (by decide)⟩

/-! ## Centered levels of `CenteredPoti` -/

/-- With a center given (`0 < lo ≤ hi < _maxAnalogVal`): where raw value 0 and
the largest raw value lie, and that the divisors of `getMapping` are positive
there. -/
theorem MappedPoti.explicit_sides (pf : Platform) (p : MappedPoti) (lo hi : Int)
    (hb : 16 ≤ pf.intBits) (hf : 1 ≤ pf.floatPrec)
    (hn1 : 3 ≤ p._numMapping) (hn2 : p._numMapping ≤ 255)
    (h1 : 0 < lo) (h2 : lo ≤ hi) (h3 : hi < p._maxAnalogVal) (h4 : p._maxAnalogVal ≤ pf.intMax) :
    (p.inCenter pf 0 lo hi = false ∧ p.leftSide pf 0 lo = true ∧ 0 < p.valTot pf 0 lo hi)
    ∧ (p.inCenter pf p._maxAnalogVal lo hi = false ∧ p.leftSide pf p._maxAnalogVal lo = false
        ∧ 0 < p.valTot pf p._maxAnalogVal lo hi)
    ∧ 0 < p.mapTot pf lo := by
  have hmin := Platform.intMin_le pf hb
  have hi0 : p.implicitCenter lo = false := by simp [MappedPoti.implicitCenter, h1]
  have hce : p.centered lo = true := by simp [MappedPoti.centered, h1]
  have hlo : p.centerValLow pf lo = lo := by simp [MappedPoti.centerValLow, hi0]
  have hhi : p.centerValHigh pf lo hi = hi := by simp [MappedPoti.centerValHigh, hi0]
  have hl0 : p.leftSide pf 0 lo = true := by
    simp only [MappedPoti.leftSide, hce, hlo, Bool.true_and, Bool.not_true, Bool.false_and,
      Bool.or_false, decide_eq_true_eq]
    exact h1
  have hlm : p.leftSide pf p._maxAnalogVal lo = false := by
    simp only [MappedPoti.leftSide, hce, hlo, Bool.true_and, Bool.not_true, Bool.false_and,
      Bool.or_false, decide_eq_false_iff_not, not_lt]
    omega
  refine ⟨⟨?_, hl0, ?_⟩, ⟨?_, hlm, ?_⟩,
    MappedPoti.mapTot_pos pf p lo hb hf (by omega) hn2 (fun _ => hn1)⟩
  · simp only [MappedPoti.inCenter, hce, hlo, hhi, Bool.true_and, Bool.and_eq_false_imp,
      decide_eq_true_eq, decide_eq_false_iff_not, not_le]
    intro h
    omega
  · simp only [MappedPoti.valTot, hl0, if_true, hce, Bool.not_true, Bool.false_eq_true,
      if_false, hlo]
    apply pf.toFloat_pos hf
    exact_mod_cast h1
  · simp only [MappedPoti.inCenter, hce, hlo, hhi, Bool.true_and, Bool.and_eq_false_imp,
      decide_eq_true_eq, decide_eq_false_iff_not, not_le]
    intro _
    exact h3
  · simp only [MappedPoti.valTot, hlm, Bool.false_eq_true, if_false, hce, Bool.not_true, hhi]
    apply pf.toFloat_pos hf
    rw [Platform.wrap_eq_self pf _ hb (by omega) (by omega)]
    have : 0 < p._maxAnalogVal - hi := by omega
    exact_mod_cast this

/-- A `CenteredPoti::hasChanged` whose stabilized sample has a level is
defined, and when it returns true the sample and its level are current. -/
theorem CenteredPoti.hasChanged_level (pf : Platform) (p : CenteredPoti) (v : Int) (lvl : Nat)
    (hm : MappedPoti.getMapping pf p.toMappedPoti v p._centerValLow p._centerValHigh = some lvl)
    (current : Nat) (raw : Int)
    (hv : (p.toStablePoti.getStabilizedRawValue pf current raw).1 = v) :
    ∃ r, p.hasChanged pf current raw = some r
      ∧ r.2._numMapping = p._numMapping
      ∧ (r.1 = true → r.2.getValue = v ∧ r.2.getMappedValue = lvl
          ∧ r.2.getPrevValue = p.getValue ∧ r.2.getMappedPrevValue = p.getMappedValue)
      ∧ (r.1 = false → r.2.getValue = p.getValue ∧ r.2.getMappedValue = p.getMappedValue
          ∧ r.2.getPrevValue = p.getPrevValue
          ∧ r.2.getMappedPrevValue = p.getMappedPrevValue) := by
  have g := StablePoti.getStabilizedRawValue_frame pf p.toStablePoti current raw
  unfold CenteredPoti.hasChanged
  rw [hv]
  split_ifs with c1 c2
  · exact ⟨_, rfl, rfl, fun h => absurd h (by simp), fun _ => ⟨g.1, rfl, g.2.1, rfl⟩⟩
  · exact ⟨_, rfl, rfl, fun h => absurd h (by simp), fun _ => ⟨g.1, rfl, g.2.1, rfl⟩⟩
  · rw [hm, Option.map_some']
    split_ifs with c3
    · exact ⟨_, rfl, rfl, fun _ => ⟨rfl, rfl, rfl, rfl⟩, fun h => absurd h (by simp)⟩
    · exact ⟨_, rfl, rfl, fun h => absurd h (by simp), fun _ => ⟨g.1, rfl, g.2.1, rfl⟩⟩

/-- Levels stored by `CenteredPoti::hasChanged` are undefined or below the number of levels. -/
theorem CenteredPoti.hasChanged_levels (pf : Platform) (p : CenteredPoti) (current : Nat)
    (raw : Int) (r : Bool × CenteredPoti) (h : p.hasChanged pf current raw = some r)
    (hn1 : 1 ≤ p._numMapping) (hn2 : p._numMapping ≤ 255)
    (hc : p._curMapValue = POTI_MAPPING_UNDEFINED ∨ p._curMapValue < p._numMapping)
    (hp : p._prevMapValue = POTI_MAPPING_UNDEFINED ∨ p._prevMapValue < p._numMapping) :
    r.2._numMapping = p._numMapping
    ∧ (r.2._curMapValue = POTI_MAPPING_UNDEFINED ∨ r.2._curMapValue < r.2._numMapping)
    ∧ (r.2._prevMapValue = POTI_MAPPING_UNDEFINED ∨ r.2._prevMapValue < r.2._numMapping) := by
  unfold CenteredPoti.hasChanged at h
  split_ifs at h with c1 c2
  · rw [← Option.some.inj h]; exact ⟨rfl, hc, hp⟩
  · rw [← Option.some.inj h]; exact ⟨rfl, hc, hp⟩
  · simp only [Option.map_eq_some'] at h
    obtain ⟨m, hm, hr⟩ := h
    have hlt := MappedPoti.getMapping_lt pf p.toMappedPoti _ _ _ m hm hn1 hn2
    rw [← hr]
    split_ifs with c3
    · exact ⟨rfl, Or.inr hlt, hc⟩
    · exact ⟨rfl, hc, hp⟩

theorem CenteredPoti.run_levels (pf : Platform) (p : CenteredPoti) (qs : List Poll)
    (r : List Bool × CenteredPoti) (h : CenteredPoti.run pf p qs = some r)
    (hn1 : 1 ≤ p._numMapping) (hn2 : p._numMapping ≤ 255)
    (hc : p._curMapValue = POTI_MAPPING_UNDEFINED ∨ p._curMapValue < p._numMapping)
    (hp : p._prevMapValue = POTI_MAPPING_UNDEFINED ∨ p._prevMapValue < p._numMapping) :
    r.2._numMapping = p._numMapping
    ∧ (r.2._curMapValue = POTI_MAPPING_UNDEFINED ∨ r.2._curMapValue < r.2._numMapping)
    ∧ (r.2._prevMapValue = POTI_MAPPING_UNDEFINED ∨ r.2._prevMapValue < r.2._numMapping) := by
  induction qs generalizing p r with
  | nil =>
    simp only [CenteredPoti.run, Option.some.injEq] at h
    rw [← h]
    exact ⟨rfl, hc, hp⟩
  | cons q qs ih =>
    simp only [CenteredPoti.run, Option.bind_eq_some, Option.map_eq_some'] at h
    obtain ⟨s, hs, t, ht, hr⟩ := h
    obtain ⟨k1, k2, k3⟩ := CenteredPoti.hasChanged_levels pf p q.current q.raw s hs hn1 hn2 hc hp
    obtain ⟨j1, j2, j3⟩ := ih s.2 t ht (by omega) (by omega) k2 k3
    rw [← hr]
    exact ⟨j1.trans k1, j2, j3⟩

/-- C18 as stated fails for center bands that reach the largest raw value or
do not start above 0.  With 25 levels (x = 12): the band `[950, 1050]`
(tolerance 50 around 1000) holds the largest raw value 1023, which gets the
centered level 0, not +12; the band `[-55, 455]` (tolerance 255 around 200) is
not used by `getMapping`, and raw 200 at its center gets the centered level -8,
not 0. -/
theorem CenteredPoti.centered_level_band :
    ((CenteredPoti.new Platform.avr 7 0 0 0 25 0 50 1000).getMaxAnalogValue = 1023
      ∧ (CenteredPoti.new Platform.avr 7 0 0 0 25 0 50 1000)._centerValLow = 950
      ∧ (CenteredPoti.new Platform.avr 7 0 0 0 25 0 50 1000)._centerValHigh = 1050
      ∧ (CenteredPoti.new Platform.avr 7 0 0 0 25 0 255 200)._centerValLow = -55
      ∧ (CenteredPoti.new Platform.avr 7 0 0 0 25 0 255 200)._centerValHigh = 455)
    ∧ ((CenteredPoti.new Platform.avr 7 0 0 0 25 0 50 1000).hasChanged Platform.avr 1 1023).map
        (fun r => (r.1, r.2.getValue, r.2.getMappedValue, r.2.getCenteredMappedValue))
      = some (true, 1023, 12, 0)
    ∧ ((CenteredPoti.new Platform.avr 7 0 0 0 25 0 255 200).hasChanged Platform.avr 1 200).map
        (fun r => (r.1, r.2.getValue, r.2.getMappedValue, r.2.getCenteredMappedValue))
      = some (true, 200, 4, -8) := by
  decide!

theorem CenteredPoti.center_dead_zone_aux (pf : Platform) (p : CenteredPoti) (v : Int)
    (hlo : 0 < p._centerValLow) (h1 : p._centerValLow ≤ v) (h2 : v ≤ p._centerValHigh) :
    MappedPoti.getMapping pf p.toMappedPoti v p._centerValLow p._centerValHigh
      = some (p._numMapping / 2) := by
  apply MappedPoti.getMapping_of_inCenter
  have hi : p.toMappedPoti.implicitCenter p._centerValLow = false := by
    simp [MappedPoti.implicitCenter, hlo]
  simp only [MappedPoti.inCenter, MappedPoti.centered, MappedPoti.centerValLow,
    MappedPoti.centerValHigh, hi, Bool.or_false, Bool.false_eq_true, if_false,
    Bool.and_eq_true, decide_eq_true_eq]
  exact ⟨⟨hlo, h1⟩, h2⟩

/-- C18, amended.  For a `CenteredPoti` with an uneven number `n` of levels,
3 to 101, and `x = (n - 1) / 2`: whenever the current level `L` is defined,
`getCenteredMappedValue()` is `L - n / 2`; every level stored by polls is
undefined or below `n`, and for `L < n` the centered level lies in `[-x, x]`;
`getCenteredMappedPrevValue()` does the same for the previous level.  When the
center band satisfies `0 < _centerValLow ≤ _centerValHigh < _maxAnalogVal`, a
`hasChanged()` that returns true has the centered level `-x` for the
stabilized sample 0, `+x` for the sample `_maxAnalogVal` and 0 for a sample in
the band. -/
theorem CenteredPoti.centered_level (pf : Platform) (p : CenteredPoti) (hb : 16 ≤ pf.intBits)
    (hf : 10 ≤ pf.floatPrec) (hd : 10 ≤ pf.doublePrec)
    (hodd : p._numMapping % 2 = 1) (hn1 : 3 ≤ p._numMapping) (hn2 : p._numMapping ≤ 101) :
    (p._curMapValue ≠ POTI_MAPPING_UNDEFINED →
        p.getCenteredMappedValue = (p._curMapValue : Int) - ((p._numMapping / 2 : Nat) : Int))
    ∧ (p._prevMapValue ≠ POTI_MAPPING_UNDEFINED →
        p.getCenteredMappedPrevValue
          = (p._prevMapValue : Int) - ((p._numMapping / 2 : Nat) : Int))
    ∧ (p._curMapValue < p._numMapping →
        -(((p._numMapping - 1) / 2 : Nat) : Int) ≤ p.getCenteredMappedValue
        ∧ p.getCenteredMappedValue ≤ (((p._numMapping - 1) / 2 : Nat) : Int))
    ∧ (p._prevMapValue < p._numMapping →
        -(((p._numMapping - 1) / 2 : Nat) : Int) ≤ p.getCenteredMappedPrevValue
        ∧ p.getCenteredMappedPrevValue ≤ (((p._numMapping - 1) / 2 : Nat) : Int))
    ∧ (∀ (qs : List Poll) (r : List Bool × CenteredPoti),
        (p._curMapValue = POTI_MAPPING_UNDEFINED ∨ p._curMapValue < p._numMapping) →
        (p._prevMapValue = POTI_MAPPING_UNDEFINED ∨ p._prevMapValue < p._numMapping) →
        CenteredPoti.run pf p qs = some r →
          r.2._numMapping = p._numMapping
          ∧ (r.2._curMapValue = POTI_MAPPING_UNDEFINED ∨ r.2._curMapValue < r.2._numMapping)
          ∧ (r.2._prevMapValue = POTI_MAPPING_UNDEFINED
              ∨ r.2._prevMapValue < r.2._numMapping))
    ∧ (0 < p._centerValLow → p._centerValLow ≤ p._centerValHigh →
        p._centerValHigh < p._maxAnalogVal → p._maxAnalogVal ≤ pf.intMax →
        ∀ (current : Nat) (raw : Int),
          ((p.toStablePoti.getStabilizedRawValue pf current raw).1 = 0 →
            ∃ r, p.hasChanged pf current raw = some r
              ∧ (r.1 = true → r.2.getMappedValue = 0
                  ∧ r.2.getCenteredMappedValue = -(((p._numMapping - 1) / 2 : Nat) : Int)))
          ∧ ((p.toStablePoti.getStabilizedRawValue pf current raw).1 = p._maxAnalogVal →
            ∃ r, p.hasChanged pf current raw = some r
              ∧ (r.1 = true → r.2.getMappedValue = p._numMapping - 1
                  ∧ r.2.getCenteredMappedValue = (((p._numMapping - 1) / 2 : Nat) : Int)))
          ∧ (p._centerValLow ≤ (p.toStablePoti.getStabilizedRawValue pf current raw).1 →
              (p.toStablePoti.getStabilizedRawValue pf current raw).1 ≤ p._centerValHigh →
            ∃ r, p.hasChanged pf current raw = some r
              ∧ (r.1 = true → r.2.getMappedValue = p._numMapping / 2
                  ∧ r.2.getCenteredMappedValue = 0))) := by
  have hU : POTI_MAPPING_UNDEFINED = 255 := rfl
  have key : ∀ (q : CenteredPoti) (lvl : Nat), q._numMapping = p._numMapping →
      q.getMappedValue = lvl → lvl < p._numMapping →
      q.getCenteredMappedValue = (lvl : Int) - ((p._numMapping / 2 : Nat) : Int) := by
    intro q lvl e1 e2 e3
    unfold MappedPoti.getMappedValue at e2
    unfold CenteredPoti.getCenteredMappedValue
    rw [if_neg (by rw [e2, hU]; omega), e1, e2, Nat.shiftRight_eq_div_pow, pow_one]
  refine ⟨fun h => ?_, fun h => ?_, fun h => ?_, fun h => ?_, fun qs r hc hp hr => ?_,
    fun c1 c2 c3 c4 current raw => ⟨fun hv => ?_, fun hv => ?_, fun v1 v2 => ?_⟩⟩
  · unfold CenteredPoti.getCenteredMappedValue
    rw [if_neg h, Nat.shiftRight_eq_div_pow, pow_one]
  · unfold CenteredPoti.getCenteredMappedPrevValue
    rw [if_neg h, Nat.shiftRight_eq_div_pow, pow_one]
  · unfold CenteredPoti.getCenteredMappedValue
    rw [if_neg (by rw [hU]; omega), Nat.shiftRight_eq_div_pow, pow_one]
    omega
  · unfold CenteredPoti.getCenteredMappedPrevValue
    rw [if_neg (by rw [hU]; omega), Nat.shiftRight_eq_div_pow, pow_one]
    omega
  · exact CenteredPoti.run_levels pf p qs r hr (by omega) (by omega) hc hp
  · obtain ⟨⟨a1, a2, a3⟩, -, hm⟩ := MappedPoti.explicit_sides pf p.toMappedPoti _ _ hb (by omega)
      hn1 (by omega) c1 c2 c3 c4
    have hmap := MappedPoti.getMapping_left_zero pf p.toMappedPoti _ _ (by omega) (by omega)
      (by omega) a1 a2 a3 hm
    obtain ⟨r, hr, hnum, ht, -⟩ := CenteredPoti.hasChanged_level pf p 0 0 hmap current raw hv
    refine ⟨r, hr, fun h => ⟨(ht h).2.1, ?_⟩⟩
    rw [key r.2 0 hnum (ht h).2.1 (by omega)]
    omega
  · obtain ⟨-, ⟨b1, b2, b3⟩, hm⟩ := MappedPoti.explicit_sides pf p.toMappedPoti _ _ hb (by omega)
      hn1 (by omega) c1 c2 c3 c4
    have hx : pf.wrap (p._maxAnalogVal - p._maxAnalogVal) = 0 := by
      rw [sub_self]
      exact pf.wrap_small _ hb (by norm_num) (by norm_num)
    have hmap := MappedPoti.getMapping_right_max pf p.toMappedPoti _ _ _ hb hf hd (by omega)
      (by omega) b1 b2 hx b3 hm
    obtain ⟨r, hr, hnum, ht, -⟩ :=
      CenteredPoti.hasChanged_level pf p _ _ hmap current raw hv
    refine ⟨r, hr, fun h => ⟨(ht h).2.1, ?_⟩⟩
    rw [key r.2 _ hnum (ht h).2.1 (by omega)]
    omega
  · have hmap := (CenteredPoti.center_dead_zone_aux pf p _ c1 v1 v2)
    obtain ⟨r, hr, hnum, ht, -⟩ :=
      CenteredPoti.hasChanged_level pf p _ _ hmap current raw rfl
    refine ⟨r, hr, fun h => ⟨(ht h).2.1, ?_⟩⟩
    rw [key r.2 _ hnum (ht h).2.1 (by omega)]
    omega

/-- Witness for C18: the `CenteredPoti` of the tests (25 levels, band
`[431, 593]`): the samples 0, 1023 and 512 give the centered levels -12, 12
and 0. -/
theorem CenteredPoti.centered_level_witness :
    (∃ r, (CenteredPoti.new Platform.avr 7 0 0 0 25 0 81 512).hasChanged Platform.avr 1 0 = some r
      ∧ (r.1 = true → r.2.getMappedValue = 0 ∧ r.2.getCenteredMappedValue = -12))
    ∧ (∃ r, (CenteredPoti.new Platform.avr 7 0 0 0 25 0 81 512).hasChanged Platform.avr 1 1023
        = some r
      ∧ (r.1 = true → r.2.getMappedValue = 24 ∧ r.2.getCenteredMappedValue = 12))
    ∧ (∃ r, (CenteredPoti.new Platform.avr 7 0 0 0 25 0 81 512).hasChanged Platform.avr 1 512
        = some r
      ∧ (r.1 = true → r.2.getMappedValue = 12 ∧ r.2.getCenteredMappedValue = 0)) :=
  ⟨((CenteredPoti.centered_level Platform.avr (CenteredPoti.new Platform.avr 7 0 0 0 25 0 81 512)
      (by decide) (by decide) (by decide) (by decide) (by decide) (by decide)).2.2.2.2.2
      (by decide) (by decide) (by decide) (by decide) 1 0).1 (by decide),
   ((CenteredPoti.centered_level Platform.avr (CenteredPoti.new Platform.avr 7 0 0 0 25 0 81 512)
      (by decide) (by decide) (by decide) (by decide) (by decide) (by decide)).2.2.2.2.2
      (by decide) (by decide) (by decide) (by decide) 1 1023).2.1 (by decide),
   ((CenteredPoti.centered_level Platform.avr (CenteredPoti.new Platform.avr 7 0 0 0 25 0 81 512)
      (by decide) (by decide) (by decide) (by decide) (by decide) (by decide)).2.2.2.2.2
      (by decide) (by decide) (by decide) (by decide) 1 512).2.2 (by decide) (by decide)⟩

/-! ## Error bounds for the quotient of `getMapping` -/

/-- With at least 24 significant bits one rounding changes a value that is
not negative by at most the fraction `2 ^ -24` of it. -/
theorem roundFloat_eps (prec : Nat) (hp : 24 ≤ prec) (q : ℚ) (hq : 0 ≤ q) :
    q * (1 - 1 / 16777216) ≤ roundFloat prec q ∧ roundFloat prec q ≤ q * (1 + 1 / 16777216) := by
  obtain ⟨h1, h2⟩ := roundFloat_bounds prec q hq
  have h24 : (2 : ℚ) ^ 24 ≤ 2 ^ prec := pow_le_pow_right₀ (by norm_num) hp
  have hu : (1 : ℚ) / 2 ^ prec ≤ 1 / 16777216 := by
    rw [div_le_div_iff₀ (by positivity) (by norm_num)]
    norm_num at h24 ⊢
    linarith
  constructor
  · calc q * (1 - 1 / 16777216) ≤ q * (1 - 1 / 2 ^ prec) :=
        mul_le_mul_of_nonneg_left (by linarith) hq
      _ ≤ roundFloat prec q := h1
  · calc roundFloat prec q ≤ q * (1 + 1 / 2 ^ prec) := h2
      _ ≤ q * (1 + 1 / 16777216) := mul_le_mul_of_nonneg_left (by linarith) hq

/-- The divisor of the quotient: `a * (k * x / V + inv)` computed in `double`
in four rounded operations. -/
theorem divisor_bounds (pf : Platform) (hd : 24 ≤ pf.doublePrec) (a k inv V x : ℚ)
    (ha : 0 < a) (hk : 0 ≤ k) (hi : 0 < inv) (hV : 0 < V) (hx : 0 ≤ x) :
    a * (k * x / V + inv) * (1 - 1 / 4000000)
        ≤ pf.toDouble (a * pf.toDouble (pf.toDouble (pf.toDouble (k * x) / V) + inv))
    ∧ pf.toDouble (a * pf.toDouble (pf.toDouble (pf.toDouble (k * x) / V) + inv))
        ≤ a * (k * x / V + inv) * (1 + 1 / 4000000) := by
  have hkx : 0 ≤ k * x := mul_nonneg hk hx
  obtain ⟨l1, u1⟩ := roundFloat_eps pf.doublePrec hd (k * x) hkx
  have h1 : 0 ≤ pf.toDouble (k * x) := pf.toDouble_nonneg _ hkx
  obtain ⟨l2, u2⟩ := roundFloat_eps pf.doublePrec hd (pf.toDouble (k * x) / V) (div_nonneg h1 hV.le)
  have h2 : 0 ≤ pf.toDouble (pf.toDouble (k * x) / V) :=
    pf.toDouble_nonneg _ (div_nonneg h1 hV.le)
  have h3 : 0 < pf.toDouble (pf.toDouble (k * x) / V) + inv := by linarith
  obtain ⟨l3, u3⟩ := roundFloat_eps pf.doublePrec hd
    (pf.toDouble (pf.toDouble (k * x) / V) + inv) h3.le
  have h4 : 0 ≤ pf.toDouble (pf.toDouble (pf.toDouble (k * x) / V) + inv) :=
    pf.toDouble_nonneg _ h3.le
  obtain ⟨l4, u4⟩ := roundFloat_eps pf.doublePrec hd
    (a * pf.toDouble (pf.toDouble (pf.toDouble (k * x) / V) + inv)) (mul_nonneg ha.le h4)
  change _ ≤ pf.toDouble (k * x) at l1
  change pf.toDouble (k * x) ≤ _ at u1
  change _ ≤ pf.toDouble (pf.toDouble (k * x) / V) at l2
  change pf.toDouble (pf.toDouble (k * x) / V) ≤ _ at u2
  change _ ≤ pf.toDouble (pf.toDouble (pf.toDouble (k * x) / V) + inv) at l3
  change pf.toDouble (pf.toDouble (pf.toDouble (k * x) / V) + inv) ≤ _ at u3
  change _ ≤ pf.toDouble (a * pf.toDouble (pf.toDouble (pf.toDouble (k * x) / V) + inv)) at l4
  change pf.toDouble (a * pf.toDouble (pf.toDouble (pf.toDouble (k * x) / V) + inv)) ≤ _ at u4
  generalize pf.toDouble (a * pf.toDouble (pf.toDouble (pf.toDouble (k * x) / V) + inv)) = d
    at l4 u4 ⊢
  generalize pf.toDouble (pf.toDouble (pf.toDouble (k * x) / V) + inv) = t2 at l3 u3 l4 u4 h4
  generalize pf.toDouble (pf.toDouble (k * x) / V) = c at l2 u2 l3 u3 h2 h3
  generalize pf.toDouble (k * x) = t1 at l1 u1 l2 u2 h1
  -- the exact quotient k x / V
  have hq0 : 0 ≤ k * x / V := div_nonneg hkx hV.le
  have c_lo : k * x / V * ((1 - 1 / 16777216) * (1 - 1 / 16777216)) ≤ c := by
    have : k * x * (1 - 1 / 16777216) / V ≤ t1 / V := div_le_div_of_nonneg_right l1 hV.le
    calc k * x / V * ((1 - 1 / 16777216) * (1 - 1 / 16777216))
        = k * x * (1 - 1 / 16777216) / V * (1 - 1 / 16777216) := by ring
      _ ≤ t1 / V * (1 - 1 / 16777216) := mul_le_mul_of_nonneg_right this (by norm_num)
      _ ≤ c := l2
  have c_hi : c ≤ k * x / V * ((1 + 1 / 16777216) * (1 + 1 / 16777216)) := by
    have : t1 / V ≤ k * x * (1 + 1 / 16777216) / V := div_le_div_of_nonneg_right u1 hV.le
    calc c ≤ t1 / V * (1 + 1 / 16777216) := u2
      _ ≤ k * x * (1 + 1 / 16777216) / V * (1 + 1 / 16777216) :=
          mul_le_mul_of_nonneg_right this (by norm_num)
      _ = k * x / V * ((1 + 1 / 16777216) * (1 + 1 / 16777216)) := by ring
  have e_lo : (k * x / V + inv) * ((1 - 1 / 16777216) * (1 - 1 / 16777216)) ≤ c + inv := by
    have : inv * ((1 - 1 / 16777216) * (1 - 1 / 16777216)) ≤ inv := by
      have : ((1 : ℚ) - 1 / 16777216) * (1 - 1 / 16777216) ≤ 1 := by norm_num
      calc inv * ((1 - 1 / 16777216) * (1 - 1 / 16777216)) ≤ inv * 1 :=
            mul_le_mul_of_nonneg_left this hi.le
        _ = inv := mul_one _
    linarith
  have e_hi : c + inv ≤ (k * x / V + inv) * ((1 + 1 / 16777216) * (1 + 1 / 16777216)) := by
    have : inv ≤ inv * ((1 + 1 / 16777216) * (1 + 1 / 16777216)) := by
      have : (1 : ℚ) ≤ (1 + 1 / 16777216) * (1 + 1 / 16777216) := by norm_num
      calc inv = inv * 1 := (mul_one _).symm
        _ ≤ inv * ((1 + 1 / 16777216) * (1 + 1 / 16777216)) :=
            mul_le_mul_of_nonneg_left this hi.le
    linarith
  have hE : 0 < k * x / V + inv := by linarith
  generalize k * x / V + inv = E at e_lo e_hi hE ⊢
  have t_lo : E * ((1 - 1 / 16777216) * (1 - 1 / 16777216) * (1 - 1 / 16777216)) ≤ t2 := by
    calc E * ((1 - 1 / 16777216) * (1 - 1 / 16777216) * (1 - 1 / 16777216))
        = E * ((1 - 1 / 16777216) * (1 - 1 / 16777216)) * (1 - 1 / 16777216) := by ring
      _ ≤ (c + inv) * (1 - 1 / 16777216) := mul_le_mul_of_nonneg_right e_lo (by norm_num)
      _ ≤ t2 := l3
  have t_hi : t2 ≤ E * ((1 + 1 / 16777216) * (1 + 1 / 16777216) * (1 + 1 / 16777216)) := by
    calc t2 ≤ (c + inv) * (1 + 1 / 16777216) := u3
      _ ≤ E * ((1 + 1 / 16777216) * (1 + 1 / 16777216)) * (1 + 1 / 16777216) :=
          mul_le_mul_of_nonneg_right e_hi (by norm_num)
      _ = E * ((1 + 1 / 16777216) * (1 + 1 / 16777216) * (1 + 1 / 16777216)) := by ring
  constructor
  · calc a * E * (1 - 1 / 4000000)
        ≤ a * E * ((1 - 1 / 16777216) * (1 - 1 / 16777216) * (1 - 1 / 16777216)
            * (1 - 1 / 16777216)) :=
          mul_le_mul_of_nonneg_left (by norm_num) (mul_pos ha hE).le
      _ = a * (E * ((1 - 1 / 16777216) * (1 - 1 / 16777216) * (1 - 1 / 16777216)))
            * (1 - 1 / 16777216) := by ring
      _ ≤ a * t2 * (1 - 1 / 16777216) :=
          mul_le_mul_of_nonneg_right (mul_le_mul_of_nonneg_left t_lo ha.le) (by norm_num)
      _ ≤ d := l4
  · calc d ≤ a * t2 * (1 + 1 / 16777216) := u4
      _ ≤ a * (E * ((1 + 1 / 16777216) * (1 + 1 / 16777216) * (1 + 1 / 16777216)))
            * (1 + 1 / 16777216) :=
          mul_le_mul_of_nonneg_right (mul_le_mul_of_nonneg_left t_hi ha.le) (by norm_num)
      _ = a * E * ((1 + 1 / 16777216) * (1 + 1 / 16777216) * (1 + 1 / 16777216)
            * (1 + 1 / 16777216)) := by ring
      _ ≤ a * E * (1 + 1 / 4000000) :=
          mul_le_mul_of_nonneg_left (by norm_num) (mul_pos ha hE).le

theorem MappedPoti.bucket_eq_quotient (pf : Platform) (stdDiv scale valTot : ℚ) (x : Int)
    (hs : scale ≠ 0) (hv : valTot ≠ 0) (hd : MappedPoti.divisor pf stdDiv scale valTot x ≠ 0) :
    MappedPoti.bucket pf stdDiv scale valTot x
      = some (truncQ (MappedPoti.quotient pf stdDiv scale valTot x)) := by
  unfold MappedPoti.divisor at hd
  simp only [MappedPoti.bucket, Platform.divFloat, Platform.divDouble, if_neg hs, if_neg hv,
    Option.bind_eq_bind, Option.some_bind, if_neg hd, Option.pure_def, MappedPoti.quotient,
    MappedPoti.divisor]

/-- The quotient of `getMapping` for a value `x ≥ 0` that `double` holds exactly:
it differs from `x / (a * (k * x / V + inv))` by at most the fraction 1/3000000,
where `a`, `k` and `inv` are the rounded constants `stdDiv / scale`,
`scale - 1.0 / scale` and `1.0 / scale`. -/
theorem MappedPoti.quotient_bounds (pf : Platform) (hd : 24 ≤ pf.doublePrec)
    (stdDiv scale V : ℚ) (x : Nat) (hx : x < 2 ^ 24)
    (ha : 0 < pf.toFloat (stdDiv / scale))
    (hk : 0 ≤ pf.toDouble (scale - pf.toDouble (1 / scale)))
    (hi : 0 < pf.toDouble (1 / scale)) (hV : 0 < V) :
    0 < MappedPoti.divisor pf stdDiv scale V (x : Int)
    ∧ 0 ≤ MappedPoti.quotient pf stdDiv scale V (x : Int)
    ∧ MappedPoti.quotient pf stdDiv scale V (x : Int)
        * (pf.toFloat (stdDiv / scale)
            * (pf.toDouble (scale - pf.toDouble (1 / scale)) * x / V + pf.toDouble (1 / scale)))
        ≤ x * (1 + 1 / 3000000)
    ∧ x * (1 - 1 / 3000000)
        ≤ MappedPoti.quotient pf stdDiv scale V (x : Int)
          * (pf.toFloat (stdDiv / scale)
            * (pf.toDouble (scale - pf.toDouble (1 / scale)) * x / V
                + pf.toDouble (1 / scale))) := by
  have hxq : (0 : ℚ) ≤ (x : ℚ) := by positivity
  have ex : pf.toDouble (((x : Int) : ℚ)) = (x : ℚ) := by
    rw [Int.cast_natCast]
    exact roundFloat_natCast _ x (lt_of_lt_of_le hx (Nat.pow_le_pow_right (by norm_num) hd))
  obtain ⟨dl, du⟩ := divisor_bounds pf hd _ _ _ V x ha hk hi hV hxq
  have hE : 0 < pf.toDouble (scale - pf.toDouble (1 / scale)) * x / V + pf.toDouble (1 / scale) := by
    have : 0 ≤ pf.toDouble (scale - pf.toDouble (1 / scale)) * x / V :=
      div_nonneg (mul_nonneg hk hxq) hV.le
    linarith
  unfold MappedPoti.quotient MappedPoti.divisor
  rw [ex]
  generalize pf.toDouble (pf.toFloat (stdDiv / scale)
    * pf.toDouble (pf.toDouble (pf.toDouble (pf.toDouble (scale - pf.toDouble (1 / scale))
        * (x : ℚ)) / V) + pf.toDouble (1 / scale))) = d at dl du ⊢
  have haE := mul_pos ha hE
  generalize pf.toFloat (stdDiv / scale)
    * (pf.toDouble (scale - pf.toDouble (1 / scale)) * x / V + pf.toDouble (1 / scale)) = W
    at dl du haE ⊢
  have hdpos : 0 < d := lt_of_lt_of_le (mul_pos haE (by norm_num)) dl
  obtain ⟨gl, gu⟩ := roundFloat_eps pf.doublePrec hd ((x : ℚ) / d) (div_nonneg hxq hdpos.le)
  change _ ≤ pf.toDouble ((x : ℚ) / d) at gl
  change pf.toDouble ((x : ℚ) / d) ≤ _ at gu
  have hg0 : 0 ≤ pf.toDouble ((x : ℚ) / d) := pf.toDouble_nonneg _ (div_nonneg hxq hdpos.le)
  generalize pf.toDouble ((x : ℚ) / d) = g at gl gu hg0 ⊢
  refine ⟨hdpos, hg0, ?_, ?_⟩
  · -- g ≤ x/d (1+ε), d ≥ W (1-γ)
    have h1 : g * d ≤ x * (1 + 1 / 16777216) := by
      have := mul_le_mul_of_nonneg_right gu hdpos.le
      have e : (x : ℚ) / d * (1 + 1 / 16777216) * d = x * (1 + 1 / 16777216) := by
        field_simp
        ring
      linarith
    have h2 : g * (W * (1 - 1 / 4000000)) ≤ g * d := mul_le_mul_of_nonneg_left dl hg0
    have h3 : g * W * (1 - 1 / 4000000) ≤ x * (1 + 1 / 16777216) := by
      have e : g * W * (1 - 1 / 4000000) = g * (W * (1 - 1 / 4000000)) := by ring
      linarith
    have h4 : (x : ℚ) * (1 + 1 / 16777216) ≤ x * (1 + 1 / 3000000) * (1 - 1 / 4000000) := by
      have : (1 + 1 / 16777216 : ℚ) ≤ (1 + 1 / 3000000) * (1 - 1 / 4000000) := by norm_num
      calc (x : ℚ) * (1 + 1 / 16777216) ≤ x * ((1 + 1 / 3000000) * (1 - 1 / 4000000)) :=
            mul_le_mul_of_nonneg_left this hxq
        _ = x * (1 + 1 / 3000000) * (1 - 1 / 4000000) := by ring
    exact le_of_mul_le_mul_right (h3.trans h4) (by norm_num)
  · have h1 : x * (1 - 1 / 16777216) ≤ g * d := by
      have := mul_le_mul_of_nonneg_right gl hdpos.le
      have e : (x : ℚ) / d * (1 - 1 / 16777216) * d = x * (1 - 1 / 16777216) := by
        field_simp
        ring
      linarith
    have h2 : g * d ≤ g * (W * (1 + 1 / 4000000)) := mul_le_mul_of_nonneg_left du hg0
    have h3 : (x : ℚ) * (1 - 1 / 16777216) ≤ g * W * (1 + 1 / 4000000) := by
      have e : g * W * (1 + 1 / 4000000) = g * (W * (1 + 1 / 4000000)) := by ring
      linarith
    have h4 : (x : ℚ) * (1 - 1 / 3000000) * (1 + 1 / 4000000) ≤ x * (1 - 1 / 16777216) := by
      have : ((1 - 1 / 3000000) * (1 + 1 / 4000000) : ℚ) ≤ 1 - 1 / 16777216 := by norm_num
      calc (x : ℚ) * (1 - 1 / 3000000) * (1 + 1 / 4000000)
          = x * ((1 - 1 / 3000000) * (1 + 1 / 4000000)) := by ring
        _ ≤ x * (1 - 1 / 16777216) := mul_le_mul_of_nonneg_left this hxq
    exact le_of_mul_le_mul_right (h4.trans h3) (by norm_num)

/-- The rounded constants of `getMapping` that depend on the stretch only:
`scale`, `1.0 / scale` and `scale - 1.0 / scale`. -/
theorem MappedPoti.scale_facts (pf : Platform) (p : MappedPoti) (hf : 24 ≤ pf.floatPrec)
    (hd : 24 ≤ pf.doublePrec) (hst : p._stretch ≤ 20) :
    1 ≤ p.scale pf ∧ p.scale pf ≤ 3001 / 1000
    ∧ 1 - 1 / 16777216 ≤ pf.toDouble (1 / p.scale pf) * p.scale pf
    ∧ pf.toDouble (1 / p.scale pf) * p.scale pf ≤ 1 + 1 / 16777216
    ∧ 1 / 4 ≤ pf.toDouble (1 / p.scale pf) ∧ pf.toDouble (1 / p.scale pf) ≤ 1
    ∧ 0 ≤ pf.toDouble (p.scale pf - pf.toDouble (1 / p.scale pf))
    ∧ pf.toDouble (p.scale pf - pf.toDouble (1 / p.scale pf)) ≤ 15 / 4
    ∧ (p.scale pf - pf.toDouble (1 / p.scale pf)) * (1 - 1 / 16777216)
        ≤ pf.toDouble (p.scale pf - pf.toDouble (1 / p.scale pf))
    ∧ pf.toDouble (p.scale pf - pf.toDouble (1 / p.scale pf))
        ≤ (p.scale pf - pf.toDouble (1 / p.scale pf)) * (1 + 1 / 16777216)
    ∧ (p._stretch = 0 → p.scale pf = 1 ∧ pf.toDouble (1 / p.scale pf) = 1
        ∧ pf.toDouble (p.scale pf - pf.toDouble (1 / p.scale pf)) = 0) := by
  have d1 : pf.toDouble 1 = 1 := by
    have := roundFloat_small_nat pf.doublePrec (by omega) 1 (by norm_num)
    simpa [Platform.toDouble] using this
  have f1 : pf.toFloat 1 = 1 := by
    have := roundFloat_small_nat pf.floatPrec (by omega) 1 (by norm_num)
    simpa [Platform.toFloat] using this
  rcases Nat.eq_zero_or_pos p._stretch with h0 | hpos
  · have hs : p.scale pf = 1 := by
      unfold MappedPoti.scale
      rw [h0]
      simp [Platform.toDouble_zero, d1, f1]
    have hi : pf.toDouble (1 / p.scale pf) = 1 := by rw [hs]; simp [d1]
    have hk : pf.toDouble (p.scale pf - pf.toDouble (1 / p.scale pf)) = 0 := by
      rw [hi, hs]; simp [Platform.toDouble_zero]
    rw [hk, hi, hs]
    norm_num
  · -- stretch 1..20
    have hq1 : (1 : ℚ) / 10 ≤ (p._stretch : ℚ) / 10 := by
      have : (1 : ℚ) ≤ (p._stretch : ℚ) := by exact_mod_cast hpos
      linarith
    have hq2 : (p._stretch : ℚ) / 10 ≤ 2 := by
      have : (p._stretch : ℚ) ≤ 20 := by exact_mod_cast hst
      linarith
    obtain ⟨wl, wu⟩ := roundFloat_eps pf.doublePrec hd ((p._stretch : ℚ) / 10) (by linarith)
    change _ ≤ pf.toDouble ((p._stretch : ℚ) / 10) at wl
    change pf.toDouble ((p._stretch : ℚ) / 10) ≤ _ at wu
    have hw0 : 0 ≤ pf.toDouble ((p._stretch : ℚ) / 10) := pf.toDouble_nonneg _ (by linarith)
    obtain ⟨yl, yu⟩ := roundFloat_eps pf.doublePrec hd
      (1 + pf.toDouble ((p._stretch : ℚ) / 10)) (by linarith)
    change _ ≤ pf.toDouble (1 + pf.toDouble ((p._stretch : ℚ) / 10)) at yl
    change pf.toDouble (1 + pf.toDouble ((p._stretch : ℚ) / 10)) ≤ _ at yu
    have hy0 : 0 ≤ pf.toDouble (1 + pf.toDouble ((p._stretch : ℚ) / 10)) :=
      pf.toDouble_nonneg _ (by linarith)
    obtain ⟨sl, su⟩ := roundFloat_eps pf.floatPrec hf
      (pf.toDouble (1 + pf.toDouble ((p._stretch : ℚ) / 10))) hy0
    change _ ≤ p.scale pf at sl
    change p.scale pf ≤ _ at su
    generalize pf.toDouble ((p._stretch : ℚ) / 10) = w at wl wu hw0 yl yu hy0 sl su
    generalize pf.toDouble (1 + w) = y at yl yu hy0 sl su
    have hs1 : (109 : ℚ) / 100 ≤ p.scale pf := by linarith
    have hs2 : p.scale pf ≤ 3001 / 1000 := by linarith
    generalize p.scale pf = s at sl su hs1 hs2 ⊢
    have hspos : (0 : ℚ) < s := by linarith
    obtain ⟨il, iu⟩ := roundFloat_eps pf.doublePrec hd (1 / s) (by positivity)
    change _ ≤ pf.toDouble (1 / s) at il
    change pf.toDouble (1 / s) ≤ _ at iu
    have hinv1 : (1 : ℚ) / s ≤ 100 / 109 := by
      rw [div_le_div_iff₀ hspos (by norm_num)]
      linarith
    have hinv2 : (1000 : ℚ) / 3001 ≤ 1 / s := by
      rw [div_le_div_iff₀ (by norm_num) hspos]
      linarith
    have ils : 1 - 1 / 16777216 ≤ pf.toDouble (1 / s) * s := by
      have := mul_le_mul_of_nonneg_right il hspos.le
      have e : 1 / s * (1 - 1 / 16777216) * s = 1 - 1 / 16777216 := by
        field_simp
        ring
      linarith
    have ius : pf.toDouble (1 / s) * s ≤ 1 + 1 / 16777216 := by
      have := mul_le_mul_of_nonneg_right iu hspos.le
      have e : 1 / s * (1 + 1 / 16777216) * s = 1 + 1 / 16777216 := by
        field_simp
        ring
      linarith
    generalize pf.toDouble (1 / s) = inv at il iu ils ius ⊢
    have hi1 : inv ≤ 92 / 100 := by linarith
    have hi2 : (1 : ℚ) / 4 ≤ inv := by linarith
    obtain ⟨kl, ku⟩ := roundFloat_eps pf.doublePrec hd (s - inv) (by linarith)
    change _ ≤ pf.toDouble (s - inv) at kl
    change pf.toDouble (s - inv) ≤ _ at ku
    have hk0 : 0 ≤ pf.toDouble (s - inv) := pf.toDouble_nonneg _ (by linarith)
    generalize pf.toDouble (s - inv) = k at kl ku hk0 ⊢
    refine ⟨by linarith, hs2, ils, ius, hi2, by linarith, hk0, by linarith, kl, ku, ?_⟩
    intro h
    omega

/-- The quotient of `getMapping` does not decrease from `x` to `x + 1` as long
as `x + 1 ≤ V ≤ 32767`. -/
theorem MappedPoti.quotient_mono (pf : Platform) (hd : 24 ≤ pf.doublePrec)
    (stdDiv scale V : ℚ) (x : Nat)
    (ha : 0 < pf.toFloat (stdDiv / scale))
    (hk : 0 ≤ pf.toDouble (scale - pf.toDouble (1 / scale)))
    (hk2 : pf.toDouble (scale - pf.toDouble (1 / scale)) ≤ 15 / 4)
    (hi : 1 / 4 ≤ pf.toDouble (1 / scale)) (hV : V ≤ 32767) (hx : (x : ℚ) + 1 ≤ V) :
    MappedPoti.quotient pf stdDiv scale V (x : Int)
      ≤ MappedPoti.quotient pf stdDiv scale V ((x + 1 : Nat) : Int) := by
  have hx0 : (0 : ℚ) ≤ (x : ℚ) := by positivity
  have hVpos : 0 < V := by linarith
  have hx32 : x < 32767 := by
    have : (x : ℚ) < 32767 := by linarith
    exact_mod_cast this
  have hxN : x < 2 ^ 24 := by omega
  obtain ⟨-, g0, gu, -⟩ := MappedPoti.quotient_bounds pf hd stdDiv scale V x hxN ha hk
    (by linarith) hVpos
  obtain ⟨-, g1, -, gl⟩ := MappedPoti.quotient_bounds pf hd stdDiv scale V (x + 1) (by omega) ha hk
    (by linarith) hVpos
  generalize MappedPoti.quotient pf stdDiv scale V (x : Int) = gx at g0 gu ⊢
  generalize MappedPoti.quotient pf stdDiv scale V ((x + 1 : Nat) : Int) = gy at g1 gl ⊢
  generalize pf.toFloat (stdDiv / scale) = a at ha gu gl
  generalize pf.toDouble (scale - pf.toDouble (1 / scale)) = k at hk hk2 gu gl
  generalize pf.toDouble (1 / scale) = inv at hi gu gl
  push_cast at gl
  have hE0 : 0 < k * x / V + inv := by
    have : 0 ≤ k * x / V := div_nonneg (mul_nonneg hk hx0) hVpos.le
    linarith
  have hE1 : 0 < k * (x + 1) / V + inv := by
    have : 0 ≤ k * (x + 1) / V := div_nonneg (mul_nonneg hk (by linarith)) hVpos.le
    linarith
  -- the step of the exact function outweighs the error
  have key : (x : ℚ) * (1 + 1 / 3000000) * (k * (x + 1) / V + inv)
      ≤ (x + 1) * (1 - 1 / 3000000) * (k * x / V + inv) := by
    have e : (x + 1) * (1 - 1 / 3000000) * (k * x / V + inv)
        - (x : ℚ) * (1 + 1 / 3000000) * (k * (x + 1) / V + inv)
        = inv * (1 - 1 / 3000000 - 2 / 3000000 * x)
          - 2 / 3000000 * (k * x * ((x + 1) / V)) := by
      field_simp
      ring
    have h1 : (x + 1 : ℚ) / V ≤ 1 := by
      rw [div_le_one hVpos]; exact hx
    have h2 : k * x * ((x + 1) / V) ≤ k * x * 1 :=
      mul_le_mul_of_nonneg_left h1 (mul_nonneg hk hx0)
    have h3 : k * x ≤ 15 / 4 * x := mul_le_mul_of_nonneg_right hk2 hx0
    have h4 : (0 : ℚ) ≤ 1 - 1 / 3000000 - 2 / 3000000 * x := by linarith
    have h5 : 1 / 4 * (1 - 1 / 3000000 - 2 / 3000000 * x)
        ≤ inv * (1 - 1 / 3000000 - 2 / 3000000 * x) := mul_le_mul_of_nonneg_right hi h4
    linarith
  have hW0 : 0 < a * (k * x / V + inv) := mul_pos ha hE0
  have hW1 : 0 < a * (k * (x + 1) / V + inv) := mul_pos ha hE1
  have s1 : gx * (a * (k * x / V + inv)) * (a * (k * (x + 1) / V + inv))
      ≤ x * (1 + 1 / 3000000) * (a * (k * (x + 1) / V + inv)) :=
    mul_le_mul_of_nonneg_right gu hW1.le
  have s2 : (x + 1) * (1 - 1 / 3000000) * (a * (k * x / V + inv))
      ≤ gy * (a * (k * (x + 1) / V + inv)) * (a * (k * x / V + inv)) :=
    mul_le_mul_of_nonneg_right gl hW0.le
  have s3 : (x : ℚ) * (1 + 1 / 3000000) * (a * (k * (x + 1) / V + inv))
      ≤ (x + 1) * (1 - 1 / 3000000) * (a * (k * x / V + inv)) := by
    have := mul_le_mul_of_nonneg_left key ha.le
    calc (x : ℚ) * (1 + 1 / 3000000) * (a * (k * (x + 1) / V + inv))
        = a * ((x : ℚ) * (1 + 1 / 3000000) * (k * (x + 1) / V + inv)) := by ring
      _ ≤ a * ((x + 1) * (1 - 1 / 3000000) * (k * x / V + inv)) := this
      _ = (x + 1) * (1 - 1 / 3000000) * (a * (k * x / V + inv)) := by ring
  have s4 : gx * ((a * (k * x / V + inv)) * (a * (k * (x + 1) / V + inv)))
      ≤ gy * ((a * (k * x / V + inv)) * (a * (k * (x + 1) / V + inv))) := by
    calc gx * ((a * (k * x / V + inv)) * (a * (k * (x + 1) / V + inv)))
        = gx * (a * (k * x / V + inv)) * (a * (k * (x + 1) / V + inv)) := by ring
      _ ≤ x * (1 + 1 / 3000000) * (a * (k * (x + 1) / V + inv)) := s1
      _ ≤ (x + 1) * (1 - 1 / 3000000) * (a * (k * x / V + inv)) := s3
      _ ≤ gy * (a * (k * (x + 1) / V + inv)) * (a * (k * x / V + inv)) := s2
      _ = gy * ((a * (k * x / V + inv)) * (a * (k * (x + 1) / V + inv))) := by ring
  exact le_of_mul_le_mul_right s4 (mul_pos hW0 hW1)

/-- The rounded constant `stdDiv / scale` for `stdDiv = V / M`. -/
theorem MappedPoti.stdDiv_facts (pf : Platform) (hf : 24 ≤ pf.floatPrec) (s : ℚ) (V M : Nat)
    (hs : 0 < s) (hM : 1 ≤ M) (hV : 1 ≤ V) :
    0 < pf.toFloat ((V : ℚ) / M) ∧ 0 < pf.toFloat (pf.toFloat ((V : ℚ) / M) / s)
    ∧ (V : ℚ) * ((1 - 1 / 16777216) * (1 - 1 / 16777216))
        ≤ pf.toFloat (pf.toFloat ((V : ℚ) / M) / s) * (M * s)
    ∧ pf.toFloat (pf.toFloat ((V : ℚ) / M) / s) * (M * s)
        ≤ (V : ℚ) * ((1 + 1 / 16777216) * (1 + 1 / 16777216)) := by
  have hMq : (0 : ℚ) < M := by exact_mod_cast hM
  have hVq : (0 : ℚ) < V := by exact_mod_cast hV
  have h0 : (0 : ℚ) < (V : ℚ) / M := div_pos hVq hMq
  have hsd : 0 < pf.toFloat ((V : ℚ) / M) := pf.toFloat_pos (by omega) _ h0
  obtain ⟨l1, u1⟩ := roundFloat_eps pf.floatPrec hf _ h0.le
  change _ ≤ pf.toFloat ((V : ℚ) / M) at l1
  change pf.toFloat ((V : ℚ) / M) ≤ _ at u1
  have ha : 0 < pf.toFloat (pf.toFloat ((V : ℚ) / M) / s) :=
    pf.toFloat_pos (by omega) _ (div_pos hsd hs)
  obtain ⟨l2, u2⟩ := roundFloat_eps pf.floatPrec hf _ (div_pos hsd hs).le
  change _ ≤ pf.toFloat (pf.toFloat ((V : ℚ) / M) / s) at l2
  change pf.toFloat (pf.toFloat ((V : ℚ) / M) / s) ≤ _ at u2
  generalize pf.toFloat (pf.toFloat ((V : ℚ) / M) / s) = a at ha l2 u2 ⊢
  generalize pf.toFloat ((V : ℚ) / M) = sd at hsd l1 u1 l2 u2 ⊢
  have hMs : (0 : ℚ) < M * s := mul_pos hMq hs
  refine ⟨hsd, ha, ?_, ?_⟩
  · have e1 : sd / s * (1 - 1 / 16777216) * (M * s) = sd * M * (1 - 1 / 16777216) := by
      field_simp
      ring
    have e2 : (V : ℚ) / M * (1 - 1 / 16777216) * M = V * (1 - 1 / 16777216) := by
      field_simp
      ring
    have h1 := mul_le_mul_of_nonneg_right l2 hMs.le
    have h2 := mul_le_mul_of_nonneg_right l1 hMq.le
    have h3 := mul_le_mul_of_nonneg_right h2 (by norm_num : (0 : ℚ) ≤ 1 - 1 / 16777216)
    rw [e1] at h1
    rw [e2] at h3
    calc (V : ℚ) * ((1 - 1 / 16777216) * (1 - 1 / 16777216))
        = V * (1 - 1 / 16777216) * (1 - 1 / 16777216) := by ring
      _ ≤ sd * M * (1 - 1 / 16777216) := h3
      _ ≤ a * (M * s) := h1
  · have e1 : sd / s * (1 + 1 / 16777216) * (M * s) = sd * M * (1 + 1 / 16777216) := by
      field_simp
      ring
    have e2 : (V : ℚ) / M * (1 + 1 / 16777216) * M = V * (1 + 1 / 16777216) := by
      field_simp
      ring
    have h1 := mul_le_mul_of_nonneg_right u2 hMs.le
    have h2 := mul_le_mul_of_nonneg_right u1 hMq.le
    have h3 := mul_le_mul_of_nonneg_right h2 (by norm_num : (0 : ℚ) ≤ 1 + 1 / 16777216)
    rw [e1] at h1
    rw [e2] at h3
    calc a * (M * s) ≤ sd * M * (1 + 1 / 16777216) := h1
      _ ≤ V * (1 + 1 / 16777216) * (1 + 1 / 16777216) := h3
      _ = (V : ℚ) * ((1 + 1 / 16777216) * (1 + 1 / 16777216)) := by ring

/-- Arithmetic core of the bound of the quotient by the number of levels. -/
theorem quotient_top_core (s inv k a V M x g : ℚ) (hs1 : 1 ≤ s) (hs2 : s ≤ 3001 / 1000)
    (is1 : 1 - 1 / 16777216 ≤ inv * s) (k0 : 0 ≤ k) (kl : (s - inv) * (1 - 1 / 16777216) ≤ k)
    (i0 : 0 < inv) (ha : 0 < a)
    (al : V * ((1 - 1 / 16777216) * (1 - 1 / 16777216)) ≤ a * (M * s))
    (hx0 : 0 ≤ x) (hxV : x + 1 ≤ V) (hV : V ≤ 32767)
    (gu : g * (a * (k * x / V + inv)) ≤ x * (1 + 1 / 3000000)) : g < M := by
  have hs : 0 < s := by linarith
  have hVq : 0 < V := by linarith
  have hE : 0 < k * x / V + inv := by
    have : 0 ≤ k * x / V := div_nonneg (mul_nonneg k0 hx0) hVq.le
    linarith
  -- (k x + inv V) s ≥ (1 - ε) (s² x + V - x)
  have c1 : (1 - 1 / 16777216) * (s * s * x + (V - x)) ≤ (k * x + inv * V) * s := by
    have h1 : (s - inv) * (1 - 1 / 16777216) * x ≤ k * x := mul_le_mul_of_nonneg_right kl hx0
    have h2 : (s - inv) * (1 - 1 / 16777216) * x * s ≤ k * x * s :=
      mul_le_mul_of_nonneg_right h1 hs.le
    have h3 : (0 : ℚ) ≤ V - (1 - 1 / 16777216) * x := by linarith
    have h4 : (1 - 1 / 16777216) * (V - (1 - 1 / 16777216) * x)
        ≤ inv * s * (V - (1 - 1 / 16777216) * x) := mul_le_mul_of_nonneg_right is1 h3
    linarith
  have hnn : (0 : ℚ) ≤ (1 - 1 / 16777216) * (s * s * x + (V - x)) := by
    have h1 : 0 ≤ s * s * x := mul_nonneg (mul_nonneg hs.le hs.le) hx0
    have h2 : (0 : ℚ) ≤ s * s * x + (V - x) := by linarith
    exact mul_nonneg (by norm_num) h2
  -- V (1-ε)³ (s² x + V - x) ≤ M a E s² V
  have c2 : V * ((1 - 1 / 16777216) * (1 - 1 / 16777216))
        * ((1 - 1 / 16777216) * (s * s * x + (V - x)))
      ≤ M * (a * (k * x / V + inv)) * (s * s) * V := by
    have e : M * (a * (k * x / V + inv)) * (s * s) * V = a * (M * s) * ((k * x + inv * V) * s) := by
      field_simp
      ring
    rw [e]
    exact mul_le_mul al c1 hnn (le_trans (mul_nonneg hVq.le (by norm_num)) al)
  -- x (1+τ) s² < (1-ε)³ (s² x + V - x)
  have c3 : x * (1 + 1 / 3000000) * (s * s)
      < (1 - 1 / 16777216) * (1 - 1 / 16777216) * ((1 - 1 / 16777216) * (s * s * x + (V - x))) := by
    have hss : s * s ≤ 3001 / 1000 * (3001 / 1000) := mul_le_mul hs2 hs2 hs.le (by norm_num)
    have hss0 : 0 ≤ s * s := mul_nonneg hs.le hs.le
    have hx32 : x ≤ 32766 := by linarith
    have hxs : x * (s * s) ≤ 32766 * (3001 / 1000 * (3001 / 1000)) :=
      mul_le_mul hx32 hss hss0 (by norm_num)
    have hvx : (1 : ℚ) ≤ V - x := by linarith
    linarith
  by_contra hcon
  push_neg at hcon
  have hW : 0 < a * (k * x / V + inv) := mul_pos ha hE
  have h1 : M * (a * (k * x / V + inv)) ≤ x * (1 + 1 / 3000000) :=
    le_trans (mul_le_mul_of_nonneg_right hcon hW.le) gu
  have h2 : M * (a * (k * x / V + inv)) * (s * s) * V ≤ x * (1 + 1 / 3000000) * (s * s) * V :=
    mul_le_mul_of_nonneg_right
      (mul_le_mul_of_nonneg_right h1 (mul_nonneg hs.le hs.le)) hVq.le
  have h3 : x * (1 + 1 / 3000000) * (s * s) * V
      < (1 - 1 / 16777216) * (1 - 1 / 16777216) * ((1 - 1 / 16777216) * (s * s * x + (V - x))) * V :=
    mul_lt_mul_of_pos_right c3 hVq
  have h4 : V * ((1 - 1 / 16777216) * (1 - 1 / 16777216))
        * ((1 - 1 / 16777216) * (s * s * x + (V - x)))
      = (1 - 1 / 16777216) * (1 - 1 / 16777216) * ((1 - 1 / 16777216) * (s * s * x + (V - x))) * V := by
    ring
  linarith

/-- Below `V` the quotient of `getMapping` stays below the number `M` of
levels of the side (`V ≤ 32767`, stretch up to 20). -/
theorem MappedPoti.quotient_lt_top (pf : Platform) (hf : 24 ≤ pf.floatPrec)
    (hd : 24 ≤ pf.doublePrec) (p : MappedPoti) (hst : p._stretch ≤ 20) (V M x : Nat)
    (hM : 1 ≤ M) (hV : V ≤ 32767) (hx : x + 1 ≤ V) :
    MappedPoti.quotient pf (pf.toFloat ((V : ℚ) / M)) (p.scale pf) (V : ℚ) (x : Int) < M := by
  obtain ⟨s1, s2, is1, -, i1, -, k0, -, kl, -, -⟩ := MappedPoti.scale_facts pf p hf hd hst
  have hs : 0 < p.scale pf := by linarith
  obtain ⟨-, ha, al, -⟩ := MappedPoti.stdDiv_facts pf hf (p.scale pf) V M hs hM (by omega)
  have hVq : (0 : ℚ) < (V : ℚ) := by
    have : 0 < V := by omega
    exact_mod_cast this
  obtain ⟨-, -, gu, -⟩ := MappedPoti.quotient_bounds pf hd (pf.toFloat ((V : ℚ) / M))
    (p.scale pf) V x (by omega) ha k0 (by linarith) hVq
  exact quotient_top_core (p.scale pf) _ _ _ V M x _ s1 s2 is1 k0 kl (by linarith) ha al
    (by positivity) (by exact_mod_cast hx) (by exact_mod_cast hV) gu

theorem truncQ_nonneg (q : ℚ) (hq : 0 ≤ q) : 0 ≤ truncQ q := by
  unfold truncQ
  rw [if_pos hq]
  have h2 : Rat.floor q = ⌊q⌋ := rfl
  rw [h2]
  exact Int.floor_nonneg.2 hq

theorem truncQ_lt (q : ℚ) (hq : 0 ≤ q) (m : Int) (h : q < m) : truncQ q < m := by
  unfold truncQ
  rw [if_pos hq]
  have h2 : Rat.floor q = ⌊q⌋ := rfl
  rw [h2]
  exact Int.floor_lt.2 h

theorem truncQ_mono (q r : ℚ) (hq : 0 ≤ q) (h : q ≤ r) : truncQ q ≤ truncQ r := by
  unfold truncQ
  rw [if_pos hq, if_pos (hq.trans h)]
  have h2 : ∀ t : ℚ, Rat.floor t = ⌊t⌋ := fun _ => rfl
  rw [h2, h2]
  exact Int.floor_mono h

theorem truncQ_le_of_le (q : ℚ) (hq : 0 ≤ q) (m : Int) (h : (m : ℚ) ≤ q) : m ≤ truncQ q := by
  unfold truncQ
  rw [if_pos hq]
  have h2 : Rat.floor q = ⌊q⌋ := rfl
  rw [h2]
  exact Int.le_floor.2 h

/-- The quotient of `getMapping` does not decrease on `0..V-1`. -/
theorem MappedPoti.quotient_mono_le (pf : Platform) (hf : 24 ≤ pf.floatPrec)
    (hd : 24 ≤ pf.doublePrec) (p : MappedPoti) (hst : p._stretch ≤ 20) (V M : Nat)
    (hM : 1 ≤ M) (hV : V ≤ 32767) (x y : Nat) (hxy : x ≤ y) (hy : y + 1 ≤ V) :
    MappedPoti.quotient pf (pf.toFloat ((V : ℚ) / M)) (p.scale pf) (V : ℚ) (x : Int)
      ≤ MappedPoti.quotient pf (pf.toFloat ((V : ℚ) / M)) (p.scale pf) (V : ℚ) (y : Int) := by
  obtain ⟨s1, -, -, -, i1, -, k0, k1, -, -, -⟩ := MappedPoti.scale_facts pf p hf hd hst
  have hs : 0 < p.scale pf := by linarith
  obtain ⟨-, ha, -, -⟩ := MappedPoti.stdDiv_facts pf hf (p.scale pf) V M hs hM (by omega)
  induction y with
  | zero =>
    have : x = 0 := by omega
    rw [this]
  | succ y ih =>
    rcases Nat.eq_or_lt_of_le hxy with h | h
    · rw [h]
    · have h1 := ih (by omega) (by omega)
      have h2 := MappedPoti.quotient_mono pf hd (pf.toFloat ((V : ℚ) / M)) (p.scale pf) V y ha k0
        k1 i1 (by exact_mod_cast hV) (by exact_mod_cast (show y + 1 ≤ V by omega))
      exact h1.trans h2

/-- Level of a raw value on the left side: the truncated quotient, below the
number `M` of levels of the side. -/
theorem MappedPoti.getMapping_left (pf : Platform) (hf : 24 ≤ pf.floatPrec)
    (hd : 24 ≤ pf.doublePrec) (p : MappedPoti) (hst : p._stretch ≤ 20) (lo hi : Int)
    (V M x : Nat) (hc : p.inCenter pf (x : Int) lo hi = false)
    (hl : p.leftSide pf (x : Int) lo = true)
    (hv : p.valTot pf (x : Int) lo hi = (V : ℚ)) (hm : p.mapTot pf lo = (M : ℚ))
    (hM : 1 ≤ M) (hMn : M ≤ p._numMapping) (hn : p._numMapping ≤ 255)
    (hV : V ≤ 32767) (hx : x + 1 ≤ V) :
    MappedPoti.getMapping pf p (x : Int) lo hi
      = some (truncQ (MappedPoti.quotient pf (pf.toFloat ((V : ℚ) / M)) (p.scale pf) (V : ℚ)
          (x : Int))).toNat
    ∧ (truncQ (MappedPoti.quotient pf (pf.toFloat ((V : ℚ) / M)) (p.scale pf) (V : ℚ)
          (x : Int))).toNat < M := by
  obtain ⟨s1, -, -, -, i1, -, k0, -, -, -, -⟩ := MappedPoti.scale_facts pf p hf hd hst
  have hs : 0 < p.scale pf := by linarith
  obtain ⟨-, ha, -, -⟩ := MappedPoti.stdDiv_facts pf hf (p.scale pf) V M hs hM (by omega)
  have hVq : (0 : ℚ) < (V : ℚ) := by
    have : 0 < V := by omega
    exact_mod_cast this
  have hMq : (M : ℚ) ≠ 0 := by
    have : 0 < M := by omega
    exact_mod_cast this.ne'
  obtain ⟨hdiv, g0, -, -⟩ := MappedPoti.quotient_bounds pf hd (pf.toFloat ((V : ℚ) / M))
    (p.scale pf) V x (by omega) ha k0 (by linarith) hVq
  have hlt := MappedPoti.quotient_lt_top pf hf hd p hst V M x hM hV hx
  have ht0 := truncQ_nonneg _ g0
  have htM := truncQ_lt _ g0 (M : Int) (by exact_mod_cast hlt)
  generalize hq : truncQ (MappedPoti.quotient pf (pf.toFloat ((V : ℚ) / M)) (p.scale pf) (V : ℚ)
    (x : Int)) = t at ht0 htM ⊢
  have hb : MappedPoti.bucket pf (pf.toFloat ((V : ℚ) / M)) (p.scale pf) (V : ℚ) (x : Int)
      = some t := by
    rw [MappedPoti.bucket_eq_quotient pf _ _ _ _ hs.ne' hVq.ne' hdiv.ne', hq]
  obtain ⟨m, rfl⟩ := Int.eq_ofNat_of_zero_le ht0
  have hmM : m < M := by exact_mod_cast htM
  rw [Int.toNat_natCast]
  have hcast : (((m : Nat) : Int) : ℚ) = ((m : Nat) : ℚ) := Int.cast_natCast m
  have hfl : pf.toFloat ((m : Nat) : ℚ) = ((m : Nat) : ℚ) :=
    roundFloat_small_nat _ (by omega) _ (by omega)
  refine ⟨?_, hmM⟩
  unfold MappedPoti.getMapping
  rw [hc]
  rw [if_neg (by simp)]
  unfold MappedPoti.tmpFloat
  rw [hl, hv, hm]
  simp only [Platform.divFloat, if_neg hMq, Option.some_bind, if_true, hb, Option.map_some',
    hcast, hfl]
  rw [floatToUint8_natCast _ (by omega), Option.map_some']
  unfold MappedPoti.correction
  rw [if_neg (by omega), if_neg (by omega)]

/-- Level of a raw value on the right side: the highest level minus the
truncated quotient of the distance `x` to the largest raw value. -/
theorem MappedPoti.getMapping_right (pf : Platform) (hb : 16 ≤ pf.intBits)
    (hf : 24 ≤ pf.floatPrec) (hd : 24 ≤ pf.doublePrec) (p : MappedPoti)
    (hst : p._stretch ≤ 20) (raw lo hi : Int)
    (V M x : Nat) (hc : p.inCenter pf raw lo hi = false)
    (hl : p.leftSide pf raw lo = false)
    (hv : p.valTot pf raw lo hi = (V : ℚ)) (hm : p.mapTot pf lo = (M : ℚ))
    (hraw : pf.wrap (p._maxAnalogVal - raw) = (x : Int))
    (hM : 1 ≤ M) (hMn : M ≤ p._numMapping) (hn : p._numMapping ≤ 255)
    (hV : V ≤ 32767) (hx : x + 1 ≤ V) :
    MappedPoti.getMapping pf p raw lo hi
      = some (p._numMapping - 1
          - (truncQ (MappedPoti.quotient pf (pf.toFloat ((V : ℚ) / M)) (p.scale pf) (V : ℚ)
              (x : Int))).toNat)
    ∧ (truncQ (MappedPoti.quotient pf (pf.toFloat ((V : ℚ) / M)) (p.scale pf) (V : ℚ)
          (x : Int))).toNat < M := by
  obtain ⟨s1, -, -, -, i1, -, k0, -, -, -, -⟩ := MappedPoti.scale_facts pf p hf hd hst
  have hs : 0 < p.scale pf := by linarith
  obtain ⟨-, ha, -, -⟩ := MappedPoti.stdDiv_facts pf hf (p.scale pf) V M hs hM (by omega)
  have hVq : (0 : ℚ) < (V : ℚ) := by
    have : 0 < V := by omega
    exact_mod_cast this
  have hMq : (M : ℚ) ≠ 0 := by
    have : 0 < M := by omega
    exact_mod_cast this.ne'
  obtain ⟨hdiv, g0, -, -⟩ := MappedPoti.quotient_bounds pf hd (pf.toFloat ((V : ℚ) / M))
    (p.scale pf) V x (by omega) ha k0 (by linarith) hVq
  have hlt := MappedPoti.quotient_lt_top pf hf hd p hst V M x hM hV hx
  have ht0 := truncQ_nonneg _ g0
  have htM := truncQ_lt _ g0 (M : Int) (by exact_mod_cast hlt)
  generalize hq : truncQ (MappedPoti.quotient pf (pf.toFloat ((V : ℚ) / M)) (p.scale pf) (V : ℚ)
    (x : Int)) = t at ht0 htM ⊢
  have hbk : MappedPoti.bucket pf (pf.toFloat ((V : ℚ) / M)) (p.scale pf) (V : ℚ) (x : Int)
      = some t := by
    rw [MappedPoti.bucket_eq_quotient pf _ _ _ _ hs.ne' hVq.ne' hdiv.ne', hq]
  obtain ⟨m, rfl⟩ := Int.eq_ofNat_of_zero_le ht0
  have hmM : m < M := by exact_mod_cast htM
  rw [Int.toNat_natCast]
  have hw : pf.wrap ((p._numMapping : Int) - 1) = ((p._numMapping - 1 : Nat) : Int) := by
    rw [pf.wrap_small _ hb (by omega) (by omega)]
    omega
  have e1 : pf.toDouble (((p._numMapping - 1 : Nat) : Int) : ℚ) = ((p._numMapping - 1 : Nat) : ℚ) := by
    rw [Int.cast_natCast]
    exact roundFloat_small_nat _ (by omega) _ (by omega)
  have hsub : ((p._numMapping - 1 : Nat) : ℚ) - (((m : Nat) : Int) : ℚ)
      = ((p._numMapping - 1 - m : Nat) : ℚ) := by
    have : m ≤ p._numMapping - 1 := by omega
    rw [Int.cast_natCast, Nat.cast_sub this]
  have e2 : pf.toDouble ((p._numMapping - 1 - m : Nat) : ℚ)
      = ((p._numMapping - 1 - m : Nat) : ℚ) :=
    roundFloat_small_nat _ (by omega) _ (by omega)
  have e3 : pf.toFloat ((p._numMapping - 1 - m : Nat) : ℚ)
      = ((p._numMapping - 1 - m : Nat) : ℚ) :=
    roundFloat_small_nat _ (by omega) _ (by omega)
  refine ⟨?_, hmM⟩
  unfold MappedPoti.getMapping
  rw [hc]
  rw [if_neg (by simp)]
  unfold MappedPoti.tmpFloat
  rw [hl, hv, hm, hraw]
  simp only [Platform.divFloat, if_neg hMq, Option.some_bind, Bool.false_eq_true, if_false, hbk,
    Option.map_some', hw, e1, hsub, e2, e3]
  rw [floatToUint8_natCast _ (by omega), Option.map_some']
  unfold MappedPoti.correction
  rw [if_neg (by omega), if_neg (by omega)]

/-! ## Monotone mapping -/

/-- A level function described on three ranges (below the center by `gl`, the
middle level in the center, above it by `gr` counted from the top) does not
decrease when `gl` and `gr` do not decrease and stay below `M`, `2 M ≤ n + 1`. -/
theorem regions_mono (n M : Nat) (cl ch mx : Int) (f : Int → Option Nat) (gl gr : Nat → Nat)
    (h2M : 2 * M ≤ n + 1) (hM1 : 1 ≤ M)
    (hleft : ∀ x : Nat, (x : Int) < cl → (x : Int) ≤ mx → f x = some (gl x) ∧ gl x < M)
    (hmid : ∀ r : Int, cl ≤ r → r ≤ ch → f r = some (n / 2))
    (hright : ∀ x : Nat, ch < mx - (x : Int) → f (mx - (x : Int)) = some (n - 1 - gr x) ∧ gr x < M)
    (hgl : ∀ x y : Nat, x ≤ y → (y : Int) < cl → (y : Int) ≤ mx → gl x ≤ gl y)
    (hgr : ∀ x y : Nat, x ≤ y → ch < mx - (y : Int) → gr x ≤ gr y)
    (a b : Int) (ha : 0 ≤ a) (hab : a ≤ b) (hb : b ≤ mx) :
    ∃ la lb, f a = some la ∧ f b = some lb ∧ la ≤ lb := by
  obtain ⟨xa, rfl⟩ := Int.eq_ofNat_of_zero_le ha
  obtain ⟨xb, rfl⟩ := Int.eq_ofNat_of_zero_le (ha.trans hab)
  have hxab : xa ≤ xb := by exact_mod_cast hab
  -- distance of b and a to the top
  obtain ⟨yb, hyb⟩ := Int.eq_ofNat_of_zero_le (show 0 ≤ mx - (xb : Int) by omega)
  obtain ⟨ya, hya⟩ := Int.eq_ofNat_of_zero_le (show 0 ≤ mx - (xa : Int) by omega)
  have eb : ((xb : Nat) : Int) = mx - (yb : Int) := by omega
  have ea : ((xa : Nat) : Int) = mx - (ya : Int) := by omega
  have hyab : yb ≤ ya := by omega
  by_cases hb1 : ((xb : Nat) : Int) < cl
  · -- both left
    obtain ⟨fa, -⟩ := hleft xa (by omega) (by omega)
    obtain ⟨fb, -⟩ := hleft xb hb1 hb
    exact ⟨_, _, fa, fb, hgl xa xb hxab hb1 hb⟩
  · by_cases hb2 : ((xb : Nat) : Int) ≤ ch
    · -- b in the center
      have fb := hmid xb (by omega) hb2
      by_cases ha1 : ((xa : Nat) : Int) < cl
      · obtain ⟨fa, la⟩ := hleft xa ha1 (by omega)
        exact ⟨_, _, fa, fb, by omega⟩
      · have fa := hmid xa (by omega) (by omega)
        exact ⟨_, _, fa, fb, le_refl _⟩
    · -- b right
      obtain ⟨fb, lb⟩ := hright yb (by omega)
      rw [← eb] at fb
      by_cases ha1 : ((xa : Nat) : Int) < cl
      · obtain ⟨fa, la⟩ := hleft xa ha1 (by omega)
        exact ⟨_, _, fa, fb, by omega⟩
      · by_cases ha2 : ((xa : Nat) : Int) ≤ ch
        · have fa := hmid xa (by omega) ha2
          exact ⟨_, _, fa, fb, by omega⟩
        · obtain ⟨fa, la⟩ := hright ya (by omega)
          rw [← ea] at fa
          have := hgr yb ya hyab (by omega)
          exact ⟨_, _, fa, fb, by omega⟩

theorem Platform.toFloat_natCast (pf : Platform) (hf : 24 ≤ pf.floatPrec) (m : Nat)
    (hm : m ≤ 32767) : pf.toFloat (m : ℚ) = (m : ℚ) :=
  roundFloat_natCast _ m (lt_of_lt_of_le (by omega : m < 2 ^ 24)
    (Nat.pow_le_pow_right (by norm_num) hf))

/-- The levels of `getMapping` with a center `[cl, ch]` (given or implicit),
`cl ≤ ch < mx`, for the largest analog value `mx ≤ 32766` and at least 3
levels: below the center the truncated quotient for `V = cl`, in the center
the middle level, above it the highest level minus the truncated quotient for
`V = mx - ch` of the distance to `mx`. -/
theorem MappedPoti.centered_levels (pf : Platform) (hb : 16 ≤ pf.intBits)
    (hf : 24 ≤ pf.floatPrec) (hd : 24 ≤ pf.doublePrec) (p : MappedPoti)
    (hst : p._stretch ≤ 20) (hn1 : 3 ≤ p._numMapping) (hn2 : p._numMapping ≤ 255)
    (lo hi : Int) (cl ch mx : Nat)
    (hce : p.centered lo = true) (hcl : p.centerValLow pf lo = (cl : Int))
    (hch : p.centerValHigh pf lo hi = (ch : Int)) (hmx : p._maxAnalogVal = (mx : Int))
    (h1 : cl ≤ ch) (h2 : ch < mx) (h3 : mx ≤ 32766) :
    (∀ x : Nat, x < cl →
      MappedPoti.getMapping pf p (x : Int) lo hi
        = some (truncQ (MappedPoti.quotient pf (pf.toFloat ((cl : ℚ) / ((p._numMapping - 1) / 2 : Nat)))
            (p.scale pf) (cl : ℚ) (x : Int))).toNat
      ∧ (truncQ (MappedPoti.quotient pf (pf.toFloat ((cl : ℚ) / ((p._numMapping - 1) / 2 : Nat)))
            (p.scale pf) (cl : ℚ) (x : Int))).toNat < (p._numMapping - 1) / 2)
    ∧ (∀ r : Int, (cl : Int) ≤ r → r ≤ (ch : Int) →
        MappedPoti.getMapping pf p r lo hi = some (p._numMapping / 2))
    ∧ (∀ x : Nat, (ch : Int) < (mx : Int) - (x : Int) →
      MappedPoti.getMapping pf p ((mx : Int) - (x : Int)) lo hi
        = some (p._numMapping - 1
            - (truncQ (MappedPoti.quotient pf
                (pf.toFloat (((mx - ch : Nat) : ℚ) / ((p._numMapping - 1) / 2 : Nat)))
                (p.scale pf) ((mx - ch : Nat) : ℚ) (x : Int))).toNat)
      ∧ (truncQ (MappedPoti.quotient pf
                (pf.toFloat (((mx - ch : Nat) : ℚ) / ((p._numMapping - 1) / 2 : Nat)))
                (p.scale pf) ((mx - ch : Nat) : ℚ) (x : Int))).toNat < (p._numMapping - 1) / 2) := by
  have hmin := Platform.intMin_le pf hb
  have hmax := Platform.intMax_ge pf hb
  have hmt : p.mapTot pf lo = (((p._numMapping - 1) / 2 : Nat) : ℚ) := by
    unfold MappedPoti.mapTot
    rw [hce]
    simp only [Bool.not_true, Bool.false_eq_true, if_false]
    rw [pf.wrap_small _ hb (by omega) (by omega), shiftRight_one_eq_div]
    have e : ((p._numMapping : Int) - 1) / 2 = (((p._numMapping - 1) / 2 : Nat) : Int) := by omega
    rw [e, Int.cast_natCast]
    exact pf.toFloat_natCast hf _ (by omega)
  refine ⟨fun x hx => ?_, fun r hr1 hr2 => ?_, fun x hx => ?_⟩
  · have hc : p.inCenter pf (x : Int) lo hi = false := by
      simp only [MappedPoti.inCenter, hce, hcl, hch, Bool.true_and, Bool.and_eq_false_imp,
        decide_eq_true_eq, decide_eq_false_iff_not, not_le]
      intro h
      omega
    have hl : p.leftSide pf (x : Int) lo = true := by
      simp only [MappedPoti.leftSide, hce, hcl, Bool.true_and, Bool.not_true, Bool.false_and,
        Bool.or_false, decide_eq_true_eq]
      exact_mod_cast hx
    have hv : p.valTot pf (x : Int) lo hi = (cl : ℚ) := by
      simp only [MappedPoti.valTot, hl, if_true, hce, Bool.not_true, Bool.false_eq_true,
        if_false, hcl, Int.cast_natCast]
      exact pf.toFloat_natCast hf _ (by omega)
    exact MappedPoti.getMapping_left pf hf hd p hst lo hi cl _ x hc hl hv hmt (by omega)
      (by omega) hn2 (by omega) (by omega)
  · apply MappedPoti.getMapping_of_inCenter
    simp only [MappedPoti.inCenter, hce, hcl, hch, Bool.true_and, Bool.and_eq_true,
      decide_eq_true_eq]
    exact ⟨hr1, hr2⟩
  · have hc : p.inCenter pf ((mx : Int) - (x : Int)) lo hi = false := by
      simp only [MappedPoti.inCenter, hce, hcl, hch, Bool.true_and, Bool.and_eq_false_imp,
        decide_eq_true_eq, decide_eq_false_iff_not, not_le]
      intro _
      exact hx
    have hl : p.leftSide pf ((mx : Int) - (x : Int)) lo = false := by
      simp only [MappedPoti.leftSide, hce, hcl, Bool.true_and, Bool.not_true, Bool.false_and,
        Bool.or_false, decide_eq_false_iff_not, not_lt]
      omega
    have hv : p.valTot pf ((mx : Int) - (x : Int)) lo hi = ((mx - ch : Nat) : ℚ) := by
      simp only [MappedPoti.valTot, hl, Bool.false_eq_true, if_false, hce, Bool.not_true, hch, hmx]
      rw [pf.wrap_small _ hb (by omega) (by omega)]
      have e : (mx : Int) - (ch : Int) = ((mx - ch : Nat) : Int) := by omega
      rw [e, Int.cast_natCast]
      exact pf.toFloat_natCast hf _ (by omega)
    have hraw : pf.wrap (p._maxAnalogVal - ((mx : Int) - (x : Int))) = (x : Int) := by
      rw [hmx, pf.wrap_small _ hb (by omega) (by omega)]
      omega
    exact MappedPoti.getMapping_right pf hb hf hd p hst _ lo hi (mx - ch) _ x hc hl hv hmt hraw
      (by omega) (by omega) hn2 (by omega) (by omega)

/-- The levels of `getMapping` without a center, for an uneven largest analog
value `mx ≤ 32765`, `h = (mx + 1) / 2`: below `h` the truncated quotient for
`V = h`, from `h` on the highest level minus the truncated quotient of the
distance to `mx`. -/
theorem MappedPoti.plain_levels (pf : Platform) (hb : 16 ≤ pf.intBits)
    (hf : 24 ≤ pf.floatPrec) (hd : 24 ≤ pf.doublePrec) (p : MappedPoti)
    (hst : p._stretch ≤ 20) (hn1 : 2 ≤ p._numMapping) (hn2 : p._numMapping ≤ 255)
    (lo hi : Int) (mx : Nat)
    (hce : p.centered lo = false) (hmx : p._maxAnalogVal = (mx : Int))
    (hodd : mx % 2 = 1) (h3 : mx ≤ 32765) :
    (∀ x : Nat, x < (mx + 1) / 2 →
      MappedPoti.getMapping pf p (x : Int) lo hi
        = some (truncQ (MappedPoti.quotient pf
            (pf.toFloat ((((mx + 1) / 2 : Nat) : ℚ) / (p._numMapping / 2 : Nat)))
            (p.scale pf) (((mx + 1) / 2 : Nat) : ℚ) (x : Int))).toNat
      ∧ (truncQ (MappedPoti.quotient pf
            (pf.toFloat ((((mx + 1) / 2 : Nat) : ℚ) / (p._numMapping / 2 : Nat)))
            (p.scale pf) (((mx + 1) / 2 : Nat) : ℚ) (x : Int))).toNat < p._numMapping / 2)
    ∧ (∀ x : Nat, x < (mx + 1) / 2 →
      MappedPoti.getMapping pf p ((mx : Int) - (x : Int)) lo hi
        = some (p._numMapping - 1
            - (truncQ (MappedPoti.quotient pf
                (pf.toFloat ((((mx + 1) / 2 : Nat) : ℚ) / (p._numMapping / 2 : Nat)))
                (p.scale pf) (((mx + 1) / 2 : Nat) : ℚ) (x : Int))).toNat)
      ∧ (truncQ (MappedPoti.quotient pf
            (pf.toFloat ((((mx + 1) / 2 : Nat) : ℚ) / (p._numMapping / 2 : Nat)))
            (p.scale pf) (((mx + 1) / 2 : Nat) : ℚ) (x : Int))).toNat < p._numMapping / 2) := by
  have hmin := Platform.intMin_le pf hb
  have hmax := Platform.intMax_ge pf hb
  have hhalf : (pf.wrap (p._maxAnalogVal + 1)) >>> 1 = (((mx + 1) / 2 : Nat) : Int) := by
    rw [hmx, pf.wrap_small _ hb (by omega) (by omega), shiftRight_one_eq_div]
    omega
  have hmt : p.mapTot pf lo = ((p._numMapping / 2 : Nat) : ℚ) := by
    unfold MappedPoti.mapTot
    rw [hce]
    simp only [Bool.not_false, if_true, Nat.shiftRight_eq_div_pow, pow_one, Int.cast_natCast]
    exact pf.toFloat_natCast hf _ (by omega)
  have hin : ∀ r : Int, p.inCenter pf r lo hi = false := by
    intro r
    simp [MappedPoti.inCenter, hce]
  have hvt : ∀ r : Int, p.valTot pf r lo hi = (((mx + 1) / 2 : Nat) : ℚ) := by
    intro r
    have e : pf.toFloat ((((mx + 1) / 2 : Nat) : Int) : ℚ) = (((mx + 1) / 2 : Nat) : ℚ) := by
      rw [Int.cast_natCast]
      exact pf.toFloat_natCast hf _ (by omega)
    simp only [MappedPoti.valTot, hce, Bool.not_false, if_true, hhalf, e, ite_self]
  refine ⟨fun x hx => ?_, fun x hx => ?_⟩
  · have hl : p.leftSide pf (x : Int) lo = true := by
      simp only [MappedPoti.leftSide, hce, Bool.false_and, Bool.not_false, Bool.true_and,
        Bool.false_or, hhalf, decide_eq_true_eq]
      exact_mod_cast hx
    exact MappedPoti.getMapping_left pf hf hd p hst lo hi _ _ x (hin _) hl (hvt _) hmt (by omega)
      (by omega) hn2 (by omega) (by omega)
  · have hl : p.leftSide pf ((mx : Int) - (x : Int)) lo = false := by
      simp only [MappedPoti.leftSide, hce, Bool.false_and, Bool.not_false, Bool.true_and,
        Bool.false_or, hhalf, decide_eq_false_iff_not, not_lt]
      omega
    have hraw : pf.wrap (p._maxAnalogVal - ((mx : Int) - (x : Int))) = (x : Int) := by
      rw [hmx, pf.wrap_small _ hb (by omega) (by omega)]
      omega
    exact MappedPoti.getMapping_right pf hb hf hd p hst _ lo hi _ _ x (hin _) hl (hvt _) hmt hraw
      (by omega) (by omega) hn2 (by omega) (by omega)

/-- The truncated quotient of `getMapping` does not decrease on `0..V-1`. -/
theorem MappedPoti.level_mono (pf : Platform) (hf : 24 ≤ pf.floatPrec)
    (hd : 24 ≤ pf.doublePrec) (p : MappedPoti) (hst : p._stretch ≤ 20) (V M : Nat)
    (hM : 1 ≤ M) (hV : V ≤ 32767) (x y : Nat) (hxy : x ≤ y) (hy : y + 1 ≤ V) :
    (truncQ (MappedPoti.quotient pf (pf.toFloat ((V : ℚ) / M)) (p.scale pf) (V : ℚ)
        (x : Int))).toNat
      ≤ (truncQ (MappedPoti.quotient pf (pf.toFloat ((V : ℚ) / M)) (p.scale pf) (V : ℚ)
          (y : Int))).toNat := by
  obtain ⟨s1, -, -, -, i1, -, k0, -, -, -, -⟩ := MappedPoti.scale_facts pf p hf hd hst
  have hs : 0 < p.scale pf := by linarith
  obtain ⟨-, ha, -, -⟩ := MappedPoti.stdDiv_facts pf hf (p.scale pf) V M hs hM (by omega)
  have hVq : (0 : ℚ) < (V : ℚ) := by
    have : 0 < V := by omega
    exact_mod_cast this
  obtain ⟨-, g0, -, -⟩ := MappedPoti.quotient_bounds pf hd (pf.toFloat ((V : ℚ) / M))
    (p.scale pf) V x (by omega) ha k0 (by linarith) hVq
  exact Int.toNat_le_toNat (truncQ_mono _ _ g0
    (MappedPoti.quotient_mono_le pf hf hd p hst V M hM hV x y hxy hy))

/-- C13 as stated fails where `_maxAnalogVal + 1` is not an `int`: with 16 bit
`int`, the largest analog value 32767 (uneven), 100 levels, stretch 20 and no
center, raw 0 gets level 39 and raw 16383 gets level 35.  With 32 bit `int` the
same happens at 2147483647.  It also fails for large analog ranges by the
rounding of the `float` and `double` operations: with 32 bit `int`, the largest
analog value 2482761, 74 levels, stretch 19 and no center, raw 1241380 gets
level 37 and raw 1241381 gets level 36. -/
theorem MappedPoti.mapping_not_monotone :
    ((MappedPoti.new 7 0 0 0 100 20).setMaxAnalogValue Platform.avr 32767).2._maxAnalogVal = 32767
    ∧ MappedPoti.getMapping Platform.avr
        ((MappedPoti.new 7 0 0 0 100 20).setMaxAnalogValue Platform.avr 32767).2 0 0 0 = some 39
    ∧ MappedPoti.getMapping Platform.avr
        ((MappedPoti.new 7 0 0 0 100 20).setMaxAnalogValue Platform.avr 32767).2 16383 0 0
      = some 35
    ∧ MappedPoti.getMapping Platform.arm32
        ((MappedPoti.new 7 0 0 0 100 20).setMaxAnalogValue Platform.arm32 2147483647).2 0 0 0
      = some 39
    ∧ MappedPoti.getMapping Platform.arm32
        ((MappedPoti.new 7 0 0 0 100 20).setMaxAnalogValue Platform.arm32 2147483647).2
          1073741823 0 0
      = some 35
    ∧ MappedPoti.getMapping Platform.arm32
        ((MappedPoti.new 7 0 0 0 74 19).setMaxAnalogValue Platform.arm32 2482761).2
          1241380 0 0
      = some 37
    ∧ MappedPoti.getMapping Platform.arm32
        ((MappedPoti.new 7 0 0 0 74 19).setMaxAnalogValue Platform.arm32 2482761).2
          1241381 0 0
      = some 36 := by
  decide!

/-- Any two raw values `0 ≤ a ≤ b ≤ m` get levels in the same order. -/
theorem MappedPoti.mapping_monotone_pair (pf : Platform) (hb : 16 ≤ pf.intBits)
    (hf : 24 ≤ pf.floatPrec) (hd : 24 ≤ pf.doublePrec) (p : MappedPoti)
    (hn1 : 2 ≤ p._numMapping) (hn2 : p._numMapping ≤ 255) (hst : p._stretch ≤ 20)
    (hodd : p._maxAnalogVal % 2 = 1) (hm1 : 1 ≤ p._maxAnalogVal)
    (hm2 : p._maxAnalogVal < 32767) (lo hi : Int)
    (hcen : (lo = 0 ∧ hi = 0)
      ∨ (0 < lo ∧ lo ≤ hi ∧ hi < p._maxAnalogVal ∧ 3 ≤ p._numMapping))
    (a b : Int) (ha : 0 ≤ a) (hab : a ≤ b) (hbm : b ≤ p._maxAnalogVal) :
    ∃ la lb, MappedPoti.getMapping pf p a lo hi = some la
      ∧ MappedPoti.getMapping pf p b lo hi = some lb ∧ la ≤ lb := by
  have hmax := Platform.intMax_ge pf hb
  obtain ⟨mx, hmx⟩ := Int.eq_ofNat_of_zero_le (show 0 ≤ p._maxAnalogVal by omega)
  have hmxodd : mx % 2 = 1 := by omega
  have hmx2 : mx ≤ 32765 := by omega
  rw [hmx] at hbm
  -- a center given or implied
  have centered_case : ∀ cl ch : Nat, p.centered lo = true → p.centerValLow pf lo = (cl : Int) →
      p.centerValHigh pf lo hi = (ch : Int) → cl ≤ ch → ch < mx → 3 ≤ p._numMapping →
      ∃ la lb, MappedPoti.getMapping pf p a lo hi = some la
        ∧ MappedPoti.getMapping pf p b lo hi = some lb ∧ la ≤ lb := by
    intro cl ch hce hcl hch h1 h2 h3
    obtain ⟨L, C, R⟩ := MappedPoti.centered_levels pf hb hf hd p hst h3 (by omega) lo hi cl ch mx
      hce hcl hch hmx h1 h2 (by omega)
    exact regions_mono p._numMapping ((p._numMapping - 1) / 2) cl ch mx
      (fun r => MappedPoti.getMapping pf p r lo hi) _ _ (by omega) (by omega)
      (fun x hx _ => L x (by exact_mod_cast hx)) C R
      (fun x y hxy hy _ => MappedPoti.level_mono pf hf hd p hst cl _ (by omega) (by omega) x y hxy
        (by omega))
      (fun x y hxy hy => MappedPoti.level_mono pf hf hd p hst (mx - ch) _ (by omega) (by omega)
        x y hxy (by omega))
      a b ha hab hbm
  rcases hcen with ⟨rfl, rfl⟩ | ⟨c1, c2, c3, c4⟩
  · by_cases hpar : p._numMapping % 2 = 1
    · -- implicit center
      obtain ⟨-, e2, e3, e4, -, -⟩ := MappedPoti.implicit_band pf p hb (by omega) (by omega)
        (by omega)
      have hi : p.implicitCenter 0 = true := by simp [MappedPoti.implicitCenter, hpar]
      have hce : p.centered 0 = true := by simp [MappedPoti.centered, hi]
      have hn3 : (3 : Int) ≤ (p._numMapping : Int) := by omega
      have ha0 : 0 ≤ (p._maxAnalogVal + 1) / (p._numMapping : Int) :=
        Int.ediv_nonneg (by omega) (by omega)
      have ha3 : (p._maxAnalogVal + 1) / (p._numMapping : Int) * 3 ≤ p._maxAnalogVal + 1 :=
        calc (p._maxAnalogVal + 1) / (p._numMapping : Int) * 3
            ≤ (p._maxAnalogVal + 1) / (p._numMapping : Int) * (p._numMapping : Int) :=
              mul_le_mul_of_nonneg_left hn3 ha0
          _ ≤ p._maxAnalogVal + 1 := Int.ediv_mul_le _ (by omega)
      obtain ⟨cl, hcl⟩ := Int.eq_ofNat_of_zero_le
        (show 0 ≤ p._maxAnalogVal / 2 - (p._maxAnalogVal + 1) / (p._numMapping : Int) / 2 by omega)
      obtain ⟨ch, hch⟩ := Int.eq_ofNat_of_zero_le
        (show 0 ≤ p._maxAnalogVal / 2 + (p._maxAnalogVal + 1) / (p._numMapping : Int) / 2 by omega)
      refine centered_case cl ch hce ?_ ?_ (by omega) (by omega) (by omega)
      · simp only [MappedPoti.centerValLow, hi, if_true, e2, hcl]
      · simp only [MappedPoti.centerValHigh, hi, if_true, e3, hch]
    · -- no center
      have hi : p.implicitCenter 0 = false := by
        simp only [MappedPoti.implicitCenter, lt_self_iff_false, decide_False, Bool.not_false,
          Bool.true_and, decide_eq_false_iff_not]
        omega
      have hce : p.centered 0 = false := by simp [MappedPoti.centered, hi]
      obtain ⟨L, R⟩ := MappedPoti.plain_levels pf hb hf hd p hst hn1 (by omega) 0 0 mx hce hmx
        hmxodd hmx2
      exact regions_mono p._numMapping (p._numMapping / 2) (((mx + 1) / 2 : Nat) : Int)
        ((((mx + 1) / 2 : Nat) : Int) - 1) mx
        (fun r => MappedPoti.getMapping pf p r 0 0) _ _ (by omega) (by omega)
        (fun x hx _ => L x (by exact_mod_cast hx))
        (fun r h1 h2 => by omega)
        (fun x hx => R x (by omega))
        (fun x y hxy hy _ => MappedPoti.level_mono pf hf hd p hst _ _ (by omega) (by omega) x y hxy
          (by omega))
        (fun x y hxy hy => MappedPoti.level_mono pf hf hd p hst _ _ (by omega) (by omega)
          x y hxy (by omega))
        a b ha hab hbm
  · -- center given
    have hi0 : p.implicitCenter lo = false := by simp [MappedPoti.implicitCenter, c1]
    have hce : p.centered lo = true := by simp [MappedPoti.centered, c1]
    obtain ⟨cl, hcl⟩ := Int.eq_ofNat_of_zero_le (show 0 ≤ lo by omega)
    obtain ⟨ch, hch⟩ := Int.eq_ofNat_of_zero_le (show 0 ≤ hi by omega)
    refine centered_case cl ch hce ?_ ?_ (by omega) (by omega) c4
    · unfold MappedPoti.centerValLow
      rw [hi0]
      simp only [Bool.false_eq_true, if_false]
      exact hcl
    · unfold MappedPoti.centerValHigh
      rw [hi0]
      simp only [Bool.false_eq_true, if_false]
      exact hch

/-- A function that is defined on `P` and maps `R`-related arguments to
`S`-related values maps `R`-chains in `P` to `S`-chains. -/
theorem chain_map_option {R : Int → Int → Prop} {S : Nat → Nat → Prop} (f : Int → Option Nat)
    (P : Int → Prop) (hdef : ∀ a, P a → ∃ l, f a = some l)
    (h : ∀ a b la lb, P a → P b → R a b → f a = some la → f b = some lb → S la lb) :
    ∀ rs : List Int, (∀ r ∈ rs, P r) → rs.Chain' R →
      ∃ ls : List Nat, rs.map f = ls.map some ∧ ls.Chain' S := by
  intro rs
  induction rs with
  | nil => intro _ _; exact ⟨[], rfl, List.chain'_nil⟩
  | cons r rs ih =>
    intro hP hR
    obtain ⟨l, hl⟩ := hdef r (hP r (List.mem_cons_self _ _))
    obtain ⟨ls, e, c⟩ := ih (fun x hx => hP x (List.mem_cons_of_mem _ hx)) hR.tail
    refine ⟨l :: ls, by simp [hl, e], ?_⟩
    cases rs with
    | nil =>
      cases ls with
      | nil => exact List.chain'_singleton _
      | cons l2 ls2 => simp at e
    | cons r2 rs2 =>
      cases ls with
      | nil => simp at e
      | cons l2 ls2 =>
        simp only [List.map_cons, List.cons.injEq] at e
        have hrel : R r r2 := (List.chain'_cons.1 hR).1
        exact List.chain'_cons.2 ⟨h r r2 l l2 (hP r (List.mem_cons_self _ _))
          (hP r2 (List.mem_cons_of_mem _ (List.mem_cons_self _ _))) hrel hl e.1, c⟩

/-- C13, amended.  On every platform with at least 16 bit `int` and 24 bit
significands, for every `MappedPoti` with 2 to 100 levels, stretch 0 to 20 and
an uneven largest analog value `m` with `1 ≤ m < 32767`, without a center
(`centerValLow = centerValHigh = 0`: no center for an even number of levels,
the implicit center for an uneven one) or with a center
`0 < centerValLow ≤ centerValHigh < m` and at least 3 levels: for all raw
values `0 ≤ a ≤ b ≤ m`, `getMapping` yields a level for both and
`getMapping(a) ≤ getMapping(b)`.  Hence the levels of an increasing sequence of
raw values in `0..m` do not decrease and the levels of a decreasing sequence do
not increase. -/
theorem MappedPoti.mapping_monotone (pf : Platform) (hb : 16 ≤ pf.intBits)
    (hf : 24 ≤ pf.floatPrec) (hd : 24 ≤ pf.doublePrec) (p : MappedPoti)
    (hn1 : 2 ≤ p._numMapping) (hn2 : p._numMapping ≤ 100) (hst : p._stretch ≤ 20)
    (hodd : p._maxAnalogVal % 2 = 1) (hm1 : 1 ≤ p._maxAnalogVal)
    (hm2 : p._maxAnalogVal < 32767) (lo hi : Int)
    (hcen : (lo = 0 ∧ hi = 0)
      ∨ (0 < lo ∧ lo ≤ hi ∧ hi < p._maxAnalogVal ∧ 3 ≤ p._numMapping)) :
    (∀ a b : Int, 0 ≤ a → a ≤ b → b ≤ p._maxAnalogVal →
      ∃ la lb, MappedPoti.getMapping pf p a lo hi = some la
        ∧ MappedPoti.getMapping pf p b lo hi = some lb ∧ la ≤ lb)
    ∧ (∀ rs : List Int, (∀ r ∈ rs, 0 ≤ r ∧ r ≤ p._maxAnalogVal) → rs.Chain' (fun a b => a ≤ b) →
        ∃ ls : List Nat, rs.map (fun r => MappedPoti.getMapping pf p r lo hi) = ls.map some
          ∧ ls.Chain' (fun a b => a ≤ b))
    ∧ (∀ rs : List Int, (∀ r ∈ rs, 0 ≤ r ∧ r ≤ p._maxAnalogVal) → rs.Chain' (fun a b => b ≤ a) →
        ∃ ls : List Nat, rs.map (fun r => MappedPoti.getMapping pf p r lo hi) = ls.map some
          ∧ ls.Chain' (fun a b => b ≤ a)) := by
  have pair := MappedPoti.mapping_monotone_pair pf hb hf hd p hn1 (by omega) hst hodd hm1 hm2
    lo hi hcen
  have hdef : ∀ a : Int, (0 ≤ a ∧ a ≤ p._maxAnalogVal) →
      ∃ l, MappedPoti.getMapping pf p a lo hi = some l := by
    intro a ha
    obtain ⟨la, -, h, -, -⟩ := pair a a ha.1 (le_refl _) ha.2
    exact ⟨la, h⟩
  refine ⟨pair, ?_, ?_⟩
  · apply chain_map_option (fun r => MappedPoti.getMapping pf p r lo hi)
      (fun r => 0 ≤ r ∧ r ≤ p._maxAnalogVal) hdef
    intro a b la lb ha hb' hab fa fb
    obtain ⟨la', lb', ea, eb, hle⟩ := pair a b ha.1 hab hb'.2
    rw [fa] at ea
    rw [fb] at eb
    rw [Option.some.inj ea, Option.some.inj eb]
    exact hle
  · apply chain_map_option (fun r => MappedPoti.getMapping pf p r lo hi)
      (fun r => 0 ≤ r ∧ r ≤ p._maxAnalogVal) hdef
    intro a b la lb ha hb' hab fa fb
    obtain ⟨la', lb', ea, eb, hle⟩ := pair b a hb'.1 hab ha.2
    rw [fb] at ea
    rw [fa] at eb
    rw [Option.some.inj ea, Option.some.inj eb]
    exact hle

/-- Witness for C13: 25 levels with stretch 5 and the implicit center on the
default range, raw 100 and raw 900; the `CenteredPoti` band `[431, 593]` with
the largest analog value 4095, raw 593 and raw 594. -/
theorem MappedPoti.mapping_monotone_witness :
    (∃ la lb, MappedPoti.getMapping Platform.avr (MappedPoti.new 7 0 0 0 25 5) 100 0 0 = some la
      ∧ MappedPoti.getMapping Platform.avr (MappedPoti.new 7 0 0 0 25 5) 900 0 0 = some lb
      ∧ la ≤ lb)
    ∧ (∃ la lb, MappedPoti.getMapping Platform.arm32
          ((MappedPoti.new 7 0 0 0 20 20).setMaxAnalogValue Platform.arm32 4095).2 593 431 593
          = some la
      ∧ MappedPoti.getMapping Platform.arm32
          ((MappedPoti.new 7 0 0 0 20 20).setMaxAnalogValue Platform.arm32 4095).2 594 431 593
          = some lb
      ∧ la ≤ lb) :=
  ⟨(MappedPoti.mapping_monotone Platform.avr (by decide) (by decide) (by decide)
      (MappedPoti.new 7 0 0 0 25 5) (by decide) (by decide) (by decide) (by decide) (by decide)
      (by decide) 0 0 (Or.inl ⟨rfl, rfl⟩)).1 100 900 (by decide) (by decide) (by decide),
   (MappedPoti.mapping_monotone Platform.arm32 (by decide) (by decide) (by decide)
      ((MappedPoti.new 7 0 0 0 20 20).setMaxAnalogValue Platform.arm32 4095).2 (by decide)
      (by decide) (by decide) (by decide) (by decide) (by decide) 431 593
      (Or.inr ⟨by decide, by decide, by decide, by decide⟩)).1 593 594 (by decide) (by decide)
      (by decide)⟩

/-! ## The unit-step sweep -/

/-- Without stretch the quotient of `getMapping` for `stdDiv = V / M` is
`x * M / V` up to the fraction 1/2000000. -/
theorem MappedPoti.linear_quotient (pf : Platform) (hf : 24 ≤ pf.floatPrec)
    (hd : 24 ≤ pf.doublePrec) (p : MappedPoti) (h0 : p._stretch = 0) (V M x : Nat)
    (hM : 1 ≤ M) (hV : 1 ≤ V) (hx : x < 2 ^ 24) :
    0 ≤ MappedPoti.quotient pf (pf.toFloat ((V : ℚ) / M)) (p.scale pf) (V : ℚ) (x : Int)
    ∧ MappedPoti.quotient pf (pf.toFloat ((V : ℚ) / M)) (p.scale pf) (V : ℚ) (x : Int) * V
        ≤ x * M * (1 + 1 / 2000000)
    ∧ x * M * (1 - 1 / 2000000)
        ≤ MappedPoti.quotient pf (pf.toFloat ((V : ℚ) / M)) (p.scale pf) (V : ℚ) (x : Int) * V := by
  obtain ⟨-, -, -, -, -, -, k0, -, -, -, hz⟩ := MappedPoti.scale_facts pf p hf hd (by omega)
  obtain ⟨hs, hinv, hk⟩ := hz h0
  obtain ⟨-, ha, al, au⟩ := MappedPoti.stdDiv_facts pf hf (p.scale pf) V M (by rw [hs]; norm_num)
    hM hV
  have hVq : (0 : ℚ) < (V : ℚ) := by exact_mod_cast hV
  have hMq : (0 : ℚ) < (M : ℚ) := by exact_mod_cast hM
  have hxq : (0 : ℚ) ≤ (x : ℚ) := by positivity
  obtain ⟨-, g0, gu, gl⟩ := MappedPoti.quotient_bounds pf hd (pf.toFloat ((V : ℚ) / M))
    (p.scale pf) V x hx ha k0 (by rw [hinv]; norm_num) hVq
  rw [hk, hinv] at gu gl
  generalize MappedPoti.quotient pf (pf.toFloat ((V : ℚ) / M)) (p.scale pf) (V : ℚ) (x : Int) = q
    at g0 gu gl ⊢
  generalize pf.toFloat (pf.toFloat ((V : ℚ) / M) / p.scale pf) = a at ha al au gu gl
  rw [hs] at al au
  have gu' : q * a ≤ x * (1 + 1 / 3000000) := by
    have : q * (a * (0 * (x : ℚ) / V + 1)) = q * a := by ring
    rw [this] at gu
    exact gu
  have gl' : (x : ℚ) * (1 - 1 / 3000000) ≤ q * a := by
    have : q * (a * (0 * (x : ℚ) / V + 1)) = q * a := by ring
    rw [this] at gl
    exact gl
  have hxM : (0 : ℚ) ≤ (x : ℚ) * M := by positivity
  refine ⟨g0, ?_, ?_⟩
  · -- q V c ≤ q a M ≤ x (1+δ) M ≤ x M (1+η) c
    have s1 : q * ((V : ℚ) * ((1 - 1 / 16777216) * (1 - 1 / 16777216))) ≤ q * (a * (M * 1)) :=
      mul_le_mul_of_nonneg_left al g0
    have s2 : q * a * M ≤ x * (1 + 1 / 3000000) * M := mul_le_mul_of_nonneg_right gu' hMq.le
    have s3 : (x : ℚ) * M * (1 + 1 / 3000000)
        ≤ x * M * ((1 + 1 / 2000000) * ((1 - 1 / 16777216) * (1 - 1 / 16777216))) :=
      mul_le_mul_of_nonneg_left (by norm_num) hxM
    have s4 : q * V * ((1 - 1 / 16777216) * (1 - 1 / 16777216))
        ≤ x * M * (1 + 1 / 2000000) * ((1 - 1 / 16777216) * (1 - 1 / 16777216)) := by
      linarith
    exact le_of_mul_le_mul_right s4 (by norm_num)
  · have s1 : q * (a * (M * 1)) ≤ q * ((V : ℚ) * ((1 + 1 / 16777216) * (1 + 1 / 16777216))) :=
      mul_le_mul_of_nonneg_left au g0
    have s2 : (x : ℚ) * (1 - 1 / 3000000) * M ≤ q * a * M := mul_le_mul_of_nonneg_right gl' hMq.le
    have s3 : (x : ℚ) * M * ((1 - 1 / 2000000) * ((1 + 1 / 16777216) * (1 + 1 / 16777216)))
        ≤ x * M * (1 - 1 / 3000000) :=
      mul_le_mul_of_nonneg_left (by norm_num) hxM
    have s4 : (x : ℚ) * M * (1 - 1 / 2000000) * ((1 + 1 / 16777216) * (1 + 1 / 16777216))
        ≤ q * V * ((1 + 1 / 16777216) * (1 + 1 / 16777216)) := by
      linarith
    exact le_of_mul_le_mul_right s4 (by norm_num)

/-- The truncated quotient is below `k` where `x * M` is clearly below `k * V`. -/
theorem MappedPoti.level_lt_of (pf : Platform) (hf : 24 ≤ pf.floatPrec)
    (hd : 24 ≤ pf.doublePrec) (p : MappedPoti) (h0 : p._stretch = 0) (V M x k : Nat)
    (hM : 1 ≤ M) (hV : 1 ≤ V) (hx : x < 2 ^ 24)
    (h : (x : ℚ) * M * (1 + 1 / 2000000) < k * V) :
    (truncQ (MappedPoti.quotient pf (pf.toFloat ((V : ℚ) / M)) (p.scale pf) (V : ℚ)
        (x : Int))).toNat < k := by
  obtain ⟨g0, gu, -⟩ := MappedPoti.linear_quotient pf hf hd p h0 V M x hM hV hx
  have hVq : (0 : ℚ) < (V : ℚ) := by exact_mod_cast hV
  have hq : MappedPoti.quotient pf (pf.toFloat ((V : ℚ) / M)) (p.scale pf) (V : ℚ) (x : Int)
      < ((k : Int) : ℚ) := by
    rw [Int.cast_natCast]
    exact lt_of_mul_lt_mul_right (lt_of_le_of_lt gu h) hVq.le
  have := truncQ_lt _ g0 (k : Int) hq
  have h2 := truncQ_nonneg _ g0
  omega

/-- The truncated quotient is at least `k` where `x * M` is clearly at least `k * V`. -/
theorem MappedPoti.level_ge_of (pf : Platform) (hf : 24 ≤ pf.floatPrec)
    (hd : 24 ≤ pf.doublePrec) (p : MappedPoti) (h0 : p._stretch = 0) (V M x k : Nat)
    (hM : 1 ≤ M) (hV : 1 ≤ V) (hx : x < 2 ^ 24)
    (h : (k : ℚ) * V ≤ x * M * (1 - 1 / 2000000)) :
    k ≤ (truncQ (MappedPoti.quotient pf (pf.toFloat ((V : ℚ) / M)) (p.scale pf) (V : ℚ)
        (x : Int))).toNat := by
  obtain ⟨g0, -, gl⟩ := MappedPoti.linear_quotient pf hf hd p h0 V M x hM hV hx
  have hVq : (0 : ℚ) < (V : ℚ) := by exact_mod_cast hV
  have hq : (((k : Int) : ℚ))
      ≤ MappedPoti.quotient pf (pf.toFloat ((V : ℚ) / M)) (p.scale pf) (V : ℚ) (x : Int) := by
    rw [Int.cast_natCast]
    exact le_of_mul_le_mul_right (h.trans gl) hVq
  have := truncQ_le_of_le _ g0 (k : Int) hq
  omega

theorem truncQ_step (q r : ℚ) (hq : 0 ≤ q) (hr : 0 ≤ r) (h : r < q + 1) :
    truncQ r ≤ truncQ q + 1 := by
  unfold truncQ
  rw [if_pos hq, if_pos hr]
  have h2 : ∀ t : ℚ, Rat.floor t = ⌊t⌋ := fun _ => rfl
  rw [h2, h2]
  have h3 : ⌊r⌋ < ⌊q⌋ + 2 := by
    rw [Int.floor_lt]
    have := Int.lt_floor_add_one q
    push_cast
    linarith
  omega

/-- Without stretch the truncated quotient grows by at most one from `x` to
`x + 1` when a level is at least two raw values wide. -/
theorem MappedPoti.level_step (pf : Platform) (hf : 24 ≤ pf.floatPrec)
    (hd : 24 ≤ pf.doublePrec) (p : MappedPoti) (h0 : p._stretch = 0) (V M x : Nat)
    (hM : 1 ≤ M) (hV : 2 * M ≤ V) (hx : x ≤ 32767) :
    (truncQ (MappedPoti.quotient pf (pf.toFloat ((V : ℚ) / M)) (p.scale pf) (V : ℚ)
        ((x + 1 : Nat) : Int))).toNat
      ≤ (truncQ (MappedPoti.quotient pf (pf.toFloat ((V : ℚ) / M)) (p.scale pf) (V : ℚ)
          (x : Int))).toNat + 1 := by
  obtain ⟨g0, -, gl⟩ := MappedPoti.linear_quotient pf hf hd p h0 V M x hM (by omega) (by omega)
  obtain ⟨g1, gu, -⟩ := MappedPoti.linear_quotient pf hf hd p h0 V M (x + 1) hM (by omega)
    (by omega)
  have hVq : (0 : ℚ) < (V : ℚ) := by
    have : 0 < V := by omega
    exact_mod_cast this
  have hMq : (0 : ℚ) < (M : ℚ) := by exact_mod_cast hM
  have hVM : (2 : ℚ) * M ≤ V := by exact_mod_cast hV
  have hxq : (x : ℚ) ≤ 32767 := by exact_mod_cast hx
  have hxM : (x : ℚ) * M ≤ 32767 * M := mul_le_mul_of_nonneg_right hxq hMq.le
  generalize MappedPoti.quotient pf (pf.toFloat ((V : ℚ) / M)) (p.scale pf) (V : ℚ) (x : Int) = q
    at g0 gl ⊢
  generalize MappedPoti.quotient pf (pf.toFloat ((V : ℚ) / M)) (p.scale pf) (V : ℚ)
    ((x + 1 : Nat) : Int) = r at g1 gu ⊢
  push_cast at gu
  have hlt : r < q + 1 := by
    have : r * V < (q + 1) * V := by linarith
    exact lt_of_mul_lt_mul_right this hVq.le
  have h1 := truncQ_step q r g0 g1 hlt
  have h2 := truncQ_nonneg q g0
  have h3 := truncQ_nonneg r g1
  omega

/-- Without stretch the truncated quotient reaches the highest level `M - 1`
of its side at the last raw value `V - 1` of the side. -/
theorem MappedPoti.level_top (pf : Platform) (hf : 24 ≤ pf.floatPrec)
    (hd : 24 ≤ pf.doublePrec) (p : MappedPoti) (h0 : p._stretch = 0) (V M : Nat)
    (hM : 1 ≤ M) (hM2 : M ≤ 50) (hV : 2 * M ≤ V) (hV2 : V ≤ 32767) :
    M - 1 ≤ (truncQ (MappedPoti.quotient pf (pf.toFloat ((V : ℚ) / M)) (p.scale pf) (V : ℚ)
        ((V - 1 : Nat) : Int))).toNat := by
  apply MappedPoti.level_ge_of pf hf hd p h0 V M (V - 1) (M - 1) hM (by omega) (by omega)
  obtain ⟨v, rfl⟩ : ∃ v, V = v + 1 := ⟨V - 1, by omega⟩
  obtain ⟨m, rfl⟩ : ∃ m, M = m + 1 := ⟨M - 1, by omega⟩
  simp only [Nat.add_sub_cancel]
  push_cast
  have hm : (m : ℚ) ≤ 49 := by
    have : m ≤ 49 := by omega
    exact_mod_cast this
  have hv0 : (0 : ℚ) ≤ (v : ℚ) := by positivity
  have hvm : (2 : ℚ) * m + 1 ≤ v := by
    have : 2 * m + 1 ≤ v := by omega
    exact_mod_cast this
  have hp : (v : ℚ) * m ≤ v * 49 := mul_le_mul_of_nonneg_left hm hv0
  nlinarith

/-- At raw value 0 the truncated quotient is 0. -/
theorem MappedPoti.level_zero (pf : Platform) (hf : 24 ≤ pf.floatPrec)
    (hd : 24 ≤ pf.doublePrec) (p : MappedPoti) (h0 : p._stretch = 0) (V M : Nat)
    (hM : 1 ≤ M) (hV : 1 ≤ V) :
    (truncQ (MappedPoti.quotient pf (pf.toFloat ((V : ℚ) / M)) (p.scale pf) (V : ℚ)
        ((0 : Nat) : Int))).toNat = 0 := by
  have := MappedPoti.level_lt_of pf hf hd p h0 V M 0 1 hM hV (by norm_num) (by
    have : (0 : ℚ) < (V : ℚ) := by exact_mod_cast hV
    push_cast
    linarith)
  omega

/-- A level function described on three ranges (below the center by `gl`, the
middle level in the center, above it by `gr` counted from the top) starts at
0, ends at `n - 1` and moves in unit steps when `gl` and `gr` do and reach
`M - 1` at the ends of their sides. -/
theorem regions_unit (n M cl ch mx : Nat) (f : Int → Option Nat) (gl gr : Nat → Nat)
    (hM1 : 1 ≤ M) (hcl : 1 ≤ cl) (hch : ch < mx)
    (hcase : (ch + 1 = cl ∧ n = 2 * M) ∨ (cl ≤ ch ∧ n = 2 * M + 1))
    (hleft : ∀ x : Nat, x < cl → f (x : Int) = some (gl x) ∧ gl x < M)
    (hmid : ∀ r : Int, (cl : Int) ≤ r → r ≤ (ch : Int) → f r = some (n / 2))
    (hright : ∀ x : Nat, x < mx - ch → f ((mx : Int) - (x : Int)) = some (n - 1 - gr x) ∧ gr x < M)
    (hgl0 : gl 0 = 0) (hgr0 : gr 0 = 0)
    (hgls : ∀ x, x + 1 < cl → gl x ≤ gl (x + 1) ∧ gl (x + 1) ≤ gl x + 1)
    (hgrs : ∀ x, x + 1 < mx - ch → gr x ≤ gr (x + 1) ∧ gr (x + 1) ≤ gr x + 1)
    (hglt : M - 1 ≤ gl (cl - 1)) (hgrt : M - 1 ≤ gr (mx - ch - 1)) :
    ∃ lev : Nat → Nat, (∀ i : Nat, i ≤ mx → f (i : Int) = some (lev i))
      ∧ lev 0 = 0 ∧ lev mx = n - 1
      ∧ (∀ i, i < mx → lev i ≤ lev (i + 1) ∧ lev (i + 1) ≤ lev i + 1)
      ∧ (∀ x, x < cl → lev x = gl x)
      ∧ (∀ i, cl ≤ i → i ≤ ch → lev i = n / 2)
      ∧ (∀ x, x < mx - ch → lev (mx - x) = n - 1 - gr x) := by
  have key : ∀ i : Nat, ch < i → i ≤ mx →
      f (i : Int) = some (n - 1 - gr (mx - i)) ∧ gr (mx - i) < M := by
    intro i h1 h2
    have := hright (mx - i) (by omega)
    have e : (mx : Int) - ((mx - i : Nat) : Int) = (i : Int) := by omega
    rw [e] at this
    exact this
  refine ⟨fun i => if i < cl then gl i else if i ≤ ch then n / 2 else n - 1 - gr (mx - i),
    ?_, ?_, ?_, ?_, ?_, ?_, ?_⟩
  · intro i hi
    by_cases h1 : i < cl
    · simp only [h1, if_true]
      exact (hleft i h1).1
    · by_cases h2 : i ≤ ch
      · simp only [h1, h2, if_true, if_false]
        exact hmid i (by omega) (by omega)
      · simp only [h1, h2, if_false]
        exact (key i (by omega) hi).1
  · simp only [show 0 < cl by omega, if_true]
    exact hgl0
  · have h1 : ¬ mx < cl := by omega
    have h2 : ¬ mx ≤ ch := by omega
    simp only [h1, h2, if_false, Nat.sub_self, hgr0]
    omega
  · intro i hi
    have hl1 := hleft (cl - 1) (by omega)
    have hr1 := hright (mx - ch - 1) (by omega)
    by_cases a1 : i + 1 < cl
    · have a2 : i < cl := by omega
      simp only [a1, a2, if_true]
      exact hgls i a1
    · by_cases a2 : i < cl
      · -- i = cl - 1
        have e : i = cl - 1 := by omega
        simp only [a1, a2, if_true, if_false]
        by_cases a3 : i + 1 ≤ ch
        · simp only [a3, if_true]
          rw [e]
          omega
        · simp only [a3, if_false]
          have e2 : mx - (i + 1) = mx - ch - 1 := by omega
          rw [e2, e]
          omega
      · simp only [a1, a2, if_false]
        by_cases a3 : i + 1 ≤ ch
        · have a4 : i ≤ ch := by omega
          simp only [a3, a4, if_true]
          omega
        · by_cases a4 : i ≤ ch
          · simp only [a3, a4, if_true, if_false]
            have e2 : mx - (i + 1) = mx - ch - 1 := by omega
            rw [e2]
            omega
          · simp only [a3, a4, if_false]
            have hs := hgrs (mx - (i + 1)) (by omega)
            have e2 : mx - (i + 1) + 1 = mx - i := by omega
            rw [e2] at hs
            have hr2 := hright (mx - i) (by omega)
            omega
  · intro x hx
    simp only [hx, if_true]
  · intro i h1 h2
    have h3 : ¬ i < cl := by omega
    simp only [h3, h2, if_true, if_false]
  · intro x hx
    have h1 : ¬ mx - x < cl := by omega
    have h2 : ¬ mx - x ≤ ch := by omega
    simp only [h1, h2, if_false]
    have e : mx - (mx - x) = x := by omega
    rw [e]

/-- Without stretch, for the largest analog value 1023 or 4095 and 2 to 100
levels: `getMapping` yields a level for every raw value, level 0 for raw 0,
the highest level for the largest raw value, and from one raw value to the
next the level stays or grows by one.  The last two parts locate the changes
of level for 20 levels on 4095 and for 25 levels on 1023. -/
theorem MappedPoti.unit_levels (pf : Platform) (hb : 16 ≤ pf.intBits)
    (hf : 24 ≤ pf.floatPrec) (hd : 24 ≤ pf.doublePrec) (p : MappedPoti)
    (h0 : p._stretch = 0) (hn1 : 2 ≤ p._numMapping) (hn2 : p._numMapping ≤ 100)
    (mx : Nat) (hmx : p._maxAnalogVal = (mx : Int)) (hm : mx = 1023 ∨ mx = 4095) :
    ∃ lev : Nat → Nat,
      (∀ i : Nat, i ≤ mx → MappedPoti.getMapping pf p (i : Int) 0 0 = some (lev i))
      ∧ lev 0 = 0 ∧ lev mx = p._numMapping - 1
      ∧ (∀ i, i < mx → lev i ≤ lev (i + 1) ∧ lev (i + 1) ≤ lev i + 1)
      ∧ (mx = 4095 → p._numMapping = 20 → ∀ k x : Nat, 1 ≤ k → k ≤ 19 → x + 1 = 204 * k →
          lev x < k ∧ k ≤ lev (x + 204))
      ∧ (mx = 1023 → p._numMapping = 25 → ∀ k x : Nat, 1 ≤ k → k ≤ 24 → x + 1 = 40 * k →
          lev x < k ∧ k ≤ lev (x + 40)) := by
  have hmax := Platform.intMax_ge pf hb
  have hst : p._stretch ≤ 20 := by omega
  have hmx1 : 1023 ≤ mx := by omega
  have hmx2 : mx ≤ 4095 := by omega
  have hmxodd : mx % 2 = 1 := by omega
  by_cases hpar : p._numMapping % 2 = 1
  · -- implicit center
    obtain ⟨-, e2, e3, e4, -, -⟩ := MappedPoti.implicit_band pf p hb (by omega) (by omega)
      (by omega)
    have hi : p.implicitCenter 0 = true := by simp [MappedPoti.implicitCenter, hpar]
    have hce : p.centered 0 = true := by simp [MappedPoti.centered, hi]
    have hn3 : (3 : Int) ≤ (p._numMapping : Int) := by omega
    have ha0 : 0 ≤ (p._maxAnalogVal + 1) / (p._numMapping : Int) :=
      Int.ediv_nonneg (by omega) (by omega)
    have ha3 : (p._maxAnalogVal + 1) / (p._numMapping : Int) * 3 ≤ p._maxAnalogVal + 1 :=
      calc (p._maxAnalogVal + 1) / (p._numMapping : Int) * 3
          ≤ (p._maxAnalogVal + 1) / (p._numMapping : Int) * (p._numMapping : Int) :=
            mul_le_mul_of_nonneg_left hn3 ha0
        _ ≤ p._maxAnalogVal + 1 := Int.ediv_mul_le _ (by omega)
    obtain ⟨cl, hcl⟩ := Int.eq_ofNat_of_zero_le
      (show 0 ≤ p._maxAnalogVal / 2 - (p._maxAnalogVal + 1) / (p._numMapping : Int) / 2 by omega)
    obtain ⟨ch, hch⟩ := Int.eq_ofNat_of_zero_le
      (show 0 ≤ p._maxAnalogVal / 2 + (p._maxAnalogVal + 1) / (p._numMapping : Int) / 2 by omega)
    have hcl' : p.centerValLow pf 0 = (cl : Int) := by
      simp only [MappedPoti.centerValLow, hi, if_true, e2, hcl]
    have hch' : p.centerValHigh pf 0 0 = (ch : Int) := by
      simp only [MappedPoti.centerValHigh, hi, if_true, e3, hch]
    have c1 : cl ≤ ch := by omega
    have c2 : ch < mx := by omega
    have c3 : 341 ≤ cl := by omega
    have c4 : 341 ≤ mx - ch := by omega
    have c5 : cl ≤ 2047 := by omega
    have c6 : mx - ch ≤ 2048 := by omega
    obtain ⟨L, C, R⟩ := MappedPoti.centered_levels pf hb hf hd p hst (by omega) (by omega) 0 0
      cl ch mx hce hcl' hch' hmx c1 c2 (by omega)
    obtain ⟨lev, l1, l2, l3, l4, l5, l6, l7⟩ := regions_unit p._numMapping
      ((p._numMapping - 1) / 2) cl ch mx
      (fun r => MappedPoti.getMapping pf p r 0 0) _ _ (by omega) (by omega) c2
      (Or.inr ⟨c1, by omega⟩) L C (fun x hx => R x (by omega))
      (MappedPoti.level_zero pf hf hd p h0 cl _ (by omega) (by omega))
      (MappedPoti.level_zero pf hf hd p h0 (mx - ch) _ (by omega) (by omega))
      (fun x hx => ⟨MappedPoti.level_mono pf hf hd p hst cl _ (by omega) (by omega) x (x + 1)
          (by omega) (by omega),
        MappedPoti.level_step pf hf hd p h0 cl _ x (by omega) (by omega) (by omega)⟩)
      (fun x hx => ⟨MappedPoti.level_mono pf hf hd p hst (mx - ch) _ (by omega) (by omega) x
          (x + 1) (by omega) (by omega),
        MappedPoti.level_step pf hf hd p h0 (mx - ch) _ x (by omega) (by omega) (by omega)⟩)
      (MappedPoti.level_top pf hf hd p h0 cl _ (by omega) (by omega) (by omega) (by omega))
      (MappedPoti.level_top pf hf hd p h0 (mx - ch) _ (by omega) (by omega) (by omega) (by omega))
    refine ⟨lev, l1, l2, l3, l4, fun _ h20 => by omega, ?_⟩
    intro h1023 h25 k x hk1 hk2 hx
    subst h1023
    have hM : (p._numMapping - 1) / 2 = 12 := by omega
    have hnI : (p._numMapping : Int) = 25 := by omega
    rw [hmx, hnI] at hcl hch
    have hcl2 : cl = 491 := by omega
    have hch2 : ch = 531 := by omega
    subst hcl2
    subst hch2
    have hV : 1023 - 531 = 492 := by norm_num
    have hxq : (x : ℚ) + 1 = 40 * k := by exact_mod_cast hx
    have hk1q : (1 : ℚ) ≤ (k : ℚ) := by exact_mod_cast hk1
    have hk2q : (k : ℚ) ≤ 24 := by exact_mod_cast hk2
    constructor
    · by_cases hk : k ≤ 12
      · rw [l5 x (by omega)]
        apply MappedPoti.level_lt_of pf hf hd p h0 _ _ x k (by omega) (by omega) (by omega)
        rw [hM]
        push_cast
        linarith
      · by_cases hk' : k = 13
        · rw [l6 x (by omega) (by omega)]
          omega
        · obtain ⟨y, hy⟩ : ∃ y, y + x = 1023 := ⟨1023 - x, by omega⟩
          have hyq : (y : ℚ) + x = 1023 := by exact_mod_cast hy
          have e : x = 1023 - y := by omega
          have hk3q : (14 : ℚ) ≤ (k : ℚ) := by
            have : 14 ≤ k := by omega
            exact_mod_cast this
          rw [e, l7 y (by omega)]
          have := MappedPoti.level_ge_of pf hf hd p h0 (1023 - 531) ((p._numMapping - 1) / 2) y
            (25 - k) (by omega) (by omega) (by omega) (by
              rw [hM, hV, Nat.cast_sub (by omega)]
              push_cast
              linarith)
          omega
    · by_cases hk : k ≤ 11
      · rw [l5 (x + 40) (by omega)]
        apply MappedPoti.level_ge_of pf hf hd p h0 _ _ (x + 40) k (by omega) (by omega) (by omega)
        rw [hM]
        push_cast
        linarith
      · by_cases hk' : k = 12
        · rw [l6 (x + 40) (by omega) (by omega)]
          omega
        · obtain ⟨y, hy⟩ : ∃ y, y + (x + 40) = 1023 := ⟨1023 - (x + 40), by omega⟩
          have hyq : (y : ℚ) + (x + 40) = 1023 := by exact_mod_cast hy
          have e : x + 40 = 1023 - y := by omega
          rw [e, l7 y (by omega)]
          have := MappedPoti.level_lt_of pf hf hd p h0 (1023 - 531) ((p._numMapping - 1) / 2) y
            (25 - k) (by omega) (by omega) (by omega) (by
              rw [hM, hV, Nat.cast_sub (by omega)]
              push_cast
              linarith)
          have := (R y (by omega)).2
          omega
  · -- no center
    have hi : p.implicitCenter 0 = false := by
      simp only [MappedPoti.implicitCenter, lt_self_iff_false, decide_False, Bool.not_false,
        Bool.true_and, decide_eq_false_iff_not]
      omega
    have hce : p.centered 0 = false := by simp [MappedPoti.centered, hi]
    obtain ⟨L, R⟩ := MappedPoti.plain_levels pf hb hf hd p hst hn1 (by omega) 0 0 mx hce hmx
      hmxodd (by omega)
    obtain ⟨lev, l1, l2, l3, l4, l5, l6, l7⟩ := regions_unit p._numMapping
      (p._numMapping / 2) ((mx + 1) / 2) ((mx + 1) / 2 - 1) mx
      (fun r => MappedPoti.getMapping pf p r 0 0) _ _ (by omega) (by omega) (by omega)
      (Or.inl ⟨by omega, by omega⟩) L (fun r h1 h2 => by omega) (fun x hx => R x (by omega))
      (MappedPoti.level_zero pf hf hd p h0 _ _ (by omega) (by omega))
      (MappedPoti.level_zero pf hf hd p h0 _ _ (by omega) (by omega))
      (fun x hx => ⟨MappedPoti.level_mono pf hf hd p hst _ _ (by omega) (by omega) x (x + 1)
          (by omega) (by omega),
        MappedPoti.level_step pf hf hd p h0 _ _ x (by omega) (by omega) (by omega)⟩)
      (fun x hx => ⟨MappedPoti.level_mono pf hf hd p hst _ _ (by omega) (by omega) x
          (x + 1) (by omega) (by omega),
        MappedPoti.level_step pf hf hd p h0 _ _ x (by omega) (by omega) (by omega)⟩)
      (MappedPoti.level_top pf hf hd p h0 _ _ (by omega) (by omega) (by omega) (by omega))
      (by
        have := MappedPoti.level_top pf hf hd p h0 ((mx + 1) / 2) (p._numMapping / 2) (by omega)
          (by omega) (by omega) (by omega)
        have e : mx - ((mx + 1) / 2 - 1) - 1 = (mx + 1) / 2 - 1 := by omega
        rw [e]
        exact this)
    refine ⟨lev, l1, l2, l3, l4, ?_, fun _ h25 => by omega⟩
    intro h4095 h20 k x hk1 hk2 hx
    subst h4095
    have hM : p._numMapping / 2 = 10 := by omega
    have hV : (4095 + 1) / 2 = 2048 := by norm_num
    have hxq : (x : ℚ) + 1 = 204 * k := by exact_mod_cast hx
    have hk1q : (1 : ℚ) ≤ (k : ℚ) := by exact_mod_cast hk1
    have hk2q : (k : ℚ) ≤ 19 := by exact_mod_cast hk2
    constructor
    · by_cases hk : k ≤ 10
      · rw [l5 x (by omega)]
        apply MappedPoti.level_lt_of pf hf hd p h0 _ _ x k (by omega) (by omega) (by omega)
        rw [hM, hV]
        push_cast
        linarith
      · obtain ⟨y, hy⟩ : ∃ y, y + x = 4095 := ⟨4095 - x, by omega⟩
        have hyq : (y : ℚ) + x = 4095 := by exact_mod_cast hy
        have e : x = 4095 - y := by omega
        rw [e, l7 y (by omega)]
        have := MappedPoti.level_ge_of pf hf hd p h0 ((4095 + 1) / 2) (p._numMapping / 2) y
          (20 - k) (by omega) (by omega) (by omega) (by
            rw [hM, hV, Nat.cast_sub (by omega)]
            push_cast
            linarith)
        omega
    · by_cases hk : k ≤ 9
      · rw [l5 (x + 204) (by omega)]
        apply MappedPoti.level_ge_of pf hf hd p h0 _ _ (x + 204) k (by omega) (by omega) (by omega)
        rw [hM, hV]
        push_cast
        linarith
      · obtain ⟨y, hy⟩ : ∃ y, y + (x + 204) = 4095 := ⟨4095 - (x + 204), by omega⟩
        have hyq : (y : ℚ) + (x + 204) = 4095 := by exact_mod_cast hy
        have e : x + 204 = 4095 - y := by omega
        rw [e, l7 y (by omega)]
        have := MappedPoti.level_lt_of pf hf hd p h0 ((4095 + 1) / 2) (p._numMapping / 2) y
          (20 - k) (by omega) (by omega) (by omega) (by
            rw [hM, hV, Nat.cast_sub (by omega)]
            push_cast
            linarith)
        have := (R y (by omega)).2
        omega

/-- Without read cycle, weighting and averaging `getStabilizedRawValue` returns
the raw value as it is. -/
theorem StablePoti.plain_stabilized (pf : Platform) (p : StablePoti) (current : Nat) (raw : Int)
    (hr : p._readCycleMillis = 0) (hw : p._weightPrev = 0) (ha : p._addNumRawAvg = 0)
    (ho : p._openNumRawAvg = 0) :
    p.getStabilizedRawValue pf current raw
      = (raw, { p with _lastReadMillis := current, _prevValueInternal := raw }) := by
  simp [StablePoti.getStabilizedRawValue, StablePoti.gatedOut, Poti.gatedOut, StablePoti.stabilize,
    StablePoti.weighting, hr, hw, ha, ho]

/-- One call of `MappedPoti::hasChanged` without read cycle, weighting and
averaging, for a raw value that differs from the previous one and has the
level `l`. -/
theorem MappedPoti.plain_hasChanged (pf : Platform) (p : MappedPoti) (current : Nat) (raw : Int)
    (l : Nat) (hr : p._readCycleMillis = 0) (hw : p._weightPrev = 0) (ha : p._addNumRawAvg = 0)
    (ho : p._openNumRawAvg = 0) (hu : raw ≠ POTI_VALUE_UNDEFINED)
    (hne : raw ≠ p._prevValueInternal) (hmap : MappedPoti.getMapping pf p raw 0 0 = some l) :
    ∃ r : Bool × MappedPoti, p.hasChanged pf current raw = some r
      ∧ (r.1 = true ↔ l ≠ p._curMapValue)
      ∧ r.2._numMapping = p._numMapping ∧ r.2._stretch = p._stretch
      ∧ r.2._maxAnalogVal = p._maxAnalogVal
      ∧ r.2._readCycleMillis = 0 ∧ r.2._weightPrev = 0 ∧ r.2._addNumRawAvg = 0
      ∧ r.2._openNumRawAvg = 0 ∧ r.2._prevValueInternal = raw
      ∧ (r.1 = true → r.2.getValue = raw ∧ r.2.getPrevValue = p.getValue
          ∧ r.2.getMappedValue = l ∧ r.2.getMappedPrevValue = p.getMappedValue)
      ∧ (r.1 = false → r.2.getValue = p.getValue ∧ r.2.getMappedValue = p.getMappedValue) := by
  have hs := StablePoti.plain_stabilized pf p.toStablePoti current raw hr hw ha ho
  have h1 : (p.toStablePoti.getStabilizedRawValue pf current raw).1 = raw := by rw [hs]
  have h := MappedPoti.hasChanged_of_mapping pf p current raw l (by rw [h1]; exact hu)
    (by rw [h1]; exact hne) (by rw [h1]; exact hmap)
  rw [hs] at h
  by_cases hl : l = p._curMapValue
  · rw [if_neg (by simpa using hl)] at h
    refine ⟨_, h, ?_, rfl, rfl, rfl, hr, hw, ha, ho, rfl, ?_, ?_⟩
    · simp [hl]
    · intro hc
      simp at hc
    · intro _
      exact ⟨rfl, rfl⟩
  · rw [if_pos hl] at h
    refine ⟨_, h, ?_, rfl, rfl, rfl, hr, hw, ha, ho, rfl, ?_, ?_⟩
    · simp [hl]
    · intro _
      exact ⟨rfl, rfl, rfl, rfl⟩
    · intro hc
      simp at hc

/-- A sweep in steps of `d ≠ 0` through raw values whose levels are given by
`f`, without read cycle, weighting and averaging, from an object that has seen
the raw value `r0` with the level `f r0`: every call has a result, a call
returns true exactly when the level differs from the level of the raw value
before, and then the current value is the raw value, the previous value is the
value of the last change and the levels are those of the two raw values. -/
theorem MappedPoti.sweep_levels (pf : Platform) (n st : Nat) (m : Int) (hm : m < 32767)
    (f : Int → Nat)
    (hf : ∀ p : MappedPoti, p._numMapping = n → p._stretch = st → p._maxAnalogVal = m →
      ∀ r : Int, 0 ≤ r → r ≤ m → MappedPoti.getMapping pf p r 0 0 = some (f r))
    (d : Int) (hd : d ≠ 0) :
    ∀ (qs : List Poll) (p : MappedPoti) (j r0 : Int),
      p._numMapping = n → p._stretch = st → p._maxAnalogVal = m →
      p._readCycleMillis = 0 → p._weightPrev = 0 → p._addNumRawAvg = 0 →
      p._openNumRawAvg = 0 → p._prevValueInternal = r0 → p._curMapValue = f r0 →
      j = p.getValue →
      List.Chain (fun a b => b = a + d ∧ 0 ≤ b ∧ b ≤ m) r0 (qs.map Poll.raw) →
      ∃ (rs : List SweepReport) (p' : MappedPoti) (j' : Int),
        MappedPoti.sweep pf p j qs = some (rs, p', j')
        ∧ p'._numMapping = n ∧ p'._stretch = st ∧ p'._maxAnalogVal = m
        ∧ p'._readCycleMillis = 0 ∧ p'._weightPrev = 0 ∧ p'._addNumRawAvg = 0
        ∧ p'._openNumRawAvg = 0 ∧ p'._prevValueInternal = r0 + d * qs.length
        ∧ p'._curMapValue = f (r0 + d * qs.length) ∧ j' = p'.getValue
        ∧ rs.map SweepReport.raw = qs.map Poll.raw
        ∧ ∀ e ∈ rs, (e.changed = true ↔ f e.raw ≠ f (e.raw - d))
            ∧ (e.changed = true → e.value = e.raw ∧ e.prevValue = e.j ∧ e.mapped = f e.raw
                ∧ e.mappedPrev = f (e.raw - d)) := by
  intro qs
  induction qs with
  | nil =>
    intro p j r0 c1 c2 c3 c4 c5 c6 c7 c8 c9 c10 _
    refine ⟨[], p, j, rfl, c1, c2, c3, c4, c5, c6, c7, ?_, ?_, c10, rfl, ?_⟩
    · simpa using c8
    · simpa using c9
    · intro e he
      simp at he
  | cons q qs ih =>
    intro p j r0 c1 c2 c3 c4 c5 c6 c7 c8 c9 c10 hch
    rw [List.map_cons, List.chain_cons] at hch
    obtain ⟨⟨hq, hq0, hqm⟩, hch⟩ := hch
    have hmap := hf p c1 c2 c3 q.raw hq0 hqm
    have hu : q.raw ≠ POTI_VALUE_UNDEFINED := by
      have : POTI_VALUE_UNDEFINED = 32767 := rfl
      omega
    have hne : q.raw ≠ p._prevValueInternal := by
      rw [c8]
      omega
    obtain ⟨r, hr, b1, b2, b3, b4, b5, b6, b7, b8, b9, b10, b11⟩ :=
      MappedPoti.plain_hasChanged pf p q.current q.raw (f q.raw) c4 c5 c6 c7 hu hne hmap
    have hcur : r.2._curMapValue = f q.raw := by
      by_cases hc : r.1 = true
      · exact (b10 hc).2.2.1
      · have hc' : r.1 = false := by simpa using hc
        have h1 := (b11 hc').2
        have h2 : ¬ (f q.raw ≠ p._curMapValue) := fun h => hc (b1.2 h)
        have h3 : f q.raw = p._curMapValue := by
          by_contra h
          exact h2 h
        rw [h3]
        exact h1
    have hj : (if r.1 = true then r.2.getValue else j) = r.2.getValue := by
      by_cases hc : r.1 = true
      · rw [if_pos hc]
      · have hc' : r.1 = false := by simpa using hc
        rw [if_neg hc, c10]
        exact (b11 hc').1.symm
    obtain ⟨rs, p', j', s0, s1, s2, s3, s4, s5, s6, s7, s8, s9, s10, s11, s12⟩ :=
      ih r.2 (if r.1 = true then r.2.getValue else j) q.raw (b2.trans c1) (b3.trans c2)
        (b4.trans c3) b5 b6 b7 b8 b9 hcur hj hch
    have e1 : q.raw + d * (qs.length : Int) = r0 + d * ((q :: qs).length : Int) := by
      rw [hq, List.length_cons]
      push_cast
      ring
    refine ⟨(⟨q.raw, j, r.1, r.2.getValue, r.2.getPrevValue, r.2.getMappedValue,
      r.2.getMappedPrevValue⟩ : SweepReport) :: rs, p', j', ?_, s1, s2, s3, s4, s5, s6, s7, ?_, ?_, s10, ?_, ?_⟩
    · simp only [MappedPoti.sweep, hr, Option.some_bind, s0, Option.map_some']
    · rw [s8, e1]
    · rw [s9, e1]
    · simp only [List.map_cons, s11]
    · intro e he
      rcases List.mem_cons.1 he with rfl | he
      · have hprev : q.raw - d = r0 := by omega
        simp only [hprev]
        refine ⟨?_, fun hc => ?_⟩
        · rw [b1, c9]
        · obtain ⟨v1, v2, v3, v4⟩ := b10 hc
          refine ⟨v1, ?_, v3, ?_⟩
          · rw [v2, c10]
          · rw [v4]
            exact c9
      · exact s12 e he

/-- The levels reported by an upward sweep in unit steps: when the level of a
raw value is the level of the raw value before or one more, the calls that
return true report every level from the one after the level of the start to
the level of the end, in order. -/
theorem sweep_up_levels (f : Int → Nat) : ∀ (rs : List SweepReport) (r0 : Int),
    List.Chain (fun a b => b = a + 1) r0 (rs.map SweepReport.raw) →
    (∀ e ∈ rs, (e.changed = true ↔ f e.raw ≠ f (e.raw - 1))
      ∧ (e.changed = true → e.mapped = f e.raw)) →
    (∀ e ∈ rs, f (e.raw - 1) ≤ f e.raw ∧ f e.raw ≤ f (e.raw - 1) + 1) →
    f r0 ≤ f (r0 + rs.length)
      ∧ (rs.filter (fun e => e.changed)).map SweepReport.mapped
          = List.range' (f r0 + 1) (f (r0 + rs.length) - f r0) := by
  intro rs
  induction rs with
  | nil =>
    intro r0 _ _ _
    simp
  | cons e rs ih =>
    intro r0 hch h1 h2
    rw [List.map_cons, List.chain_cons] at hch
    obtain ⟨he, hch⟩ := hch
    obtain ⟨i1, i2⟩ := ih e.raw hch (fun x hx => h1 x (List.mem_cons_of_mem _ hx))
      (fun x hx => h2 x (List.mem_cons_of_mem _ hx))
    obtain ⟨a1, a2⟩ := h1 e (List.mem_cons_self _ _)
    obtain ⟨u1, u2⟩ := h2 e (List.mem_cons_self _ _)
    have hp : e.raw - 1 = r0 := by omega
    rw [hp] at a1 u1 u2
    have e1 : r0 + ((e :: rs).length : Int) = e.raw + (rs.length : Int) := by
      rw [List.length_cons]
      push_cast
      omega
    rw [e1]
    by_cases hc : e.changed = true
    · have hne := a1.1 hc
      have hm := a2 hc
      have hs : f e.raw = f r0 + 1 := by omega
      refine ⟨by omega, ?_⟩
      rw [List.filter_cons_of_pos (by simpa using hc), List.map_cons, i2, hm]
      have e2 : f (e.raw + (rs.length : Int)) - f r0
          = (f (e.raw + (rs.length : Int)) - f e.raw) + 1 := by omega
      rw [e2, List.range'_succ, hs]
    · have heq : f e.raw = f r0 := by
        by_contra h
        exact hc (a1.2 h)
      refine ⟨by omega, ?_⟩
      rw [List.filter_cons_of_neg (by simpa using hc), i2, heq]

/-- The levels reported by a downward sweep in unit steps: the calls that
return true report every level from the one below the level of the start down
to the level of the end, in order. -/
theorem sweep_down_levels (f : Int → Nat) : ∀ (rs : List SweepReport) (r0 : Int),
    List.Chain (fun a b => b = a + -1) r0 (rs.map SweepReport.raw) →
    (∀ e ∈ rs, (e.changed = true ↔ f e.raw ≠ f (e.raw + 1))
      ∧ (e.changed = true → e.mapped = f e.raw)) →
    (∀ e ∈ rs, f e.raw ≤ f (e.raw + 1) ∧ f (e.raw + 1) ≤ f e.raw + 1) →
    f (r0 - rs.length) ≤ f r0
      ∧ (rs.filter (fun e => e.changed)).map SweepReport.mapped
          = (List.range' (f (r0 - rs.length)) (f r0 - f (r0 - rs.length))).reverse := by
  intro rs
  induction rs with
  | nil =>
    intro r0 _ _ _
    simp
  | cons e rs ih =>
    intro r0 hch h1 h2
    rw [List.map_cons, List.chain_cons] at hch
    obtain ⟨he, hch⟩ := hch
    obtain ⟨i1, i2⟩ := ih e.raw hch (fun x hx => h1 x (List.mem_cons_of_mem _ hx))
      (fun x hx => h2 x (List.mem_cons_of_mem _ hx))
    obtain ⟨a1, a2⟩ := h1 e (List.mem_cons_self _ _)
    obtain ⟨u1, u2⟩ := h2 e (List.mem_cons_self _ _)
    have hp : e.raw + 1 = r0 := by omega
    rw [hp] at a1 u1 u2
    have e1 : r0 - ((e :: rs).length : Int) = e.raw - (rs.length : Int) := by
      rw [List.length_cons]
      push_cast
      omega
    rw [e1]
    by_cases hc : e.changed = true
    · have hne := a1.1 hc
      have hm := a2 hc
      have hs : f e.raw + 1 = f r0 := by omega
      refine ⟨by omega, ?_⟩
      rw [List.filter_cons_of_pos (by simpa using hc), List.map_cons, i2, hm]
      have e2 : f r0 - f (e.raw - (rs.length : Int))
          = (f e.raw - f (e.raw - (rs.length : Int))) + 1 := by omega
      rw [e2, List.range'_concat, List.reverse_append, List.reverse_singleton,
        List.singleton_append]
      congr 1
      omega
    · have heq : f e.raw = f r0 := by
        by_contra h
        exact hc (a1.2 h)
      refine ⟨by omega, ?_⟩
      rw [List.filter_cons_of_neg (by simpa using hc), i2, heq]

theorem chain_up (m : Int) : ∀ (k s : Nat), (s : Int) + k ≤ m →
    List.Chain (fun a b : Int => b = a + 1 ∧ 0 ≤ b ∧ b ≤ m) (s : Int)
      ((List.range' (s + 1) k).map (fun i : Nat => (i : Int))) := by
  intro k
  induction k with
  | zero =>
    intro s _
    exact List.Chain.nil
  | succ k ih =>
    intro s hs
    rw [List.range'_succ, List.map_cons, List.chain_cons]
    refine ⟨⟨by push_cast; ring, by positivity, by push_cast at hs ⊢; omega⟩, ?_⟩
    have := ih (s + 1) (by push_cast at hs ⊢; omega)
    simpa using this

theorem chain_down (m : Int) : ∀ k : Nat, (k : Int) ≤ m →
    List.Chain (fun a b : Int => b = a + -1 ∧ 0 ≤ b ∧ b ≤ m) (k : Int)
      ((List.range k).reverse.map (fun i : Nat => (i : Int))) := by
  intro k
  induction k with
  | zero =>
    intro _
    exact List.Chain.nil
  | succ k ih =>
    intro hk
    rw [List.range_succ, List.reverse_append, List.reverse_singleton, List.singleton_append,
      List.map_cons, List.chain_cons]
    refine ⟨⟨by push_cast; ring, by positivity, by push_cast at hk ⊢; omega⟩, ?_⟩
    exact ih (by push_cast at hk ⊢; omega)

/-- The raw values of the reports of an upward sweep after its first poll. -/
theorem sweep_up_raws (mx : Nat) (ru : List SweepReport)
    (hraw : ru.map SweepReport.raw = (List.range' 1 mx).map (fun i : Nat => (i : Int))) :
    ∀ e ∈ ru, ∃ i : Nat, e.raw = ((i + 1 : Nat) : Int) ∧ i < mx ∧ e.raw.toNat = i + 1
      ∧ (e.raw - 1).toNat = i := by
  intro e he
  have h1 : e.raw ∈ ru.map SweepReport.raw := List.mem_map_of_mem _ he
  rw [hraw, List.mem_map] at h1
  obtain ⟨i, hi, hie⟩ := h1
  rw [List.mem_range'_1] at hi
  have e0 : e.raw = ((i - 1 + 1 : Nat) : Int) := by
    rw [← hie]
    congr 1
    omega
  refine ⟨i - 1, e0, by omega, by rw [e0, Int.toNat_natCast], ?_⟩
  rw [e0]
  push_cast
  simp

/-- The raw values of the reports of a downward sweep. -/
theorem sweep_down_raws (mx : Nat) (rd : List SweepReport)
    (hraw : rd.map SweepReport.raw = (List.range mx).reverse.map (fun i : Nat => (i : Int))) :
    ∀ e ∈ rd, ∃ i : Nat, e.raw = (i : Int) ∧ i < mx ∧ e.raw.toNat = i
      ∧ (e.raw + 1).toNat = i + 1 := by
  intro e he
  have h1 : e.raw ∈ rd.map SweepReport.raw := List.mem_map_of_mem _ he
  rw [hraw, List.mem_map] at h1
  obtain ⟨i, hi, hie⟩ := h1
  rw [List.mem_reverse, List.mem_range] at hi
  refine ⟨i, hie.symm, hi, by rw [← hie, Int.toNat_natCast], ?_⟩
  rw [← hie]
  have : ((i : Int) + 1) = ((i + 1 : Nat) : Int) := by push_cast; ring
  rw [this, Int.toNat_natCast]

/-- An upward sweep after its first poll through levels that start at 0 and
move in unit steps: each change raises the level by one, and the levels
reported are `1, 2, ...` up to the level of the largest raw value. -/
theorem sweep_up_report (lev : Nat → Nat) (mx : Nat) (ru : List SweepReport)
    (hraw : ru.map SweepReport.raw = (List.range' 1 mx).map (fun i : Nat => (i : Int)))
    (h12 : ∀ e ∈ ru, (e.changed = true ↔ lev e.raw.toNat ≠ lev (e.raw - 1).toNat)
      ∧ (e.changed = true → e.value = e.raw ∧ e.prevValue = e.j ∧ e.mapped = lev e.raw.toNat
          ∧ e.mappedPrev = lev (e.raw - 1).toNat))
    (l2 : lev 0 = 0)
    (l4 : ∀ i, i < mx → lev i ≤ lev (i + 1) ∧ lev (i + 1) ≤ lev i + 1) :
    (∀ e ∈ ru, e.changed = true →
        e.value = e.raw ∧ e.prevValue = e.j ∧ e.mappedPrev + 1 = e.mapped)
    ∧ (ru.filter fun e => e.changed).map SweepReport.mapped = List.range' 1 (lev mx)
    ∧ (∀ e ∈ ru, e.changed = true → ∃ i : Nat, e.raw = ((i + 1 : Nat) : Int) ∧ i < mx
        ∧ e.mapped = lev (i + 1) ∧ lev (i + 1) = lev i + 1) := by
  have hiu := sweep_up_raws mx ru hraw
  have hlen : ru.length = mx := by
    have := congrArg List.length hraw
    simpa using this
  have hsu : ∀ e ∈ ru, lev (e.raw - 1).toNat ≤ lev e.raw.toNat
      ∧ lev e.raw.toNat ≤ lev (e.raw - 1).toNat + 1 := by
    intro e he
    obtain ⟨i, -, him, e1, e2⟩ := hiu e he
    rw [e1, e2]
    exact l4 i him
  have hch : List.Chain (fun a b : Int => b = a + 1) 0 (ru.map SweepReport.raw) := by
    rw [hraw]
    exact (chain_up (mx : Int) mx 0 (by simp)).imp fun _ _ h => h.1
  obtain ⟨-, ord⟩ := sweep_up_levels (fun r => lev r.toNat) ru 0 hch
    (fun e he => ⟨(h12 e he).1, fun hc => ((h12 e he).2 hc).2.2.1⟩) hsu
  simp only [hlen, zero_add, Int.toNat_zero, Int.toNat_natCast, l2, Nat.sub_zero] at ord
  refine ⟨?_, ord, ?_⟩
  · intro e he hce
    obtain ⟨w1, w2, w3, w4⟩ := (h12 e he).2 hce
    have hne := (h12 e he).1.1 hce
    have := hsu e he
    refine ⟨w1, w2, ?_⟩
    rw [w3, w4]
    omega
  · intro e he hce
    obtain ⟨i, hi, him, e1, e2⟩ := hiu e he
    obtain ⟨w1, w2, w3, w4⟩ := (h12 e he).2 hce
    have hne := (h12 e he).1.1 hce
    have hst := hsu e he
    rw [e1, e2] at hne hst
    rw [e1] at w3
    exact ⟨i, hi, him, w3, by omega⟩

/-- A downward sweep through levels that start at 0 and move in unit steps:
each change lowers the level by one, and the levels reported go from the one
below the level of the largest raw value down to 0. -/
theorem sweep_down_report (lev : Nat → Nat) (mx : Nat) (rd : List SweepReport)
    (hraw : rd.map SweepReport.raw = (List.range mx).reverse.map (fun i : Nat => (i : Int)))
    (h12 : ∀ e ∈ rd, (e.changed = true ↔ lev e.raw.toNat ≠ lev (e.raw - -1).toNat)
      ∧ (e.changed = true → e.value = e.raw ∧ e.prevValue = e.j ∧ e.mapped = lev e.raw.toNat
          ∧ e.mappedPrev = lev (e.raw - -1).toNat))
    (l2 : lev 0 = 0)
    (l4 : ∀ i, i < mx → lev i ≤ lev (i + 1) ∧ lev (i + 1) ≤ lev i + 1) :
    (∀ e ∈ rd, e.changed = true →
        e.value = e.raw ∧ e.prevValue = e.j ∧ e.mappedPrev = e.mapped + 1)
    ∧ (rd.filter fun e => e.changed).map SweepReport.mapped
        = (List.range (lev mx)).reverse := by
  have hid := sweep_down_raws mx rd hraw
  have hlen : rd.length = mx := by
    have := congrArg List.length hraw
    simpa using this
  have h12' : ∀ e ∈ rd, (e.changed = true ↔ lev e.raw.toNat ≠ lev (e.raw + 1).toNat)
      ∧ (e.changed = true → e.value = e.raw ∧ e.prevValue = e.j ∧ e.mapped = lev e.raw.toNat
          ∧ e.mappedPrev = lev (e.raw + 1).toNat) := by
    intro e he
    have := h12 e he
    simpa only [sub_neg_eq_add] using this
  have hsd : ∀ e ∈ rd, lev e.raw.toNat ≤ lev (e.raw + 1).toNat
      ∧ lev (e.raw + 1).toNat ≤ lev e.raw.toNat + 1 := by
    intro e he
    obtain ⟨i, -, him, e1, e2⟩ := hid e he
    rw [e1, e2]
    exact l4 i him
  have hch : List.Chain (fun a b : Int => b = a + -1) (mx : Int) (rd.map SweepReport.raw) := by
    rw [hraw]
    exact (chain_down (mx : Int) mx (le_refl _)).imp fun _ _ h => h.1
  obtain ⟨-, ord⟩ := sweep_down_levels (fun r => lev r.toNat) rd (mx : Int) hch
    (fun e he => ⟨(h12' e he).1, fun hc => ((h12' e he).2 hc).2.2.1⟩) hsd
  simp only [hlen, sub_self, Int.toNat_zero, Int.toNat_natCast, l2, Nat.sub_zero] at ord
  refine ⟨?_, ?_⟩
  · intro e he hce
    obtain ⟨w1, w2, w3, w4⟩ := (h12' e he).2 hce
    have hne := (h12' e he).1.1 hce
    have := hsd e he
    refine ⟨w1, w2, ?_⟩
    rw [w3, w4]
    omega
  · rw [ord, List.range_eq_range']

/-- Where the levels move in unit steps and level `k` is not reached before raw
`c * k` and is reached by raw `c * k + c - 1`, a change to level `k` at raw `i`
has `k = i / c`. -/
theorem level_at_change (lev : Nat → Nat) (mx c K : Nat) (hc : 0 < c)
    (l4 : ∀ i, i < mx → lev i ≤ lev (i + 1) ∧ lev (i + 1) ≤ lev i + 1)
    (hK : c * K + c ≤ mx + 1)
    (hbd : ∀ k x : Nat, 1 ≤ k → k ≤ K → x + 1 = c * k → lev x < k ∧ k ≤ lev (x + c))
    (i : Nat) (hi : i < mx) (hstep : lev (i + 1) = lev i + 1) (hle : lev (i + 1) ≤ K) :
    ((lev (i + 1) : Nat) : Int) = ((i + 1 : Nat) : Int) / (c : Int) := by
  have hmono : ∀ a b : Nat, a ≤ b → b ≤ mx → lev a ≤ lev b := by
    intro a b hab
    induction b, hab using Nat.le_induction with
    | base => intro _; exact le_refl _
    | succ b hab ih =>
      intro hb
      exact (ih (by omega)).trans (l4 b (by omega)).1
  have hk1 : 1 ≤ lev (i + 1) := by omega
  have hck : c * 1 ≤ c * lev (i + 1) := Nat.mul_le_mul_left c hk1
  have hcK : c * lev (i + 1) ≤ c * K := Nat.mul_le_mul_left c hle
  obtain ⟨x, hx⟩ : ∃ x, x + 1 = c * lev (i + 1) := ⟨c * lev (i + 1) - 1, by omega⟩
  obtain ⟨q1, q2⟩ := hbd (lev (i + 1)) x hk1 hle hx
  have c1 : x < i + 1 := by
    by_contra hcon
    have := hmono (i + 1) x (by omega) (by omega)
    omega
  have c2 : i < x + c := by
    by_contra hcon
    have := hmono (x + c) i (by omega) (by omega)
    omega
  have h1 : (i + 1) / c = lev (i + 1) := by
    apply Nat.div_eq_of_lt_le
    · rw [Nat.mul_comm]
      omega
    · rw [Nat.mul_comm, Nat.mul_succ]
      omega
  rw [← h1]
  exact (Int.natCast_div _ _)

/-- The first poll of a constructed or reset `MappedPoti` without read cycle,
weighting and averaging, for a raw value (not the undefined value) of level 0. -/
theorem MappedPoti.plain_first_poll (pf : Platform) (p : MappedPoti) (current : Nat) (raw : Int)
    (hfresh : p.Fresh) (hr : p._readCycleMillis = 0) (hw : p._weightPrev = 0)
    (ha : p._addNumRawAvg = 0) (hu : raw ≠ POTI_VALUE_UNDEFINED)
    (hmap : MappedPoti.getMapping pf p raw 0 0 = some 0) :
    ∃ p1 : MappedPoti, p.hasChanged pf current raw = some (true, p1)
      ∧ p1._numMapping = p._numMapping ∧ p1._stretch = p._stretch
      ∧ p1._maxAnalogVal = p._maxAnalogVal
      ∧ p1._readCycleMillis = 0 ∧ p1._weightPrev = 0 ∧ p1._addNumRawAvg = 0
      ∧ p1._openNumRawAvg = 0 ∧ p1._prevValueInternal = raw ∧ p1._curMapValue = 0
      ∧ p1.getValue = raw ∧ p1.getPrevValue = POTI_VALUE_UNDEFINED
      ∧ p1.getMappedValue = 0 ∧ p1.getMappedPrevValue = POTI_MAPPING_UNDEFINED := by
  obtain ⟨⟨⟨-, f2, -⟩, f4, -, f6⟩, f7, -⟩ := hfresh
  obtain ⟨r, hr1, b1, b2, b3, b4, b5, b6, b7, b8, b9, b10, -⟩ :=
    MappedPoti.plain_hasChanged pf p current raw 0 hr hw ha f6 hu (by rw [f4]; exact hu) hmap
  have hc : r.1 = true := b1.2 (by rw [f7]; decide)
  obtain ⟨v1, v2, v3, v4⟩ := b10 hc
  refine ⟨r.2, ?_, b2, b3, b4, b5, b6, b7, b8, b9, v3, v1, v2.trans f2, v3, v4.trans f7⟩
  rw [hr1, ← hc]

theorem MappedPoti.sweep_cons (pf : Platform) (p p1 p2 : MappedPoti) (j j2 : Int) (q : Poll)
    (qs : List Poll) (c : Bool) (rs : List SweepReport)
    (h1 : p.hasChanged pf q.current q.raw = some (c, p1))
    (h2 : MappedPoti.sweep pf p1 (if c = true then p1.getValue else j) qs = some (rs, p2, j2)) :
    MappedPoti.sweep pf p j (q :: qs)
      = some ((⟨q.raw, j, c, p1.getValue, p1.getPrevValue, p1.getMappedValue,
          p1.getMappedPrevValue⟩ : SweepReport) :: rs, p2, j2) := by
  simp only [MappedPoti.sweep, h1, Option.some_bind, h2, Option.map_some']

/-- C14, amended.  On every platform with at least 16 bit `int` and 24 bit
significands, for a constructed or reset `MappedPoti` with stretch 0, no
weighting, no averaging, no read cycle, 2 to 100 levels and the largest analog
value 1023 or 4095: polling once for each raw value 0, 1, ... up to the largest
and then once for each raw value back down to 0, every call has a result.  The
first poll (raw 0) returns true with value 0, level 0 and undefined previous
value and level.  Every later poll of the upward sweep that returns true has
`getValue()` equal to the raw value just set, `getPrevValue()` equal to the
value `j` of the previous change and `getMappedPrevValue() + 1 =
getMappedValue()`; every poll of the downward sweep that returns true has the
same with `getMappedPrevValue() = getMappedValue() + 1`.  The levels reported
upward are `0, 1, ..., numMapping - 1` in order, downward
`numMapping - 2, ..., 0`.  With 20 levels on 4095 the level reported at a
change at raw `i` of the upward sweep is `i / 204`, with 25 levels on 1023 it
is `i / 40`. -/
theorem MappedPoti.unit_step_sweep (pf : Platform) (hb : 16 ≤ pf.intBits)
    (hf : 24 ≤ pf.floatPrec) (hd : 24 ≤ pf.doublePrec) (p : MappedPoti) (hfresh : p.Fresh)
    (h0 : p._stretch = 0) (hw : p._weightPrev = 0) (ha : p._addNumRawAvg = 0)
    (hr : p._readCycleMillis = 0) (hn1 : 2 ≤ p._numMapping) (hn2 : p._numMapping ≤ 100)
    (mx : Nat) (hmx : p._maxAnalogVal = (mx : Int)) (hm : mx = 1023 ∨ mx = 4095)
    (tu td : Nat → Nat) :
    ∃ (e0 : SweepReport) (ru : List SweepReport) (pu : MappedPoti) (rd : List SweepReport)
        (pd : MappedPoti) (jd : Int),
      e0 = ⟨0, 0, true, 0, POTI_VALUE_UNDEFINED, 0, POTI_MAPPING_UNDEFINED⟩
      ∧ MappedPoti.sweep pf p 0 ((List.range (mx + 1)).map fun i => (⟨tu i, (i : Int)⟩ : Poll))
          = some (e0 :: ru, pu, pu.getValue)
      ∧ MappedPoti.sweep pf pu pu.getValue
            ((List.range mx).reverse.map fun i => (⟨td i, (i : Int)⟩ : Poll))
          = some (rd, pd, jd)
      ∧ ru.map SweepReport.raw = (List.range' 1 mx).map (fun i : Nat => (i : Int))
      ∧ rd.map SweepReport.raw = (List.range mx).reverse.map (fun i : Nat => (i : Int))
      ∧ (∀ e ∈ ru, e.changed = true →
          e.value = e.raw ∧ e.prevValue = e.j ∧ e.mappedPrev + 1 = e.mapped)
      ∧ (∀ e ∈ rd, e.changed = true →
          e.value = e.raw ∧ e.prevValue = e.j ∧ e.mappedPrev = e.mapped + 1)
      ∧ ((e0 :: ru).filter fun e => e.changed).map SweepReport.mapped
          = List.range p._numMapping
      ∧ (rd.filter fun e => e.changed).map SweepReport.mapped
          = (List.range (p._numMapping - 1)).reverse
      ∧ (mx = 4095 → p._numMapping = 20 →
          ∀ e ∈ e0 :: ru, e.changed = true → (e.mapped : Int) = e.raw / 204)
      ∧ (mx = 1023 → p._numMapping = 25 →
          ∀ e ∈ e0 :: ru, e.changed = true → (e.mapped : Int) = e.raw / 40) := by
  obtain ⟨lev, l1, l2, l3, l4, l5, l6⟩ :=
    MappedPoti.unit_levels pf hb hf hd p h0 hn1 hn2 mx hmx hm
  have hmx3 : (mx : Int) < 32767 := by omega
  have hfI : ∀ p' : MappedPoti, p'._numMapping = p._numMapping → p'._stretch = p._stretch →
      p'._maxAnalogVal = (mx : Int) → ∀ r : Int, 0 ≤ r → r ≤ (mx : Int) →
      MappedPoti.getMapping pf p' r 0 0 = some (lev r.toNat) := by
    intro p' a1 a2 a3 r hr0 hrm
    rw [MappedPoti.getMapping_congr pf p' p a1 a2 (a3.trans hmx.symm)]
    obtain ⟨i, rfl⟩ := Int.eq_ofNat_of_zero_le hr0
    rw [Int.toNat_natCast]
    exact l1 i (by omega)
  have hm0 : MappedPoti.getMapping pf p 0 0 0 = some 0 := by
    have := l1 0 (by omega)
    rw [l2] at this
    exact this
  obtain ⟨p1, A⟩ := MappedPoti.plain_first_poll pf p (tu 0) 0 hfresh hr hw ha (by decide) hm0
  obtain ⟨ru, pu, ju, U⟩ :=
    MappedPoti.sweep_levels pf p._numMapping p._stretch (mx : Int) hmx3
      (fun r => lev r.toNat) hfI 1 (by decide)
      ((List.range' 1 mx).map fun i => (⟨tu i, (i : Int)⟩ : Poll)) p1 p1.getValue 0 A.2.1
      A.2.2.1 (A.2.2.2.1.trans hmx) A.2.2.2.2.1 A.2.2.2.2.2.1 A.2.2.2.2.2.2.1
      A.2.2.2.2.2.2.2.1 A.2.2.2.2.2.2.2.2.1
      (by
        show p1._curMapValue = lev ((0 : Int)).toNat
        rw [A.2.2.2.2.2.2.2.2.2.1, Int.toNat_zero, l2]) rfl
      (by
        rw [List.map_map]
        exact chain_up (mx : Int) mx 0 (by simp))
  have hpu : pu._prevValueInternal = (mx : Int) := by
    rw [U.2.2.2.2.2.2.2.2.1]
    simp
  have hcu : pu._curMapValue = lev ((mx : Int)).toNat := by
    rw [U.2.2.2.2.2.2.2.2.2.1]
    simp
  obtain ⟨rd, pd, jd, D⟩ :=
    MappedPoti.sweep_levels pf p._numMapping p._stretch (mx : Int) hmx3
      (fun r => lev r.toNat) hfI (-1) (by decide)
      ((List.range mx).reverse.map fun i => (⟨td i, (i : Int)⟩ : Poll)) pu pu.getValue (mx : Int)
      U.2.1 U.2.2.1 U.2.2.2.1 U.2.2.2.2.1 U.2.2.2.2.2.1 U.2.2.2.2.2.2.1 U.2.2.2.2.2.2.2.1
      hpu hcu rfl
      (by
        rw [List.map_map]
        exact chain_down (mx : Int) mx (le_refl _))
  have hju : ju = pu.getValue := U.2.2.2.2.2.2.2.2.2.2.1
  have hrawu : ru.map SweepReport.raw = (List.range' 1 mx).map (fun i : Nat => (i : Int)) := by
    rw [U.2.2.2.2.2.2.2.2.2.2.2.1, List.map_map]
    rfl
  have hrawd : rd.map SweepReport.raw = (List.range mx).reverse.map (fun i : Nat => (i : Int)) := by
    rw [D.2.2.2.2.2.2.2.2.2.2.2.1, List.map_map]
    rfl
  have RU := sweep_up_report lev mx ru hrawu U.2.2.2.2.2.2.2.2.2.2.2.2 l2 l4
  have RD := sweep_down_report lev mx rd hrawd D.2.2.2.2.2.2.2.2.2.2.2.2 l2 l4
  have hsw : MappedPoti.sweep pf p 0
      ((List.range (mx + 1)).map fun i => (⟨tu i, (i : Int)⟩ : Poll))
      = some ((⟨0, 0, true, 0, POTI_VALUE_UNDEFINED, 0, POTI_MAPPING_UNDEFINED⟩ : SweepReport)
          :: ru, pu, pu.getValue) := by
    rw [List.range_eq_range', List.range'_succ, List.map_cons]
    have h := MappedPoti.sweep_cons pf p p1 pu 0 ju ⟨tu 0, ((0 : Nat) : Int)⟩
      ((List.range' (0 + 1) mx).map fun i => (⟨tu i, (i : Int)⟩ : Poll)) true ru A.1 U.1
    rw [h, hju, A.2.2.2.2.2.2.2.2.2.2.1, A.2.2.2.2.2.2.2.2.2.2.2.1, A.2.2.2.2.2.2.2.2.2.2.2.2.1,
      A.2.2.2.2.2.2.2.2.2.2.2.2.2]
    rfl
  refine ⟨_, ru, pu, rd, pd, jd, rfl, hsw, ?_, hrawu, hrawd, RU.1, RD.1, ?_, ?_, ?_, ?_⟩
  · exact D.1
  · rw [List.filter_cons_of_pos (by rfl), List.map_cons, RU.2.1, l3, List.range_eq_range']
    have : p._numMapping = (p._numMapping - 1) + 1 := by omega
    conv_rhs => rw [this, List.range'_succ]
  · rw [RD.2, l3]
  · intro h4095 h20 e he hce
    rcases List.mem_cons.1 he with rfl | he
    · simp
    obtain ⟨i, hi, him, hmp, hst⟩ := RU.2.2 e he hce
    have hle : lev (i + 1) ≤ 19 := by
      have := MappedPoti.getMapping_lt pf p ((i + 1 : Nat) : Int) 0 0 _ (l1 (i + 1) (by omega))
      omega
    rw [hmp, hi]
    exact level_at_change lev mx 204 19 (by norm_num) l4 (by omega) (l5 h4095 h20) i him hst hle
  · intro h1023 h25 e he hce
    rcases List.mem_cons.1 he with rfl | he
    · simp
    obtain ⟨i, hi, him, hmp, hst⟩ := RU.2.2 e he hce
    have hle : lev (i + 1) ≤ 24 := by
      have := MappedPoti.getMapping_lt pf p ((i + 1 : Nat) : Int) 0 0 _ (l1 (i + 1) (by omega))
      omega
    rw [hmp, hi]
    exact level_at_change lev mx 40 24 (by norm_num) l4 (by omega) (l6 h1023 h25) i him hst hle

/-- C14 as stated fails at the first poll of the upward sweep: it returns true
(the level changes from undefined to 0), but there is no previous change:
`getPrevValue()` is `POTI_VALUE_UNDEFINED` and `getMappedPrevValue()` is
`POTI_MAPPING_UNDEFINED` (255), not `getMappedValue() - 1`.  Shown for 20
levels on the default range, the configuration of the sweep test before
`setMaxAnalogValue`. -/
theorem MappedPoti.first_change_undefined :
    (MappedPoti.sweep Platform.avr (MappedPoti.new 7 0 0 0 20 0) 0 [⟨0, 0⟩]).map (fun t => t.1)
      = some [⟨0, 0, true, 0, 32767, 0, 255⟩]
    ∧ (MappedPoti.sweep Platform.arm32 (MappedPoti.new 7 0 0 0 20 0) 0 [⟨0, 0⟩]).map (fun t => t.1)
      = some [⟨0, 0, true, 0, 32767, 0, 255⟩]
    ∧ ((255 : Nat) : Int) ≠ ((0 : Nat) : Int) - 1 := by
  decide!

/-- Witness for C14: the sweep test with 25 levels on the default range 1023,
the clock running with the polls. -/
theorem MappedPoti.unit_step_sweep_witness :
    ∃ (e0 : SweepReport) (ru : List SweepReport) (pu : MappedPoti) (rd : List SweepReport)
        (pd : MappedPoti) (jd : Int),
      e0 = ⟨0, 0, true, 0, POTI_VALUE_UNDEFINED, 0, POTI_MAPPING_UNDEFINED⟩
      ∧ MappedPoti.sweep Platform.avr (MappedPoti.new 7 0 0 0 25 0) 0
            ((List.range (1023 + 1)).map fun i => (⟨i, (i : Int)⟩ : Poll))
          = some (e0 :: ru, pu, pu.getValue)
      ∧ MappedPoti.sweep Platform.avr pu pu.getValue
            ((List.range 1023).reverse.map fun i => (⟨2000 - i, (i : Int)⟩ : Poll))
          = some (rd, pd, jd)
      ∧ ru.map SweepReport.raw = (List.range' 1 1023).map (fun i : Nat => (i : Int))
      ∧ rd.map SweepReport.raw = (List.range 1023).reverse.map (fun i : Nat => (i : Int))
      ∧ (∀ e ∈ ru, e.changed = true →
          e.value = e.raw ∧ e.prevValue = e.j ∧ e.mappedPrev + 1 = e.mapped)
      ∧ (∀ e ∈ rd, e.changed = true →
          e.value = e.raw ∧ e.prevValue = e.j ∧ e.mappedPrev = e.mapped + 1)
      ∧ ((e0 :: ru).filter fun e => e.changed).map SweepReport.mapped
          = List.range (MappedPoti.new 7 0 0 0 25 0)._numMapping
      ∧ (rd.filter fun e => e.changed).map SweepReport.mapped
          = (List.range ((MappedPoti.new 7 0 0 0 25 0)._numMapping - 1)).reverse
      ∧ ((1023 : Nat) = 4095 → (MappedPoti.new 7 0 0 0 25 0)._numMapping = 20 →
          ∀ e ∈ e0 :: ru, e.changed = true → (e.mapped : Int) = e.raw / 204)
      ∧ ((1023 : Nat) = 1023 → (MappedPoti.new 7 0 0 0 25 0)._numMapping = 25 →
          ∀ e ∈ e0 :: ru, e.changed = true → (e.mapped : Int) = e.raw / 40) :=
  MappedPoti.unit_step_sweep Platform.avr (by decide) (by decide) (by decide)
    (MappedPoti.new 7 0 0 0 25 0) ⟨⟨⟨rfl, rfl, rfl⟩, rfl, rfl, rfl⟩, rfl, rfl⟩ rfl rfl rfl rfl
    (by decide) (by decide) 1023 rfl (Or.inl rfl) (fun i => i) (fun i => 2000 - i)

/-! ## Configuration at construction and `setMaxAnalogValue` -/

/-- C25. Configuration clamping: for all constructor arguments `StablePoti`
stores the weight `min(weightPrev, 12)` and the number of extra samples
`min(addNumRawAvg, 7)`, and `MappedPoti` stores `min(max(numMapping, 2), 100)`
levels and the stretch `min(stretch, 20)` (and clamps weight and extra samples
in the same way); the constructors are total, and an argument within the range
is stored as it is. -/
theorem config_clamping (inputPin readCycleMillis weightPrev addNumRawAvg numMapping
    stretch : Nat) :
    (StablePoti.new inputPin readCycleMillis weightPrev addNumRawAvg)._weightPrev
        = min weightPrev 12
    ∧ (StablePoti.new inputPin readCycleMillis weightPrev addNumRawAvg)._addNumRawAvg
        = min addNumRawAvg 7
    ∧ (MappedPoti.new inputPin readCycleMillis weightPrev addNumRawAvg numMapping
          stretch).getNumMappingValues = min (max numMapping 2) 100
    ∧ (MappedPoti.new inputPin readCycleMillis weightPrev addNumRawAvg numMapping stretch)._stretch
        = min stretch 20
    ∧ (MappedPoti.new inputPin readCycleMillis weightPrev addNumRawAvg numMapping
          stretch)._weightPrev = min weightPrev 12
    ∧ (MappedPoti.new inputPin readCycleMillis weightPrev addNumRawAvg numMapping
          stretch)._addNumRawAvg = min addNumRawAvg 7
    ∧ (∀ w : Fin 13, (StablePoti.new inputPin readCycleMillis w addNumRawAvg)._weightPrev = w)
    ∧ (∀ a : Fin 8, (StablePoti.new inputPin readCycleMillis weightPrev a)._addNumRawAvg = a)
    ∧ (∀ n : Fin 99, (MappedPoti.new inputPin readCycleMillis weightPrev addNumRawAvg (n + 2)
          stretch).getNumMappingValues = n + 2)
    ∧ (∀ s : Fin 21, (MappedPoti.new inputPin readCycleMillis weightPrev addNumRawAvg numMapping
          s)._stretch = s) := by
  refine ⟨?_, ?_, ?_, ?_, ?_, ?_, ?_, ?_, ?_, ?_⟩
  · simp only [StablePoti.new]
    split_ifs <;> omega
  · simp only [StablePoti.new]
    split_ifs <;> omega
  · simp only [MappedPoti.new, MappedPoti.getNumMappingValues]
    split_ifs <;> omega
  · simp only [MappedPoti.new]
    split_ifs <;> omega
  · simp only [MappedPoti.new, StablePoti.new]
    split_ifs <;> omega
  · simp only [MappedPoti.new, StablePoti.new]
    split_ifs <;> omega
  · intro w
    simp only [StablePoti.new]
    split_ifs <;> omega
  · intro a
    simp only [StablePoti.new]
    split_ifs <;> omega
  · intro n
    simp only [MappedPoti.new, MappedPoti.getNumMappingValues]
    split_ifs <;> omega
  · intro s
    simp only [MappedPoti.new]
    split_ifs <;> omega

/-- C24. Level count of `CenteredPoti`: for every requested `numMapping` the
constructor stores `clamp(numMapping, 3, 101)`, increased by one if that is
even; the stored count is uneven and within 3..101, so `numMapping >> 1` is the
one middle level with as many levels below as above; the requests 20, 1 and
102 give 21, 3 and 101. -/
theorem CenteredPoti.level_count_odd (pf : Platform)
    (inputPin readCycleMillis weightPrev addNumRawAvg numMapping stretch centerTol : Nat)
    (centerVal : Int) :
    (CenteredPoti.new pf inputPin readCycleMillis weightPrev addNumRawAvg numMapping stretch
        centerTol centerVal).getNumMappingValues
      = (if min (max numMapping 3) 101 % 2 = 0 then min (max numMapping 3) 101 + 1
          else min (max numMapping 3) 101)
    ∧ (CenteredPoti.new pf inputPin readCycleMillis weightPrev addNumRawAvg numMapping stretch
        centerTol centerVal).getNumMappingValues % 2 = 1
    ∧ 3 ≤ (CenteredPoti.new pf inputPin readCycleMillis weightPrev addNumRawAvg numMapping stretch
        centerTol centerVal).getNumMappingValues
    ∧ (CenteredPoti.new pf inputPin readCycleMillis weightPrev addNumRawAvg numMapping stretch
        centerTol centerVal).getNumMappingValues ≤ 101
    ∧ 2 * ((CenteredPoti.new pf inputPin readCycleMillis weightPrev addNumRawAvg numMapping stretch
        centerTol centerVal).getNumMappingValues >>> 1) + 1
      = (CenteredPoti.new pf inputPin readCycleMillis weightPrev addNumRawAvg numMapping stretch
        centerTol centerVal).getNumMappingValues
    ∧ (CenteredPoti.new pf inputPin readCycleMillis weightPrev addNumRawAvg 20 stretch
        centerTol centerVal).getNumMappingValues = 21
    ∧ (CenteredPoti.new pf inputPin readCycleMillis weightPrev addNumRawAvg 1 stretch
        centerTol centerVal).getNumMappingValues = 3
    ∧ (CenteredPoti.new pf inputPin readCycleMillis weightPrev addNumRawAvg 102 stretch
        centerTol centerVal).getNumMappingValues = 101 := by
  have h : ∀ n : Nat, (CenteredPoti.new pf inputPin readCycleMillis weightPrev addNumRawAvg n
      stretch centerTol centerVal).getNumMappingValues = CenteredPoti.levelCount n := fun _ => rfl
  have key : CenteredPoti.levelCount numMapping
      = (if min (max numMapping 3) 101 % 2 = 0 then min (max numMapping 3) 101 + 1
          else min (max numMapping 3) 101)
      ∧ CenteredPoti.levelCount numMapping % 2 = 1 ∧ 3 ≤ CenteredPoti.levelCount numMapping
      ∧ CenteredPoti.levelCount numMapping ≤ 101 := by
    by_cases h1 : numMapping < 3
    · have e1 : max numMapping 3 = 3 := Nat.max_eq_right (by omega)
      have e2 : CenteredPoti.levelCount numMapping = 3 := by
        simp [CenteredPoti.levelCount, h1]
      rw [e1, e2]
      decide
    · by_cases h2 : numMapping > 101
      · have e1 : max numMapping 3 = numMapping := Nat.max_eq_left (by omega)
        have e3 : min numMapping 101 = 101 := Nat.min_eq_right (by omega)
        have e2 : CenteredPoti.levelCount numMapping = 101 := by
          simp [CenteredPoti.levelCount, h1, h2]
        rw [e1, e3, e2]
        decide
      · have e1 : max numMapping 3 = numMapping := Nat.max_eq_left (by omega)
        have e3 : min numMapping 101 = numMapping := Nat.min_eq_left (by omega)
        rw [e1, e3]
        by_cases h3 : numMapping % 2 = 0
        · have e2 : CenteredPoti.levelCount numMapping = numMapping + 1 := by
            simp only [CenteredPoti.levelCount, h1, h2, h3, if_true, if_false]
            omega
          rw [e2, if_pos h3]
          omega
        · have e2 : CenteredPoti.levelCount numMapping = numMapping := by
            simp only [CenteredPoti.levelCount, h1, h2, h3, if_false]
          rw [e2, if_neg h3]
          omega
  simp only [h, Nat.shiftRight_eq_div_pow, pow_one]
  refine ⟨key.1, key.2.1, key.2.2.1, key.2.2.2, ?_, by decide, by decide, by decide⟩
  have := key.2.1
  omega

/-- C23 as stated fails at the smallest `int`: it is even, and `v - 1` is not
an `int`; with wrap-around the stored value is the largest `int` (16 bit:
`setMaxAnalogValue(-32768)` stores 32767, 32 bit: -2147483648 stores
2147483647). -/
theorem MappedPoti.set_max_smallest_int :
    (-32768 : Int) % 2 = 0
    ∧ ((MappedPoti.new 7 0 0 0 20 0).setMaxAnalogValue Platform.avr (-32768)).1 = 32767
    ∧ ((MappedPoti.new 7 0 0 0 20 0).setMaxAnalogValue Platform.avr (-32768)).2.getMaxAnalogValue
        = 32767
    ∧ ((MappedPoti.new 7 0 0 0 20 0).setMaxAnalogValue Platform.arm32 (-2147483648)).1
        = 2147483647 := by
  decide

/-- C23, amended.  For every `int` value `v` other than the smallest one
`setMaxAnalogValue(v)` stores and returns `v` if `v` is uneven and `v - 1` if
`v` is even, `getMaxAnalogValue()` then returns the stored value, and the stored
value is uneven; 4096 and 4095 both store 4095.  A constructed `MappedPoti` has
the largest analog value 1023, so the stored value is always uneven. -/
theorem MappedPoti.set_max_analog_value (pf : Platform) (hb : 16 ≤ pf.intBits) (p : MappedPoti)
    (v : Int) (hv1 : pf.intMin < v) (hv2 : v ≤ pf.intMax) :
    (p.setMaxAnalogValue pf v).1 = (if v % 2 = 0 then v - 1 else v)
    ∧ (p.setMaxAnalogValue pf v).2._maxAnalogVal = (if v % 2 = 0 then v - 1 else v)
    ∧ (p.setMaxAnalogValue pf v).2.getMaxAnalogValue = (p.setMaxAnalogValue pf v).1
    ∧ (p.setMaxAnalogValue pf v).2.getMaxAnalogValue % 2 = 1
    ∧ (p.setMaxAnalogValue pf 4096).1 = 4095
    ∧ (p.setMaxAnalogValue pf 4096).2.getMaxAnalogValue = 4095
    ∧ (p.setMaxAnalogValue pf 4095).1 = 4095
    ∧ (p.setMaxAnalogValue pf 4095).2.getMaxAnalogValue = 4095
    ∧ (∀ a b c d e f : Nat, (MappedPoti.new a b c d e f).getMaxAnalogValue = 1023) := by
  have hmin := Platform.intMin_le pf hb
  have hmax := Platform.intMax_ge pf hb
  have h4 : pf.wrap (4096 - 1) = 4095 := by
    rw [Platform.wrap_eq_self pf _ hb (by omega) (by omega)]
    norm_num
  have key : (p.setMaxAnalogValue pf v).1 = (if v % 2 = 0 then v - 1 else v)
      ∧ (p.setMaxAnalogValue pf v).2._maxAnalogVal = (if v % 2 = 0 then v - 1 else v) := by
    unfold MappedPoti.setMaxAnalogValue
    by_cases h : v % 2 = 0
    · rw [if_pos h, if_pos h, Platform.wrap_eq_self pf _ hb (by omega) (by omega)]
      exact ⟨rfl, rfl⟩
    · rw [if_neg h, if_neg h]
      exact ⟨rfl, rfl⟩
  refine ⟨key.1, key.2, ?_, ?_, ?_, ?_, ?_, ?_, fun _ _ _ _ _ _ => rfl⟩
  · unfold MappedPoti.getMaxAnalogValue
    rw [key.1, key.2]
  · unfold MappedPoti.getMaxAnalogValue
    rw [key.2]
    split_ifs <;> omega
  · simp only [MappedPoti.setMaxAnalogValue]
    rw [if_pos (by decide), h4]
  · simp only [MappedPoti.setMaxAnalogValue, MappedPoti.getMaxAnalogValue]
    rw [if_pos (by decide), h4]
  · simp only [MappedPoti.setMaxAnalogValue]
    rw [if_neg (by decide)]
  · simp only [MappedPoti.setMaxAnalogValue, MappedPoti.getMaxAnalogValue]
    rw [if_neg (by decide)]

/-- Witness for C23: the call of the test, `setMaxAnalogValue(4096)` on 16 bit `int`. -/
theorem MappedPoti.set_max_analog_value_witness :
    ((MappedPoti.new 7 0 0 0 20 0).setMaxAnalogValue Platform.avr 4096).1
        = (if (4096 : Int) % 2 = 0 then 4096 - 1 else 4096)
    ∧ ((MappedPoti.new 7 0 0 0 20 0).setMaxAnalogValue Platform.avr 4096).2.getMaxAnalogValue % 2
        = 1 :=
  ⟨(MappedPoti.set_max_analog_value Platform.avr (by decide) (MappedPoti.new 7 0 0 0 20 0) 4096
      (by decide) (by decide)).1,
   (MappedPoti.set_max_analog_value Platform.avr (by decide) (MappedPoti.new 7 0 0 0 20 0) 4096
      (by decide) (by decide)).2.2.2.1⟩

/-! ## The smoothed previous value and the gate of `getStabilizedRawValue` -/

/-- After `getStabilizedRawValue` the smoothed previous value is the value
returned, or the call returned `POTI_VALUE_UNDEFINED` and left it as it was. -/
theorem StablePoti.prevValueInternal_after (pf : Platform) (p : StablePoti) (current : Nat)
    (raw : Int) :
    (p.getStabilizedRawValue pf current raw).2._prevValueInternal
        = (p.getStabilizedRawValue pf current raw).1
    ∨ ((p.getStabilizedRawValue pf current raw).1 = POTI_VALUE_UNDEFINED
        ∧ (p.getStabilizedRawValue pf current raw).2._prevValueInternal
          = p._prevValueInternal) := by
  unfold StablePoti.getStabilizedRawValue StablePoti.stabilize
  split_ifs
  · exact Or.inr ⟨rfl, rfl⟩
  · exact Or.inl (StablePoti.weighting_frame pf _ _).2.2.2.2.2
  · exact Or.inr ⟨rfl, rfl⟩
  · exact Or.inr ⟨rfl, rfl⟩
  · exact Or.inl (StablePoti.weighting_frame pf _ _).2.2.2.2.2
  · exact Or.inl (StablePoti.weighting_frame pf _ _).2.2.2.2.2

/-- C29. Smoothed previous value: after a poll in which
`getStabilizedRawValue` returns a value other than `POTI_VALUE_UNDEFINED` the
smoothed previous value `_prevValueInternal` is that value, in `StablePoti`
and, whether or not `hasChanged` reports a change, after `hasChanged` of
`StablePoti`, `MappedPoti` and `CenteredPoti`.  A poll that is gated out leaves
the whole object as it is, and a poll that returns `POTI_VALUE_UNDEFINED`
during averaging leaves the smoothed previous value as it is. -/
theorem smoothed_previous_value (pf : Platform) (p : StablePoti) (m : MappedPoti)
    (c : CenteredPoti) (current : Nat) (raw : Int) :
    ((p.getStabilizedRawValue pf current raw).1 ≠ POTI_VALUE_UNDEFINED →
      (p.getStabilizedRawValue pf current raw).2._prevValueInternal
          = (p.getStabilizedRawValue pf current raw).1
      ∧ (p.hasChanged pf current raw).2._prevValueInternal
          = (p.getStabilizedRawValue pf current raw).1)
    ∧ ((m.toStablePoti.getStabilizedRawValue pf current raw).1 ≠ POTI_VALUE_UNDEFINED →
        ∀ res, m.hasChanged pf current raw = some res →
          res.2._prevValueInternal = (m.toStablePoti.getStabilizedRawValue pf current raw).1)
    ∧ ((c.toStablePoti.getStabilizedRawValue pf current raw).1 ≠ POTI_VALUE_UNDEFINED →
        ∀ res, c.hasChanged pf current raw = some res →
          res.2._prevValueInternal = (c.toStablePoti.getStabilizedRawValue pf current raw).1)
    ∧ (p.gatedOut current = true →
        p.getStabilizedRawValue pf current raw = (POTI_VALUE_UNDEFINED, p)
        ∧ (p.hasChanged pf current raw).2 = p)
    ∧ (p.gatedOut current = false → 0 < p._addNumRawAvg →
        p._internalRawAvg ≠ POTI_VALUE_UNDEFINED →
        (p._openNumRawAvg = 0 ∨ 0 < (p._openNumRawAvg + 255) % 256) →
        (p.getStabilizedRawValue pf current raw).1 = POTI_VALUE_UNDEFINED
        ∧ (p.getStabilizedRawValue pf current raw).2._prevValueInternal = p._prevValueInternal
        ∧ (p.hasChanged pf current raw).2._prevValueInternal = p._prevValueInternal) := by
  have hs := (StablePoti.hasChanged_state pf p current raw).2.2.2.2.1
  refine ⟨fun hv => ?_, fun hv res hres => ?_, fun hv res hres => ?_, fun hg => ?_,
    fun hg ha hi ho => ?_⟩
  · rcases StablePoti.prevValueInternal_after pf p current raw with h | ⟨h, -⟩
    · exact ⟨h, hs.trans h⟩
    · exact absurd h hv
  · have h1 : (m.toStablePoti.getStabilizedRawValue pf current raw).2._prevValueInternal
        = (m.toStablePoti.getStabilizedRawValue pf current raw).1 := by
      rcases StablePoti.prevValueInternal_after pf m.toStablePoti current raw with h | ⟨h, -⟩
      · exact h
      · exact absurd h hv
    unfold MappedPoti.hasChanged at hres
    rw [if_neg hv] at hres
    split_ifs at hres
    · obtain rfl := (Option.some.inj hres).symm
      exact h1
    · simp only [Option.map_eq_some'] at hres
      obtain ⟨l, -, hl⟩ := hres
      split_ifs at hl
      · obtain rfl := hl.symm
        exact h1
      · obtain rfl := hl.symm
        exact h1
  · have h1 : (c.toStablePoti.getStabilizedRawValue pf current raw).2._prevValueInternal
        = (c.toStablePoti.getStabilizedRawValue pf current raw).1 := by
      rcases StablePoti.prevValueInternal_after pf c.toStablePoti current raw with h | ⟨h, -⟩
      · exact h
      · exact absurd h hv
    unfold CenteredPoti.hasChanged at hres
    rw [if_neg hv] at hres
    split_ifs at hres
    · obtain rfl := (Option.some.inj hres).symm
      exact h1
    · simp only [Option.map_eq_some'] at hres
      obtain ⟨l, -, hl⟩ := hres
      split_ifs at hl
      · obtain rfl := hl.symm
        exact h1
      · obtain rfl := hl.symm
        exact h1
  · have h1 := StablePoti.getStabilizedRawValue_of_gatedOut pf p current raw hg
    refine ⟨h1, ?_⟩
    unfold StablePoti.hasChanged
    rw [h1, if_pos rfl]
  · have h1 := StablePoti.getStabilizedRawValue_of_accepted pf p current raw hg
    have h2 : (StablePoti.stabilize pf p current raw).1 = POTI_VALUE_UNDEFINED
        ∧ (StablePoti.stabilize pf p current raw).2._prevValueInternal = p._prevValueInternal := by
      unfold StablePoti.stabilize
      rw [if_pos ha, if_neg hi]
      rcases ho with ho | ho
      · rw [if_pos ho]
        exact ⟨rfl, rfl⟩
      · by_cases h0 : p._openNumRawAvg = 0
        · rw [if_pos h0]
          exact ⟨rfl, rfl⟩
        · rw [if_neg h0, if_pos ho]
          exact ⟨rfl, rfl⟩
    rw [h1] at hs ⊢
    exact ⟨h2.1, h2.2, hs.trans h2.2⟩

/-- Witness for C29: a first poll of a `MappedPoti` with 4 levels and stretch 1
at raw 231: the smoothed previous value is the stabilized value. -/
theorem smoothed_previous_value_witness :
    ∀ res, ((MappedPoti.new 7 0 0 0 4 1).hasChanged Platform.avr 1 231) = some res →
      res.2._prevValueInternal
        = ((MappedPoti.new 7 0 0 0 4 1).toStablePoti.getStabilizedRawValue Platform.avr 1 231).1 :=
  (smoothed_previous_value Platform.avr (StablePoti.new 7 0 0 0) (MappedPoti.new 7 0 0 0 4 1)
    (CenteredPoti.new Platform.avr 7 0 0 0 3 0 10 0) 1 231).2.1 (by decide)

theorem StablePoti.weighting_lastRead (pf : Platform) (s : StablePoti) (v : Int) :
    (StablePoti.weighting pf s v).2._lastReadMillis = s._lastReadMillis :=
  congrArg Poti._lastReadMillis (StablePoti.weighting_frame pf s v).1

/-- The sample is read: after the gate `getStabilizedRawValue` records the read time. -/
theorem StablePoti.stabilize_lastRead (pf : Platform) (p : StablePoti) (current : Nat)
    (raw : Int) : (StablePoti.stabilize pf p current raw).2._lastReadMillis = current := by
  unfold StablePoti.stabilize
  split_ifs
  · exact StablePoti.weighting_lastRead pf _ _
  · rfl
  · rfl
  · exact StablePoti.weighting_lastRead pf _ _
  · exact StablePoti.weighting_lastRead pf _ _

/-- C30. Gate of `getStabilizedRawValue`.  While an averaging sequence is in
progress (`_openNumRawAvg > 0`) a poll is gated out, that is, it returns
`POTI_VALUE_UNDEFINED` whatever the sample source holds and leaves the object
as it is, exactly when less than 1 ms has elapsed since the last read, whatever
`_readCycleMillis` is; otherwise the sample is read and the read time recorded.
While no sequence is in progress it is gated out exactly when
`_readCycleMillis > 0`, the last read time is above 0 and less than
`_readCycleMillis` has elapsed. -/
theorem StablePoti.gate_during_averaging (pf : Platform) (p : StablePoti) (current : Nat) :
    (0 < p._openNumRawAvg → elapsedMillis current p._lastReadMillis < 1 →
      ∀ raw, p.getStabilizedRawValue pf current raw = (POTI_VALUE_UNDEFINED, p))
    ∧ (0 < p._openNumRawAvg → ¬ elapsedMillis current p._lastReadMillis < 1 →
      ∀ raw, p.getStabilizedRawValue pf current raw = StablePoti.stabilize pf p current raw
        ∧ (p.getStabilizedRawValue pf current raw).2._lastReadMillis = current)
    ∧ (p._openNumRawAvg = 0 →
        (0 < p._readCycleMillis ∧ 0 < p._lastReadMillis
          ∧ elapsedMillis current p._lastReadMillis < p._readCycleMillis) →
      ∀ raw, p.getStabilizedRawValue pf current raw = (POTI_VALUE_UNDEFINED, p))
    ∧ (p._openNumRawAvg = 0 →
        ¬ (0 < p._readCycleMillis ∧ 0 < p._lastReadMillis
          ∧ elapsedMillis current p._lastReadMillis < p._readCycleMillis) →
      ∀ raw, p.getStabilizedRawValue pf current raw = StablePoti.stabilize pf p current raw
        ∧ (p.getStabilizedRawValue pf current raw).2._lastReadMillis = current)
    ∧ (p.gatedOut current = true ↔
        ((0 < p._openNumRawAvg ∧ elapsedMillis current p._lastReadMillis < 1)
          ∨ (p._openNumRawAvg = 0 ∧ 0 < p._readCycleMillis ∧ 0 < p._lastReadMillis
              ∧ elapsedMillis current p._lastReadMillis < p._readCycleMillis))) := by
  have hiff : p.gatedOut current = true ↔
        ((0 < p._openNumRawAvg ∧ elapsedMillis current p._lastReadMillis < 1)
          ∨ (p._openNumRawAvg = 0 ∧ 0 < p._readCycleMillis ∧ 0 < p._lastReadMillis
              ∧ elapsedMillis current p._lastReadMillis < p._readCycleMillis)) := by
    unfold StablePoti.gatedOut Poti.gatedOut
    by_cases h0 : p._openNumRawAvg = 0
    · simp [h0, and_assoc]
    · have : 0 < p._openNumRawAvg := by omega
      simp [h0, this]
  have hacc : ∀ raw, p.gatedOut current = false →
      p.getStabilizedRawValue pf current raw = StablePoti.stabilize pf p current raw
        ∧ (p.getStabilizedRawValue pf current raw).2._lastReadMillis = current := by
    intro raw hg
    have h1 := StablePoti.getStabilizedRawValue_of_accepted pf p current raw hg
    rw [h1]
    exact ⟨rfl, StablePoti.stabilize_lastRead pf p current raw⟩
  have hno : ∀ h : ¬ p.gatedOut current = true, p.gatedOut current = false := fun h => by
    simpa using h
  refine ⟨fun h1 h2 raw => ?_, fun h1 h2 raw => ?_, fun h1 h2 raw => ?_, fun h1 h2 raw => ?_,
    hiff⟩
  · exact StablePoti.getStabilizedRawValue_of_gatedOut pf p current raw
      (hiff.2 (Or.inl ⟨h1, h2⟩))
  · apply hacc raw
    apply hno
    intro hg
    rcases hiff.1 hg with ⟨-, h⟩ | ⟨h, -⟩
    · exact h2 h
    · omega
  · exact StablePoti.getStabilizedRawValue_of_gatedOut pf p current raw
      (hiff.2 (Or.inr ⟨h1, h2⟩))
  · apply hacc raw
    apply hno
    intro hg
    rcases hiff.1 hg with ⟨h, -⟩ | ⟨-, h⟩
    · omega
    · exact h2 h

/-- Witness for C30: with two extra samples and a read cycle of 100 ms, one
sample of the sequence read at 1000 ms: a poll in the same millisecond is gated
out, a poll one millisecond later reads the next sample. -/
theorem StablePoti.gate_during_averaging_witness :
    (∀ raw, StablePoti.getStabilizedRawValue Platform.avr
        ⟨⟨7, 100, 1000, 500, 32767⟩, 2, 2, 500, 0, 500⟩ 1000 raw
      = (POTI_VALUE_UNDEFINED, ⟨⟨7, 100, 1000, 500, 32767⟩, 2, 2, 500, 0, 500⟩))
    ∧ (∀ raw, StablePoti.getStabilizedRawValue Platform.avr
          ⟨⟨7, 100, 1000, 500, 32767⟩, 2, 2, 500, 0, 500⟩ 1001 raw
        = StablePoti.stabilize Platform.avr ⟨⟨7, 100, 1000, 500, 32767⟩, 2, 2, 500, 0, 500⟩
            1001 raw
      ∧ (StablePoti.getStabilizedRawValue Platform.avr
          ⟨⟨7, 100, 1000, 500, 32767⟩, 2, 2, 500, 0, 500⟩ 1001 raw).2._lastReadMillis = 1001) :=
  ⟨(StablePoti.gate_during_averaging Platform.avr ⟨⟨7, 100, 1000, 500, 32767⟩, 2, 2, 500, 0, 500⟩
      1000).1 (by decide) (by decide),
   (StablePoti.gate_during_averaging Platform.avr ⟨⟨7, 100, 1000, 500, 32767⟩, 2, 2, 500, 0, 500⟩
      1001).2.1 (by decide) (by decide)⟩

/-! ## Weighting does not reach the sample -/

/-- The first sample after construction or reset, without averaging and read
cycle, is returned as it is. -/
theorem StablePoti.first_sample (pf : Platform) (s : StablePoti) (current : Nat) (v : Int)
    (hr : s._readCycleMillis = 0) (ha : s._addNumRawAvg = 0) (ho : s._openNumRawAvg = 0)
    (hp : s._prevValueInternal = POTI_VALUE_UNDEFINED) :
    s.getStabilizedRawValue pf current v
      = (v, { s with _lastReadMillis := current, _prevValueInternal := v }) := by
  simp [StablePoti.getStabilizedRawValue, StablePoti.gatedOut, Poti.gatedOut,
    StablePoti.stabilize, StablePoti.weighting, hr, ha, ho, hp]

/-- One weighting step without averaging and read cycle, from the smoothed
previous value `pv` with a sample `n` for which the weighted value is `pv` again. -/
theorem StablePoti.stuck_step (pf : Platform) (s : StablePoti) (current : Nat) (n pv : Int)
    (hr : s._readCycleMillis = 0) (ha : s._addNumRawAvg = 0) (ho : s._openNumRawAvg = 0)
    (hw : 0 < s._weightPrev) (hp : s._prevValueInternal = pv) (hu : pv ≠ POTI_VALUE_UNDEFINED)
    (hfix : Int.tdiv (pf.wrap (n * 4 + pv * s._weightPrev
        + Int.tdiv (pf.wrap (s._weightPrev + 4)) 2)) (pf.wrap (s._weightPrev + 4)) = pv) :
    s.getStabilizedRawValue pf current n
      = (pv, { s with _lastReadMillis := current, _prevValueInternal := pv }) := by
  have hg : s.gatedOut current = false := by
    simp [StablePoti.gatedOut, Poti.gatedOut, hr, ho]
  rw [StablePoti.getStabilizedRawValue_of_accepted pf s current n hg]
  unfold StablePoti.stabilize
  rw [if_neg (by omega)]
  unfold StablePoti.weighting
  rw [if_pos ⟨hw, by rw [hp]; exact hu⟩]
  simp only [hp, hfix]

/-- With a constant sample for which the weighted value is the smoothed previous
value again, every poll returns that value and `getValue()` keeps it. -/
theorem StablePoti.stuck_run (pf : Platform) (n pv : Int) (w : Nat) (hw : 0 < w)
    (hu : pv ≠ POTI_VALUE_UNDEFINED)
    (hfix : Int.tdiv (pf.wrap (n * 4 + pv * w + Int.tdiv (pf.wrap (w + 4)) 2))
      (pf.wrap (w + 4)) = pv) :
    ∀ (ts : List Nat) (s : StablePoti), s._readCycleMillis = 0 → s._addNumRawAvg = 0 →
      s._openNumRawAvg = 0 → s._weightPrev = w → s._prevValueInternal = pv →
      StablePoti.stabilized pf s (ts.map fun t => ⟨t, n⟩) = List.replicate ts.length pv
      ∧ (s._curValue = pv → (StablePoti.run pf s (ts.map fun t => ⟨t, n⟩)).getValue = pv) := by
  intro ts
  induction ts with
  | nil =>
    intro s _ _ _ _ _
    exact ⟨rfl, fun hc => hc⟩
  | cons t ts ih =>
    intro s hr ha ho hsw hp
    have hst := StablePoti.stuck_step pf s t n pv hr ha ho (by omega) hp hu (by rw [hsw]; exact hfix)
    obtain ⟨i1, i2⟩ := ih { s with _lastReadMillis := t, _prevValueInternal := pv } hr ha ho hsw
      rfl
    constructor
    · simp only [List.map_cons, StablePoti.stabilized, hst, List.length_cons,
        List.replicate_succ]
      rw [i1]
    · intro hc
      have hch : s.hasChanged pf t n
          = (false, { s with _lastReadMillis := t, _prevValueInternal := pv }) := by
        unfold StablePoti.hasChanged
        rw [hst]
        simp only
        rw [if_neg hu, if_neg (by simp [hc])]
      simp only [List.map_cons, StablePoti.run, hch]
      exact i2 hc

/-- A first sample `v` and then a constant sample `n` for which the weighted value
of `v` and `n` is `v` again. -/
theorem StablePoti.stuck_from_start (pf : Platform) (n v : Int) (w : Nat) (hw : 0 < w)
    (hw2 : w ≤ 12) (hu : v ≠ POTI_VALUE_UNDEFINED)
    (hfix : Int.tdiv (pf.wrap (n * 4 + v * w + Int.tdiv (pf.wrap (w + 4)) 2))
      (pf.wrap (w + 4)) = v) (t0 : Nat) (ts : List Nat) :
    StablePoti.stabilized pf (StablePoti.new 7 0 w 0) (⟨t0, v⟩ :: ts.map fun t => ⟨t, n⟩)
        = List.replicate (ts.length + 1) v
    ∧ (StablePoti.run pf (StablePoti.new 7 0 w 0)
        (⟨t0, v⟩ :: ts.map fun t => ⟨t, n⟩)).getValue = v := by
  have hwn : (StablePoti.new 7 0 w 0)._weightPrev = w := by
    simp only [StablePoti.new]
    rw [if_neg (by omega)]
  have h1 := StablePoti.first_sample pf (StablePoti.new 7 0 w 0) t0 v rfl rfl rfl rfl
  have h2 : (StablePoti.new 7 0 w 0).hasChanged pf t0 v
      = (true, { (StablePoti.new 7 0 w 0) with
                  _lastReadMillis := t0
                  _prevValueInternal := v
                  _prevValue := POTI_VALUE_UNDEFINED
                  _curValue := v }) := by
    unfold StablePoti.hasChanged
    rw [h1]
    simp only
    rw [if_neg hu, if_pos (by
      show v ≠ POTI_VALUE_UNDEFINED
      exact hu)]
    rfl
  constructor
  · simp only [StablePoti.stabilized, h1, List.replicate_succ]
    rw [(StablePoti.stuck_run pf n v w hw hu hfix ts
      { StablePoti.new 7 0 w 0 with _lastReadMillis := t0, _prevValueInternal := v }
      rfl rfl rfl hwn rfl).1]
  · simp only [StablePoti.run, h2]
    exact (StablePoti.stuck_run pf n v w hw hu hfix ts
      { (StablePoti.new 7 0 w 0) with
        _lastReadMillis := t0
        _prevValueInternal := v
        _prevValue := POTI_VALUE_UNDEFINED
        _curValue := v } rfl rfl rfl hwn rfl).2 rfl

/-- C28 fails for the weights 4 to 12: the weighted value stops one or two
steps off a constant sample.  With weight 4, after a first sample 101 the
constant sample 100 gives `(4 * 100 + 4 * 101 + 4) / 8 = 101` in every poll, so
the stabilized value and `getValue()` stay 101 for any number of polls; with
weight 12 and a first sample 102 they stay 102.  On both platform models. -/
theorem StablePoti.weighting_stuck (t0 : Nat) (ts : List Nat) :
    (StablePoti.stabilized Platform.avr (StablePoti.new 7 0 4 0)
        (⟨t0, 101⟩ :: ts.map fun t => ⟨t, 100⟩) = List.replicate (ts.length + 1) 101
      ∧ (StablePoti.run Platform.avr (StablePoti.new 7 0 4 0)
          (⟨t0, 101⟩ :: ts.map fun t => ⟨t, 100⟩)).getValue = 101)
    ∧ (StablePoti.stabilized Platform.arm32 (StablePoti.new 7 0 4 0)
        (⟨t0, 101⟩ :: ts.map fun t => ⟨t, 100⟩) = List.replicate (ts.length + 1) 101
      ∧ (StablePoti.run Platform.arm32 (StablePoti.new 7 0 4 0)
          (⟨t0, 101⟩ :: ts.map fun t => ⟨t, 100⟩)).getValue = 101)
    ∧ (StablePoti.stabilized Platform.avr (StablePoti.new 7 0 12 0)
        (⟨t0, 102⟩ :: ts.map fun t => ⟨t, 100⟩) = List.replicate (ts.length + 1) 102
      ∧ (StablePoti.run Platform.avr (StablePoti.new 7 0 12 0)
          (⟨t0, 102⟩ :: ts.map fun t => ⟨t, 100⟩)).getValue = 102)
    ∧ (StablePoti.stabilized Platform.arm32 (StablePoti.new 7 0 12 0)
        (⟨t0, 102⟩ :: ts.map fun t => ⟨t, 100⟩) = List.replicate (ts.length + 1) 102
      ∧ (StablePoti.run Platform.arm32 (StablePoti.new 7 0 12 0)
          (⟨t0, 102⟩ :: ts.map fun t => ⟨t, 100⟩)).getValue = 102) :=
  ⟨StablePoti.stuck_from_start _ 100 101 4 (by decide) (by decide) (by decide) (by decide) t0 ts,
    StablePoti.stuck_from_start _ 100 101 4 (by decide) (by decide) (by decide) (by decide) t0 ts,
    StablePoti.stuck_from_start _ 100 102 12 (by decide) (by decide) (by decide) (by decide) t0 ts,
    StablePoti.stuck_from_start _ 100 102 12 (by decide) (by decide) (by decide) (by decide) t0 ts⟩

/-- The levels of 4 levels on 1023 next to the outer level boundaries for
stretch 1 and stretch 20, on both platform models. -/
theorem MappedPoti.four_level_points :
    ∀ pf' ∈ [Platform.avr, Platform.arm32],
      MappedPoti.getMapping pf' (MappedPoti.new 7 0 0 0 4 1) 231 0 0 = some 0
      ∧ MappedPoti.getMapping pf' (MappedPoti.new 7 0 0 0 4 1) 232 0 0 = some 1
      ∧ MappedPoti.getMapping pf' (MappedPoti.new 7 0 0 0 4 1) 791 0 0 = some 2
      ∧ MappedPoti.getMapping pf' (MappedPoti.new 7 0 0 0 4 1) 792 0 0 = some 3
      ∧ MappedPoti.getMapping pf' (MappedPoti.new 7 0 0 0 4 20) 51 0 0 = some 0
      ∧ MappedPoti.getMapping pf' (MappedPoti.new 7 0 0 0 4 20) 52 0 0 = some 1
      ∧ MappedPoti.getMapping pf' (MappedPoti.new 7 0 0 0 4 20) 971 0 0 = some 2
      ∧ MappedPoti.getMapping pf' (MappedPoti.new 7 0 0 0 4 20) 972 0 0 = some 3 := by
  decide!

/-! ## Mirror symmetry of the mapping -/

/-- C26 as stated fails for an uneven number of levels: the implicit center
`[491, 531]` of 25 levels on 1023 is not its own mirror image `[492, 532]`, raw
491 has the middle level 12 and its mirror image 532 has level 13, not
`24 - 12`.  It also fails where `_maxAnalogVal + 1` is not an `int`: with 16 bit
`int`, the largest analog value 32767 and 2 levels, raw 0 and raw 32767 both
have level 1. -/
theorem MappedPoti.halves_not_mirrored :
    MappedPoti.getMapping Platform.avr (MappedPoti.new 7 0 0 0 25 0) 491 0 0 = some 12
    ∧ MappedPoti.getMapping Platform.avr (MappedPoti.new 7 0 0 0 25 0) (1023 - 491) 0 0 = some 13
    ∧ MappedPoti.getMapping Platform.arm32 (MappedPoti.new 7 0 0 0 25 0) 491 0 0 = some 12
    ∧ MappedPoti.getMapping Platform.arm32 (MappedPoti.new 7 0 0 0 25 0) (1023 - 491) 0 0
      = some 13
    ∧ MappedPoti.getMapping Platform.avr
        ((MappedPoti.new 7 0 0 0 2 0).setMaxAnalogValue Platform.avr 32767).2 0 0 0 = some 1
    ∧ MappedPoti.getMapping Platform.avr
        ((MappedPoti.new 7 0 0 0 2 0).setMaxAnalogValue Platform.avr 32767).2 (32767 - 0) 0 0
      = some 1 := by
  decide!

/-- C26, amended.  On every platform with at least 16 bit `int` and 24 bit
significands, for every `MappedPoti` with an even number of levels from 2 to
100, stretch 0 to 20 and an uneven largest analog value `m` with
`1 ≤ m < 32767`: every raw value `r` in `0..m` has a level, and the level of
`m - r` is `numMapping - 1` minus the level of `r`.  With 4 levels on 1023 the
levels change at 232 and 792 = 1024 - 232 for stretch 1 and at 52 and
972 = 1024 - 52 for stretch 20, on both platform models. -/
theorem MappedPoti.symmetric_halves (pf : Platform) (hb : 16 ≤ pf.intBits)
    (hf : 24 ≤ pf.floatPrec) (hd : 24 ≤ pf.doublePrec) (p : MappedPoti)
    (hn1 : 2 ≤ p._numMapping) (hn2 : p._numMapping ≤ 100) (heven : p._numMapping % 2 = 0)
    (hst : p._stretch ≤ 20) (hodd : p._maxAnalogVal % 2 = 1) (hm1 : 1 ≤ p._maxAnalogVal)
    (hm2 : p._maxAnalogVal < 32767) (r : Int) (hr0 : 0 ≤ r) (hr1 : r ≤ p._maxAnalogVal) :
    (∃ l l', MappedPoti.getMapping pf p r 0 0 = some l
      ∧ MappedPoti.getMapping pf p (p._maxAnalogVal - r) 0 0 = some l'
      ∧ l < p._numMapping ∧ l' = p._numMapping - 1 - l)
    ∧ (∀ pf' ∈ [Platform.avr, Platform.arm32],
        MappedPoti.getMapping pf' (MappedPoti.new 7 0 0 0 4 1) 231 0 0 = some 0
        ∧ MappedPoti.getMapping pf' (MappedPoti.new 7 0 0 0 4 1) 232 0 0 = some 1
        ∧ MappedPoti.getMapping pf' (MappedPoti.new 7 0 0 0 4 1) 791 0 0 = some 2
        ∧ MappedPoti.getMapping pf' (MappedPoti.new 7 0 0 0 4 1) 792 0 0 = some 3
        ∧ MappedPoti.getMapping pf' (MappedPoti.new 7 0 0 0 4 20) 51 0 0 = some 0
        ∧ MappedPoti.getMapping pf' (MappedPoti.new 7 0 0 0 4 20) 52 0 0 = some 1
        ∧ MappedPoti.getMapping pf' (MappedPoti.new 7 0 0 0 4 20) 971 0 0 = some 2
        ∧ MappedPoti.getMapping pf' (MappedPoti.new 7 0 0 0 4 20) 972 0 0 = some 3) := by
  refine ⟨?_, MappedPoti.four_level_points⟩
  obtain ⟨mx, hmx⟩ := Int.eq_ofNat_of_zero_le (show 0 ≤ p._maxAnalogVal by omega)
  have hmxodd : mx % 2 = 1 := by omega
  have hi : p.implicitCenter 0 = false := by
    simp only [MappedPoti.implicitCenter, lt_self_iff_false, decide_False, Bool.not_false,
      Bool.true_and, decide_eq_false_iff_not]
    omega
  have hce : p.centered 0 = false := by simp [MappedPoti.centered, hi]
  obtain ⟨L, R⟩ := MappedPoti.plain_levels pf hb hf hd p hst hn1 (by omega) 0 0 mx hce hmx
    hmxodd (by omega)
  rw [hmx] at hr1 ⊢
  obtain ⟨x, rfl⟩ := Int.eq_ofNat_of_zero_le hr0
  by_cases hx : x < (mx + 1) / 2
  · obtain ⟨a1, a2⟩ := L x hx
    obtain ⟨b1, -⟩ := R x hx
    exact ⟨_, _, a1, b1, by omega, rfl⟩
  · obtain ⟨y, hy⟩ : ∃ y : Nat, y + x = mx := ⟨mx - x, by omega⟩
    have hy2 : y < (mx + 1) / 2 := by omega
    obtain ⟨a1, a2⟩ := L y hy2
    obtain ⟨b1, -⟩ := R y hy2
    have e1 : ((x : Nat) : Int) = (mx : Int) - (y : Int) := by omega
    have e2 : (mx : Int) - ((x : Nat) : Int) = (y : Int) := by omega
    rw [e2]
    rw [e1]
    exact ⟨_, _, b1, a1, by omega, by omega⟩

/-- Witness for C26: 20 levels with stretch 5 on the largest analog value 4095, raw 1000. -/
theorem MappedPoti.symmetric_halves_witness :
    ∃ l l', MappedPoti.getMapping Platform.avr
        ((MappedPoti.new 7 0 0 0 20 5).setMaxAnalogValue Platform.avr 4095).2 1000 0 0 = some l
      ∧ MappedPoti.getMapping Platform.avr
          ((MappedPoti.new 7 0 0 0 20 5).setMaxAnalogValue Platform.avr 4095).2
          (((MappedPoti.new 7 0 0 0 20 5).setMaxAnalogValue Platform.avr 4095).2._maxAnalogVal
            - 1000) 0 0 = some l'
      ∧ l < ((MappedPoti.new 7 0 0 0 20 5).setMaxAnalogValue Platform.avr 4095).2._numMapping
      ∧ l' = ((MappedPoti.new 7 0 0 0 20 5).setMaxAnalogValue Platform.avr 4095).2._numMapping
          - 1 - l :=
  (MappedPoti.symmetric_halves Platform.avr (by decide) (by decide) (by decide)
    ((MappedPoti.new 7 0 0 0 20 5).setMaxAnalogValue Platform.avr 4095).2 (by decide) (by decide)
    (by decide) (by decide) (by decide) (by decide) (by decide) 1000 (by decide) (by decide)).1

/-! ## Values and levels change together -/

/-- A call of `MappedPoti::hasChanged` leaves the value and level pairs as they
are, or moves the current pair to the previous pair and sets the current pair
to a value and its level. -/
theorem MappedPoti.hasChanged_pairs (pf : Platform) (p : MappedPoti) (current : Nat) (raw : Int)
    (res : Bool × MappedPoti) (h : p.hasChanged pf current raw = some res) :
    (res.1 = false ∧ res.2.getValue = p.getValue ∧ res.2.getMappedValue = p.getMappedValue
      ∧ res.2.getPrevValue = p.getPrevValue
      ∧ res.2.getMappedPrevValue = p.getMappedPrevValue)
    ∨ (res.1 = true ∧ res.2.getPrevValue = p.getValue
      ∧ res.2.getMappedPrevValue = p.getMappedValue
      ∧ MappedPoti.getMapping pf p res.2.getValue 0 0 = some res.2.getMappedValue) := by
  have hf := StablePoti.getStabilizedRawValue_frame pf p.toStablePoti current raw
  by_cases hno : (p.toStablePoti.getStabilizedRawValue pf current raw).1 = POTI_VALUE_UNDEFINED
      ∨ (p.toStablePoti.getStabilizedRawValue pf current raw).1 = p._prevValueInternal
  · rw [MappedPoti.hasChanged_of_no_sample pf p current raw hno] at h
    obtain rfl := (Option.some.inj h).symm
    exact Or.inl ⟨rfl, hf.1, rfl, hf.2.1, rfl⟩
  · push_neg at hno
    obtain ⟨hd, hne⟩ := hno
    rcases hm : MappedPoti.getMapping pf p
        (p.toStablePoti.getStabilizedRawValue pf current raw).1 0 0 with _ | lvl
    · exfalso
      unfold MappedPoti.hasChanged at h
      rw [if_neg hd, if_neg hne, hm] at h
      simp at h
    · rw [MappedPoti.hasChanged_of_mapping pf p current raw lvl hd hne hm] at h
      obtain rfl := (Option.some.inj h).symm
      by_cases hl : lvl = p._curMapValue
      · rw [if_neg (by simpa using hl)]
        exact Or.inl ⟨rfl, hf.1, rfl, hf.2.1, rfl⟩
      · rw [if_pos hl]
        exact Or.inr ⟨rfl, rfl, rfl, hm⟩

/-- The same for `CenteredPoti::hasChanged`, with the center of the object. -/
theorem CenteredPoti.centered_hasChanged_pairs (pf : Platform) (p : CenteredPoti) (current : Nat)
    (raw : Int) (res : Bool × CenteredPoti) (h : p.hasChanged pf current raw = some res) :
    (res.1 = false ∧ res.2.getValue = p.getValue ∧ res.2.getMappedValue = p.getMappedValue
      ∧ res.2.getPrevValue = p.getPrevValue
      ∧ res.2.getMappedPrevValue = p.getMappedPrevValue)
    ∨ (res.1 = true ∧ res.2.getPrevValue = p.getValue
      ∧ res.2.getMappedPrevValue = p.getMappedValue
      ∧ MappedPoti.getMapping pf p.toMappedPoti res.2.getValue p._centerValLow p._centerValHigh
          = some res.2.getMappedValue) := by
  have hf := StablePoti.getStabilizedRawValue_frame pf p.toStablePoti current raw
  unfold CenteredPoti.hasChanged at h
  split_ifs at h with h1 h2
  · obtain rfl := (Option.some.inj h).symm
    exact Or.inl ⟨rfl, hf.1, rfl, hf.2.1, rfl⟩
  · obtain rfl := (Option.some.inj h).symm
    exact Or.inl ⟨rfl, hf.1, rfl, hf.2.1, rfl⟩
  · simp only [Option.map_eq_some'] at h
    obtain ⟨lvl, hm, hl⟩ := h
    split_ifs at hl with h3
    · obtain rfl := hl.symm
      exact Or.inr ⟨rfl, rfl, rfl, hm⟩
    · obtain rfl := hl.symm
      exact Or.inl ⟨rfl, hf.1, rfl, hf.2.1, rfl⟩

theorem MappedPoti.getMapping_of_config (pf : Platform) (p p' : MappedPoti)
    (h : p'.config = p.config) (raw lo hi : Int) :
    MappedPoti.getMapping pf p' raw lo hi = MappedPoti.getMapping pf p raw lo hi := by
  simp only [MappedPoti.config, Prod.mk.injEq] at h
  exact MappedPoti.getMapping_congr pf p' p h.2.1 h.2.2.1 h.2.2.2 raw lo hi

/-- The value and level pairs of a `MappedPoti` stay paired in a call of `hasChanged`. -/
theorem MappedPoti.hasChanged_paired (pf : Platform) (p : MappedPoti) (current : Nat) (raw : Int)
    (res : Bool × MappedPoti) (h : p.hasChanged pf current raw = some res)
    (h1 : MappedPoti.Paired pf p 0 0 p.getValue p.getMappedValue)
    (h2 : MappedPoti.Paired pf p 0 0 p.getPrevValue p.getMappedPrevValue) :
    MappedPoti.Paired pf res.2 0 0 res.2.getValue res.2.getMappedValue
    ∧ MappedPoti.Paired pf res.2 0 0 res.2.getPrevValue res.2.getMappedPrevValue := by
  have hc := MappedPoti.mapped_hasChanged_config pf p current raw res h
  have hg := MappedPoti.getMapping_of_config pf p res.2 hc
  unfold MappedPoti.Paired at h1 h2 ⊢
  simp only [hg]
  rcases MappedPoti.hasChanged_pairs pf p current raw res h with
    ⟨-, a1, a2, a3, a4⟩ | ⟨-, a1, a2, a3⟩
  · rw [a1, a2, a3, a4]
    exact ⟨h1, h2⟩
  · rw [a1, a2]
    exact ⟨Or.inr a3, h1⟩

/-- The value and level pairs of a `CenteredPoti` stay paired in a call of `hasChanged`. -/
theorem CenteredPoti.centered_hasChanged_paired (pf : Platform) (p : CenteredPoti) (current : Nat)
    (raw : Int) (res : Bool × CenteredPoti) (h : p.hasChanged pf current raw = some res)
    (h1 : MappedPoti.Paired pf p.toMappedPoti p._centerValLow p._centerValHigh p.getValue
      p.getMappedValue)
    (h2 : MappedPoti.Paired pf p.toMappedPoti p._centerValLow p._centerValHigh p.getPrevValue
      p.getMappedPrevValue) :
    MappedPoti.Paired pf res.2.toMappedPoti res.2._centerValLow res.2._centerValHigh
        res.2.getValue res.2.getMappedValue
    ∧ MappedPoti.Paired pf res.2.toMappedPoti res.2._centerValLow res.2._centerValHigh
        res.2.getPrevValue res.2.getMappedPrevValue := by
  have hc := CenteredPoti.centered_hasChanged_config pf p current raw res h
  simp only [CenteredPoti.config, Prod.mk.injEq] at hc
  have hg := MappedPoti.getMapping_of_config pf p.toMappedPoti res.2.toMappedPoti hc.1
  unfold MappedPoti.Paired at h1 h2 ⊢
  simp only [hg, hc.2.1, hc.2.2]
  rcases CenteredPoti.centered_hasChanged_pairs pf p current raw res h with
    ⟨-, a1, a2, a3, a4⟩ | ⟨-, a1, a2, a3⟩
  · rw [a1, a2, a3, a4]
    exact ⟨h1, h2⟩
  · rw [a1, a2]
    exact ⟨Or.inr a3, h1⟩

/-- After every sequence of polls and resets from paired value and level pairs
the configuration of a `MappedPoti` is unchanged and the pairs are paired. -/
theorem MappedPoti.exec_paired (pf : Platform) : ∀ (cs : List PotiCall) (p p' : MappedPoti),
    MappedPoti.Paired pf p 0 0 p.getValue p.getMappedValue →
    MappedPoti.Paired pf p 0 0 p.getPrevValue p.getMappedPrevValue →
    MappedPoti.exec pf p cs = some p' →
    p'.config = p.config
      ∧ MappedPoti.Paired pf p' 0 0 p'.getValue p'.getMappedValue
      ∧ MappedPoti.Paired pf p' 0 0 p'.getPrevValue p'.getMappedPrevValue := by
  intro cs
  induction cs with
  | nil =>
    intro p p' h1 h2 h
    simp only [MappedPoti.exec, Option.some.injEq] at h
    subst h
    exact ⟨rfl, h1, h2⟩
  | cons c cs ih =>
    intro p p' h1 h2 h
    cases c with
    | poll q =>
      simp only [MappedPoti.exec, Option.bind_eq_some] at h
      obtain ⟨res, hres, hrest⟩ := h
      obtain ⟨g1, g2⟩ := MappedPoti.hasChanged_paired pf p q.current q.raw res hres h1 h2
      obtain ⟨i1, i2, i3⟩ := ih res.2 p' g1 g2 hrest
      exact ⟨i1.trans (MappedPoti.mapped_hasChanged_config pf p q.current q.raw res hres), i2, i3⟩
    | reset =>
      simp only [MappedPoti.exec] at h
      obtain ⟨i1, i2, i3⟩ := ih p.reset p' (Or.inl ⟨rfl, rfl⟩) (Or.inl ⟨rfl, rfl⟩) h
      exact ⟨i1, i2, i3⟩

/-- The same for `CenteredPoti`, with the center of the object. -/
theorem CenteredPoti.centered_exec_paired (pf : Platform) : ∀ (cs : List PotiCall) (p p' : CenteredPoti),
    MappedPoti.Paired pf p.toMappedPoti p._centerValLow p._centerValHigh p.getValue
      p.getMappedValue →
    MappedPoti.Paired pf p.toMappedPoti p._centerValLow p._centerValHigh p.getPrevValue
      p.getMappedPrevValue →
    CenteredPoti.exec pf p cs = some p' →
    p'.config = p.config
      ∧ MappedPoti.Paired pf p'.toMappedPoti p'._centerValLow p'._centerValHigh p'.getValue
          p'.getMappedValue
      ∧ MappedPoti.Paired pf p'.toMappedPoti p'._centerValLow p'._centerValHigh p'.getPrevValue
          p'.getMappedPrevValue := by
  intro cs
  induction cs with
  | nil =>
    intro p p' h1 h2 h
    simp only [CenteredPoti.exec, Option.some.injEq] at h
    subst h
    exact ⟨rfl, h1, h2⟩
  | cons c cs ih =>
    intro p p' h1 h2 h
    cases c with
    | poll q =>
      simp only [CenteredPoti.exec, Option.bind_eq_some] at h
      obtain ⟨res, hres, hrest⟩ := h
      obtain ⟨g1, g2⟩ := CenteredPoti.centered_hasChanged_paired pf p q.current q.raw res hres h1 h2
      obtain ⟨i1, i2, i3⟩ := ih res.2 p' g1 g2 hrest
      exact ⟨i1.trans (CenteredPoti.centered_hasChanged_config pf p q.current q.raw res hres),
        i2, i3⟩
    | reset =>
      simp only [CenteredPoti.exec] at h
      obtain ⟨i1, i2, i3⟩ := ih p.reset p' (Or.inl ⟨rfl, rfl⟩) (Or.inl ⟨rfl, rfl⟩) h
      exact ⟨i1, i2, i3⟩

/-- C22. Value and level pairs stay consistent: from a constructed `MappedPoti`
or `CenteredPoti`, after every sequence of `hasChanged()` and `reset()` calls
with a defined result the configuration is the one at the start, and the
current value and the current level are both undefined or the current level is
`getMapping` of the current value with the center arguments of the instance
(`0, 0` in `MappedPoti`, the stored band in `CenteredPoti`); the same holds
for the previous value and the previous level. The two are never updated
separately: a call of `hasChanged()` that returns `false` leaves all four as
they are, a call that returns `true` moves the current value and level to the
previous value and level and stores a value with its level, and `reset()` sets
all four to undefined. -/
theorem value_level_pairs_consistent (pf : Platform) (m : MappedPoti) (c : CenteredPoti)
    (hm : m.Fresh) (hc : c.Fresh) (cs : List PotiCall) :
    (∀ m' : MappedPoti, MappedPoti.exec pf m cs = some m' →
        m'.config = m.config
        ∧ MappedPoti.Paired pf m' 0 0 m'.getValue m'.getMappedValue
        ∧ MappedPoti.Paired pf m' 0 0 m'.getPrevValue m'.getMappedPrevValue)
    ∧ (∀ c' : CenteredPoti, CenteredPoti.exec pf c cs = some c' →
        c'.config = c.config
        ∧ MappedPoti.Paired pf c'.toMappedPoti c'._centerValLow c'._centerValHigh c'.getValue
            c'.getMappedValue
        ∧ MappedPoti.Paired pf c'.toMappedPoti c'._centerValLow c'._centerValHigh
            c'.getPrevValue c'.getMappedPrevValue)
    ∧ (∀ (p : MappedPoti) (q : Poll) (res : Bool × MappedPoti),
        p.hasChanged pf q.current q.raw = some res →
        (res.1 = false ∧ res.2.getValue = p.getValue ∧ res.2.getMappedValue = p.getMappedValue
          ∧ res.2.getPrevValue = p.getPrevValue
          ∧ res.2.getMappedPrevValue = p.getMappedPrevValue)
        ∨ (res.1 = true ∧ res.2.getPrevValue = p.getValue
          ∧ res.2.getMappedPrevValue = p.getMappedValue
          ∧ MappedPoti.getMapping pf p res.2.getValue 0 0 = some res.2.getMappedValue))
    ∧ (∀ (p : CenteredPoti) (q : Poll) (res : Bool × CenteredPoti),
        p.hasChanged pf q.current q.raw = some res →
        (res.1 = false ∧ res.2.getValue = p.getValue ∧ res.2.getMappedValue = p.getMappedValue
          ∧ res.2.getPrevValue = p.getPrevValue
          ∧ res.2.getMappedPrevValue = p.getMappedPrevValue)
        ∨ (res.1 = true ∧ res.2.getPrevValue = p.getValue
          ∧ res.2.getMappedPrevValue = p.getMappedValue
          ∧ MappedPoti.getMapping pf p.toMappedPoti res.2.getValue p._centerValLow
              p._centerValHigh = some res.2.getMappedValue))
    ∧ (∀ p : MappedPoti, p.reset.getValue = POTI_VALUE_UNDEFINED
        ∧ p.reset.getMappedValue = POTI_MAPPING_UNDEFINED
        ∧ p.reset.getPrevValue = POTI_VALUE_UNDEFINED
        ∧ p.reset.getMappedPrevValue = POTI_MAPPING_UNDEFINED)
    ∧ (∀ p : CenteredPoti, p.reset.getValue = POTI_VALUE_UNDEFINED
        ∧ p.reset.getMappedValue = POTI_MAPPING_UNDEFINED
        ∧ p.reset.getPrevValue = POTI_VALUE_UNDEFINED
        ∧ p.reset.getMappedPrevValue = POTI_MAPPING_UNDEFINED) := by
  refine ⟨fun m' h => ?_, fun c' h => ?_, fun p q res h => ?_, fun p q res h => ?_,
    fun p => ⟨rfl, rfl, rfl, rfl⟩, fun p => ⟨rfl, rfl, rfl, rfl⟩⟩
  · exact MappedPoti.exec_paired pf cs m m' (Or.inl ⟨hm.1.1.2.1, hm.2.1⟩)
      (Or.inl ⟨hm.1.1.2.2, hm.2.2⟩) h
  · exact CenteredPoti.centered_exec_paired pf cs c c' (Or.inl ⟨hc.1.1.2.1, hc.2.1⟩)
      (Or.inl ⟨hc.1.1.2.2, hc.2.2⟩) h
  · exact MappedPoti.hasChanged_pairs pf p q.current q.raw res h
  · exact CenteredPoti.centered_hasChanged_pairs pf p q.current q.raw res h

/-- Witness for C22: four levels and a centered instance with five levels on
an 8-bit AVR, polled at raw 100, reset and polled at raw 900. -/
theorem value_level_pairs_consistent_witness :
    (MappedPoti.new 7 0 0 0 4 0).Fresh
    ∧ (CenteredPoti.new Platform.avr 7 0 0 0 5 0 0 0).Fresh
    ∧ (MappedPoti.exec Platform.avr (MappedPoti.new 7 0 0 0 4 0)
          [PotiCall.poll ⟨0, 100⟩, PotiCall.reset, PotiCall.poll ⟨1, 900⟩]).isSome = true
    ∧ (CenteredPoti.exec Platform.avr (CenteredPoti.new Platform.avr 7 0 0 0 5 0 0 0)
          [PotiCall.poll ⟨0, 100⟩, PotiCall.reset, PotiCall.poll ⟨1, 900⟩]).isSome = true
    ∧ (
    (∀ m' : MappedPoti, MappedPoti.exec Platform.avr (MappedPoti.new 7 0 0 0 4 0) [PotiCall.poll ⟨0, 100⟩, PotiCall.reset, PotiCall.poll ⟨1, 900⟩] = some m' →
        m'.config = (MappedPoti.new 7 0 0 0 4 0).config
        ∧ MappedPoti.Paired Platform.avr m' 0 0 m'.getValue m'.getMappedValue
        ∧ MappedPoti.Paired Platform.avr m' 0 0 m'.getPrevValue m'.getMappedPrevValue)
    ∧ (∀ c' : CenteredPoti, CenteredPoti.exec Platform.avr (CenteredPoti.new Platform.avr 7 0 0 0 5 0 0 0) [PotiCall.poll ⟨0, 100⟩, PotiCall.reset, PotiCall.poll ⟨1, 900⟩] = some c' →
        c'.config = (CenteredPoti.new Platform.avr 7 0 0 0 5 0 0 0).config
        ∧ MappedPoti.Paired Platform.avr c'.toMappedPoti c'._centerValLow c'._centerValHigh c'.getValue
            c'.getMappedValue
        ∧ MappedPoti.Paired Platform.avr c'.toMappedPoti c'._centerValLow c'._centerValHigh
            c'.getPrevValue c'.getMappedPrevValue)
    ∧ (∀ (p : MappedPoti) (q : Poll) (res : Bool × MappedPoti),
        p.hasChanged Platform.avr q.current q.raw = some res →
        (res.1 = false ∧ res.2.getValue = p.getValue ∧ res.2.getMappedValue = p.getMappedValue
          ∧ res.2.getPrevValue = p.getPrevValue
          ∧ res.2.getMappedPrevValue = p.getMappedPrevValue)
        ∨ (res.1 = true ∧ res.2.getPrevValue = p.getValue
          ∧ res.2.getMappedPrevValue = p.getMappedValue
          ∧ MappedPoti.getMapping Platform.avr p res.2.getValue 0 0 = some res.2.getMappedValue))
    ∧ (∀ (p : CenteredPoti) (q : Poll) (res : Bool × CenteredPoti),
        p.hasChanged Platform.avr q.current q.raw = some res →
        (res.1 = false ∧ res.2.getValue = p.getValue ∧ res.2.getMappedValue = p.getMappedValue
          ∧ res.2.getPrevValue = p.getPrevValue
          ∧ res.2.getMappedPrevValue = p.getMappedPrevValue)
        ∨ (res.1 = true ∧ res.2.getPrevValue = p.getValue
          ∧ res.2.getMappedPrevValue = p.getMappedValue
          ∧ MappedPoti.getMapping Platform.avr p.toMappedPoti res.2.getValue p._centerValLow
              p._centerValHigh = some res.2.getMappedValue))
    ∧ (∀ p : MappedPoti, p.reset.getValue = POTI_VALUE_UNDEFINED
        ∧ p.reset.getMappedValue = POTI_MAPPING_UNDEFINED
        ∧ p.reset.getPrevValue = POTI_VALUE_UNDEFINED
        ∧ p.reset.getMappedPrevValue = POTI_MAPPING_UNDEFINED)
    ∧ (∀ p : CenteredPoti, p.reset.getValue = POTI_VALUE_UNDEFINED
        ∧ p.reset.getMappedValue = POTI_MAPPING_UNDEFINED
        ∧ p.reset.getPrevValue = POTI_VALUE_UNDEFINED
        ∧ p.reset.getMappedPrevValue = POTI_MAPPING_UNDEFINED)) :=
  ⟨⟨⟨⟨rfl, rfl, rfl⟩, rfl, rfl, rfl⟩, rfl, rfl⟩, ⟨⟨⟨rfl, rfl, rfl⟩, rfl, rfl, rfl⟩, rfl, rfl⟩,
    by decide!, by decide!,
    value_level_pairs_consistent Platform.avr (MappedPoti.new 7 0 0 0 4 0)
      (CenteredPoti.new Platform.avr 7 0 0 0 5 0 0 0)
      ⟨⟨⟨rfl, rfl, rfl⟩, rfl, rfl, rfl⟩, rfl, rfl⟩ ⟨⟨⟨rfl, rfl, rfl⟩, rfl, rfl, rfl⟩, rfl, rfl⟩
      [PotiCall.poll ⟨0, 100⟩, PotiCall.reset, PotiCall.poll ⟨1, 900⟩]⟩

/-! ## The domain of the levels -/

/-- With `centerValLow ≤ 0` `getMapping` does not read the center arguments. -/
theorem MappedPoti.getMapping_no_center (pf : Platform) (p : MappedPoti) (raw lo hi : Int)
    (h : lo ≤ 0) : MappedPoti.getMapping pf p raw lo hi = MappedPoti.getMapping pf p raw 0 0 := by
  have h1 : decide (lo > 0) = false := by
    rw [decide_eq_false_iff_not]
    omega
  have h0 : decide ((0 : Int) > 0) = false := by decide
  by_cases hpar : p._numMapping % 2 > 0
  · have e1 : p.implicitCenter lo = true := by simp [MappedPoti.implicitCenter, h1, hpar]
    have e2 : p.implicitCenter 0 = true := by simp [MappedPoti.implicitCenter, hpar]
    have e3 : p.centered lo = true := by simp [MappedPoti.centered, e1]
    have e4 : p.centered 0 = true := by simp [MappedPoti.centered, e2]
    simp only [MappedPoti.getMapping, MappedPoti.inCenter, MappedPoti.tmpFloat,
      MappedPoti.valTot, MappedPoti.leftSide, MappedPoti.mapTot, MappedPoti.centerValLow,
      MappedPoti.centerValHigh, e1, e2, e3, e4, if_true]
  · have e1 : p.implicitCenter lo = false := by simp [MappedPoti.implicitCenter, h1, hpar]
    have e2 : p.implicitCenter 0 = false := by simp [MappedPoti.implicitCenter, hpar]
    have e3 : p.centered lo = false := by simp [MappedPoti.centered, e1, h1]
    have e4 : p.centered 0 = false := by simp [MappedPoti.centered, e2]
    simp only [MappedPoti.getMapping, MappedPoti.inCenter, MappedPoti.tmpFloat,
      MappedPoti.valTot, MappedPoti.leftSide, MappedPoti.mapTot, e3, e4, Bool.false_and,
      Bool.not_false, Bool.true_and, Bool.false_or, if_true]

/-- Every raw value in `0..m` has a level, and the level is below the number of levels. -/
theorem MappedPoti.getMapping_defined (pf : Platform) (hb : 16 ≤ pf.intBits)
    (hf : 24 ≤ pf.floatPrec) (hd : 24 ≤ pf.doublePrec) (p : MappedPoti)
    (hn1 : 2 ≤ p._numMapping) (hn2 : p._numMapping ≤ 255) (hst : p._stretch ≤ 20)
    (hodd : p._maxAnalogVal % 2 = 1) (hm1 : 1 ≤ p._maxAnalogVal)
    (hm2 : p._maxAnalogVal < 32767) (lo hi : Int)
    (hcen : lo ≤ 0 ∨ (0 < lo ∧ lo ≤ hi ∧ hi < p._maxAnalogVal ∧ 3 ≤ p._numMapping))
    (r : Int) (h0 : 0 ≤ r) (h1 : r ≤ p._maxAnalogVal) :
    ∃ l, MappedPoti.getMapping pf p r lo hi = some l ∧ l < p._numMapping := by
  rcases hcen with h | h
  · rw [MappedPoti.getMapping_no_center pf p r lo hi h]
    obtain ⟨l, -, e, -, -⟩ := MappedPoti.mapping_monotone_pair pf hb hf hd p hn1 hn2 hst hodd hm1
      hm2 0 0 (Or.inl ⟨rfl, rfl⟩) r r h0 le_rfl h1
    exact ⟨l, e, MappedPoti.getMapping_lt pf p r 0 0 l e (by omega) hn2⟩
  · obtain ⟨l, -, e, -, -⟩ := MappedPoti.mapping_monotone_pair pf hb hf hd p hn1 hn2 hst hodd hm1
      hm2 lo hi (Or.inr h) r r h0 le_rfl h1
    exact ⟨l, e, MappedPoti.getMapping_lt pf p r lo hi l e (by omega) hn2⟩

/-- The state of the stabilizer stays within the analog range in a call of
`getStabilizedRawValue` with a sample in `0..M`, and the value returned is
undefined or in `0..M`. -/
theorem StablePoti.getStabilized_inv (pf : Platform) (hb : 16 ≤ pf.intBits) (M : Int)
    (hM0 : 0 ≤ M) (hM : 16 * M + 8 ≤ pf.intMax) (hM2 : M ≤ 4095) (k : Nat) (hk2 : k ≤ 7)
    (s : StablePoti) (hinv : StablePoti.Inv M k s) (current : Nat) (raw : Int)
    (hr0 : 0 ≤ raw) (hr1 : raw ≤ M) :
    StablePoti.Inv M k (s.getStabilizedRawValue pf current raw).2
    ∧ ((s.getStabilizedRawValue pf current raw).1 = POTI_VALUE_UNDEFINED
      ∨ (0 ≤ (s.getStabilizedRawValue pf current raw).1
        ∧ (s.getStabilizedRawValue pf current raw).1 ≤ M)) := by
  unfold StablePoti.getStabilizedRawValue
  split_ifs with hg
  · exact ⟨hinv, Or.inl rfl⟩
  · by_cases hk : 1 ≤ k
    · obtain ⟨a, -, -, b⟩ := StablePoti.stabilize_cycle pf hb M hM0 hM hM2 k hk hk2 s hinv
        current raw hr0 hr1
      refine ⟨a, ?_⟩
      by_cases hu : (StablePoti.stabilize pf s current raw).1 = POTI_VALUE_UNDEFINED
      · exact Or.inl hu
      · exact Or.inr (b hu)
    · have hk0 : k = 0 := by omega
      subst hk0
      obtain ⟨i1, i2, i3, i4, i5⟩ := hinv
      have hst : StablePoti.stabilize pf s current raw
          = StablePoti.weighting pf { s with _lastReadMillis := current } raw := by
        unfold StablePoti.stabilize
        rw [if_neg (by omega)]
      rw [hst]
      have hbd := StablePoti.weighting_bounds pf hb M hM { s with _lastReadMillis := current }
        raw i2 i4 hr0 hr1
      obtain ⟨-, f2, f3, f4, f5, f6⟩ := StablePoti.weighting_frame pf
        { s with _lastReadMillis := current } raw
      refine ⟨⟨f2.trans i1, by rw [f5]; exact i2, by rw [f3]; exact i3,
        Or.inr (by rw [f6]; exact hbd), ?_⟩, Or.inr hbd⟩
      rw [f4, f3]
      exact i5

/-- A call of `MappedPoti::hasChanged` with a sample in the analog range has a
defined result and keeps the state of the stabilizer within the range. -/
theorem MappedPoti.hasChanged_defined (pf : Platform) (hb : 16 ≤ pf.intBits)
    (hf : 24 ≤ pf.floatPrec) (hd : 24 ≤ pf.doublePrec) (p : MappedPoti)
    (hn1 : 2 ≤ p._numMapping) (hn2 : p._numMapping ≤ 255) (hst : p._stretch ≤ 20)
    (hodd : p._maxAnalogVal % 2 = 1) (hm1 : 1 ≤ p._maxAnalogVal)
    (hM : 16 * p._maxAnalogVal + 8 ≤ pf.intMax) (hM2 : p._maxAnalogVal ≤ 4095)
    (hk : p._addNumRawAvg ≤ 7)
    (hinv : StablePoti.Inv p._maxAnalogVal p._addNumRawAvg p.toStablePoti)
    (current : Nat) (raw : Int) (hr0 : 0 ≤ raw) (hr1 : raw ≤ p._maxAnalogVal) :
    ∃ res, p.hasChanged pf current raw = some res
      ∧ StablePoti.Inv p._maxAnalogVal p._addNumRawAvg res.2.toStablePoti := by
  obtain ⟨a, b⟩ := StablePoti.getStabilized_inv pf hb p._maxAnalogVal (by omega) hM hM2
    p._addNumRawAvg hk p.toStablePoti hinv current raw hr0 hr1
  unfold MappedPoti.hasChanged
  split_ifs with h1 h2
  · exact ⟨_, rfl, a⟩
  · exact ⟨_, rfl, a⟩
  · have hv := b.resolve_left h1
    obtain ⟨l, hl, -⟩ := MappedPoti.getMapping_defined pf hb hf hd p hn1 hn2 hst hodd hm1
      (by omega) 0 0 (Or.inl le_rfl) _ hv.1 hv.2
    rw [hl]
    simp only [Option.map_some']
    split_ifs
    · exact ⟨_, rfl, a⟩
    · exact ⟨_, rfl, a⟩

/-- The same for `CenteredPoti::hasChanged`, with the center of the object. -/
theorem CenteredPoti.centered_hasChanged_defined (pf : Platform) (hb : 16 ≤ pf.intBits)
    (hf : 24 ≤ pf.floatPrec) (hd : 24 ≤ pf.doublePrec) (p : CenteredPoti)
    (hn1 : 3 ≤ p._numMapping) (hn2 : p._numMapping ≤ 255) (hst : p._stretch ≤ 20)
    (hodd : p._maxAnalogVal % 2 = 1) (hm1 : 1 ≤ p._maxAnalogVal)
    (hM : 16 * p._maxAnalogVal + 8 ≤ pf.intMax) (hM2 : p._maxAnalogVal ≤ 4095)
    (hk : p._addNumRawAvg ≤ 7)
    (hcen : p._centerValLow ≤ 0
      ∨ (0 < p._centerValLow ∧ p._centerValLow ≤ p._centerValHigh
        ∧ p._centerValHigh < p._maxAnalogVal))
    (hinv : StablePoti.Inv p._maxAnalogVal p._addNumRawAvg p.toStablePoti)
    (current : Nat) (raw : Int) (hr0 : 0 ≤ raw) (hr1 : raw ≤ p._maxAnalogVal) :
    ∃ res, p.hasChanged pf current raw = some res
      ∧ StablePoti.Inv p._maxAnalogVal p._addNumRawAvg res.2.toStablePoti := by
  obtain ⟨a, b⟩ := StablePoti.getStabilized_inv pf hb p._maxAnalogVal (by omega) hM hM2
    p._addNumRawAvg hk p.toStablePoti hinv current raw hr0 hr1
  unfold CenteredPoti.hasChanged
  split_ifs with h1 h2
  · exact ⟨_, rfl, a⟩
  · exact ⟨_, rfl, a⟩
  · have hv := b.resolve_left h1
    obtain ⟨l, hl, -⟩ := MappedPoti.getMapping_defined pf hb hf hd p.toMappedPoti (by omega) hn2
      hst hodd hm1 (by omega) p._centerValLow p._centerValHigh
      (hcen.imp id fun h => ⟨h.1, h.2.1, h.2.2, hn1⟩) _ hv.1 hv.2
    rw [hl]
    simp only [Option.map_some']
    split_ifs
    · exact ⟨_, rfl, a⟩
    · exact ⟨_, rfl, a⟩

/-- A reset object is within the analog range. -/
theorem StablePoti.reset_inv (M : Int) (s : StablePoti) (hw : s._weightPrev ≤ 12) :
    StablePoti.Inv M s._addNumRawAvg s.reset :=
  ⟨rfl, hw, Nat.zero_le _, Or.inl rfl, Or.inl ⟨rfl, rfl⟩⟩

/-- Every sequence of polls with samples in the analog range and resets on a
`MappedPoti` within the range has a defined result. -/
theorem MappedPoti.exec_defined (pf : Platform) (hb : 16 ≤ pf.intBits)
    (hf : 24 ≤ pf.floatPrec) (hd : 24 ≤ pf.doublePrec) (n st k : Nat) (M : Int)
    (hn1 : 2 ≤ n) (hn2 : n ≤ 255) (hst : st ≤ 20) (hodd : M % 2 = 1) (hm1 : 1 ≤ M)
    (hM : 16 * M + 8 ≤ pf.intMax) (hM2 : M ≤ 4095) (hk : k ≤ 7) :
    ∀ (cs : List PotiCall) (p : MappedPoti), p._numMapping = n → p._stretch = st →
      p._maxAnalogVal = M → StablePoti.Inv M k p.toStablePoti →
      (∀ q : Poll, PotiCall.poll q ∈ cs → 0 ≤ q.raw ∧ q.raw ≤ M) →
      ∃ p', MappedPoti.exec pf p cs = some p' := by
  intro cs
  induction cs with
  | nil => intro p _ _ _ _ _; exact ⟨p, rfl⟩
  | cons c cs ih =>
    intro p e1 e2 e3 hinv hq
    have hka : p._addNumRawAvg = k := hinv.1
    cases c with
    | poll q =>
      obtain ⟨r0, r1⟩ := hq q (List.mem_cons_self _ _)
      obtain ⟨res, hres, hi⟩ := MappedPoti.hasChanged_defined pf hb hf hd p (by omega) (by omega)
        (by omega) (by omega) (by omega) (by omega) (by omega) (by omega)
        (by rw [e3, hka]; exact hinv) q.current q.raw r0 (by omega)
      have hc := MappedPoti.mapped_hasChanged_config pf p q.current q.raw res hres
      simp only [MappedPoti.config, Prod.mk.injEq] at hc
      rw [e3, hka] at hi
      obtain ⟨p', hp'⟩ := ih res.2 (hc.2.1.trans e1) (hc.2.2.1.trans e2) (hc.2.2.2.trans e3) hi
        (fun q' h' => hq q' (List.mem_cons_of_mem _ h'))
      exact ⟨p', by simp only [MappedPoti.exec, hres, Option.some_bind, hp']⟩
    | reset =>
      have hi : StablePoti.Inv M k p.toStablePoti.reset := by
        have := StablePoti.reset_inv M p.toStablePoti hinv.2.1
        rwa [hka] at this
      obtain ⟨p', hp'⟩ := ih p.reset e1 e2 e3 hi
        (fun q' h' => hq q' (List.mem_cons_of_mem _ h'))
      exact ⟨p', by simp only [MappedPoti.exec, hp']⟩

/-- The same for `CenteredPoti`, with the center of the object. -/
theorem CenteredPoti.centered_exec_defined (pf : Platform) (hb : 16 ≤ pf.intBits)
    (hf : 24 ≤ pf.floatPrec) (hd : 24 ≤ pf.doublePrec) (n st k : Nat) (M lo hi : Int)
    (hn1 : 3 ≤ n) (hn2 : n ≤ 255) (hst : st ≤ 20) (hodd : M % 2 = 1) (hm1 : 1 ≤ M)
    (hM : 16 * M + 8 ≤ pf.intMax) (hM2 : M ≤ 4095) (hk : k ≤ 7)
    (hcen : lo ≤ 0 ∨ (0 < lo ∧ lo ≤ hi ∧ hi < M)) :
    ∀ (cs : List PotiCall) (p : CenteredPoti), p._numMapping = n → p._stretch = st →
      p._maxAnalogVal = M → p._centerValLow = lo → p._centerValHigh = hi →
      StablePoti.Inv M k p.toStablePoti →
      (∀ q : Poll, PotiCall.poll q ∈ cs → 0 ≤ q.raw ∧ q.raw ≤ M) →
      ∃ p', CenteredPoti.exec pf p cs = some p' := by
  intro cs
  induction cs with
  | nil => intro p _ _ _ _ _ _ _; exact ⟨p, rfl⟩
  | cons c cs ih =>
    intro p e1 e2 e3 e4 e5 hinv hq
    have hka : p._addNumRawAvg = k := hinv.1
    cases c with
    | poll q =>
      obtain ⟨r0, r1⟩ := hq q (List.mem_cons_self _ _)
      obtain ⟨res, hres, hi⟩ := CenteredPoti.centered_hasChanged_defined pf hb hf hd p (by omega)
        (by omega) (by omega) (by omega) (by omega) (by omega) (by omega) (by omega)
        (by rw [e3, e4, e5]; exact hcen) (by rw [e3, hka]; exact hinv) q.current q.raw r0
        (by omega)
      have hc := CenteredPoti.centered_hasChanged_config pf p q.current q.raw res hres
      simp only [CenteredPoti.config, MappedPoti.config, Prod.mk.injEq] at hc
      rw [e3, hka] at hi
      obtain ⟨p', hp'⟩ := ih res.2 (hc.1.2.1.trans e1) (hc.1.2.2.1.trans e2)
        (hc.1.2.2.2.trans e3) (hc.2.1.trans e4) (hc.2.2.trans e5) hi
        (fun q' h' => hq q' (List.mem_cons_of_mem _ h'))
      exact ⟨p', by simp only [CenteredPoti.exec, hres, Option.some_bind, hp']⟩
    | reset =>
      have hi : StablePoti.Inv M k p.toStablePoti.reset := by
        have := StablePoti.reset_inv M p.toStablePoti hinv.2.1
        rwa [hka] at this
      obtain ⟨p', hp'⟩ := ih p.reset e1 e2 e3 e4 e5 hi
        (fun q' h' => hq q' (List.mem_cons_of_mem _ h'))
      exact ⟨p', by simp only [CenteredPoti.exec, hp']⟩

/-- A level paired with a value is undefined or below the number of levels. -/
theorem MappedPoti.paired_level (pf : Platform) (p : MappedPoti) (lo hi value : Int)
    (level : Nat) (h : MappedPoti.Paired pf p lo hi value level) (hn1 : 1 ≤ p._numMapping)
    (hn2 : p._numMapping ≤ 255) :
    level = POTI_MAPPING_UNDEFINED ∨ level < p._numMapping := by
  rcases h with h | h
  · exact Or.inl h.2
  · exact Or.inr (MappedPoti.getMapping_lt pf p value lo hi level h hn1 hn2)

/-- A constructed or reset object is within every analog range. -/
theorem StablePoti.fresh_inv (M : Int) (s : StablePoti) (h : s.Fresh) (hw : s._weightPrev ≤ 12) :
    StablePoti.Inv M s._addNumRawAvg s :=
  ⟨rfl, hw, by rw [h.2.2.2]; exact Nat.zero_le _, Or.inl h.2.1, Or.inl ⟨h.2.2.1, h.2.2.2⟩⟩

/-- Where the arithmetic leaves the range of `int` the floating-point
computation of `getMapping` can be without a defined result.  With
16 bit `int`, the largest analog value 32767, 2 levels and stretch 20
`getMapping` divides by zero at the raw value 30719 and has no level for it.
With 16 bit `int`, the largest analog value 4095 and weight 12 the samples 4095
and 0 are within the range, but the second stabilized value is -1024
(`4 * 0 + 12 * 4095 + 8` is not an `int`), and `getMapping` has no level for a
negative value: the conversion to `uint8_t` is not defined. -/
theorem MappedPoti.level_undefined :
    ((MappedPoti.new 7 0 0 0 2 20).setMaxAnalogValue Platform.avr 32767).2._maxAnalogVal = 32767
    ∧ MappedPoti.getMapping Platform.avr
        ((MappedPoti.new 7 0 0 0 2 20).setMaxAnalogValue Platform.avr 32767).2 30719 0 0 = none
    ∧ ((MappedPoti.new 7 0 12 0 4 0).setMaxAnalogValue Platform.avr 4095).2._maxAnalogVal = 4095
    ∧ StablePoti.stabilized Platform.avr
        ((MappedPoti.new 7 0 12 0 4 0).setMaxAnalogValue Platform.avr 4095).2.toStablePoti
        [⟨0, 4095⟩, ⟨1, 0⟩] = [4095, -1024]
    ∧ MappedPoti.getMapping Platform.avr
        ((MappedPoti.new 7 0 12 0 4 0).setMaxAnalogValue Platform.avr 4095).2 (-1024) 0 0 = none
    ∧ (MappedPoti.exec Platform.avr
        ((MappedPoti.new 7 0 12 0 4 0).setMaxAnalogValue Platform.avr 4095).2
        [PotiCall.poll ⟨0, 4095⟩, PotiCall.poll ⟨1, 0⟩]).isSome = false := by
  decide!

/-- Defined levels.  On every platform with at least 16 bit `int` and 24 bit
significands: (1) for 2 to 101 levels, stretch 0 to 20 and an uneven largest
analog value `m` with `1 ≤ m < 32767`, without a center (`centerValLow ≤ 0`) or
with a center `0 < centerValLow ≤ centerValHigh < m` and at least 3 levels,
`getMapping` yields a level below the number of levels for every raw value in
`0..m`; (2) for a constructed `MappedPoti` with 2 to 100 levels, stretch 0 to
20, weight 0 to 12, 0 to 7 extra samples and an uneven largest analog value `m`
with `16 * m + 8` an `int` and `m ≤ 4095`, every sequence of `reset()` calls
and `hasChanged()` calls with samples in `0..m` has a defined result, and
afterwards `getMappedValue()` and `getMappedPrevValue()` are each
`POTI_MAPPING_UNDEFINED` or below the number of levels; (3) the same for a
constructed `CenteredPoti` with 3 to 101 levels whose stored center is
`_centerValLow ≤ 0` or `0 < _centerValLow ≤ _centerValHigh < m`. -/
theorem level_domain (pf : Platform) (hb : 16 ≤ pf.intBits) (hf : 24 ≤ pf.floatPrec)
    (hd : 24 ≤ pf.doublePrec) :
    (∀ (p : MappedPoti) (lo hi r : Int), 2 ≤ p._numMapping → p._numMapping ≤ 101 →
      p._stretch ≤ 20 → p._maxAnalogVal % 2 = 1 → 1 ≤ p._maxAnalogVal →
      p._maxAnalogVal < 32767 →
      (lo ≤ 0 ∨ (0 < lo ∧ lo ≤ hi ∧ hi < p._maxAnalogVal ∧ 3 ≤ p._numMapping)) →
      0 ≤ r → r ≤ p._maxAnalogVal →
      ∃ l, MappedPoti.getMapping pf p r lo hi = some l ∧ l < p._numMapping)
    ∧ (∀ (m : MappedPoti) (cs : List PotiCall), m.Fresh → 2 ≤ m._numMapping →
      m._numMapping ≤ 100 → m._stretch ≤ 20 → m._weightPrev ≤ 12 → m._addNumRawAvg ≤ 7 →
      m._maxAnalogVal % 2 = 1 → 1 ≤ m._maxAnalogVal → 16 * m._maxAnalogVal + 8 ≤ pf.intMax →
      m._maxAnalogVal ≤ 4095 →
      (∀ q : Poll, PotiCall.poll q ∈ cs → 0 ≤ q.raw ∧ q.raw ≤ m._maxAnalogVal) →
      ∃ m', MappedPoti.exec pf m cs = some m'
        ∧ (m'.getMappedValue = POTI_MAPPING_UNDEFINED ∨ m'.getMappedValue < m._numMapping)
        ∧ (m'.getMappedPrevValue = POTI_MAPPING_UNDEFINED
          ∨ m'.getMappedPrevValue < m._numMapping))
    ∧ (∀ (c : CenteredPoti) (cs : List PotiCall), c.Fresh → 3 ≤ c._numMapping →
      c._numMapping ≤ 101 → c._stretch ≤ 20 → c._weightPrev ≤ 12 → c._addNumRawAvg ≤ 7 →
      c._maxAnalogVal % 2 = 1 → 1 ≤ c._maxAnalogVal → 16 * c._maxAnalogVal + 8 ≤ pf.intMax →
      c._maxAnalogVal ≤ 4095 →
      (c._centerValLow ≤ 0
        ∨ (0 < c._centerValLow ∧ c._centerValLow ≤ c._centerValHigh
          ∧ c._centerValHigh < c._maxAnalogVal)) →
      (∀ q : Poll, PotiCall.poll q ∈ cs → 0 ≤ q.raw ∧ q.raw ≤ c._maxAnalogVal) →
      ∃ c', CenteredPoti.exec pf c cs = some c'
        ∧ (c'.getMappedValue = POTI_MAPPING_UNDEFINED ∨ c'.getMappedValue < c._numMapping)
        ∧ (c'.getMappedPrevValue = POTI_MAPPING_UNDEFINED
          ∨ c'.getMappedPrevValue < c._numMapping)) := by
  refine ⟨?_, ?_, ?_⟩
  · intro p lo hi r hn1 hn2 hst hodd hm1 hm2 hcen h0 h1
    exact MappedPoti.getMapping_defined pf hb hf hd p hn1 (by omega) hst hodd hm1 hm2 lo hi hcen
      r h0 h1
  · intro m cs hfr hn1 hn2 hst hw hk hodd hm1 hM hM2 hq
    obtain ⟨m', hm'⟩ := MappedPoti.exec_defined pf hb hf hd m._numMapping m._stretch
      m._addNumRawAvg m._maxAnalogVal hn1 (by omega) hst hodd hm1 hM hM2 hk cs m rfl rfl rfl
      (StablePoti.fresh_inv _ m.toStablePoti hfr.1 hw) hq
    obtain ⟨hc, g1, g2⟩ := MappedPoti.exec_paired pf cs m m' (Or.inl ⟨hfr.1.1.2.1, hfr.2.1⟩)
      (Or.inl ⟨hfr.1.1.2.2, hfr.2.2⟩) hm'
    simp only [MappedPoti.config, Prod.mk.injEq] at hc
    have e : m'._numMapping = m._numMapping := hc.2.1
    refine ⟨m', hm', ?_, ?_⟩
    · rw [← e]
      exact MappedPoti.paired_level pf m' 0 0 _ _ g1 (by omega) (by omega)
    · rw [← e]
      exact MappedPoti.paired_level pf m' 0 0 _ _ g2 (by omega) (by omega)
  · intro c cs hfr hn1 hn2 hst hw hk hodd hm1 hM hM2 hcen hq
    obtain ⟨c', hc'⟩ := CenteredPoti.centered_exec_defined pf hb hf hd c._numMapping c._stretch
      c._addNumRawAvg c._maxAnalogVal c._centerValLow c._centerValHigh hn1 (by omega) hst hodd
      hm1 hM hM2 hk hcen cs c rfl rfl rfl rfl rfl
      (StablePoti.fresh_inv _ c.toStablePoti hfr.1 hw) hq
    obtain ⟨hc, g1, g2⟩ := CenteredPoti.centered_exec_paired pf cs c c'
      (Or.inl ⟨hfr.1.1.2.1, hfr.2.1⟩) (Or.inl ⟨hfr.1.1.2.2, hfr.2.2⟩) hc'
    simp only [CenteredPoti.config, MappedPoti.config, Prod.mk.injEq] at hc
    have e : c'._numMapping = c._numMapping := hc.1.2.1
    refine ⟨c', hc', ?_, ?_⟩
    · rw [← e]
      exact MappedPoti.paired_level pf c'.toMappedPoti _ _ _ _ g1 (by omega) (by omega)
    · rw [← e]
      exact MappedPoti.paired_level pf c'.toMappedPoti _ _ _ _ g2 (by omega) (by omega)

/-- Example of defined levels on an 8-bit AVR: four levels at raw 100, and a `MappedPoti`
with four levels and a `CenteredPoti` with five levels, both with weight 4 and
3 extra samples, polled at raw 100, reset and polled at raw 900. -/
theorem level_domain_witness :
    (∃ l, MappedPoti.getMapping Platform.avr (MappedPoti.new 7 0 0 0 4 0) 100 0 0 = some l
      ∧ l < (MappedPoti.new 7 0 0 0 4 0)._numMapping)
    ∧ (∃ m', MappedPoti.exec Platform.avr (MappedPoti.new 7 0 4 3 4 1)
          [PotiCall.poll ⟨0, 100⟩, PotiCall.reset, PotiCall.poll ⟨1, 900⟩] = some m'
        ∧ (m'.getMappedValue = POTI_MAPPING_UNDEFINED
          ∨ m'.getMappedValue < (MappedPoti.new 7 0 4 3 4 1)._numMapping)
        ∧ (m'.getMappedPrevValue = POTI_MAPPING_UNDEFINED
          ∨ m'.getMappedPrevValue < (MappedPoti.new 7 0 4 3 4 1)._numMapping))
    ∧ (∃ c', CenteredPoti.exec Platform.avr (CenteredPoti.new Platform.avr 7 0 4 3 5 1 0 0)
          [PotiCall.poll ⟨0, 100⟩, PotiCall.reset, PotiCall.poll ⟨1, 900⟩] = some c'
        ∧ (c'.getMappedValue = POTI_MAPPING_UNDEFINED
          ∨ c'.getMappedValue < (CenteredPoti.new Platform.avr 7 0 4 3 5 1 0 0)._numMapping)
        ∧ (c'.getMappedPrevValue = POTI_MAPPING_UNDEFINED
          ∨ c'.getMappedPrevValue
            < (CenteredPoti.new Platform.avr 7 0 4 3 5 1 0 0)._numMapping)) :=
  ⟨(level_domain Platform.avr (by decide) (by decide) (by decide)).1
      (MappedPoti.new 7 0 0 0 4 0) 0 0 100 (by decide) (by decide) (by decide) (by decide)
      (by decide) (by decide) (Or.inl (by decide)) (by decide) (by decide),
    (level_domain Platform.avr (by decide) (by decide) (by decide)).2.1
      (MappedPoti.new 7 0 4 3 4 1)
      [PotiCall.poll ⟨0, 100⟩, PotiCall.reset, PotiCall.poll ⟨1, 900⟩]
      ⟨⟨⟨rfl, rfl, rfl⟩, rfl, rfl, rfl⟩, rfl, rfl⟩ (by decide) (by decide) (by decide)
      (by decide) (by decide) (by decide) (by decide) (by decide) (by decide)
      (by
        intro q h
        simp only [List.mem_cons, PotiCall.poll.injEq, List.mem_singleton, reduceCtorEq,
          false_or, List.not_mem_nil, or_false] at h
        rcases h with rfl | rfl <;> decide),
    (level_domain Platform.avr (by decide) (by decide) (by decide)).2.2
      (CenteredPoti.new Platform.avr 7 0 4 3 5 1 0 0)
      [PotiCall.poll ⟨0, 100⟩, PotiCall.reset, PotiCall.poll ⟨1, 900⟩]
      ⟨⟨⟨rfl, rfl, rfl⟩, rfl, rfl, rfl⟩, rfl, rfl⟩ (by decide) (by decide) (by decide)
      (by decide) (by decide) (by decide) (by decide) (by decide) (by decide)
      (Or.inr (by decide))
      (by
        intro q h
        simp only [List.mem_cons, PotiCall.poll.injEq, List.mem_singleton, reduceCtorEq,
          false_or, List.not_mem_nil, or_false] at h
        rcases h with rfl | rfl <;> decide)⟩

/-! ## The stretch -/

/-- The rounded `scale` of `getMapping` is `1 + stretch / 10` up to the fraction 1/5000000. -/
theorem MappedPoti.scale_near (pf : Platform) (p : MappedPoti) (hf : 24 ≤ pf.floatPrec)
    (hd : 24 ≤ pf.doublePrec) (hst : p._stretch ≤ 20) :
    (1 + (p._stretch : ℚ) / 10) * (1 - 1 / 5000000) ≤ p.scale pf
    ∧ p.scale pf ≤ (1 + (p._stretch : ℚ) / 10) * (1 + 1 / 5000000) := by
  have hq1 : (0 : ℚ) ≤ (p._stretch : ℚ) / 10 := by positivity
  have hq2 : (p._stretch : ℚ) / 10 ≤ 2 := by
    have : (p._stretch : ℚ) ≤ 20 := by exact_mod_cast hst
    linarith
  obtain ⟨wl, wu⟩ := roundFloat_eps pf.doublePrec hd ((p._stretch : ℚ) / 10) hq1
  change _ ≤ pf.toDouble ((p._stretch : ℚ) / 10) at wl
  change pf.toDouble ((p._stretch : ℚ) / 10) ≤ _ at wu
  have hw0 : 0 ≤ pf.toDouble ((p._stretch : ℚ) / 10) := pf.toDouble_nonneg _ hq1
  obtain ⟨yl, yu⟩ := roundFloat_eps pf.doublePrec hd
    (1 + pf.toDouble ((p._stretch : ℚ) / 10)) (by linarith)
  change _ ≤ pf.toDouble (1 + pf.toDouble ((p._stretch : ℚ) / 10)) at yl
  change pf.toDouble (1 + pf.toDouble ((p._stretch : ℚ) / 10)) ≤ _ at yu
  have hy0 : 0 ≤ pf.toDouble (1 + pf.toDouble ((p._stretch : ℚ) / 10)) :=
    pf.toDouble_nonneg _ (by linarith)
  obtain ⟨sl, su⟩ := roundFloat_eps pf.floatPrec hf
    (pf.toDouble (1 + pf.toDouble ((p._stretch : ℚ) / 10))) hy0
  change _ ≤ p.scale pf at sl
  change p.scale pf ≤ _ at su
  generalize pf.toDouble ((p._stretch : ℚ) / 10) = w at wl wu hw0 yl yu hy0 sl su
  generalize pf.toDouble (1 + w) = y at yl yu hy0 sl su
  generalize p.scale pf = s at sl su ⊢
  generalize (p._stretch : ℚ) / 10 = T at hq1 hq2 wl wu ⊢
  constructor <;> linarith

/-- Arithmetic core of the error bound of the quotient of `getMapping` against
`M * s² * x / (s² * x + (V - x))`. -/
theorem quotient_exact_core (s inv k a V M x g : ℚ) (hs1 : 1 ≤ s)
    (is1 : 1 - 1 / 16777216 ≤ inv * s) (is2 : inv * s ≤ 1 + 1 / 16777216) (k0 : 0 ≤ k)
    (kl : (s - inv) * (1 - 1 / 16777216) ≤ k) (ku : k ≤ (s - inv) * (1 + 1 / 16777216))
    (i0 : 0 < inv) (ha : 0 < a) (hM : 0 < M)
    (al : V * ((1 - 1 / 16777216) * (1 - 1 / 16777216)) ≤ a * (M * s))
    (au : a * (M * s) ≤ V * ((1 + 1 / 16777216) * (1 + 1 / 16777216)))
    (hx0 : 0 ≤ x) (hxV : x + 1 ≤ V) (hV : V ≤ 32767) (g0 : 0 ≤ g)
    (gu : g * (a * (k * x / V + inv)) ≤ x * (1 + 1 / 3000000))
    (gl : x * (1 - 1 / 3000000) ≤ g * (a * (k * x / V + inv))) :
    g * (s * s * x + (V - x)) ≤ M * (s * s) * x * (1 + 1 / 1500000)
    ∧ M * (s * s) * x * (1 - 1 / 1500000) ≤ g * (s * s * x + (V - x)) := by
  have hs : 0 < s := by linarith
  have hVq : 0 < V := by linarith
  have hss : 0 ≤ s * s := mul_nonneg hs.le hs.le
  have hssx : 0 ≤ s * s * x := mul_nonneg hss hx0
  have hx1 : x ≤ s * s * x := by
    have : 1 * 1 ≤ s * s := mul_le_mul hs1 hs1 (by norm_num) hs.le
    have := mul_le_mul_of_nonneg_right this hx0
    linarith
  have hD : 0 < s * s * x + (V - x) := by linarith
  have hDx : x ≤ s * s * x + (V - x) := by linarith
  -- B = (k x + inv V) s against D
  have hB_lo : (1 - 1 / 16777216) * (s * s * x + (V - x)) ≤ (k * x + inv * V) * s := by
    have h1 : (s - inv) * (1 - 1 / 16777216) * x ≤ k * x := mul_le_mul_of_nonneg_right kl hx0
    have h2 : (s - inv) * (1 - 1 / 16777216) * x * s ≤ k * x * s :=
      mul_le_mul_of_nonneg_right h1 hs.le
    have h3 : (0 : ℚ) ≤ V - (1 - 1 / 16777216) * x := by linarith
    have h4 : (1 - 1 / 16777216) * (V - (1 - 1 / 16777216) * x)
        ≤ inv * s * (V - (1 - 1 / 16777216) * x) := mul_le_mul_of_nonneg_right is1 h3
    linarith
  have hB_hi : (k * x + inv * V) * s
      ≤ (1 + 1 / 16777216) * (1 + 1 / 16777216) * (s * s * x + (V - x)) := by
    have h1 : k * x ≤ (s - inv) * (1 + 1 / 16777216) * x := mul_le_mul_of_nonneg_right ku hx0
    have h2 : k * x * s ≤ (s - inv) * (1 + 1 / 16777216) * x * s :=
      mul_le_mul_of_nonneg_right h1 hs.le
    have h3 : (0 : ℚ) ≤ V - (1 + 1 / 16777216) * x := by linarith
    have h4 : inv * s * (V - (1 + 1 / 16777216) * x)
        ≤ (1 + 1 / 16777216) * (V - (1 + 1 / 16777216) * x) := mul_le_mul_of_nonneg_right is2 h3
    linarith
  have hB0 : 0 ≤ (k * x + inv * V) * s :=
    mul_nonneg (add_nonneg (mul_nonneg k0 hx0) (mul_nonneg i0.le hVq.le)) hs.le
  have hE : 0 < k * x / V + inv := by
    have : 0 ≤ k * x / V := div_nonneg (mul_nonneg k0 hx0) hVq.le
    linarith
  have hW : 0 < a * (k * x / V + inv) := mul_pos ha hE
  have e : M * (a * (k * x / V + inv)) * (s * s) * V = a * (M * s) * ((k * x + inv * V) * s) := by
    field_simp
    ring
  have hMss : 0 ≤ M * (s * s) := mul_nonneg hM.le hss
  have hMssx : 0 ≤ M * (s * s) * x := mul_nonneg hMss hx0
  generalize s * s * x + (V - x) = D at hD hDx hB_lo hB_hi ⊢
  generalize (k * x + inv * V) * s = B at hB_lo hB_hi hB0 e
  generalize a * (k * x / V + inv) = W at hW e gu gl
  generalize a * (M * s) = A at al au e
  have hA0 : 0 ≤ A := le_trans (mul_nonneg hVq.le (by norm_num)) al
  have p_lo : V * ((1 - 1 / 16777216) * (1 - 1 / 16777216)) * ((1 - 1 / 16777216) * D)
      ≤ A * B := mul_le_mul al hB_lo (mul_nonneg (by norm_num) hD.le) hA0
  have p_hi : A * B ≤ V * ((1 + 1 / 16777216) * (1 + 1 / 16777216))
      * ((1 + 1 / 16777216) * (1 + 1 / 16777216) * D) :=
    mul_le_mul au hB_hi hB0 (mul_nonneg hVq.le (by norm_num))
  have mw_lo : (1 - 1 / 16777216) * (1 - 1 / 16777216) * (1 - 1 / 16777216) * D
      ≤ M * W * (s * s) := by
    apply le_of_mul_le_mul_right _ hVq
    rw [e]
    linarith
  have mw_hi : M * W * (s * s)
      ≤ (1 + 1 / 16777216) * (1 + 1 / 16777216) * ((1 + 1 / 16777216) * (1 + 1 / 16777216)) * D := by
    apply le_of_mul_le_mul_right _ hVq
    rw [e]
    linarith
  obtain ⟨P, hP⟩ : ∃ P, P = M * (s * s) := ⟨_, rfl⟩
  have hPn : 0 ≤ P := by rw [hP]; exact hMss
  have hPx : 0 ≤ P * x := by rw [hP]; exact hMssx
  rw [← hP]
  constructor
  · have s1 : g * ((1 - 1 / 16777216) * (1 - 1 / 16777216) * (1 - 1 / 16777216) * D)
        ≤ g * (M * W * (s * s)) := mul_le_mul_of_nonneg_left mw_lo g0
    have s2 : g * W * P ≤ x * (1 + 1 / 3000000) * P := mul_le_mul_of_nonneg_right gu hPn
    have s3 : P * x * (1 + 1 / 3000000)
        ≤ P * x * ((1 + 1 / 1500000)
            * ((1 - 1 / 16777216) * (1 - 1 / 16777216) * (1 - 1 / 16777216))) :=
      mul_le_mul_of_nonneg_left (by norm_num) hPx
    have e2 : g * (M * W * (s * s)) = g * W * P := by rw [hP]; ring
    have s4 : g * D * ((1 - 1 / 16777216) * (1 - 1 / 16777216) * (1 - 1 / 16777216))
        ≤ P * x * (1 + 1 / 1500000)
          * ((1 - 1 / 16777216) * (1 - 1 / 16777216) * (1 - 1 / 16777216)) := by
      linarith
    exact le_of_mul_le_mul_right s4 (by norm_num)
  · have s1 : g * (M * W * (s * s))
        ≤ g * ((1 + 1 / 16777216) * (1 + 1 / 16777216)
            * ((1 + 1 / 16777216) * (1 + 1 / 16777216)) * D) :=
      mul_le_mul_of_nonneg_left mw_hi g0
    have s2 : x * (1 - 1 / 3000000) * P ≤ g * W * P := mul_le_mul_of_nonneg_right gl hPn
    have s3 : P * x * ((1 - 1 / 1500000)
            * ((1 + 1 / 16777216) * (1 + 1 / 16777216)
              * ((1 + 1 / 16777216) * (1 + 1 / 16777216))))
        ≤ P * x * (1 - 1 / 3000000) :=
      mul_le_mul_of_nonneg_left (by norm_num) hPx
    have e2 : g * (M * W * (s * s)) = g * W * P := by rw [hP]; ring
    have s4 : P * x * (1 - 1 / 1500000)
          * ((1 + 1 / 16777216) * (1 + 1 / 16777216)
            * ((1 + 1 / 16777216) * (1 + 1 / 16777216)))
        ≤ g * D * ((1 + 1 / 16777216) * (1 + 1 / 16777216)
            * ((1 + 1 / 16777216) * (1 + 1 / 16777216))) := by
      linarith
    exact le_of_mul_le_mul_right s4 (by norm_num)

/-- The quotient of `getMapping` for `stdDiv = V / M` and `0 ≤ x < V ≤ 32767` is
`M * s² * x / (s² * x + (V - x))` up to the fraction 1/1500000, `s` the rounded
`scale`. -/
theorem MappedPoti.quotient_exact (pf : Platform) (hf : 24 ≤ pf.floatPrec)
    (hd : 24 ≤ pf.doublePrec) (p : MappedPoti) (hst : p._stretch ≤ 20) (V M x : Nat)
    (hM : 1 ≤ M) (hV : V ≤ 32767) (hx : x + 1 ≤ V) :
    0 ≤ MappedPoti.quotient pf (pf.toFloat ((V : ℚ) / M)) (p.scale pf) (V : ℚ) (x : Int)
    ∧ MappedPoti.quotient pf (pf.toFloat ((V : ℚ) / M)) (p.scale pf) (V : ℚ) (x : Int)
          * (p.scale pf * p.scale pf * x + ((V : ℚ) - x))
        ≤ M * (p.scale pf * p.scale pf) * x * (1 + 1 / 1500000)
    ∧ M * (p.scale pf * p.scale pf) * x * (1 - 1 / 1500000)
        ≤ MappedPoti.quotient pf (pf.toFloat ((V : ℚ) / M)) (p.scale pf) (V : ℚ) (x : Int)
          * (p.scale pf * p.scale pf * x + ((V : ℚ) - x)) := by
  obtain ⟨s1, -, is1, is2, i1, -, k0, -, kl, ku, -⟩ := MappedPoti.scale_facts pf p hf hd hst
  have hs : 0 < p.scale pf := by linarith
  obtain ⟨-, ha, al, au⟩ := MappedPoti.stdDiv_facts pf hf (p.scale pf) V M hs hM (by omega)
  have hVq : (0 : ℚ) < (V : ℚ) := by
    have : 0 < V := by omega
    exact_mod_cast this
  obtain ⟨-, g0, gu, gl⟩ := MappedPoti.quotient_bounds pf hd (pf.toFloat ((V : ℚ) / M))
    (p.scale pf) V x (by omega) ha k0 (by linarith) hVq
  exact ⟨g0, quotient_exact_core (p.scale pf) _ _ _ V M x _ s1 is1 is2 k0 kl ku (by linarith) ha
    (by exact_mod_cast hM) al au (by positivity) (by exact_mod_cast hx) (by exact_mod_cast hV)
    g0 gu gl⟩

/-- Arithmetic core of the order of the levels in the stretch: no whole number
`j` below `M` lies above the quotient for the larger scale and not above the
quotient for the smaller scale. -/
theorem stretch_core (s s' V M x g g' j : ℚ) (hs1 : 1 ≤ s) (hs2 : s' ≤ 3001 / 1000)
    (hss : s + 99 / 1000 ≤ s') (hM : M ≤ 127) (hx0 : 0 ≤ x) (hxV : x + 1 ≤ V)
    (hj2 : j + 1 ≤ M)
    (gu : g * (s * s * x + (V - x)) ≤ M * (s * s) * x * (1 + 1 / 1500000))
    (gl : M * (s' * s') * x * (1 - 1 / 1500000) ≤ g' * (s' * s' * x + (V - x)))
    (hj : j ≤ g) (hj' : g' < j) : False := by
  have hs : 0 < s := by linarith
  have hs' : 0 < s' := by linarith
  have h1 : (s + 99 / 1000) * (s + 99 / 1000) ≤ s' * s' :=
    mul_le_mul hss hss (by linarith) hs'.le
  have h2 : s' * s' ≤ 3001 / 1000 * (3001 / 1000) := mul_le_mul hs2 hs2 hs'.le (by norm_num)
  have h3 : 1 * 1 ≤ s * s := mul_le_mul hs1 hs1 (by norm_num) hs.le
  have h4 : s * s + 198 / 1000 ≤ s' * s' := by nlinarith
  have hD : 0 < s * s * x + (V - x) := by
    have : 0 ≤ s * s * x := mul_nonneg (by linarith) hx0
    linarith
  have hD' : 0 < s' * s' * x + (V - x) := by
    have : 0 ≤ s' * s' * x := mul_nonneg (by linarith) hx0
    linarith
  have hA : 0 ≤ s * s * x := mul_nonneg (by linarith) hx0
  have a1 : j * (s * s * x + (V - x)) ≤ g * (s * s * x + (V - x)) :=
    mul_le_mul_of_nonneg_right hj hD.le
  have a2 : g' * (s' * s' * x + (V - x)) < j * (s' * s' * x + (V - x)) :=
    mul_lt_mul_of_pos_right hj' hD'
  have b1 : s * s * x + 198 / 1000 * x ≤ s' * s' * x := by
    have := mul_le_mul_of_nonneg_right h4 hx0
    linarith
  have b2 : s' * s' * x ≤ 3001 / 1000 * (3001 / 1000) * x := mul_le_mul_of_nonneg_right h2 hx0
  have e1 : M * (s * s) * x = M * (s * s * x) := by ring
  have e2 : M * (s' * s') * x = M * (s' * s' * x) := by ring
  rw [e1] at gu
  rw [e2] at gl
  generalize s * s * x = A at a1 gu b1 hA
  generalize s' * s' * x = A' at a2 gl b1 b2
  have hA0 : 0 ≤ A' - A := by linarith
  have c1 : (A' - A) * 1 ≤ (A' - A) * (M - j) := mul_le_mul_of_nonneg_left (by linarith) hA0
  have hAA : 0 ≤ A + A' := by linarith
  have c2 : M * (A + A') ≤ 127 * (A + A') := mul_le_mul_of_nonneg_right hM hAA
  linarith

theorem truncQ_le_self (q : ℚ) (hq : 0 ≤ q) : ((truncQ q : Int) : ℚ) ≤ q := by
  unfold truncQ
  rw [if_pos hq]
  have h2 : Rat.floor q = ⌊q⌋ := rfl
  rw [h2]
  exact Int.floor_le q

theorem lt_of_truncQ_lt (q : ℚ) (hq : 0 ≤ q) (m : Int) (h : truncQ q < m) : q < (m : ℚ) := by
  unfold truncQ at h
  rw [if_pos hq] at h
  have h2 : Rat.floor q = ⌊q⌋ := rfl
  rw [h2] at h
  exact Int.floor_lt.1 h

/-- The truncated quotient of `getMapping` does not decrease when the stretch
grows (`V ≤ 32767`, up to 127 levels on the side, stretch up to 20). -/
theorem MappedPoti.level_stretch (pf : Platform) (hf : 24 ≤ pf.floatPrec)
    (hd : 24 ≤ pf.doublePrec) (p p' : MappedPoti) (hss : p._stretch ≤ p'._stretch)
    (hst : p'._stretch ≤ 20) (V M x : Nat) (hM : 1 ≤ M) (hM2 : M ≤ 127) (hV : V ≤ 32767)
    (hx : x + 1 ≤ V) :
    (truncQ (MappedPoti.quotient pf (pf.toFloat ((V : ℚ) / M)) (p.scale pf) (V : ℚ)
        (x : Int))).toNat
      ≤ (truncQ (MappedPoti.quotient pf (pf.toFloat ((V : ℚ) / M)) (p'.scale pf) (V : ℚ)
          (x : Int))).toNat := by
  rcases Nat.eq_or_lt_of_le hss with h | h
  · have e : p.scale pf = p'.scale pf := by
      unfold MappedPoti.scale
      rw [h]
    rw [e]
  · obtain ⟨g0, gu, -⟩ := MappedPoti.quotient_exact pf hf hd p (by omega) V M x hM hV hx
    obtain ⟨g0', -, gl'⟩ := MappedPoti.quotient_exact pf hf hd p' hst V M x hM hV hx
    obtain ⟨-, su⟩ := MappedPoti.scale_near pf p hf hd (by omega)
    obtain ⟨sl', -⟩ := MappedPoti.scale_near pf p' hf hd hst
    obtain ⟨s1, -⟩ := MappedPoti.scale_facts pf p hf hd (by omega)
    obtain ⟨-, s2', -⟩ := MappedPoti.scale_facts pf p' hf hd hst
    have htop := MappedPoti.quotient_lt_top pf hf hd p (by omega) V M x hM hV hx
    have hT : (p._stretch : ℚ) + 1 ≤ (p'._stretch : ℚ) := by exact_mod_cast h
    have hT2 : (p'._stretch : ℚ) ≤ 20 := by exact_mod_cast hst
    have hT0 : (0 : ℚ) ≤ (p._stretch : ℚ) := by positivity
    have hgap : p.scale pf + 99 / 1000 ≤ p'.scale pf := by linarith
    by_contra hcon
    push_neg at hcon
    have n0 := truncQ_nonneg _ g0
    have n0' := truncQ_nonneg _ g0'
    have hlt : truncQ (MappedPoti.quotient pf (pf.toFloat ((V : ℚ) / M)) (p'.scale pf) (V : ℚ)
          (x : Int))
        < truncQ (MappedPoti.quotient pf (pf.toFloat ((V : ℚ) / M)) (p.scale pf) (V : ℚ)
          (x : Int)) := by omega
    have hj := truncQ_le_self _ g0
    have hj' := lt_of_truncQ_lt _ g0' _ hlt
    have hjM : truncQ (MappedPoti.quotient pf (pf.toFloat ((V : ℚ) / M)) (p.scale pf) (V : ℚ)
          (x : Int)) < (M : Int) := truncQ_lt _ g0 (M : Int) (by exact_mod_cast htop)
    have hjM2 : ((truncQ (MappedPoti.quotient pf (pf.toFloat ((V : ℚ) / M)) (p.scale pf) (V : ℚ)
          (x : Int)) : Int) : ℚ) + 1 ≤ (M : ℚ) := by
      have : truncQ (MappedPoti.quotient pf (pf.toFloat ((V : ℚ) / M)) (p.scale pf) (V : ℚ)
          (x : Int)) + 1 ≤ (M : Int) := by omega
      exact_mod_cast this
    exact stretch_core (p.scale pf) (p'.scale pf) V M x _ _ _ s1 s2' hgap (by exact_mod_cast hM2)
      (by positivity) (by exact_mod_cast hx) hjM2 gu gl' hj hj'

/-- The levels of one raw value for two stretch values `s ≤ s'`: on the left
side the level for `s'` is not below the level for `s`, elsewhere it is not
above it. -/
theorem MappedPoti.stretch_pair (pf : Platform) (hb : 16 ≤ pf.intBits)
    (hf : 24 ≤ pf.floatPrec) (hd : 24 ≤ pf.doublePrec) (p : MappedPoti)
    (hn1 : 2 ≤ p._numMapping) (hn2 : p._numMapping ≤ 255)
    (hodd : p._maxAnalogVal % 2 = 1) (hm1 : 1 ≤ p._maxAnalogVal)
    (hm2 : p._maxAnalogVal < 32767) (lo hi : Int)
    (hcen : (lo = 0 ∧ hi = 0)
      ∨ (0 < lo ∧ lo ≤ hi ∧ hi < p._maxAnalogVal ∧ 3 ≤ p._numMapping))
    (s s' : Nat) (hss : s ≤ s') (hs' : s' ≤ 20) (r : Int) (h0 : 0 ≤ r)
    (h1 : r ≤ p._maxAnalogVal) :
    ∃ l l', MappedPoti.getMapping pf { p with _stretch := s } r lo hi = some l
      ∧ MappedPoti.getMapping pf { p with _stretch := s' } r lo hi = some l'
      ∧ (p.leftSide pf r lo = true → l ≤ l') ∧ (p.leftSide pf r lo = false → l' ≤ l) := by
  have hmin := Platform.intMin_le pf hb
  have hmax := Platform.intMax_ge pf hb
  obtain ⟨mx, hmx⟩ := Int.eq_ofNat_of_zero_le (show 0 ≤ p._maxAnalogVal by omega)
  have hmxodd : mx % 2 = 1 := by omega
  have hmx2 : mx ≤ 32765 := by omega
  rw [hmx] at h1
  obtain ⟨x, rfl⟩ := Int.eq_ofNat_of_zero_le h0
  have hxm : x ≤ mx := by exact_mod_cast h1
  -- a center given or implied
  have centered_case : ∀ cl ch : Nat, p.centered lo = true → p.centerValLow pf lo = (cl : Int) →
      p.centerValHigh pf lo hi = (ch : Int) → cl ≤ ch → ch < mx → 3 ≤ p._numMapping →
      ∃ l l', MappedPoti.getMapping pf { p with _stretch := s } (x : Int) lo hi = some l
        ∧ MappedPoti.getMapping pf { p with _stretch := s' } (x : Int) lo hi = some l'
        ∧ (p.leftSide pf (x : Int) lo = true → l ≤ l')
        ∧ (p.leftSide pf (x : Int) lo = false → l' ≤ l) := by
    intro cl ch hce hcl hch c1 c2 c3
    obtain ⟨L, C, R⟩ := MappedPoti.centered_levels pf hb hf hd { p with _stretch := s }
      (show s ≤ 20 by omega) c3 hn2 lo hi cl ch mx hce hcl hch hmx c1 c2 (by omega)
    obtain ⟨L', C', R'⟩ := MappedPoti.centered_levels pf hb hf hd { p with _stretch := s' }
      hs' c3 hn2 lo hi cl ch mx hce hcl hch hmx c1 c2 (by omega)
    by_cases hx : x < cl
    · have hl : p.leftSide pf (x : Int) lo = true := by
        simp only [MappedPoti.leftSide, hce, hcl, Bool.true_and, Bool.not_true, Bool.false_and,
          Bool.or_false, decide_eq_true_eq]
        exact_mod_cast hx
      refine ⟨_, _, (L x hx).1, (L' x hx).1, fun _ => ?_, fun h => ?_⟩
      · exact MappedPoti.level_stretch pf hf hd { p with _stretch := s } { p with _stretch := s' }
          hss hs' cl ((p._numMapping - 1) / 2) x (by omega) (by omega) (by omega) (by omega)
      · rw [hl] at h
        exact absurd h (by decide)
    · have hl : p.leftSide pf (x : Int) lo = false := by
        simp only [MappedPoti.leftSide, hce, hcl, Bool.true_and, Bool.not_true, Bool.false_and,
          Bool.or_false, decide_eq_false_iff_not, not_lt]
        omega
      by_cases hx2 : x ≤ ch
      · refine ⟨_, _, C (x : Int) (by omega) (by omega), C' (x : Int) (by omega) (by omega),
          fun _ => le_refl _, fun _ => le_refl _⟩
      · obtain ⟨y, hy⟩ : ∃ y : Nat, y + x = mx := ⟨mx - x, by omega⟩
        have e1 : ((x : Nat) : Int) = (mx : Int) - (y : Int) := by omega
        rw [e1] at hl ⊢
        refine ⟨_, _, (R y (by omega)).1, (R' y (by omega)).1, fun h => ?_, fun _ => ?_⟩
        · rw [hl] at h
          exact absurd h (by decide)
        · exact Nat.sub_le_sub_left
            (MappedPoti.level_stretch pf hf hd { p with _stretch := s }
              { p with _stretch := s' } hss hs' (mx - ch) ((p._numMapping - 1) / 2) y (by omega)
              (by omega) (by omega) (by omega)) _
  rcases hcen with ⟨rfl, rfl⟩ | ⟨c1, c2, c3, c4⟩
  · by_cases hpar : p._numMapping % 2 = 1
    · -- implicit center
      obtain ⟨-, e2, e3, e4, -, -⟩ := MappedPoti.implicit_band pf p hb (by omega) (by omega)
        (by omega)
      have hi : p.implicitCenter 0 = true := by simp [MappedPoti.implicitCenter, hpar]
      have hce : p.centered 0 = true := by simp [MappedPoti.centered, hi]
      have hn3 : (3 : Int) ≤ (p._numMapping : Int) := by omega
      have ha0 : 0 ≤ (p._maxAnalogVal + 1) / (p._numMapping : Int) :=
        Int.ediv_nonneg (by omega) (by omega)
      have ha3 : (p._maxAnalogVal + 1) / (p._numMapping : Int) * 3 ≤ p._maxAnalogVal + 1 :=
        calc (p._maxAnalogVal + 1) / (p._numMapping : Int) * 3
            ≤ (p._maxAnalogVal + 1) / (p._numMapping : Int) * (p._numMapping : Int) :=
              mul_le_mul_of_nonneg_left hn3 ha0
          _ ≤ p._maxAnalogVal + 1 := Int.ediv_mul_le _ (by omega)
      obtain ⟨cl, hcl⟩ := Int.eq_ofNat_of_zero_le
        (show 0 ≤ p._maxAnalogVal / 2 - (p._maxAnalogVal + 1) / (p._numMapping : Int) / 2 by omega)
      obtain ⟨ch, hch⟩ := Int.eq_ofNat_of_zero_le
        (show 0 ≤ p._maxAnalogVal / 2 + (p._maxAnalogVal + 1) / (p._numMapping : Int) / 2 by omega)
      refine centered_case cl ch hce ?_ ?_ (by omega) (by omega) (by omega)
      · simp only [MappedPoti.centerValLow, hi, if_true, e2, hcl]
      · simp only [MappedPoti.centerValHigh, hi, if_true, e3, hch]
    · -- no center
      have hi : p.implicitCenter 0 = false := by
        simp only [MappedPoti.implicitCenter, lt_self_iff_false, decide_False, Bool.not_false,
          Bool.true_and, decide_eq_false_iff_not]
        omega
      have hce : p.centered 0 = false := by simp [MappedPoti.centered, hi]
      have hhalf : (pf.wrap (p._maxAnalogVal + 1)) >>> 1 = (((mx + 1) / 2 : Nat) : Int) := by
        rw [hmx, pf.wrap_small _ hb (by omega) (by omega), shiftRight_one_eq_div]
        omega
      obtain ⟨L, R⟩ := MappedPoti.plain_levels pf hb hf hd { p with _stretch := s }
        (show s ≤ 20 by omega) hn1 hn2 0 0 mx hce hmx hmxodd hmx2
      obtain ⟨L', R'⟩ := MappedPoti.plain_levels pf hb hf hd { p with _stretch := s' }
        hs' hn1 hn2 0 0 mx hce hmx hmxodd hmx2
      by_cases hx : x < (mx + 1) / 2
      · have hl : p.leftSide pf (x : Int) 0 = true := by
          simp only [MappedPoti.leftSide, hce, Bool.false_and, Bool.not_false, Bool.true_and,
            Bool.false_or, hhalf, decide_eq_true_eq]
          exact_mod_cast hx
        refine ⟨_, _, (L x hx).1, (L' x hx).1, fun _ => ?_, fun h => ?_⟩
        · exact MappedPoti.level_stretch pf hf hd { p with _stretch := s }
            { p with _stretch := s' } hss hs' ((mx + 1) / 2) (p._numMapping / 2) x (by omega)
            (by omega) (by omega) (by omega)
        · rw [hl] at h
          exact absurd h (by decide)
      · have hl : p.leftSide pf (x : Int) 0 = false := by
          simp only [MappedPoti.leftSide, hce, Bool.false_and, Bool.not_false, Bool.true_and,
            Bool.false_or, hhalf, decide_eq_false_iff_not, not_lt]
          omega
        obtain ⟨y, hy⟩ : ∃ y : Nat, y + x = mx := ⟨mx - x, by omega⟩
        have e1 : ((x : Nat) : Int) = (mx : Int) - (y : Int) := by omega
        rw [e1] at hl ⊢
        refine ⟨_, _, (R y (by omega)).1, (R' y (by omega)).1, fun h => ?_, fun _ => ?_⟩
        · rw [hl] at h
          exact absurd h (by decide)
        · exact Nat.sub_le_sub_left
            (MappedPoti.level_stretch pf hf hd { p with _stretch := s }
              { p with _stretch := s' } hss hs' ((mx + 1) / 2) (p._numMapping / 2) y (by omega)
              (by omega) (by omega) (by omega)) _
  · -- center given
    have hi0 : p.implicitCenter lo = false := by simp [MappedPoti.implicitCenter, c1]
    have hce : p.centered lo = true := by simp [MappedPoti.centered, c1]
    obtain ⟨cl, hcl⟩ := Int.eq_ofNat_of_zero_le (show 0 ≤ lo by omega)
    obtain ⟨ch, hch⟩ := Int.eq_ofNat_of_zero_le (show 0 ≤ hi by omega)
    refine centered_case cl ch hce ?_ ?_ (by omega) (by omega) c4
    · unfold MappedPoti.centerValLow
      rw [hi0]
      simp only [Bool.false_eq_true, if_false]
      exact hcl
    · unfold MappedPoti.centerValHigh
      rw [hi0]
      simp only [Bool.false_eq_true, if_false]
      exact hch

/-- Where the level grows by one from `b` to `b + 1`, the raw values up to `b`
are those with a level up to the level of `b`. -/
theorem MappedPoti.level_boundary (pf : Platform) (hb : 16 ≤ pf.intBits)
    (hf : 24 ≤ pf.floatPrec) (hd : 24 ≤ pf.doublePrec) (p : MappedPoti)
    (hn1 : 2 ≤ p._numMapping) (hn2 : p._numMapping ≤ 255) (hst : p._stretch ≤ 20)
    (hodd : p._maxAnalogVal % 2 = 1) (hm1 : 1 ≤ p._maxAnalogVal)
    (hm2 : p._maxAnalogVal < 32767) (b : Int) (k : Nat) (hb0 : 0 ≤ b)
    (hb1 : b + 1 ≤ p._maxAnalogVal)
    (e1 : MappedPoti.getMapping pf p b 0 0 = some k)
    (e2 : MappedPoti.getMapping pf p (b + 1) 0 0 = some (k + 1))
    (r : Int) (h0 : 0 ≤ r) (h1 : r ≤ p._maxAnalogVal) :
    ∃ l, MappedPoti.getMapping pf p r 0 0 = some l ∧ l < p._numMapping ∧ (l ≤ k ↔ r ≤ b) := by
  by_cases hr : r ≤ b
  · obtain ⟨la, lb, ea, eb, hab⟩ := MappedPoti.mapping_monotone_pair pf hb hf hd p hn1 hn2 hst
      hodd hm1 hm2 0 0 (Or.inl ⟨rfl, rfl⟩) r b h0 hr (by omega)
    rw [e1] at eb
    obtain rfl := Option.some.inj eb
    exact ⟨la, ea, MappedPoti.getMapping_lt pf p r 0 0 la ea (by omega) hn2,
      ⟨fun _ => hr, fun _ => hab⟩⟩
  · obtain ⟨la, lb, ea, eb, hab⟩ := MappedPoti.mapping_monotone_pair pf hb hf hd p hn1 hn2 hst
      hodd hm1 hm2 0 0 (Or.inl ⟨rfl, rfl⟩) (b + 1) r (by omega) (by omega) h1
    rw [e2] at ea
    obtain rfl := Option.some.inj ea
    exact ⟨lb, eb, MappedPoti.getMapping_lt pf p r 0 0 lb eb (by omega) hn2,
      ⟨fun h => absurd h (by omega), fun h => absurd h hr⟩⟩

/-- With 4 levels, the raw values of level 0 and of level 3 from the levels
next to the two outer boundaries. -/
theorem MappedPoti.four_level_edges (pf : Platform) (hb : 16 ≤ pf.intBits)
    (hf : 24 ≤ pf.floatPrec) (hd : 24 ≤ pf.doublePrec) (p : MappedPoti)
    (hn : p._numMapping = 4) (hst : p._stretch ≤ 20) (hm : p._maxAnalogVal = 1023)
    (b c c' : Int) (hb0 : 0 ≤ b) (hbc : b ≤ c) (hcc : c' = c + 1) (hc : c' ≤ 1023)
    (e1 : MappedPoti.getMapping pf p b 0 0 = some 0)
    (e2 : MappedPoti.getMapping pf p (b + 1) 0 0 = some 1)
    (e3 : MappedPoti.getMapping pf p c 0 0 = some 2)
    (e4 : MappedPoti.getMapping pf p c' 0 0 = some 3)
    (r : Int) (h0 : 0 ≤ r) (h1 : r ≤ 1023) :
    (MappedPoti.getMapping pf p r 0 0 = some 0 ↔ r ≤ b)
    ∧ (MappedPoti.getMapping pf p r 0 0 = some 3 ↔ c' ≤ r) := by
  subst hcc
  obtain ⟨l, el, -, hl⟩ := MappedPoti.level_boundary pf hb hf hd p (by omega) (by omega) hst
    (by omega) (by omega) (by omega) b 0 hb0 (by omega) e1 e2 r h0 (by omega)
  obtain ⟨l', el', hl4, hl'⟩ := MappedPoti.level_boundary pf hb hf hd p (by omega) (by omega) hst
    (by omega) (by omega) (by omega) c 2 (by omega) (by omega) e3 e4 r h0 (by omega)
  rw [el] at el'
  obtain rfl := Option.some.inj el'
  rw [el]
  constructor
  · constructor
    · intro h
      have : l = 0 := Option.some.inj h
      exact hl.1 (by omega)
    · intro h
      have := hl.2 h
      have : l = 0 := by omega
      rw [this]
  · constructor
    · intro h
      have : l = 3 := Option.some.inj h
      by_contra hcon
      have := hl'.2 (by omega)
      omega
    · intro h
      have h2 : ¬ l ≤ 2 := fun h3 => by
        have := hl'.1 h3
        omega
      have : l = 3 := by omega
      rw [this]

/-- With 4 levels on 1023 and no center the levels 0 and 1 are those of the
raw values up to 511, for every stretch. -/
theorem MappedPoti.four_level_middle (pf : Platform) (hb : 16 ≤ pf.intBits)
    (hf : 24 ≤ pf.floatPrec) (hd : 24 ≤ pf.doublePrec) (p : MappedPoti)
    (hn : p._numMapping = 4) (hst : p._stretch ≤ 20) (hm : p._maxAnalogVal = 1023)
    (r : Int) (h0 : 0 ≤ r) (h1 : r ≤ 1023) :
    ∃ l, MappedPoti.getMapping pf p r 0 0 = some l ∧ (l ≤ 1 ↔ r ≤ 511) := by
  have hi : p.implicitCenter 0 = false := by
    simp [MappedPoti.implicitCenter, hn]
  have hce : p.centered 0 = false := by simp [MappedPoti.centered, hi]
  obtain ⟨L, R⟩ := MappedPoti.plain_levels pf hb hf hd p hst (by omega) (by omega) 0 0 1023 hce
    (by rw [hm]; rfl) (by decide) (by decide)
  obtain ⟨x, rfl⟩ := Int.eq_ofNat_of_zero_le h0
  by_cases hx : x < (1023 + 1) / 2
  · obtain ⟨a1, a2⟩ := L x hx
    exact ⟨_, a1, ⟨fun _ => by omega, fun _ => by omega⟩⟩
  · obtain ⟨y, hy⟩ : ∃ y : Nat, y + x = 1023 := ⟨1023 - x, by omega⟩
    obtain ⟨b1, b2⟩ := R y (by omega)
    have e1 : ((x : Nat) : Int) = ((1023 : Nat) : Int) - (y : Int) := by omega
    rw [e1]
    refine ⟨_, b1, ⟨fun h => ?_, fun h => ?_⟩⟩
    · omega
    · omega

/-- C27 as stated fails where `_maxAnalogVal + 1` is not an `int`: with 16 bit
`int`, the largest analog value 32767 and 4 levels, the raw value 16384 of the
upper half (`leftSide` is false) has level 0 with stretch 1 and level 1 with
stretch 15: on the right side the level grows with the stretch. -/
theorem MappedPoti.stretch_not_monotone :
    ((MappedPoti.new 7 0 0 0 4 1).setMaxAnalogValue Platform.avr 32767).2._maxAnalogVal = 32767
    ∧ ((MappedPoti.new 7 0 0 0 4 1).setMaxAnalogValue Platform.avr 32767).2.leftSide
        Platform.avr 16384 0 = false
    ∧ MappedPoti.getMapping Platform.avr
        ((MappedPoti.new 7 0 0 0 4 1).setMaxAnalogValue Platform.avr 32767).2 16384 0 0 = some 0
    ∧ MappedPoti.getMapping Platform.avr
        ((MappedPoti.new 7 0 0 0 4 15).setMaxAnalogValue Platform.avr 32767).2 16384 0 0
      = some 1 := by
  decide!

/-- C27, amended.  On every platform with at least 16 bit `int` and 24 bit
significands, for 2 to 100 levels, an uneven largest analog value `m` with
`1 ≤ m < 32767`, without a center (`centerValLow = centerValHigh = 0`) or with
a center `0 < centerValLow ≤ centerValHigh < m` and at least 3 levels, every
raw value `r` in `0..m` and stretch values `s ≤ s' ≤ 20`: `getMapping` yields a
level for both stretch values, on the left side the level for `s'` is not
below the level for `s`, and elsewhere (right side, and the center, where both
are the middle level) it is not above it.  With 4 levels on 1023, on both
platform models, level 0 is the level of the raw values 0..255 for stretch 0,
0..231 for stretch 1 and 0..51 for stretch 20, and level 3 that of 768..1023,
792..1023 and 972..1023; for every stretch the levels 0 and 1 are those of the
raw values 0..511. -/
theorem MappedPoti.stretch_effect (pf : Platform) (hb : 16 ≤ pf.intBits)
    (hf : 24 ≤ pf.floatPrec) (hd : 24 ≤ pf.doublePrec) (p : MappedPoti)
    (hn1 : 2 ≤ p._numMapping) (hn2 : p._numMapping ≤ 100)
    (hodd : p._maxAnalogVal % 2 = 1) (hm1 : 1 ≤ p._maxAnalogVal)
    (hm2 : p._maxAnalogVal < 32767) (lo hi : Int)
    (hcen : (lo = 0 ∧ hi = 0)
      ∨ (0 < lo ∧ lo ≤ hi ∧ hi < p._maxAnalogVal ∧ 3 ≤ p._numMapping))
    (s s' : Nat) (hss : s ≤ s') (hs' : s' ≤ 20) (r : Int) (h0 : 0 ≤ r)
    (h1 : r ≤ p._maxAnalogVal) :
    (∃ l l', MappedPoti.getMapping pf { p with _stretch := s } r lo hi = some l
      ∧ MappedPoti.getMapping pf { p with _stretch := s' } r lo hi = some l'
      ∧ (p.leftSide pf r lo = true → l ≤ l')
      ∧ (p.leftSide pf r lo = false → l' ≤ l))
    ∧ (∀ pf' ∈ [Platform.avr, Platform.arm32], ∀ r' : Int, 0 ≤ r' → r' ≤ 1023 →
        (MappedPoti.getMapping pf' (MappedPoti.new 7 0 0 0 4 0) r' 0 0 = some 0 ↔ r' ≤ 255)
        ∧ (MappedPoti.getMapping pf' (MappedPoti.new 7 0 0 0 4 0) r' 0 0 = some 3 ↔ 768 ≤ r')
        ∧ (MappedPoti.getMapping pf' (MappedPoti.new 7 0 0 0 4 1) r' 0 0 = some 0 ↔ r' ≤ 231)
        ∧ (MappedPoti.getMapping pf' (MappedPoti.new 7 0 0 0 4 1) r' 0 0 = some 3 ↔ 792 ≤ r')
        ∧ (MappedPoti.getMapping pf' (MappedPoti.new 7 0 0 0 4 20) r' 0 0 = some 0 ↔ r' ≤ 51)
        ∧ (MappedPoti.getMapping pf' (MappedPoti.new 7 0 0 0 4 20) r' 0 0 = some 3 ↔ 972 ≤ r'))
    ∧ (∀ t : Nat, t ≤ 20 → ∀ r' : Int, 0 ≤ r' → r' ≤ 1023 →
        ∃ l, MappedPoti.getMapping pf (MappedPoti.new 7 0 0 0 4 t) r' 0 0 = some l
          ∧ (l ≤ 1 ↔ r' ≤ 511)) := by
  refine ⟨MappedPoti.stretch_pair pf hb hf hd p hn1 (by omega) hodd hm1 hm2 lo hi hcen s s' hss
    hs' r h0 h1, ?_, ?_⟩
  · intro pf' hpf' r' r0 r1
    have hP := MappedPoti.four_level_points pf' hpf'
    have hbits : 16 ≤ pf'.intBits ∧ 24 ≤ pf'.floatPrec ∧ 24 ≤ pf'.doublePrec := by
      simp only [List.mem_cons, List.mem_singleton, List.not_mem_nil, or_false] at hpf'
      rcases hpf' with rfl | rfl <;> decide
    obtain ⟨b1, b2, b3⟩ := hbits
    have z := fun (x : Nat) (hx : x ≤ 1023) =>
      MappedPoti.getMapping_linear_four pf' b1 (by omega) (by omega)
        (MappedPoti.new 7 0 0 0 4 0) x rfl rfl rfl hx
    obtain ⟨p1, p2, p3, p4, p5, p6, p7, p8⟩ := hP
    have q0 := MappedPoti.four_level_edges pf' b1 b2 b3 (MappedPoti.new 7 0 0 0 4 0) rfl
      (by decide) rfl 255 767 768 (by decide) (by decide) (by decide) (by decide)
      (z 255 (by decide)) (z 256 (by decide)) (z 767 (by decide)) (z 768 (by decide)) r' r0 r1
    have q1 := MappedPoti.four_level_edges pf' b1 b2 b3 (MappedPoti.new 7 0 0 0 4 1) rfl
      (by decide) rfl 231 791 792 (by decide) (by decide) (by decide) (by decide) p1 p2 p3 p4
      r' r0 r1
    have q20 := MappedPoti.four_level_edges pf' b1 b2 b3 (MappedPoti.new 7 0 0 0 4 20) rfl
      (by decide) rfl 51 971 972 (by decide) (by decide) (by decide) (by decide) p5 p6 p7 p8
      r' r0 r1
    exact ⟨q0.1, q0.2, q1.1, q1.2, q20.1, q20.2⟩
  · intro t ht r' r0 r1
    exact MappedPoti.four_level_middle pf hb hf hd (MappedPoti.new 7 0 0 0 4 t) rfl
      (by
        show (if t > 20 then 20 else t) ≤ 20
        split_ifs <;> omega)
      rfl r' r0 r1

/-- Witness for C27: 20 levels on 1023, raw 100, stretch 3 and stretch 12, on
an 8-bit AVR. -/
theorem MappedPoti.stretch_effect_witness :
    (∃ l l', MappedPoti.getMapping Platform.avr { (MappedPoti.new 7 0 0 0 20 0) with _stretch := 3 } 100 0 0 = some l
      ∧ MappedPoti.getMapping Platform.avr { (MappedPoti.new 7 0 0 0 20 0) with _stretch := 12 } 100 0 0 = some l'
      ∧ ((MappedPoti.new 7 0 0 0 20 0).leftSide Platform.avr 100 0 = true → l ≤ l')
      ∧ ((MappedPoti.new 7 0 0 0 20 0).leftSide Platform.avr 100 0 = false → l' ≤ l))
    ∧ (∀ pf' ∈ [Platform.avr, Platform.arm32], ∀ r' : Int, 0 ≤ r' → r' ≤ 1023 →
        (MappedPoti.getMapping pf' (MappedPoti.new 7 0 0 0 4 0) r' 0 0 = some 0 ↔ r' ≤ 255)
        ∧ (MappedPoti.getMapping pf' (MappedPoti.new 7 0 0 0 4 0) r' 0 0 = some 3 ↔ 768 ≤ r')
        ∧ (MappedPoti.getMapping pf' (MappedPoti.new 7 0 0 0 4 1) r' 0 0 = some 0 ↔ r' ≤ 231)
        ∧ (MappedPoti.getMapping pf' (MappedPoti.new 7 0 0 0 4 1) r' 0 0 = some 3 ↔ 792 ≤ r')
        ∧ (MappedPoti.getMapping pf' (MappedPoti.new 7 0 0 0 4 20) r' 0 0 = some 0 ↔ r' ≤ 51)
        ∧ (MappedPoti.getMapping pf' (MappedPoti.new 7 0 0 0 4 20) r' 0 0 = some 3 ↔ 972 ≤ r'))
    ∧ (∀ t : Nat, t ≤ 20 → ∀ r' : Int, 0 ≤ r' → r' ≤ 1023 →
        ∃ l, MappedPoti.getMapping Platform.avr (MappedPoti.new 7 0 0 0 4 t) r' 0 0 = some l
          ∧ (l ≤ 1 ↔ r' ≤ 511)) :=
  MappedPoti.stretch_effect Platform.avr (by decide) (by decide) (by decide)
    (MappedPoti.new 7 0 0 0 20 0) (by decide) (by decide) (by decide) (by decide) (by decide)
    0 0 (Or.inl ⟨rfl, rfl⟩) 3 12 (by decide) (by decide) 100 (by decide) (by decide)

/-! ## The clock -/

/-- The difference of two clock values is the time between them, also when
the clock has wrapped around in between. -/
theorem elapsedMillis_true (tLast tNow : Nat) (h1 : tLast ≤ tNow)
    (h2 : tNow - tLast < 4294967296) :
    elapsedMillis (tNow % 4294967296) (tLast % 4294967296) = tNow - tLast := by
  unfold elapsedMillis
  omega

/-- C33. Clock wraparound: let the last read be at the time `tLast` and the
poll at the time `tNow ≥ tLast`, less than `2 ^ 32` ms later, so that the
32 bit clock `millis()` showed `tLast mod 2 ^ 32 > 0` and shows
`tNow mod 2 ^ 32` (it may have wrapped around in between).  Then the elapsed
time of the gate is `tNow - tLast`, and `Poti::hasChanged` and, outside an
averaging sequence, `StablePoti::getStabilizedRawValue` are gated out exactly
when `tNow - tLast < _readCycleMillis`. -/
theorem clock_wraparound (p : Poti) (s : StablePoti) (tLast tNow : Nat) (h1 : tLast ≤ tNow)
    (h2 : tNow - tLast < 4294967296) (hp : p._lastReadMillis = tLast % 4294967296)
    (hs : s._lastReadMillis = tLast % 4294967296) (h0 : 0 < tLast % 4294967296)
    (hopen : s._openNumRawAvg = 0) :
    elapsedMillis (tNow % 4294967296) (tLast % 4294967296) = tNow - tLast
    ∧ elapsedMillis (tNow % 4294967296) (tLast % 4294967296)
        = (tNow % 4294967296 + 4294967296 - tLast % 4294967296) % 4294967296
    ∧ (p.gatedOut (tNow % 4294967296) = true ↔ tNow - tLast < p._readCycleMillis)
    ∧ (s.gatedOut (tNow % 4294967296) = true ↔ tNow - tLast < s._readCycleMillis) := by
  have e := elapsedMillis_true tLast tNow h1 h2
  refine ⟨e, ?_, ?_, ?_⟩
  · unfold elapsedMillis
    omega
  · simp only [Poti.gatedOut, hp, e, Bool.and_eq_true, decide_eq_true_eq]
    constructor
    · intro h
      exact h.2
    · intro h
      exact ⟨⟨by omega, h0⟩, h⟩
  · simp only [StablePoti.gatedOut, hopen, if_true, Poti.gatedOut, hs, e, Bool.and_eq_true,
      decide_eq_true_eq]
    constructor
    · intro h
      exact h.2
    · intro h
      exact ⟨⟨by omega, h0⟩, h⟩

/-- Witness for C33: the last read 10 ms before the clock wraps around, the
poll 5 ms after it, with a read cycle of 20 ms. -/
theorem clock_wraparound_witness :
    elapsedMillis (4294967301 % 4294967296) (4294967286 % 4294967296) = 4294967301 - 4294967286
    ∧ elapsedMillis (4294967301 % 4294967296) (4294967286 % 4294967296)
        = (4294967301 % 4294967296 + 4294967296 - 4294967286 % 4294967296) % 4294967296
    ∧ ((⟨7, 20, 4294967286, 100, 200⟩ : Poti).gatedOut (4294967301 % 4294967296) = true
        ↔ 4294967301 - 4294967286 < (⟨7, 20, 4294967286, 100, 200⟩ : Poti)._readCycleMillis)
    ∧ ((⟨⟨7, 20, 4294967286, 100, 200⟩, 3, 0, 400, 4, 100⟩ : StablePoti).gatedOut
          (4294967301 % 4294967296) = true
        ↔ 4294967301 - 4294967286
          < (⟨⟨7, 20, 4294967286, 100, 200⟩, 3, 0, 400, 4, 100⟩ : StablePoti)._readCycleMillis) :=
  clock_wraparound ⟨7, 20, 4294967286, 100, 200⟩ ⟨⟨7, 20, 4294967286, 100, 200⟩, 3, 0, 400, 4, 100⟩
    4294967286 4294967301 (by decide) (by decide) (by decide) (by decide) (by decide) rfl

/-! ## Current and previous value differ -/

theorem Poti.hasChanged_differ (p : Poti) (current : Nat) (raw : Int)
    (h : p._curValue ≠ POTI_VALUE_UNDEFINED → p._curValue ≠ p._prevValue) :
    (p.hasChanged current raw).2._curValue ≠ POTI_VALUE_UNDEFINED →
      (p.hasChanged current raw).2._curValue ≠ (p.hasChanged current raw).2._prevValue := by
  unfold Poti.hasChanged
  split_ifs with h1 h2
  · exact h
  · intro _
    exact h2
  · exact h

theorem Poti.exec_differ : ∀ (cs : List PotiCall) (p : Poti),
    (p._curValue ≠ POTI_VALUE_UNDEFINED → p._curValue ≠ p._prevValue) →
    ((Poti.exec p cs)._curValue ≠ POTI_VALUE_UNDEFINED →
      (Poti.exec p cs)._curValue ≠ (Poti.exec p cs)._prevValue) := by
  intro cs
  induction cs with
  | nil => intro p h; exact h
  | cons c cs ih =>
    intro p h
    cases c with
    | poll q => exact ih _ (Poti.hasChanged_differ p q.current q.raw h)
    | reset => exact ih p.reset (fun h' => absurd rfl h')

theorem StablePoti.stable_hasChanged_differ (pf : Platform) (p : StablePoti) (current : Nat) (raw : Int)
    (h : p._curValue ≠ POTI_VALUE_UNDEFINED → p._curValue ≠ p._prevValue) :
    (p.hasChanged pf current raw).2._curValue ≠ POTI_VALUE_UNDEFINED →
      (p.hasChanged pf current raw).2._curValue ≠ (p.hasChanged pf current raw).2._prevValue := by
  have hf := StablePoti.getStabilizedRawValue_frame pf p current raw
  unfold StablePoti.hasChanged
  split_ifs with h1 h2
  · rw [hf.1, hf.2.1]
    exact h
  · intro _
    exact h2
  · rw [hf.1, hf.2.1]
    exact h

theorem StablePoti.stable_exec_differ (pf : Platform) : ∀ (cs : List PotiCall) (p : StablePoti),
    (p._curValue ≠ POTI_VALUE_UNDEFINED → p._curValue ≠ p._prevValue) →
    ((StablePoti.exec pf p cs)._curValue ≠ POTI_VALUE_UNDEFINED →
      (StablePoti.exec pf p cs)._curValue ≠ (StablePoti.exec pf p cs)._prevValue) := by
  intro cs
  induction cs with
  | nil => intro p h; exact h
  | cons c cs ih =>
    intro p h
    cases c with
    | poll q => exact ih _ (StablePoti.stable_hasChanged_differ pf p q.current q.raw h)
    | reset => exact ih p.reset (fun h' => absurd rfl h')

/-- A call of `MappedPoti::hasChanged` leaves the value and level pairs as they
are, or stores a defined value with a level other than the current level. -/
theorem MappedPoti.hasChanged_update (pf : Platform) (p : MappedPoti) (current : Nat) (raw : Int)
    (res : Bool × MappedPoti) (h : p.hasChanged pf current raw = some res) :
    (res.2.getValue = p.getValue ∧ res.2.getMappedValue = p.getMappedValue
      ∧ res.2.getPrevValue = p.getPrevValue
      ∧ res.2.getMappedPrevValue = p.getMappedPrevValue)
    ∨ (res.2.getPrevValue = p.getValue ∧ res.2.getMappedPrevValue = p.getMappedValue
      ∧ MappedPoti.getMapping pf p res.2.getValue 0 0 = some res.2.getMappedValue
      ∧ res.2.getValue ≠ POTI_VALUE_UNDEFINED
      ∧ res.2.getMappedValue ≠ p.getMappedValue) := by
  have hf := StablePoti.getStabilizedRawValue_frame pf p.toStablePoti current raw
  unfold MappedPoti.hasChanged at h
  split_ifs at h with h1 h2
  · obtain rfl := (Option.some.inj h).symm
    exact Or.inl ⟨hf.1, rfl, hf.2.1, rfl⟩
  · obtain rfl := (Option.some.inj h).symm
    exact Or.inl ⟨hf.1, rfl, hf.2.1, rfl⟩
  · simp only [Option.map_eq_some'] at h
    obtain ⟨lvl, hm, hl⟩ := h
    split_ifs at hl with h3
    · obtain rfl := hl.symm
      exact Or.inr ⟨rfl, rfl, hm, h1, h3⟩
    · obtain rfl := hl.symm
      exact Or.inl ⟨hf.1, rfl, hf.2.1, rfl⟩

/-- The same for `CenteredPoti::hasChanged`, with the center of the object. -/
theorem CenteredPoti.centered_hasChanged_update (pf : Platform) (p : CenteredPoti)
    (current : Nat) (raw : Int) (res : Bool × CenteredPoti)
    (h : p.hasChanged pf current raw = some res) :
    (res.2.getValue = p.getValue ∧ res.2.getMappedValue = p.getMappedValue
      ∧ res.2.getPrevValue = p.getPrevValue
      ∧ res.2.getMappedPrevValue = p.getMappedPrevValue)
    ∨ (res.2.getPrevValue = p.getValue ∧ res.2.getMappedPrevValue = p.getMappedValue
      ∧ MappedPoti.getMapping pf p.toMappedPoti res.2.getValue p._centerValLow p._centerValHigh
          = some res.2.getMappedValue
      ∧ res.2.getValue ≠ POTI_VALUE_UNDEFINED
      ∧ res.2.getMappedValue ≠ p.getMappedValue) := by
  have hf := StablePoti.getStabilizedRawValue_frame pf p.toStablePoti current raw
  unfold CenteredPoti.hasChanged at h
  split_ifs at h with h1 h2
  · obtain rfl := (Option.some.inj h).symm
    exact Or.inl ⟨hf.1, rfl, hf.2.1, rfl⟩
  · obtain rfl := (Option.some.inj h).symm
    exact Or.inl ⟨hf.1, rfl, hf.2.1, rfl⟩
  · simp only [Option.map_eq_some'] at h
    obtain ⟨lvl, hm, hl⟩ := h
    split_ifs at hl with h3
    · obtain rfl := hl.symm
      exact Or.inr ⟨rfl, rfl, hm, h1, h3⟩
    · obtain rfl := hl.symm
      exact Or.inl ⟨hf.1, rfl, hf.2.1, rfl⟩

/-- Arithmetic of one call on the pairs: paired and differing pairs stay so. -/
theorem pairs_differ_step (f : Int → Option Nat) (v pv v' pv' : Int) (l pl l' pl' : Nat)
    (hpair : (v = POTI_VALUE_UNDEFINED ∧ l = POTI_MAPPING_UNDEFINED) ∨ f v = some l)
    (hv : v ≠ POTI_VALUE_UNDEFINED → v ≠ pv) (hl : l ≠ POTI_MAPPING_UNDEFINED → l ≠ pl)
    (hstep : (v' = v ∧ l' = l ∧ pv' = pv ∧ pl' = pl)
      ∨ (pv' = v ∧ pl' = l ∧ f v' = some l' ∧ v' ≠ POTI_VALUE_UNDEFINED ∧ l' ≠ l)) :
    (v' ≠ POTI_VALUE_UNDEFINED → v' ≠ pv') ∧ (l' ≠ POTI_MAPPING_UNDEFINED → l' ≠ pl') := by
  rcases hstep with ⟨rfl, rfl, rfl, rfl⟩ | ⟨rfl, rfl, hf, hd, hne⟩
  · exact ⟨hv, hl⟩
  · refine ⟨fun _ hvv => ?_, fun _ => hne⟩
    rcases hpair with ⟨hu, -⟩ | hp
    · exact hd (hvv.trans hu)
    · rw [hvv, hp] at hf
      exact hne (Option.some.inj hf).symm

theorem MappedPoti.mapped_exec_differ (pf : Platform) : ∀ (cs : List PotiCall) (p p' : MappedPoti),
    MappedPoti.Paired pf p 0 0 p.getValue p.getMappedValue →
    MappedPoti.Paired pf p 0 0 p.getPrevValue p.getMappedPrevValue →
    (p.getValue ≠ POTI_VALUE_UNDEFINED → p.getValue ≠ p.getPrevValue) →
    (p.getMappedValue ≠ POTI_MAPPING_UNDEFINED → p.getMappedValue ≠ p.getMappedPrevValue) →
    MappedPoti.exec pf p cs = some p' →
    (p'.getValue ≠ POTI_VALUE_UNDEFINED → p'.getValue ≠ p'.getPrevValue)
      ∧ (p'.getMappedValue ≠ POTI_MAPPING_UNDEFINED →
          p'.getMappedValue ≠ p'.getMappedPrevValue) := by
  intro cs
  induction cs with
  | nil =>
    intro p p' _ _ h1 h2 h
    simp only [MappedPoti.exec, Option.some.injEq] at h
    subst h
    exact ⟨h1, h2⟩
  | cons c cs ih =>
    intro p p' g1 g2 h1 h2 h
    cases c with
    | poll q =>
      simp only [MappedPoti.exec, Option.bind_eq_some] at h
      obtain ⟨res, hres, hrest⟩ := h
      obtain ⟨k1, k2⟩ := MappedPoti.hasChanged_paired pf p q.current q.raw res hres g1 g2
      obtain ⟨d1, d2⟩ := pairs_differ_step (fun v => MappedPoti.getMapping pf p v 0 0) _ _ _ _ _ _
        _ _ g1 h1 h2 (MappedPoti.hasChanged_update pf p q.current q.raw res hres)
      exact ih res.2 p' k1 k2 d1 d2 hrest
    | reset =>
      simp only [MappedPoti.exec] at h
      exact ih p.reset p' (Or.inl ⟨rfl, rfl⟩) (Or.inl ⟨rfl, rfl⟩) (fun h' => absurd rfl h')
        (fun h' => absurd rfl h') h

theorem CenteredPoti.centered_exec_differ (pf : Platform) :
    ∀ (cs : List PotiCall) (p p' : CenteredPoti),
    MappedPoti.Paired pf p.toMappedPoti p._centerValLow p._centerValHigh p.getValue
      p.getMappedValue →
    MappedPoti.Paired pf p.toMappedPoti p._centerValLow p._centerValHigh p.getPrevValue
      p.getMappedPrevValue →
    (p.getValue ≠ POTI_VALUE_UNDEFINED → p.getValue ≠ p.getPrevValue) →
    (p.getMappedValue ≠ POTI_MAPPING_UNDEFINED → p.getMappedValue ≠ p.getMappedPrevValue) →
    CenteredPoti.exec pf p cs = some p' →
    (p'.getValue ≠ POTI_VALUE_UNDEFINED → p'.getValue ≠ p'.getPrevValue)
      ∧ (p'.getMappedValue ≠ POTI_MAPPING_UNDEFINED →
          p'.getMappedValue ≠ p'.getMappedPrevValue) := by
  intro cs
  induction cs with
  | nil =>
    intro p p' _ _ h1 h2 h
    simp only [CenteredPoti.exec, Option.some.injEq] at h
    subst h
    exact ⟨h1, h2⟩
  | cons c cs ih =>
    intro p p' g1 g2 h1 h2 h
    cases c with
    | poll q =>
      simp only [CenteredPoti.exec, Option.bind_eq_some] at h
      obtain ⟨res, hres, hrest⟩ := h
      obtain ⟨k1, k2⟩ := CenteredPoti.centered_hasChanged_paired pf p q.current q.raw res hres
        g1 g2
      obtain ⟨d1, d2⟩ := pairs_differ_step
        (fun v => MappedPoti.getMapping pf p.toMappedPoti v p._centerValLow p._centerValHigh)
        _ _ _ _ _ _ _ _ g1 h1 h2 (CenteredPoti.centered_hasChanged_update pf p q.current q.raw
          res hres)
      exact ih res.2 p' k1 k2 d1 d2 hrest
    | reset =>
      simp only [CenteredPoti.exec] at h
      exact ih p.reset p' (Or.inl ⟨rfl, rfl⟩) (Or.inl ⟨rfl, rfl⟩) (fun h' => absurd rfl h')
        (fun h' => absurd rfl h') h

/-- C39. Current and previous always differ: from a constructed `Poti`,
`StablePoti`, `MappedPoti` or `CenteredPoti`, after every sequence of
`hasChanged()` and `reset()` calls (for `MappedPoti` and `CenteredPoti`: with a
defined result), with any samples, `getValue()` is `POTI_VALUE_UNDEFINED` or
differs from `getPrevValue()`, and for `MappedPoti` and `CenteredPoti`
`getMappedValue()` is `POTI_MAPPING_UNDEFINED` or differs from
`getMappedPrevValue()`. -/
theorem current_previous_differ (pf : Platform) (p : Poti) (s : StablePoti) (m : MappedPoti)
    (c : CenteredPoti) (hp : p.Fresh) (hs : s.Fresh) (hm : m.Fresh) (hc : c.Fresh)
    (cs : List PotiCall) :
    ((p.exec cs).getValue ≠ POTI_VALUE_UNDEFINED →
        (p.exec cs).getValue ≠ (p.exec cs).getPrevValue)
    ∧ ((StablePoti.exec pf s cs).getValue ≠ POTI_VALUE_UNDEFINED →
        (StablePoti.exec pf s cs).getValue ≠ (StablePoti.exec pf s cs).getPrevValue)
    ∧ (∀ m' : MappedPoti, MappedPoti.exec pf m cs = some m' →
        (m'.getValue ≠ POTI_VALUE_UNDEFINED → m'.getValue ≠ m'.getPrevValue)
        ∧ (m'.getMappedValue ≠ POTI_MAPPING_UNDEFINED →
            m'.getMappedValue ≠ m'.getMappedPrevValue))
    ∧ (∀ c' : CenteredPoti, CenteredPoti.exec pf c cs = some c' →
        (c'.getValue ≠ POTI_VALUE_UNDEFINED → c'.getValue ≠ c'.getPrevValue)
        ∧ (c'.getMappedValue ≠ POTI_MAPPING_UNDEFINED →
            c'.getMappedValue ≠ c'.getMappedPrevValue)) := by
  refine ⟨Poti.exec_differ cs p (fun h => absurd hp.2.1 h),
    StablePoti.stable_exec_differ pf cs s (fun h => absurd hs.1.2.1 h), fun m' h => ?_, fun c' h => ?_⟩
  · exact MappedPoti.mapped_exec_differ pf cs m m' (Or.inl ⟨hm.1.1.2.1, hm.2.1⟩)
      (Or.inl ⟨hm.1.1.2.2, hm.2.2⟩) (fun h' => absurd hm.1.1.2.1 h') (fun h' => absurd hm.2.1 h') h
  · exact CenteredPoti.centered_exec_differ pf cs c c' (Or.inl ⟨hc.1.1.2.1, hc.2.1⟩)
      (Or.inl ⟨hc.1.1.2.2, hc.2.2⟩) (fun h' => absurd hc.1.1.2.1 h') (fun h' => absurd hc.2.1 h') h

/-- Witness for C39: one object of each class on an 8-bit AVR, polled at raw
100 and 900, reset and polled at raw 300. -/
theorem current_previous_differ_witness :
    (((Poti.new 7 0).exec [PotiCall.poll ⟨0, 100⟩, PotiCall.poll ⟨1, 900⟩, PotiCall.reset, PotiCall.poll ⟨2, 300⟩]).getValue ≠ POTI_VALUE_UNDEFINED →
        ((Poti.new 7 0).exec [PotiCall.poll ⟨0, 100⟩, PotiCall.poll ⟨1, 900⟩, PotiCall.reset, PotiCall.poll ⟨2, 300⟩]).getValue ≠ ((Poti.new 7 0).exec [PotiCall.poll ⟨0, 100⟩, PotiCall.poll ⟨1, 900⟩, PotiCall.reset, PotiCall.poll ⟨2, 300⟩]).getPrevValue)
    ∧ ((StablePoti.exec Platform.avr (StablePoti.new 7 0 4 1) [PotiCall.poll ⟨0, 100⟩, PotiCall.poll ⟨1, 900⟩, PotiCall.reset, PotiCall.poll ⟨2, 300⟩]).getValue ≠ POTI_VALUE_UNDEFINED →
        (StablePoti.exec Platform.avr (StablePoti.new 7 0 4 1) [PotiCall.poll ⟨0, 100⟩, PotiCall.poll ⟨1, 900⟩, PotiCall.reset, PotiCall.poll ⟨2, 300⟩]).getValue ≠ (StablePoti.exec Platform.avr (StablePoti.new 7 0 4 1) [PotiCall.poll ⟨0, 100⟩, PotiCall.poll ⟨1, 900⟩, PotiCall.reset, PotiCall.poll ⟨2, 300⟩]).getPrevValue)
    ∧ (∀ m' : MappedPoti, MappedPoti.exec Platform.avr (MappedPoti.new 7 0 0 0 4 0) [PotiCall.poll ⟨0, 100⟩, PotiCall.poll ⟨1, 900⟩, PotiCall.reset, PotiCall.poll ⟨2, 300⟩] = some m' →
        (m'.getValue ≠ POTI_VALUE_UNDEFINED → m'.getValue ≠ m'.getPrevValue)
        ∧ (m'.getMappedValue ≠ POTI_MAPPING_UNDEFINED →
            m'.getMappedValue ≠ m'.getMappedPrevValue))
    ∧ (∀ c' : CenteredPoti, CenteredPoti.exec Platform.avr (CenteredPoti.new Platform.avr 7 0 0 0 5 0 0 0) [PotiCall.poll ⟨0, 100⟩, PotiCall.poll ⟨1, 900⟩, PotiCall.reset, PotiCall.poll ⟨2, 300⟩] = some c' →
        (c'.getValue ≠ POTI_VALUE_UNDEFINED → c'.getValue ≠ c'.getPrevValue)
        ∧ (c'.getMappedValue ≠ POTI_MAPPING_UNDEFINED →
            c'.getMappedValue ≠ c'.getMappedPrevValue)) :=
  current_previous_differ Platform.avr (Poti.new 7 0) (StablePoti.new 7 0 4 1)
    (MappedPoti.new 7 0 0 0 4 0) (CenteredPoti.new Platform.avr 7 0 0 0 5 0 0 0)
    ⟨rfl, rfl, rfl⟩ ⟨⟨rfl, rfl, rfl⟩, rfl, rfl, rfl⟩ ⟨⟨⟨rfl, rfl, rfl⟩, rfl, rfl, rfl⟩, rfl, rfl⟩
    ⟨⟨⟨rfl, rfl, rfl⟩, rfl, rfl, rfl⟩, rfl, rfl⟩
    [PotiCall.poll ⟨0, 100⟩, PotiCall.poll ⟨1, 900⟩, PotiCall.reset, PotiCall.poll ⟨2, 300⟩]

/-! ## The level follows the stabilized value -/

/-- In a call of `MappedPoti::hasChanged` the current level stays the level of
the smoothed previous value, and becomes the level of the stabilized value
when one is returned. -/
theorem MappedPoti.hasChanged_lag (pf : Platform) (p : MappedPoti) (current : Nat) (raw : Int)
    (res : Bool × MappedPoti) (h : p.hasChanged pf current raw = some res)
    (hJ : p._prevValueInternal ≠ POTI_VALUE_UNDEFINED →
      MappedPoti.getMapping pf p p._prevValueInternal 0 0 = some p._curMapValue) :
    ((p.toStablePoti.getStabilizedRawValue pf current raw).1 ≠ POTI_VALUE_UNDEFINED →
      MappedPoti.getMapping pf p (p.toStablePoti.getStabilizedRawValue pf current raw).1 0 0
        = some res.2._curMapValue)
    ∧ (res.2._prevValueInternal ≠ POTI_VALUE_UNDEFINED →
      MappedPoti.getMapping pf p res.2._prevValueInternal 0 0 = some res.2._curMapValue) := by
  have ha := StablePoti.prevValueInternal_after pf p.toStablePoti current raw
  unfold MappedPoti.hasChanged at h
  split_ifs at h with h1 h2
  · obtain rfl := (Option.some.inj h).symm
    refine ⟨fun hne => absurd h1 hne, fun hne => ?_⟩
    rcases ha with e | ⟨-, e⟩
    · exact absurd (e.trans h1) hne
    · have hne' : p._prevValueInternal ≠ POTI_VALUE_UNDEFINED := fun hh => hne (e.trans hh)
      show MappedPoti.getMapping pf p
        (p.toStablePoti.getStabilizedRawValue pf current raw).2._prevValueInternal 0 0 = _
      rw [e]
      exact hJ hne'
  · obtain rfl := (Option.some.inj h).symm
    have e : (p.toStablePoti.getStabilizedRawValue pf current raw).2._prevValueInternal
        = (p.toStablePoti.getStabilizedRawValue pf current raw).1 := by
      rcases ha with e | ⟨e, -⟩
      · exact e
      · exact absurd e h1
    have hv : MappedPoti.getMapping pf p (p.toStablePoti.getStabilizedRawValue pf current raw).1
        0 0 = some p._curMapValue := by
      rw [h2]
      exact hJ (fun hh => h1 (h2.trans hh))
    refine ⟨fun _ => hv, fun _ => ?_⟩
    show MappedPoti.getMapping pf p
      (p.toStablePoti.getStabilizedRawValue pf current raw).2._prevValueInternal 0 0 = _
    rw [e]
    exact hv
  · have e : (p.toStablePoti.getStabilizedRawValue pf current raw).2._prevValueInternal
        = (p.toStablePoti.getStabilizedRawValue pf current raw).1 := by
      rcases ha with e | ⟨e, -⟩
      · exact e
      · exact absurd e h1
    simp only [Option.map_eq_some'] at h
    obtain ⟨lvl, hm, hl⟩ := h
    split_ifs at hl with h3
    · obtain rfl := hl.symm
      refine ⟨fun _ => hm, fun _ => ?_⟩
      show MappedPoti.getMapping pf p
        (p.toStablePoti.getStabilizedRawValue pf current raw).2._prevValueInternal 0 0 = _
      rw [e]
      exact hm
    · obtain rfl := hl.symm
      have h4 : lvl = p._curMapValue := by
        by_contra hh
        exact h3 hh
      rw [h4] at hm
      refine ⟨fun _ => hm, fun _ => ?_⟩
      show MappedPoti.getMapping pf p
        (p.toStablePoti.getStabilizedRawValue pf current raw).2._prevValueInternal 0 0 = _
      rw [e]
      exact hm

/-- The same for `CenteredPoti::hasChanged`, with the center of the object. -/
theorem CenteredPoti.centered_hasChanged_lag (pf : Platform) (p : CenteredPoti) (current : Nat)
    (raw : Int) (res : Bool × CenteredPoti) (h : p.hasChanged pf current raw = some res)
    (hJ : p._prevValueInternal ≠ POTI_VALUE_UNDEFINED →
      MappedPoti.getMapping pf p.toMappedPoti p._prevValueInternal p._centerValLow
        p._centerValHigh = some p._curMapValue) :
    ((p.toStablePoti.getStabilizedRawValue pf current raw).1 ≠ POTI_VALUE_UNDEFINED →
      MappedPoti.getMapping pf p.toMappedPoti
        (p.toStablePoti.getStabilizedRawValue pf current raw).1 p._centerValLow p._centerValHigh
        = some res.2._curMapValue)
    ∧ (res.2._prevValueInternal ≠ POTI_VALUE_UNDEFINED →
      MappedPoti.getMapping pf p.toMappedPoti res.2._prevValueInternal p._centerValLow
        p._centerValHigh = some res.2._curMapValue) := by
  have ha := StablePoti.prevValueInternal_after pf p.toStablePoti current raw
  unfold CenteredPoti.hasChanged at h
  split_ifs at h with h1 h2
  · obtain rfl := (Option.some.inj h).symm
    refine ⟨fun hne => absurd h1 hne, fun hne => ?_⟩
    rcases ha with e | ⟨-, e⟩
    · exact absurd (e.trans h1) hne
    · have hne' : p._prevValueInternal ≠ POTI_VALUE_UNDEFINED := fun hh => hne (e.trans hh)
      show MappedPoti.getMapping pf p.toMappedPoti
        (p.toStablePoti.getStabilizedRawValue pf current raw).2._prevValueInternal _ _ = _
      rw [e]
      exact hJ hne'
  · obtain rfl := (Option.some.inj h).symm
    have e : (p.toStablePoti.getStabilizedRawValue pf current raw).2._prevValueInternal
        = (p.toStablePoti.getStabilizedRawValue pf current raw).1 := by
      rcases ha with e | ⟨e, -⟩
      · exact e
      · exact absurd e h1
    have hv : MappedPoti.getMapping pf p.toMappedPoti
        (p.toStablePoti.getStabilizedRawValue pf current raw).1 p._centerValLow p._centerValHigh
        = some p._curMapValue := by
      rw [h2]
      exact hJ (fun hh => h1 (h2.trans hh))
    refine ⟨fun _ => hv, fun _ => ?_⟩
    show MappedPoti.getMapping pf p.toMappedPoti
      (p.toStablePoti.getStabilizedRawValue pf current raw).2._prevValueInternal _ _ = _
    rw [e]
    exact hv
  · have e : (p.toStablePoti.getStabilizedRawValue pf current raw).2._prevValueInternal
        = (p.toStablePoti.getStabilizedRawValue pf current raw).1 := by
      rcases ha with e | ⟨e, -⟩
      · exact e
      · exact absurd e h1
    simp only [Option.map_eq_some'] at h
    obtain ⟨lvl, hm, hl⟩ := h
    split_ifs at hl with h3
    · obtain rfl := hl.symm
      refine ⟨fun _ => hm, fun _ => ?_⟩
      show MappedPoti.getMapping pf p.toMappedPoti
        (p.toStablePoti.getStabilizedRawValue pf current raw).2._prevValueInternal _ _ = _
      rw [e]
      exact hm
    · obtain rfl := hl.symm
      have h4 : lvl = p._curMapValue := by
        by_contra hh
        exact h3 hh
      rw [h4] at hm
      refine ⟨fun _ => hm, fun _ => ?_⟩
      show MappedPoti.getMapping pf p.toMappedPoti
        (p.toStablePoti.getStabilizedRawValue pf current raw).2._prevValueInternal _ _ = _
      rw [e]
      exact hm

theorem MappedPoti.exec_lag (pf : Platform) : ∀ (cs : List PotiCall) (p p' : MappedPoti),
    (p._prevValueInternal ≠ POTI_VALUE_UNDEFINED →
      MappedPoti.getMapping pf p p._prevValueInternal 0 0 = some p._curMapValue) →
    MappedPoti.exec pf p cs = some p' →
    (p'._prevValueInternal ≠ POTI_VALUE_UNDEFINED →
      MappedPoti.getMapping pf p' p'._prevValueInternal 0 0 = some p'._curMapValue) := by
  intro cs
  induction cs with
  | nil =>
    intro p p' hJ h
    simp only [MappedPoti.exec, Option.some.injEq] at h
    subst h
    exact hJ
  | cons c cs ih =>
    intro p p' hJ h
    cases c with
    | poll q =>
      simp only [MappedPoti.exec, Option.bind_eq_some] at h
      obtain ⟨res, hres, hrest⟩ := h
      have hc := MappedPoti.mapped_hasChanged_config pf p q.current q.raw res hres
      have hg := MappedPoti.getMapping_of_config pf p res.2 hc
      refine ih res.2 p' (fun hne => ?_) hrest
      rw [hg]
      exact (MappedPoti.hasChanged_lag pf p q.current q.raw res hres hJ).2 hne
    | reset =>
      simp only [MappedPoti.exec] at h
      exact ih p.reset p' (fun hne => absurd rfl hne) h

theorem CenteredPoti.centered_exec_lag (pf : Platform) :
    ∀ (cs : List PotiCall) (p p' : CenteredPoti),
    (p._prevValueInternal ≠ POTI_VALUE_UNDEFINED →
      MappedPoti.getMapping pf p.toMappedPoti p._prevValueInternal p._centerValLow
        p._centerValHigh = some p._curMapValue) →
    CenteredPoti.exec pf p cs = some p' →
    (p'._prevValueInternal ≠ POTI_VALUE_UNDEFINED →
      MappedPoti.getMapping pf p'.toMappedPoti p'._prevValueInternal p'._centerValLow
        p'._centerValHigh = some p'._curMapValue) := by
  intro cs
  induction cs with
  | nil =>
    intro p p' hJ h
    simp only [CenteredPoti.exec, Option.some.injEq] at h
    subst h
    exact hJ
  | cons c cs ih =>
    intro p p' hJ h
    cases c with
    | poll q =>
      simp only [CenteredPoti.exec, Option.bind_eq_some] at h
      obtain ⟨res, hres, hrest⟩ := h
      have hc := CenteredPoti.centered_hasChanged_config pf p q.current q.raw res hres
      simp only [CenteredPoti.config, Prod.mk.injEq] at hc
      have hg := MappedPoti.getMapping_of_config pf p.toMappedPoti res.2.toMappedPoti hc.1
      refine ih res.2 p' (fun hne => ?_) hrest
      rw [hg, hc.2.1, hc.2.2]
      exact (CenteredPoti.centered_hasChanged_lag pf p q.current q.raw res hres hJ).2 hne
    | reset =>
      simp only [CenteredPoti.exec] at h
      exact ih p.reset p' (fun hne => absurd rfl hne) h

/-- C34. The level never lags: from a constructed `MappedPoti` or
`CenteredPoti`, after every sequence of `hasChanged()` and `reset()` calls with
a defined result, a further `hasChanged()` with a defined result in which
`getStabilizedRawValue` returns a value `v` other than `POTI_VALUE_UNDEFINED`
leaves `getMappedValue()` equal to `getMapping(v)` (with the center arguments
of the instance), whether it returns true or false. -/
theorem level_never_lags (pf : Platform) (m : MappedPoti) (c : CenteredPoti) (hm : m.Fresh)
    (hc : c.Fresh) (cs : List PotiCall) (q : Poll) :
    (∀ (m' : MappedPoti) (res : Bool × MappedPoti), MappedPoti.exec pf m cs = some m' →
        m'.hasChanged pf q.current q.raw = some res →
        (m'.toStablePoti.getStabilizedRawValue pf q.current q.raw).1 ≠ POTI_VALUE_UNDEFINED →
        MappedPoti.getMapping pf m'
            (m'.toStablePoti.getStabilizedRawValue pf q.current q.raw).1 0 0
          = some res.2.getMappedValue)
    ∧ (∀ (c' : CenteredPoti) (res : Bool × CenteredPoti),
        CenteredPoti.exec pf c cs = some c' →
        c'.hasChanged pf q.current q.raw = some res →
        (c'.toStablePoti.getStabilizedRawValue pf q.current q.raw).1 ≠ POTI_VALUE_UNDEFINED →
        MappedPoti.getMapping pf c'.toMappedPoti
            (c'.toStablePoti.getStabilizedRawValue pf q.current q.raw).1 c'._centerValLow
            c'._centerValHigh
          = some res.2.getMappedValue) := by
  refine ⟨fun m' res h hres hv => ?_, fun c' res h hres hv => ?_⟩
  · exact (MappedPoti.hasChanged_lag pf m' q.current q.raw res hres
      (MappedPoti.exec_lag pf cs m m' (fun hne => absurd hm.1.2.1 hne) h)).1 hv
  · exact (CenteredPoti.centered_hasChanged_lag pf c' q.current q.raw res hres
      (CenteredPoti.centered_exec_lag pf cs c c' (fun hne => absurd hc.1.2.1 hne) h)).1 hv

/-- Witness for C34: four levels (and five centered levels) on an 8-bit AVR,
polled at raw 100 and then at raw 200; the second poll of the `MappedPoti`
returns false, `getValue()` stays 100 and the level 0 is the level of 200. -/
theorem level_never_lags_witness :
    ((MappedPoti.exec Platform.avr (MappedPoti.new 7 0 0 0 4 0) [PotiCall.poll ⟨0, 100⟩]).bind
        fun m' => (m'.hasChanged Platform.avr 1 200).map
          fun r => (r.1, r.2.getValue, r.2.getMappedValue)) = some (false, 100, 0)
    ∧ MappedPoti.getMapping Platform.avr (MappedPoti.new 7 0 0 0 4 0) 200 0 0 = some 0
    ∧ (
    (∀ (m' : MappedPoti) (res : Bool × MappedPoti), MappedPoti.exec Platform.avr (MappedPoti.new 7 0 0 0 4 0) [PotiCall.poll ⟨0, 100⟩] = some m' →
        m'.hasChanged Platform.avr (⟨1, 200⟩ : Poll).current (⟨1, 200⟩ : Poll).raw = some res →
        (m'.toStablePoti.getStabilizedRawValue Platform.avr (⟨1, 200⟩ : Poll).current (⟨1, 200⟩ : Poll).raw).1 ≠ POTI_VALUE_UNDEFINED →
        MappedPoti.getMapping Platform.avr m'
            (m'.toStablePoti.getStabilizedRawValue Platform.avr (⟨1, 200⟩ : Poll).current (⟨1, 200⟩ : Poll).raw).1 0 0
          = some res.2.getMappedValue)
    ∧ (∀ (c' : CenteredPoti) (res : Bool × CenteredPoti),
        CenteredPoti.exec Platform.avr (CenteredPoti.new Platform.avr 7 0 0 0 5 0 0 0) [PotiCall.poll ⟨0, 100⟩] = some c' →
        c'.hasChanged Platform.avr (⟨1, 200⟩ : Poll).current (⟨1, 200⟩ : Poll).raw = some res →
        (c'.toStablePoti.getStabilizedRawValue Platform.avr (⟨1, 200⟩ : Poll).current (⟨1, 200⟩ : Poll).raw).1 ≠ POTI_VALUE_UNDEFINED →
        MappedPoti.getMapping Platform.avr c'.toMappedPoti
            (c'.toStablePoti.getStabilizedRawValue Platform.avr (⟨1, 200⟩ : Poll).current (⟨1, 200⟩ : Poll).raw).1 c'._centerValLow
            c'._centerValHigh
          = some res.2.getMappedValue)) :=
  ⟨by decide!, by decide!,
    level_never_lags Platform.avr (MappedPoti.new 7 0 0 0 4 0)
      (CenteredPoti.new Platform.avr 7 0 0 0 5 0 0 0)
      ⟨⟨⟨rfl, rfl, rfl⟩, rfl, rfl, rfl⟩, rfl, rfl⟩ ⟨⟨⟨rfl, rfl, rfl⟩, rfl, rfl, rfl⟩, rfl, rfl⟩
      [PotiCall.poll ⟨0, 100⟩] ⟨1, 200⟩⟩

/-! ## The running sum of the averaging -/

/-- After an accepted sample in `0..4095` the running sum is at most 4095
times the number of samples it holds, whatever the weighting does. -/
theorem StablePoti.stabilize_sum (pf : Platform) (hb : 16 ≤ pf.intBits) (k : Nat)
    (hk1 : 1 ≤ k) (hk2 : k ≤ 7) (s : StablePoti) (hk : s._addNumRawAvg = k)
    (ho : s._openNumRawAvg ≤ k)
    (hT : (s._internalRawAvg = POTI_VALUE_UNDEFINED ∧ s._openNumRawAvg = 0)
      ∨ (0 ≤ s._internalRawAvg
        ∧ s._internalRawAvg ≤ 4095 * ((k : Int) + 1 - (s._openNumRawAvg : Int))))
    (current : Nat) (raw : Int) (hr0 : 0 ≤ raw) (hr1 : raw ≤ 4095) :
    (StablePoti.stabilize pf s current raw).2._addNumRawAvg = k
    ∧ (StablePoti.stabilize pf s current raw).2._openNumRawAvg ≤ k
    ∧ 0 ≤ (StablePoti.stabilize pf s current raw).2._internalRawAvg
    ∧ (StablePoti.stabilize pf s current raw).2._internalRawAvg
        ≤ 4095 * ((k : Int) + 1
            - ((StablePoti.stabilize pf s current raw).2._openNumRawAvg : Int)) := by
  have hU : POTI_VALUE_UNDEFINED = 32767 := rfl
  have hmin := pf.intMin_le hb
  have hmax := pf.intMax_ge hb
  unfold StablePoti.stabilize
  rw [if_pos (by omega)]
  split_ifs with h1 h2 h3
  · obtain ⟨-, f2, f3, f4, -, -⟩ := StablePoti.weighting_frame pf
      { s with _lastReadMillis := current, _internalRawAvg := raw } raw
    rw [f2, f3, f4]
    simp only
    rcases hT with ⟨-, ho0⟩ | ⟨hT0, hT1⟩
    · rw [ho0]
      exact ⟨hk, by omega, hr0, by push_cast; omega⟩
    · exact ⟨hk, ho, hr0, by omega⟩
  · simp only
    exact ⟨hk, by omega, hr0, by rw [hk]; omega⟩
  · rcases hT with ⟨hTu, -⟩ | ⟨hT0, hT1⟩
    · exact absurd hTu h1
    · have hw : pf.wrap (s._internalRawAvg + raw) = s._internalRawAvg + raw :=
        pf.wrap_eq_self _ hb (by omega) (by omega)
      simp only
      rw [hw]
      have hdec : (s._openNumRawAvg + 255) % 256 = s._openNumRawAvg - 1 := by omega
      rw [hdec]
      exact ⟨hk, by omega, by omega, by omega⟩
  · rcases hT with ⟨hTu, -⟩ | ⟨hT0, hT1⟩
    · exact absurd hTu h1
    · have hw : pf.wrap (s._internalRawAvg + raw) = s._internalRawAvg + raw :=
        pf.wrap_eq_self _ hb (by omega) (by omega)
      obtain ⟨-, f2, f3, f4, -, -⟩ := StablePoti.weighting_frame pf
        { s with _lastReadMillis := current
                 _internalRawAvg := pf.wrap (s._internalRawAvg + raw)
                 _openNumRawAvg := (s._openNumRawAvg + 255) % 256 }
        (Int.tdiv (pf.wrap (pf.wrap (s._internalRawAvg + raw) * 2
            + pf.wrap (s._addNumRawAvg + 1)))
          (pf.wrap (pf.wrap (s._addNumRawAvg + 1) * 2)))
      rw [f2, f3, f4]
      simp only
      rw [hw]
      have hdec : (s._openNumRawAvg + 255) % 256 = s._openNumRawAvg - 1 := by omega
      rw [hdec]
      exact ⟨hk, by omega, by omega, by omega⟩

/-- The state of the averaging over a call of `StablePoti::hasChanged` with a
sample in `0..4095`: the object is as constructed or reset, or the running sum
is at most 4095 times the number of samples it holds. -/
theorem StablePoti.hasChanged_sum (pf : Platform) (hb : 16 ≤ pf.intBits) (k : Nat)
    (hk1 : 1 ≤ k) (hk2 : k ≤ 7) (s : StablePoti) (hk : s._addNumRawAvg = k)
    (hQ : s.Fresh ∨ (s._openNumRawAvg ≤ k ∧ 0 ≤ s._internalRawAvg
      ∧ s._internalRawAvg ≤ 4095 * ((k : Int) + 1 - (s._openNumRawAvg : Int))))
    (current : Nat) (raw : Int) (hr0 : 0 ≤ raw) (hr1 : raw ≤ 4095) :
    (s.hasChanged pf current raw).2._addNumRawAvg = k
    ∧ ((s.hasChanged pf current raw).2._openNumRawAvg ≤ k
      ∧ 0 ≤ (s.hasChanged pf current raw).2._internalRawAvg
      ∧ (s.hasChanged pf current raw).2._internalRawAvg
          ≤ 4095 * ((k : Int) + 1 - ((s.hasChanged pf current raw).2._openNumRawAvg : Int)))
    ∧ (s.gatedOut current = false →
      0 ≤ (s.getStabilizedRawValue pf current raw).2._internalRawAvg
      ∧ (s.getStabilizedRawValue pf current raw).2._internalRawAvg ≤ 32760) := by
  obtain ⟨e1, e2, e3, -⟩ := StablePoti.hasChanged_state pf s current raw
  rw [e1, e2, e3]
  have hpre : s._openNumRawAvg ≤ k
      ∧ ((s._internalRawAvg = POTI_VALUE_UNDEFINED ∧ s._openNumRawAvg = 0)
        ∨ (0 ≤ s._internalRawAvg
          ∧ s._internalRawAvg ≤ 4095 * ((k : Int) + 1 - (s._openNumRawAvg : Int)))) := by
    rcases hQ with hf | ⟨a, b, c⟩
    · exact ⟨by rw [hf.2.2.2]; exact Nat.zero_le _, Or.inl ⟨hf.2.2.1, hf.2.2.2⟩⟩
    · exact ⟨a, Or.inr ⟨b, c⟩⟩
  by_cases hg : s.gatedOut current = true
  · rw [StablePoti.getStabilizedRawValue_of_gatedOut pf s current raw hg]
    simp only
    rcases hQ with hf | ⟨a, b, c⟩
    · exfalso
      have : s.gatedOut current = false := by
        simp [StablePoti.gatedOut, Poti.gatedOut, hf.2.2.2, hf.1.1]
      rw [this] at hg
      exact absurd hg (by decide)
    · exact ⟨hk, ⟨a, b, c⟩, fun h => absurd hg (by rw [h]; decide)⟩
  · have hg' : s.gatedOut current = false := by
      cases h : s.gatedOut current
      · rfl
      · exact absurd h hg
    rw [StablePoti.getStabilizedRawValue_of_accepted pf s current raw hg']
    obtain ⟨a, b, c, d⟩ := StablePoti.stabilize_sum pf hb k hk1 hk2 s hk hpre.1 hpre.2 current raw
      hr0 hr1
    exact ⟨a, ⟨b, c, d⟩, fun _ => ⟨c, by omega⟩⟩

/-- After every sequence of polls with samples in `0..4095` and resets the
object is as constructed or reset, or the running sum is at most 4095 times the
number of samples it holds. -/
theorem StablePoti.exec_sum (pf : Platform) (hb : 16 ≤ pf.intBits) (k : Nat)
    (hk1 : 1 ≤ k) (hk2 : k ≤ 7) : ∀ (cs : List PotiCall) (s : StablePoti),
    s._addNumRawAvg = k →
    (s.Fresh ∨ (s._openNumRawAvg ≤ k ∧ 0 ≤ s._internalRawAvg
      ∧ s._internalRawAvg ≤ 4095 * ((k : Int) + 1 - (s._openNumRawAvg : Int)))) →
    (∀ q : Poll, PotiCall.poll q ∈ cs → 0 ≤ q.raw ∧ q.raw ≤ 4095) →
    (StablePoti.exec pf s cs)._addNumRawAvg = k
    ∧ ((StablePoti.exec pf s cs).Fresh
      ∨ ((StablePoti.exec pf s cs)._openNumRawAvg ≤ k
        ∧ 0 ≤ (StablePoti.exec pf s cs)._internalRawAvg
        ∧ (StablePoti.exec pf s cs)._internalRawAvg
            ≤ 4095 * ((k : Int) + 1 - ((StablePoti.exec pf s cs)._openNumRawAvg : Int)))) := by
  intro cs
  induction cs with
  | nil => intro s hk hQ _; exact ⟨hk, hQ⟩
  | cons c cs ih =>
    intro s hk hQ hq
    cases c with
    | poll q =>
      obtain ⟨r0, r1⟩ := hq q (List.mem_cons_self _ _)
      obtain ⟨a, b, -⟩ := StablePoti.hasChanged_sum pf hb k hk1 hk2 s hk hQ q.current q.raw r0 r1
      exact ih _ a (Or.inr b) (fun q' h' => hq q' (List.mem_cons_of_mem _ h'))
    | reset =>
      exact ih s.reset hk (Or.inl ⟨⟨rfl, rfl, rfl⟩, rfl, rfl, rfl⟩)
        (fun q' h' => hq q' (List.mem_cons_of_mem _ h'))

/-- C37. The running sum never collides with the marker for "undefined": on
every platform with at least 16 bit `int`, for a constructed `StablePoti` with
1 to 7 extra samples and every sequence of `reset()` calls and `hasChanged()`
calls with samples in `0..4095`, the object is afterwards as constructed or
reset (nothing read yet), or the running sum `_internalRawAvg` is in
`0..32760` and so is not `POTI_VALUE_UNDEFINED`.  Hence the branch "first
measurement after instantiation or reset" (`_internalRawAvg` is
`POTI_VALUE_UNDEFINED`) is taken only when nothing has been read since
construction or reset, and after every accepted sample the running sum is in
`0..32760`. -/
theorem running_sum_no_collision (pf : Platform) (hb : 16 ≤ pf.intBits) (s : StablePoti)
    (hs : s.Fresh) (hk1 : 1 ≤ s._addNumRawAvg) (hk2 : s._addNumRawAvg ≤ 7)
    (cs : List PotiCall)
    (hcs : ∀ q : Poll, PotiCall.poll q ∈ cs → 0 ≤ q.raw ∧ q.raw ≤ 4095) :
    ((StablePoti.exec pf s cs).Fresh
      ∨ (0 ≤ (StablePoti.exec pf s cs)._internalRawAvg
        ∧ (StablePoti.exec pf s cs)._internalRawAvg ≤ 32760
        ∧ (StablePoti.exec pf s cs)._internalRawAvg ≠ POTI_VALUE_UNDEFINED))
    ∧ ((StablePoti.exec pf s cs)._internalRawAvg = POTI_VALUE_UNDEFINED →
        (StablePoti.exec pf s cs).Fresh)
    ∧ (∀ q : Poll, 0 ≤ q.raw → q.raw ≤ 4095 →
        (StablePoti.exec pf s cs).gatedOut q.current = false →
        0 ≤ ((StablePoti.exec pf s cs).getStabilizedRawValue pf q.current q.raw).2._internalRawAvg
        ∧ ((StablePoti.exec pf s cs).getStabilizedRawValue pf q.current q.raw).2._internalRawAvg ≤ 32760
        ∧ ((StablePoti.exec pf s cs).getStabilizedRawValue pf q.current q.raw).2._internalRawAvg
            ≠ POTI_VALUE_UNDEFINED) := by
  have hU : POTI_VALUE_UNDEFINED = 32767 := rfl
  obtain ⟨hk, hQ⟩ := StablePoti.exec_sum pf hb s._addNumRawAvg hk1 hk2 cs s rfl (Or.inl hs) hcs
  have hQ' : (StablePoti.exec pf s cs).Fresh
      ∨ (0 ≤ (StablePoti.exec pf s cs)._internalRawAvg
        ∧ (StablePoti.exec pf s cs)._internalRawAvg ≤ 32760
        ∧ (StablePoti.exec pf s cs)._internalRawAvg ≠ POTI_VALUE_UNDEFINED) := by
    rcases hQ with h | ⟨a, b, c⟩
    · exact Or.inl h
    · exact Or.inr ⟨b, by omega, by omega⟩
  refine ⟨hQ', fun h => ?_, fun q r0 r1 hg => ?_⟩
  · rcases hQ' with h' | ⟨-, -, h'⟩
    · exact h'
    · exact absurd h h'
  · obtain ⟨-, -, c⟩ := StablePoti.hasChanged_sum pf hb s._addNumRawAvg hk1 hk2 _ hk hQ q.current
      q.raw r0 r1
    obtain ⟨c1, c2⟩ := c hg
    exact ⟨c1, c2, by omega⟩

/-- Witness for C37: 7 extra samples, three polls at raw 4095, a reset and a
poll at raw 7, on an 8-bit AVR. -/
theorem running_sum_no_collision_witness :
    ((StablePoti.exec Platform.avr (StablePoti.new 7 0 4 7) [PotiCall.poll ⟨0, 4095⟩, PotiCall.poll ⟨1, 4095⟩, PotiCall.poll ⟨2, 4095⟩, PotiCall.reset, PotiCall.poll ⟨3, 7⟩]).Fresh
      ∨ (0 ≤ (StablePoti.exec Platform.avr (StablePoti.new 7 0 4 7) [PotiCall.poll ⟨0, 4095⟩, PotiCall.poll ⟨1, 4095⟩, PotiCall.poll ⟨2, 4095⟩, PotiCall.reset, PotiCall.poll ⟨3, 7⟩])._internalRawAvg
        ∧ (StablePoti.exec Platform.avr (StablePoti.new 7 0 4 7) [PotiCall.poll ⟨0, 4095⟩, PotiCall.poll ⟨1, 4095⟩, PotiCall.poll ⟨2, 4095⟩, PotiCall.reset, PotiCall.poll ⟨3, 7⟩])._internalRawAvg ≤ 32760
        ∧ (StablePoti.exec Platform.avr (StablePoti.new 7 0 4 7) [PotiCall.poll ⟨0, 4095⟩, PotiCall.poll ⟨1, 4095⟩, PotiCall.poll ⟨2, 4095⟩, PotiCall.reset, PotiCall.poll ⟨3, 7⟩])._internalRawAvg ≠ POTI_VALUE_UNDEFINED))
    ∧ ((StablePoti.exec Platform.avr (StablePoti.new 7 0 4 7) [PotiCall.poll ⟨0, 4095⟩, PotiCall.poll ⟨1, 4095⟩, PotiCall.poll ⟨2, 4095⟩, PotiCall.reset, PotiCall.poll ⟨3, 7⟩])._internalRawAvg = POTI_VALUE_UNDEFINED →
        (StablePoti.exec Platform.avr (StablePoti.new 7 0 4 7) [PotiCall.poll ⟨0, 4095⟩, PotiCall.poll ⟨1, 4095⟩, PotiCall.poll ⟨2, 4095⟩, PotiCall.reset, PotiCall.poll ⟨3, 7⟩]).Fresh)
    ∧ (∀ q : Poll, 0 ≤ q.raw → q.raw ≤ 4095 →
        (StablePoti.exec Platform.avr (StablePoti.new 7 0 4 7) [PotiCall.poll ⟨0, 4095⟩, PotiCall.poll ⟨1, 4095⟩, PotiCall.poll ⟨2, 4095⟩, PotiCall.reset, PotiCall.poll ⟨3, 7⟩]).gatedOut q.current = false →
        0 ≤ ((StablePoti.exec Platform.avr (StablePoti.new 7 0 4 7) [PotiCall.poll ⟨0, 4095⟩, PotiCall.poll ⟨1, 4095⟩, PotiCall.poll ⟨2, 4095⟩, PotiCall.reset, PotiCall.poll ⟨3, 7⟩]).getStabilizedRawValue Platform.avr q.current q.raw).2._internalRawAvg
        ∧ ((StablePoti.exec Platform.avr (StablePoti.new 7 0 4 7) [PotiCall.poll ⟨0, 4095⟩, PotiCall.poll ⟨1, 4095⟩, PotiCall.poll ⟨2, 4095⟩, PotiCall.reset, PotiCall.poll ⟨3, 7⟩]).getStabilizedRawValue Platform.avr q.current q.raw).2._internalRawAvg ≤ 32760
        ∧ ((StablePoti.exec Platform.avr (StablePoti.new 7 0 4 7) [PotiCall.poll ⟨0, 4095⟩, PotiCall.poll ⟨1, 4095⟩, PotiCall.poll ⟨2, 4095⟩, PotiCall.reset, PotiCall.poll ⟨3, 7⟩]).getStabilizedRawValue Platform.avr q.current q.raw).2._internalRawAvg
            ≠ POTI_VALUE_UNDEFINED) :=
  running_sum_no_collision Platform.avr (by decide) (StablePoti.new 7 0 4 7)
    ⟨⟨rfl, rfl, rfl⟩, rfl, rfl, rfl⟩ (by decide) (by decide)
    [PotiCall.poll ⟨0, 4095⟩, PotiCall.poll ⟨1, 4095⟩, PotiCall.poll ⟨2, 4095⟩, PotiCall.reset,
      PotiCall.poll ⟨3, 7⟩]
    (by
      intro q h
      simp only [List.mem_cons, PotiCall.poll.injEq, List.mem_singleton, reduceCtorEq,
        false_or, List.not_mem_nil, or_false] at h
      rcases h with rfl | rfl | rfl | rfl <;> decide)

/-! ## The stabilizer without overflow -/

theorem StablePoti.weighting_snd (pf : Platform) (s : StablePoti) (n : Int) :
    (StablePoti.weighting pf s n).2
      = { s with _prevValueInternal := (StablePoti.weighting pf s n).1 } := by
  unfold StablePoti.weighting
  split_ifs <;> rfl

/-- The rounded weighted mean of two values in `lo..hi` is in `lo..hi`. -/
theorem weighting_between (w : Nat) (lo hi p n : Int) (hp0 : lo ≤ p)
    (hp1 : p ≤ hi) (hn0 : lo ≤ n) (hn1 : n ≤ hi) :
    lo ≤ (4 * n + (w : Int) * p + ((w : Int) + 4) / 2) / ((w : Int) + 4)
    ∧ (4 * n + (w : Int) * p + ((w : Int) + 4) / 2) / ((w : Int) + 4) ≤ hi := by
  have h1 : (w : Int) * lo ≤ (w : Int) * p := mul_le_mul_of_nonneg_left hp0 (by omega)
  have h2 : (w : Int) * p ≤ (w : Int) * hi := mul_le_mul_of_nonneg_left hp1 (by omega)
  constructor
  · apply Int.le_ediv_of_mul_le (by omega)
    have e : lo * ((w : Int) + 4) = (w : Int) * lo + 4 * lo := by ring
    rw [e]
    omega
  · have hlt : 4 * n + (w : Int) * p + ((w : Int) + 4) / 2 < (hi + 1) * ((w : Int) + 4) := by
      have e : (hi + 1) * ((w : Int) + 4) = (w : Int) * hi + 4 * hi + (w : Int) + 4 := by ring
      rw [e]
      omega
    have := Int.ediv_lt_of_lt_mul (by omega) hlt
    omega

/-- The rounded mean of `k + 1` values in `lo..hi` is in `lo..hi`. -/
theorem averaging_between (lo hi S : Int) (k : Nat) (hS0 : lo * ((k : Int) + 1) ≤ S)
    (hS1 : S ≤ hi * ((k : Int) + 1)) :
    lo ≤ (2 * S + ((k : Int) + 1)) / (2 * ((k : Int) + 1))
      ∧ (2 * S + ((k : Int) + 1)) / (2 * ((k : Int) + 1)) ≤ hi := by
  constructor
  · apply Int.le_ediv_of_mul_le (by omega)
    have e : lo * (2 * ((k : Int) + 1)) = 2 * (lo * ((k : Int) + 1)) := by ring
    rw [e]
    omega
  · have hlt : 2 * S + ((k : Int) + 1) < (hi + 1) * (2 * ((k : Int) + 1)) := by
      have e : (hi + 1) * (2 * ((k : Int) + 1))
          = 2 * (hi * ((k : Int) + 1)) + 2 * ((k : Int) + 1) := by
        ring
      rw [e]
      omega
    have := Int.ediv_lt_of_lt_mul (by omega) hlt
    omega

/-- The weighting step on values in `lo..hi` (`0 ≤ lo`, `16 * hi + 8` an
`int`): the result is in `lo..hi`, between the smoothed previous value and the
new value, and it is the same on every such platform. -/
theorem StablePoti.weighting_range (pf : Platform) (hb : 16 ≤ pf.intBits) (lo hi : Int)
    (hlo : 0 ≤ lo) (hM : 16 * hi + 8 ≤ pf.intMax) (s : StablePoti) (n : Int)
    (hw : s._weightPrev ≤ 12)
    (hp : s._prevValueInternal = POTI_VALUE_UNDEFINED
      ∨ (lo ≤ s._prevValueInternal ∧ s._prevValueInternal ≤ hi))
    (hn0 : lo ≤ n) (hn1 : n ≤ hi) :
    lo ≤ (StablePoti.weighting pf s n).1 ∧ (StablePoti.weighting pf s n).1 ≤ hi
    ∧ (s._prevValueInternal ≠ POTI_VALUE_UNDEFINED →
        min s._prevValueInternal n ≤ (StablePoti.weighting pf s n).1
        ∧ (StablePoti.weighting pf s n).1 ≤ max s._prevValueInternal n)
    ∧ (StablePoti.weighting pf s n).1
        = (if s._weightPrev > 0 ∧ s._prevValueInternal ≠ POTI_VALUE_UNDEFINED then
            (4 * n + (s._weightPrev : Int) * s._prevValueInternal
              + ((s._weightPrev : Int) + 4) / 2) / ((s._weightPrev : Int) + 4)
          else n) := by
  by_cases hpass : s._weightPrev = 0 ∨ s._prevValueInternal = POTI_VALUE_UNDEFINED
  · rw [StablePoti.weighting_passthrough pf s n hpass]
    refine ⟨hn0, hn1, fun _ => ⟨min_le_right _ _, le_max_right _ _⟩, ?_⟩
    rw [if_neg]
    intro h
    rcases hpass with h' | h'
    · omega
    · exact h.2 h'
  · push_neg at hpass
    rcases hp with hp | ⟨hp0, hp1⟩
    · exact absurd hp hpass.2
    · have hw1 : 1 ≤ s._weightPrev := by omega
      have hle : (s._weightPrev : Int) * s._prevValueInternal ≤ (s._weightPrev : Int) * hi :=
        mul_le_mul_of_nonneg_left hp1 (by omega)
      have hwM : (s._weightPrev : Int) * hi ≤ 12 * hi :=
        mul_le_mul_of_nonneg_right (by omega) (by omega)
      rw [StablePoti.weighting_exact pf s n hb hw1 hw (by omega) hpass.2 (by omega) (by omega)]
      obtain ⟨a, b⟩ := weighting_between s._weightPrev lo hi s._prevValueInternal n hp0 hp1 hn0 hn1
      obtain ⟨c, d⟩ := weighting_between s._weightPrev (min s._prevValueInternal n)
        (max s._prevValueInternal n) s._prevValueInternal n (min_le_left _ _) (le_max_left _ _)
        (min_le_right _ _) (le_max_right _ _)
      refine ⟨a, b, fun _ => ⟨c, d⟩, ?_⟩
      rw [if_pos ⟨by omega, hpass.2⟩]

/-- What `getStabilizedRawValue` does after the gate when nothing overflows
(samples in `0..M`, `16 * M + 8` an `int`): the platform enters
only through the weighting step. -/
theorem StablePoti.stabilize_cases (pf : Platform) (hb : 16 ≤ pf.intBits) (M : Int)
    (hM0 : 0 ≤ M) (hM : 16 * M + 8 ≤ pf.intMax) (k : Nat) (hk2 : k ≤ 7)
    (s : StablePoti) (hk : s._addNumRawAvg = k) (hopen : s._openNumRawAvg ≤ k)
    (hT : (s._internalRawAvg = POTI_VALUE_UNDEFINED ∧ s._openNumRawAvg = 0)
      ∨ (0 ≤ s._internalRawAvg
        ∧ s._internalRawAvg ≤ M * ((k : Int) + 1 - (s._openNumRawAvg : Int))))
    (current : Nat) (raw : Int) (hr0 : 0 ≤ raw) (hr1 : raw ≤ M) :
    StablePoti.stabilize pf s current raw
      = (if k = 0 then StablePoti.weighting pf { s with _lastReadMillis := current } raw
        else if s._internalRawAvg = POTI_VALUE_UNDEFINED then
          StablePoti.weighting pf { s with _lastReadMillis := current, _internalRawAvg := raw } raw
        else if s._openNumRawAvg = 0 then
          (POTI_VALUE_UNDEFINED,
            { s with _lastReadMillis := current
                     _openNumRawAvg := k
                     _internalRawAvg := raw })
        else if s._openNumRawAvg = 1 then
          StablePoti.weighting pf
            { s with _lastReadMillis := current
                     _internalRawAvg := s._internalRawAvg + raw
                     _openNumRawAvg := 0 }
            ((2 * (s._internalRawAvg + raw) + ((k : Int) + 1)) / (2 * ((k : Int) + 1)))
        else
          (POTI_VALUE_UNDEFINED,
            { s with _lastReadMillis := current
                     _internalRawAvg := s._internalRawAvg + raw
                     _openNumRawAvg := s._openNumRawAvg - 1 })) := by
  have hU : POTI_VALUE_UNDEFINED = 32767 := rfl
  have hmin := pf.intMin_le hb
  by_cases hk0 : k = 0
  · rw [if_pos hk0]
    unfold StablePoti.stabilize
    rw [if_neg (by omega)]
  rw [if_neg hk0]
  by_cases hTu : s._internalRawAvg = POTI_VALUE_UNDEFINED
  · rw [if_pos hTu]
    unfold StablePoti.stabilize
    rw [if_pos (by omega), if_pos hTu]
  rw [if_neg hTu]
  rcases hT with ⟨h, -⟩ | ⟨hT0, hT1⟩
  · exact absurd h hTu
  by_cases ho0 : s._openNumRawAvg = 0
  · rw [if_pos ho0]
    unfold StablePoti.stabilize
    rw [if_pos (by omega), if_neg hTu, if_pos ho0, hk]
  rw [if_neg ho0]
  have hcnt : M * ((k : Int) + 1 - (s._openNumRawAvg : Int)) ≤ M * (k : Int) := by
    apply mul_le_mul_of_nonneg_left _ hM0
    omega
  have hMk : M * (k : Int) ≤ M * 7 := mul_le_mul_of_nonneg_left (by omega) hM0
  have hwrap : pf.wrap (s._internalRawAvg + raw) = s._internalRawAvg + raw :=
    pf.wrap_eq_self _ hb (by omega) (by omega)
  by_cases ho1 : s._openNumRawAvg = 1
  · rw [if_pos ho1]
    have hj : pf.wrap ((s._addNumRawAvg : Int) + 1) = (k : Int) + 1 := by
      rw [hk]; exact pf.wrap_small _ hb (by omega) (by omega)
    have hj2 : pf.wrap (((k : Int) + 1) * 2) = 2 * ((k : Int) + 1) := by
      rw [pf.wrap_small _ hb (by omega) (by omega)]; ring
    have hnum : pf.wrap ((s._internalRawAvg + raw) * 2 + ((k : Int) + 1))
        = 2 * (s._internalRawAvg + raw) + ((k : Int) + 1) := by
      rw [pf.wrap_eq_self _ hb (by omega) (by omega)]; ring
    have hdiv : Int.tdiv (2 * (s._internalRawAvg + raw) + ((k : Int) + 1)) (2 * ((k : Int) + 1))
        = (2 * (s._internalRawAvg + raw) + ((k : Int) + 1)) / (2 * ((k : Int) + 1)) :=
      Int.tdiv_eq_ediv (by omega) (by omega)
    unfold StablePoti.stabilize
    rw [if_pos (by omega), if_neg hTu, if_neg ho0, if_neg (by rw [ho1]; decide)]
    rw [hwrap, hj, hj2, hnum, hdiv, ho1]
  · rw [if_neg ho1]
    have hdec : (s._openNumRawAvg + 255) % 256 = s._openNumRawAvg - 1 := by omega
    unfold StablePoti.stabilize
    rw [if_pos (by omega), if_neg hTu, if_neg ho0, if_pos (by omega)]
    rw [hwrap, hdec]

/-- The weighting step does not depend on the platform when nothing overflows. -/
theorem StablePoti.weighting_indep (pf pf' : Platform) (hb : 16 ≤ pf.intBits)
    (hb' : 16 ≤ pf'.intBits) (hi : Int) (hM : 16 * hi + 8 ≤ pf.intMax)
    (hM' : 16 * hi + 8 ≤ pf'.intMax) (s : StablePoti) (n : Int) (hw : s._weightPrev ≤ 12)
    (hp : s._prevValueInternal = POTI_VALUE_UNDEFINED
      ∨ (0 ≤ s._prevValueInternal ∧ s._prevValueInternal ≤ hi))
    (hn0 : 0 ≤ n) (hn1 : n ≤ hi) :
    StablePoti.weighting pf' s n = StablePoti.weighting pf s n := by
  have e1 := (StablePoti.weighting_range pf hb 0 hi (le_refl _) hM s n hw hp hn0 hn1).2.2.2
  have e2 := (StablePoti.weighting_range pf' hb' 0 hi (le_refl _) hM' s n hw hp hn0 hn1).2.2.2
  have e : (StablePoti.weighting pf' s n).1 = (StablePoti.weighting pf s n).1 := by rw [e1, e2]
  rw [Prod.ext_iff]
  refine ⟨e, ?_⟩
  rw [StablePoti.weighting_snd pf' s n, StablePoti.weighting_snd pf s n, e]

/-- A call of `getStabilizedRawValue` with a sample in `lo..hi` (`0 ≤ lo`,
`hi ≤ 4095`, `16 * hi + 8` an `int`) keeps the state within `lo..hi`, returns
`POTI_VALUE_UNDEFINED` or a value in `lo..hi`, and does the same on every such
platform. -/
theorem StablePoti.getStabilized_range (pf : Platform) (hb : 16 ≤ pf.intBits) (lo hi : Int)
    (hlo : 0 ≤ lo) (hlh : lo ≤ hi) (hM : 16 * hi + 8 ≤ pf.intMax) (hM2 : hi ≤ 4095) (k : Nat)
    (hk2 : k ≤ 7) (s : StablePoti) (hin : StablePoti.InRange lo hi k s) (current : Nat)
    (raw : Int) (hr0 : lo ≤ raw) (hr1 : raw ≤ hi) :
    StablePoti.InRange lo hi k (s.getStabilizedRawValue pf current raw).2
    ∧ ((s.getStabilizedRawValue pf current raw).1 = POTI_VALUE_UNDEFINED
      ∨ (lo ≤ (s.getStabilizedRawValue pf current raw).1
        ∧ (s.getStabilizedRawValue pf current raw).1 ≤ hi))
    ∧ (∀ pf' : Platform, 16 ≤ pf'.intBits → 16 * hi + 8 ≤ pf'.intMax →
        s.getStabilizedRawValue pf' current raw = s.getStabilizedRawValue pf current raw) := by
  have hU : POTI_VALUE_UNDEFINED = 32767 := rfl
  obtain ⟨hinv, hpl, hsl⟩ := hin
  obtain ⟨a, b⟩ := StablePoti.getStabilized_inv pf hb hi (by omega) hM hM2 k hk2 s hinv current
    raw (by omega) hr1
  obtain ⟨hk, hw, hopen, hprev, hT⟩ := hinv
  have hprev' : s._prevValueInternal = POTI_VALUE_UNDEFINED
      ∨ (lo ≤ s._prevValueInternal ∧ s._prevValueInternal ≤ hi) := by
    rcases hprev with h | ⟨-, h2⟩
    · exact Or.inl h
    · rcases hpl with h' | h'
      · exact Or.inl h'
      · exact Or.inr ⟨h', h2⟩
  have hprev0 : s._prevValueInternal = POTI_VALUE_UNDEFINED
      ∨ (0 ≤ s._prevValueInternal ∧ s._prevValueInternal ≤ hi) := hprev
  have hcases := fun (p : Platform) (hp : 16 ≤ p.intBits) (hpM : 16 * hi + 8 ≤ p.intMax) =>
    StablePoti.stabilize_cases p hp hi (by omega) hpM k hk2 s hk hopen hT current raw (by omega)
      hr1
  by_cases hg : s.gatedOut current = true
  · have hgs := fun p : Platform =>
      StablePoti.getStabilizedRawValue_of_gatedOut p s current raw hg
    rw [hgs pf]
    exact ⟨⟨⟨hk, hw, hopen, hprev, hT⟩, hpl, hsl⟩, Or.inl rfl, fun pf' _ _ => hgs pf'⟩
  have hg' : s.gatedOut current = false := by
    cases h : s.gatedOut current
    · rfl
    · exact absurd h hg
  have hacc := fun p : Platform =>
    StablePoti.getStabilizedRawValue_of_accepted p s current raw hg'
  rw [hacc pf] at a b ⊢
  have hc := hcases pf hb hM
  by_cases hk0 : k = 0
  · -- no averaging
    rw [if_pos hk0] at hc
    obtain ⟨r1, r2, -, -⟩ := StablePoti.weighting_range pf hb lo hi hlo hM
      { s with _lastReadMillis := current } raw hw hprev' hr0 hr1
    obtain ⟨-, -, f3, f4, -, f6⟩ := StablePoti.weighting_frame pf
      { s with _lastReadMillis := current } raw
    refine ⟨⟨a, ?_, ?_⟩, ?_, ?_⟩
    · rw [hc, f6]
      exact Or.inr r1
    · rw [hc, f3]
      intro h
      exfalso
      simp only at h
      omega
    · rw [hc]
      exact Or.inr ⟨r1, r2⟩
    · intro pf' hb' hM'
      have hc' := hcases pf' hb' hM'
      rw [if_pos hk0] at hc'
      rw [hacc pf', hc', hc]
      exact StablePoti.weighting_indep pf pf' hb hb' hi hM hM' _ raw hw hprev0 (by omega) hr1
  rw [if_neg hk0] at hc
  by_cases hTu : s._internalRawAvg = POTI_VALUE_UNDEFINED
  · -- first accepted sample
    rw [if_pos hTu] at hc
    have ho0 : s._openNumRawAvg = 0 := by
      rcases hT with ⟨-, h⟩ | ⟨h0, h1⟩
      · exact h
      · exfalso
        have : hi * ((k : Int) + 1 - (s._openNumRawAvg : Int)) ≤ hi * 8 :=
          mul_le_mul_of_nonneg_left (by omega) (by omega)
        omega
    obtain ⟨r1, r2, -, -⟩ := StablePoti.weighting_range pf hb lo hi hlo hM
      { s with _lastReadMillis := current, _internalRawAvg := raw } raw hw hprev' hr0 hr1
    obtain ⟨-, -, f3, f4, -, f6⟩ := StablePoti.weighting_frame pf
      { s with _lastReadMillis := current, _internalRawAvg := raw } raw
    refine ⟨⟨a, ?_, ?_⟩, ?_, ?_⟩
    · rw [hc, f6]
      exact Or.inr r1
    · rw [hc, f3]
      intro h
      exfalso
      simp only at h
      omega
    · rw [hc]
      exact Or.inr ⟨r1, r2⟩
    · intro pf' hb' hM'
      have hc' := hcases pf' hb' hM'
      rw [if_neg hk0, if_pos hTu] at hc'
      rw [hacc pf', hc', hc]
      exact StablePoti.weighting_indep pf pf' hb hb' hi hM hM' _ raw hw hprev0 (by omega) hr1
  rw [if_neg hTu] at hc
  by_cases ho0 : s._openNumRawAvg = 0
  · -- the seed of a sequence
    rw [if_pos ho0] at hc
    refine ⟨⟨a, ?_, ?_⟩, ?_, ?_⟩
    · rw [hc]
      exact hpl
    · rw [hc]
      intro _
      simp only
      have e : lo * ((k : Int) + 1 - (k : Int)) = lo := by ring
      rw [e]
      exact hr0
    · rw [hc]
      exact Or.inl rfl
    · intro pf' hb' hM'
      have hc' := hcases pf' hb' hM'
      rw [if_neg hk0, if_neg hTu, if_pos ho0] at hc'
      rw [hacc pf', hc', hc]
  rw [if_neg ho0] at hc
  have hsl' := hsl (by omega)
  have hT0 : 0 ≤ s._internalRawAvg
      ∧ s._internalRawAvg ≤ hi * ((k : Int) + 1 - (s._openNumRawAvg : Int)) := by
    rcases hT with ⟨h, -⟩ | h
    · exact absurd h hTu
    · exact h
  by_cases ho1 : s._openNumRawAvg = 1
  · -- the last sample of a sequence
    rw [if_pos ho1] at hc
    have e1 : lo * ((k : Int) + 1 - (s._openNumRawAvg : Int)) = lo * (k : Int) := by
      rw [ho1]; push_cast; ring
    have e2 : hi * ((k : Int) + 1 - (s._openNumRawAvg : Int)) = hi * (k : Int) := by
      rw [ho1]; push_cast; ring
    rw [e1] at hsl'
    rw [e2] at hT0
    have e3 : lo * ((k : Int) + 1) = lo * (k : Int) + lo := by ring
    have e4 : hi * ((k : Int) + 1) = hi * (k : Int) + hi := by ring
    obtain ⟨v1, v2⟩ := averaging_between lo hi (s._internalRawAvg + raw) k (by rw [e3]; omega)
      (by rw [e4]; omega)
    obtain ⟨r1, r2, -, -⟩ := StablePoti.weighting_range pf hb lo hi hlo hM
      { s with _lastReadMillis := current
               _internalRawAvg := s._internalRawAvg + raw
               _openNumRawAvg := 0 }
      ((2 * (s._internalRawAvg + raw) + ((k : Int) + 1)) / (2 * ((k : Int) + 1))) hw hprev' v1 v2
    obtain ⟨-, -, f3, f4, -, f6⟩ := StablePoti.weighting_frame pf
      { s with _lastReadMillis := current
               _internalRawAvg := s._internalRawAvg + raw
               _openNumRawAvg := 0 }
      ((2 * (s._internalRawAvg + raw) + ((k : Int) + 1)) / (2 * ((k : Int) + 1)))
    refine ⟨⟨a, ?_, ?_⟩, ?_, ?_⟩
    · rw [hc, f6]
      exact Or.inr r1
    · rw [hc, f3]
      intro h
      exfalso
      simp only at h
      omega
    · rw [hc]
      exact Or.inr ⟨r1, r2⟩
    · intro pf' hb' hM'
      have hc' := hcases pf' hb' hM'
      rw [if_neg hk0, if_neg hTu, if_neg ho0, if_pos ho1] at hc'
      rw [hacc pf', hc', hc]
      exact StablePoti.weighting_indep pf pf' hb hb' hi hM hM' _ _ hw hprev0 (by omega) v2
  · -- a sample in the middle of a sequence
    rw [if_neg ho1] at hc
    refine ⟨⟨a, ?_, ?_⟩, ?_, ?_⟩
    · rw [hc]
      exact hpl
    · rw [hc]
      intro _
      simp only
      have e : lo * ((k : Int) + 1 - ((s._openNumRawAvg - 1 : Nat) : Int))
          = lo * ((k : Int) + 1 - (s._openNumRawAvg : Int)) + lo := by
        rw [Nat.cast_sub (by omega)]; push_cast; ring
      rw [e]
      omega
    · rw [hc]
      exact Or.inl rfl
    · intro pf' hb' hM'
      have hc' := hcases pf' hb' hM'
      rw [if_neg hk0, if_neg hTu, if_neg ho0, if_neg ho1] at hc'
      rw [hacc pf', hc', hc]

/-- A call of `StablePoti::hasChanged` with a sample in `lo..hi` keeps the
state and the current and previous value within `lo..hi`, on every platform
alike. -/
theorem StablePoti.hasChanged_range (pf : Platform) (hb : 16 ≤ pf.intBits) (lo hi : Int)
    (hlo : 0 ≤ lo) (hlh : lo ≤ hi) (hM : 16 * hi + 8 ≤ pf.intMax) (hM2 : hi ≤ 4095) (k : Nat)
    (hk2 : k ≤ 7) (s : StablePoti) (hin : StablePoti.InRange lo hi k s)
    (hc : s._curValue = POTI_VALUE_UNDEFINED ∨ (lo ≤ s._curValue ∧ s._curValue ≤ hi))
    (hp : s._prevValue = POTI_VALUE_UNDEFINED ∨ (lo ≤ s._prevValue ∧ s._prevValue ≤ hi))
    (current : Nat) (raw : Int) (hr0 : lo ≤ raw) (hr1 : raw ≤ hi) :
    StablePoti.InRange lo hi k (s.hasChanged pf current raw).2
    ∧ ((s.hasChanged pf current raw).2._curValue = POTI_VALUE_UNDEFINED
      ∨ (lo ≤ (s.hasChanged pf current raw).2._curValue
        ∧ (s.hasChanged pf current raw).2._curValue ≤ hi))
    ∧ ((s.hasChanged pf current raw).2._prevValue = POTI_VALUE_UNDEFINED
      ∨ (lo ≤ (s.hasChanged pf current raw).2._prevValue
        ∧ (s.hasChanged pf current raw).2._prevValue ≤ hi))
    ∧ (∀ pf' : Platform, 16 ≤ pf'.intBits → 16 * hi + 8 ≤ pf'.intMax →
        s.hasChanged pf' current raw = s.hasChanged pf current raw) := by
  obtain ⟨A, B, C⟩ := StablePoti.getStabilized_range pf hb lo hi hlo hlh hM hM2 k hk2 s hin
    current raw hr0 hr1
  obtain ⟨e1, e2, e3, e4, e5, -, -⟩ := StablePoti.hasChanged_state pf s current raw
  have hf := StablePoti.getStabilizedRawValue_frame pf s current raw
  refine ⟨?_, ?_, ?_, ?_⟩
  · simp only [StablePoti.InRange, StablePoti.Inv, e1, e2, e3, e4, e5]
    exact A
  · unfold StablePoti.hasChanged
    split_ifs with h1 h2
    · rw [hf.1]
      exact hc
    · exact Or.inr (B.resolve_left h1)
    · rw [hf.1]
      exact hc
  · unfold StablePoti.hasChanged
    split_ifs with h1 h2
    · rw [hf.2.1]
      exact hp
    · show (s.getStabilizedRawValue pf current raw).2._curValue = _ ∨ _
      rw [hf.1]
      exact hc
    · rw [hf.2.1]
      exact hp
  · intro pf' hb' hM'
    unfold StablePoti.hasChanged
    rw [C pf' hb' hM']

/-- Every sequence of polls with samples in `lo..hi` and resets keeps the
state and the current and previous value within `lo..hi`, on every platform
alike. -/
theorem StablePoti.exec_range (pf : Platform) (hb : 16 ≤ pf.intBits) (lo hi : Int)
    (hlo : 0 ≤ lo) (hlh : lo ≤ hi) (hM : 16 * hi + 8 ≤ pf.intMax) (hM2 : hi ≤ 4095) (k : Nat)
    (hk2 : k ≤ 7) : ∀ (cs : List PotiCall) (s : StablePoti), StablePoti.InRange lo hi k s →
    (s._curValue = POTI_VALUE_UNDEFINED ∨ (lo ≤ s._curValue ∧ s._curValue ≤ hi)) →
    (s._prevValue = POTI_VALUE_UNDEFINED ∨ (lo ≤ s._prevValue ∧ s._prevValue ≤ hi)) →
    (∀ q : Poll, PotiCall.poll q ∈ cs → lo ≤ q.raw ∧ q.raw ≤ hi) →
    StablePoti.InRange lo hi k (StablePoti.exec pf s cs)
    ∧ ((StablePoti.exec pf s cs)._curValue = POTI_VALUE_UNDEFINED
      ∨ (lo ≤ (StablePoti.exec pf s cs)._curValue ∧ (StablePoti.exec pf s cs)._curValue ≤ hi))
    ∧ ((StablePoti.exec pf s cs)._prevValue = POTI_VALUE_UNDEFINED
      ∨ (lo ≤ (StablePoti.exec pf s cs)._prevValue
        ∧ (StablePoti.exec pf s cs)._prevValue ≤ hi))
    ∧ (∀ pf' : Platform, 16 ≤ pf'.intBits → 16 * hi + 8 ≤ pf'.intMax →
        StablePoti.exec pf' s cs = StablePoti.exec pf s cs) := by
  intro cs
  induction cs with
  | nil => intro s hin hc hp _; exact ⟨hin, hc, hp, fun _ _ _ => rfl⟩
  | cons c cs ih =>
    intro s hin hc hp hq
    cases c with
    | poll q =>
      obtain ⟨r0, r1⟩ := hq q (List.mem_cons_self _ _)
      obtain ⟨a, b, c, d⟩ := StablePoti.hasChanged_range pf hb lo hi hlo hlh hM hM2 k hk2 s hin
        hc hp q.current q.raw r0 r1
      obtain ⟨i1, i2, i3, i4⟩ := ih _ a b c (fun q' h' => hq q' (List.mem_cons_of_mem _ h'))
      refine ⟨i1, i2, i3, fun pf' hb' hM' => ?_⟩
      show StablePoti.exec pf' (s.hasChanged pf' q.current q.raw).2 cs = _
      rw [d pf' hb' hM']
      exact i4 pf' hb' hM'
    | reset =>
      have hin' : StablePoti.InRange lo hi k s.reset := by
        have h := StablePoti.reset_inv hi s hin.1.2.1
        rw [hin.1.1] at h
        exact ⟨h, Or.inl rfl, fun h' => absurd h' (Nat.not_succ_le_zero 0)⟩
      exact ih s.reset hin' (Or.inl rfl) (Or.inl rfl)
        (fun q' h' => hq q' (List.mem_cons_of_mem _ h'))

/-! ## Stabilized values stay in the range of the samples -/

/-- C36 as stated fails where the arithmetic leaves the range of `int`, and
where a partial sum of an averaging sequence equals the marker 32767.  With 16
bit `int` and weight 4 the samples 8192, 8192 give the stabilized values 8192
and 0.  With 32 bit `int`, no weighting and 2 extra samples the samples 16383,
16383, 16384, 16383, 16383 give the stabilized values 16383, undefined,
undefined, 16383 and 10922: the sum 16383 + 16384 = 32767 is taken for "nothing
read yet", and the next sequence ends one sample early. -/
theorem StablePoti.stabilized_out_of_range :
    StablePoti.stabilized Platform.avr (StablePoti.new 7 0 4 0) [⟨1, 8192⟩, ⟨2, 8192⟩]
      = [8192, 0]
    ∧ StablePoti.stabilized Platform.arm32 (StablePoti.new 7 0 0 2)
        [⟨1, 16383⟩, ⟨2, 16383⟩, ⟨3, 16384⟩, ⟨4, 16383⟩, ⟨5, 16383⟩]
      = [16383, POTI_VALUE_UNDEFINED, POTI_VALUE_UNDEFINED, 16383, 10922] := by
  decide

/-- C36, amended.  On every platform with at least 16 bit `int`, for a
constructed `StablePoti` with weight 0 to 12 and 0 to 7 extra samples and
bounds `0 ≤ lo ≤ hi ≤ 4095` with `16 * hi + 8` an `int`: after every sequence
of `reset()` calls and `hasChanged()` calls with samples in `lo..hi`,
`getValue()` and `getPrevValue()` are `POTI_VALUE_UNDEFINED` or in `lo..hi`,
a further `getStabilizedRawValue` with a sample in `lo..hi` returns
`POTI_VALUE_UNDEFINED` or a value in `lo..hi`, and the weighting step for a
new value `n` in `lo..hi` returns a value between the smoothed previous value
and `n`. -/
theorem stabilized_in_range (pf : Platform) (hb : 16 ≤ pf.intBits) (lo hi : Int)
    (hlo : 0 ≤ lo) (hlh : lo ≤ hi) (hM2 : hi ≤ 4095) (hM : 16 * hi + 8 ≤ pf.intMax)
    (s : StablePoti) (hs : s.Fresh) (hw : s._weightPrev ≤ 12) (hk : s._addNumRawAvg ≤ 7)
    (cs : List PotiCall)
    (hcs : ∀ q : Poll, PotiCall.poll q ∈ cs → lo ≤ q.raw ∧ q.raw ≤ hi) :
    ((StablePoti.exec pf s cs).getValue = POTI_VALUE_UNDEFINED
      ∨ (lo ≤ (StablePoti.exec pf s cs).getValue ∧ (StablePoti.exec pf s cs).getValue ≤ hi))
    ∧ ((StablePoti.exec pf s cs).getPrevValue = POTI_VALUE_UNDEFINED
      ∨ (lo ≤ (StablePoti.exec pf s cs).getPrevValue ∧ (StablePoti.exec pf s cs).getPrevValue ≤ hi))
    ∧ (∀ q : Poll, lo ≤ q.raw → q.raw ≤ hi →
        ((StablePoti.exec pf s cs).getStabilizedRawValue pf q.current q.raw).1 = POTI_VALUE_UNDEFINED
        ∨ (lo ≤ ((StablePoti.exec pf s cs).getStabilizedRawValue pf q.current q.raw).1
          ∧ ((StablePoti.exec pf s cs).getStabilizedRawValue pf q.current q.raw).1 ≤ hi))
    ∧ (∀ n : Int, lo ≤ n → n ≤ hi →
        (StablePoti.exec pf s cs)._prevValueInternal ≠ POTI_VALUE_UNDEFINED →
        min (StablePoti.exec pf s cs)._prevValueInternal n ≤ (StablePoti.weighting pf (StablePoti.exec pf s cs) n).1
        ∧ (StablePoti.weighting pf (StablePoti.exec pf s cs) n).1 ≤ max (StablePoti.exec pf s cs)._prevValueInternal n) := by
  have hin : StablePoti.InRange lo hi s._addNumRawAvg s :=
    ⟨StablePoti.fresh_inv hi s hs hw, Or.inl hs.2.1,
      fun h => absurd h (by rw [hs.2.2.2]; exact Nat.not_succ_le_zero 0)⟩
  obtain ⟨A, B, C, -⟩ := StablePoti.exec_range pf hb lo hi hlo hlh hM hM2 s._addNumRawAvg hk cs
    s hin (Or.inl hs.1.2.1) (Or.inl hs.1.2.2) hcs
  refine ⟨B, C, fun q r0 r1 => ?_, fun n n0 n1 hne => ?_⟩
  · exact (StablePoti.getStabilized_range pf hb lo hi hlo hlh hM hM2 s._addNumRawAvg hk _ A
      q.current q.raw r0 r1).2.1
  · have hp : (StablePoti.exec pf s cs)._prevValueInternal = POTI_VALUE_UNDEFINED
        ∨ (lo ≤ (StablePoti.exec pf s cs)._prevValueInternal
          ∧ (StablePoti.exec pf s cs)._prevValueInternal ≤ hi) := by
      rcases A.1.2.2.2.1 with h | ⟨-, h2⟩
      · exact Or.inl h
      · rcases A.2.1 with h' | h'
        · exact Or.inl h'
        · exact Or.inr ⟨h', h2⟩
    exact (StablePoti.weighting_range pf hb lo hi hlo hM _ n A.1.2.1 hp n0 n1).2.2.1 hne

/-- Witness for C36: weight 4 and 2 extra samples on an 8-bit AVR, samples in
100..900. -/
theorem stabilized_in_range_witness :
    ((StablePoti.exec Platform.avr (StablePoti.new 7 0 4 2) [PotiCall.poll ⟨1, 100⟩, PotiCall.poll ⟨2, 900⟩, PotiCall.reset, PotiCall.poll ⟨3, 500⟩]).getValue = POTI_VALUE_UNDEFINED
      ∨ (100 ≤ (StablePoti.exec Platform.avr (StablePoti.new 7 0 4 2) [PotiCall.poll ⟨1, 100⟩, PotiCall.poll ⟨2, 900⟩, PotiCall.reset, PotiCall.poll ⟨3, 500⟩]).getValue ∧ (StablePoti.exec Platform.avr (StablePoti.new 7 0 4 2) [PotiCall.poll ⟨1, 100⟩, PotiCall.poll ⟨2, 900⟩, PotiCall.reset, PotiCall.poll ⟨3, 500⟩]).getValue ≤ 900))
    ∧ ((StablePoti.exec Platform.avr (StablePoti.new 7 0 4 2) [PotiCall.poll ⟨1, 100⟩, PotiCall.poll ⟨2, 900⟩, PotiCall.reset, PotiCall.poll ⟨3, 500⟩]).getPrevValue = POTI_VALUE_UNDEFINED
      ∨ (100 ≤ (StablePoti.exec Platform.avr (StablePoti.new 7 0 4 2) [PotiCall.poll ⟨1, 100⟩, PotiCall.poll ⟨2, 900⟩, PotiCall.reset, PotiCall.poll ⟨3, 500⟩]).getPrevValue ∧ (StablePoti.exec Platform.avr (StablePoti.new 7 0 4 2) [PotiCall.poll ⟨1, 100⟩, PotiCall.poll ⟨2, 900⟩, PotiCall.reset, PotiCall.poll ⟨3, 500⟩]).getPrevValue ≤ 900))
    ∧ (∀ q : Poll, 100 ≤ q.raw → q.raw ≤ 900 →
        ((StablePoti.exec Platform.avr (StablePoti.new 7 0 4 2) [PotiCall.poll ⟨1, 100⟩, PotiCall.poll ⟨2, 900⟩, PotiCall.reset, PotiCall.poll ⟨3, 500⟩]).getStabilizedRawValue Platform.avr q.current q.raw).1 = POTI_VALUE_UNDEFINED
        ∨ (100 ≤ ((StablePoti.exec Platform.avr (StablePoti.new 7 0 4 2) [PotiCall.poll ⟨1, 100⟩, PotiCall.poll ⟨2, 900⟩, PotiCall.reset, PotiCall.poll ⟨3, 500⟩]).getStabilizedRawValue Platform.avr q.current q.raw).1
          ∧ ((StablePoti.exec Platform.avr (StablePoti.new 7 0 4 2) [PotiCall.poll ⟨1, 100⟩, PotiCall.poll ⟨2, 900⟩, PotiCall.reset, PotiCall.poll ⟨3, 500⟩]).getStabilizedRawValue Platform.avr q.current q.raw).1 ≤ 900))
    ∧ (∀ n : Int, 100 ≤ n → n ≤ 900 →
        (StablePoti.exec Platform.avr (StablePoti.new 7 0 4 2) [PotiCall.poll ⟨1, 100⟩, PotiCall.poll ⟨2, 900⟩, PotiCall.reset, PotiCall.poll ⟨3, 500⟩])._prevValueInternal ≠ POTI_VALUE_UNDEFINED →
        min (StablePoti.exec Platform.avr (StablePoti.new 7 0 4 2) [PotiCall.poll ⟨1, 100⟩, PotiCall.poll ⟨2, 900⟩, PotiCall.reset, PotiCall.poll ⟨3, 500⟩])._prevValueInternal n ≤ (StablePoti.weighting Platform.avr (StablePoti.exec Platform.avr (StablePoti.new 7 0 4 2) [PotiCall.poll ⟨1, 100⟩, PotiCall.poll ⟨2, 900⟩, PotiCall.reset, PotiCall.poll ⟨3, 500⟩]) n).1
        ∧ (StablePoti.weighting Platform.avr (StablePoti.exec Platform.avr (StablePoti.new 7 0 4 2) [PotiCall.poll ⟨1, 100⟩, PotiCall.poll ⟨2, 900⟩, PotiCall.reset, PotiCall.poll ⟨3, 500⟩]) n).1 ≤ max (StablePoti.exec Platform.avr (StablePoti.new 7 0 4 2) [PotiCall.poll ⟨1, 100⟩, PotiCall.poll ⟨2, 900⟩, PotiCall.reset, PotiCall.poll ⟨3, 500⟩])._prevValueInternal n) :=
  stabilized_in_range Platform.avr (by decide) 100 900 (by decide) (by decide) (by decide)
    (by decide) (StablePoti.new 7 0 4 2) ⟨⟨rfl, rfl, rfl⟩, rfl, rfl, rfl⟩ (by decide) (by decide)
    [PotiCall.poll ⟨1, 100⟩, PotiCall.poll ⟨2, 900⟩, PotiCall.reset, PotiCall.poll ⟨3, 500⟩]
    (by
      intro q h
      simp only [List.mem_cons, PotiCall.poll.injEq, List.mem_singleton, reduceCtorEq,
        false_or, List.not_mem_nil, or_false] at h
      rcases h with rfl | rfl | rfl <;> decide)

/-! ## No overflow of 16 bit `int` -/

/-- C38. No 16 bit overflow: for a constructed `StablePoti` with weight 0 to
12 and 0 to 7 extra samples and every sequence of `reset()` calls and
`hasChanged()` calls with samples in `0..1023`, the object computed with 16 bit
`int` is the object computed with any wider `int`, and so are the results of a
further `getStabilizedRawValue` and `hasChanged` with a sample in `0..1023`;
there the running sum with the sample, twice that sum plus `k + 1`, and
`n * 4 + previous * weightPrev + (weightPrev + 4) / 2` for every averaged value
`n` in `0..1023` are in `0..32767`. -/
theorem no_int_overflow (pf : Platform) (hb : 16 ≤ pf.intBits) (s : StablePoti) (hs : s.Fresh)
    (hw : s._weightPrev ≤ 12) (hk : s._addNumRawAvg ≤ 7) (cs : List PotiCall)
    (hcs : ∀ q : Poll, PotiCall.poll q ∈ cs → 0 ≤ q.raw ∧ q.raw ≤ 1023) :
    StablePoti.exec Platform.avr s cs = StablePoti.exec pf s cs
    ∧ (∀ q : Poll, 0 ≤ q.raw → q.raw ≤ 1023 →
        (StablePoti.exec Platform.avr s cs).getStabilizedRawValue Platform.avr q.current q.raw
          = (StablePoti.exec Platform.avr s cs).getStabilizedRawValue pf q.current q.raw
        ∧ (StablePoti.exec Platform.avr s cs).hasChanged Platform.avr q.current q.raw
          = (StablePoti.exec Platform.avr s cs).hasChanged pf q.current q.raw
        ∧ ((StablePoti.exec Platform.avr s cs)._internalRawAvg ≠ POTI_VALUE_UNDEFINED →
            0 ≤ (StablePoti.exec Platform.avr s cs)._internalRawAvg + q.raw
            ∧ (StablePoti.exec Platform.avr s cs)._internalRawAvg + q.raw ≤ 32767
            ∧ 0 ≤ ((StablePoti.exec Platform.avr s cs)._internalRawAvg + q.raw) * 2 + (((StablePoti.exec Platform.avr s cs)._addNumRawAvg : Int) + 1)
            ∧ ((StablePoti.exec Platform.avr s cs)._internalRawAvg + q.raw) * 2 + (((StablePoti.exec Platform.avr s cs)._addNumRawAvg : Int) + 1) ≤ 32767))
    ∧ (∀ n : Int, 0 ≤ n → n ≤ 1023 →
        (StablePoti.exec Platform.avr s cs)._prevValueInternal ≠ POTI_VALUE_UNDEFINED →
        0 ≤ n * 4 + (StablePoti.exec Platform.avr s cs)._prevValueInternal * ((StablePoti.exec Platform.avr s cs)._weightPrev : Int)
            + (((StablePoti.exec Platform.avr s cs)._weightPrev : Int) + 4) / 2
        ∧ n * 4 + (StablePoti.exec Platform.avr s cs)._prevValueInternal * ((StablePoti.exec Platform.avr s cs)._weightPrev : Int)
            + (((StablePoti.exec Platform.avr s cs)._weightPrev : Int) + 4) / 2 ≤ 32767) := by
  have hU : POTI_VALUE_UNDEFINED = 32767 := rfl
  have hmax := pf.intMax_ge hb
  have hin : StablePoti.InRange 0 1023 s._addNumRawAvg s :=
    ⟨StablePoti.fresh_inv 1023 s hs hw, Or.inl hs.2.1,
      fun h => absurd h (by rw [hs.2.2.2]; exact Nat.not_succ_le_zero 0)⟩
  obtain ⟨hA, B, C, D⟩ := StablePoti.exec_range Platform.avr (by decide) 0 1023 (by decide)
    (by decide) (by decide) (by decide) s._addNumRawAvg hk cs s hin (Or.inl hs.1.2.1)
    (Or.inl hs.1.2.2) hcs
  obtain ⟨ek, ew, eo, ep, eT⟩ := hA.1
  refine ⟨(D pf hb (by omega)).symm, fun q r0 r1 => ⟨?_, ?_, fun hne => ?_⟩,
    fun n n0 n1 hne => ?_⟩
  · exact ((StablePoti.getStabilized_range Platform.avr (by decide) 0 1023 (by decide)
      (by decide) (by decide) (by decide) s._addNumRawAvg hk _ hA q.current q.raw r0 r1).2.2 pf
      hb (by omega)).symm
  · exact ((StablePoti.hasChanged_range Platform.avr (by decide) 0 1023 (by decide)
      (by decide) (by decide) (by decide) s._addNumRawAvg hk _ hA B C
      q.current q.raw r0 r1).2.2.2 pf hb (by omega)).symm
  · rcases eT with ⟨h, -⟩ | ⟨h0, h1⟩
    · exact absurd h hne
    · rw [ek]
      omega
  · rcases ep with h | ⟨h0, h1⟩
    · exact absurd h hne
    · have h2 : (StablePoti.exec Platform.avr s cs)._prevValueInternal
            * ((StablePoti.exec Platform.avr s cs)._weightPrev : Int)
          ≤ 1023 * ((StablePoti.exec Platform.avr s cs)._weightPrev : Int) :=
        mul_le_mul_of_nonneg_right h1 (by omega)
      have h3 : 0 ≤ (StablePoti.exec Platform.avr s cs)._prevValueInternal
          * ((StablePoti.exec Platform.avr s cs)._weightPrev : Int) := mul_nonneg h0 (by omega)
      omega

/-- Witness for C38: weight 12 and 7 extra samples, polls at raw 1023, 0 and
1023, compared with 32 bit `int`. -/
theorem no_int_overflow_witness :
    StablePoti.exec Platform.avr (StablePoti.new 7 0 12 7) [PotiCall.poll ⟨1, 1023⟩, PotiCall.poll ⟨2, 0⟩, PotiCall.poll ⟨3, 1023⟩] = StablePoti.exec Platform.arm32 (StablePoti.new 7 0 12 7) [PotiCall.poll ⟨1, 1023⟩, PotiCall.poll ⟨2, 0⟩, PotiCall.poll ⟨3, 1023⟩]
    ∧ (∀ q : Poll, 0 ≤ q.raw → q.raw ≤ 1023 →
        (StablePoti.exec Platform.avr (StablePoti.new 7 0 12 7) [PotiCall.poll ⟨1, 1023⟩, PotiCall.poll ⟨2, 0⟩, PotiCall.poll ⟨3, 1023⟩]).getStabilizedRawValue Platform.avr q.current q.raw
          = (StablePoti.exec Platform.avr (StablePoti.new 7 0 12 7) [PotiCall.poll ⟨1, 1023⟩, PotiCall.poll ⟨2, 0⟩, PotiCall.poll ⟨3, 1023⟩]).getStabilizedRawValue Platform.arm32 q.current q.raw
        ∧ (StablePoti.exec Platform.avr (StablePoti.new 7 0 12 7) [PotiCall.poll ⟨1, 1023⟩, PotiCall.poll ⟨2, 0⟩, PotiCall.poll ⟨3, 1023⟩]).hasChanged Platform.avr q.current q.raw
          = (StablePoti.exec Platform.avr (StablePoti.new 7 0 12 7) [PotiCall.poll ⟨1, 1023⟩, PotiCall.poll ⟨2, 0⟩, PotiCall.poll ⟨3, 1023⟩]).hasChanged Platform.arm32 q.current q.raw
        ∧ ((StablePoti.exec Platform.avr (StablePoti.new 7 0 12 7) [PotiCall.poll ⟨1, 1023⟩, PotiCall.poll ⟨2, 0⟩, PotiCall.poll ⟨3, 1023⟩])._internalRawAvg ≠ POTI_VALUE_UNDEFINED →
            0 ≤ (StablePoti.exec Platform.avr (StablePoti.new 7 0 12 7) [PotiCall.poll ⟨1, 1023⟩, PotiCall.poll ⟨2, 0⟩, PotiCall.poll ⟨3, 1023⟩])._internalRawAvg + q.raw
            ∧ (StablePoti.exec Platform.avr (StablePoti.new 7 0 12 7) [PotiCall.poll ⟨1, 1023⟩, PotiCall.poll ⟨2, 0⟩, PotiCall.poll ⟨3, 1023⟩])._internalRawAvg + q.raw ≤ 32767
            ∧ 0 ≤ ((StablePoti.exec Platform.avr (StablePoti.new 7 0 12 7) [PotiCall.poll ⟨1, 1023⟩, PotiCall.poll ⟨2, 0⟩, PotiCall.poll ⟨3, 1023⟩])._internalRawAvg + q.raw) * 2 + (((StablePoti.exec Platform.avr (StablePoti.new 7 0 12 7) [PotiCall.poll ⟨1, 1023⟩, PotiCall.poll ⟨2, 0⟩, PotiCall.poll ⟨3, 1023⟩])._addNumRawAvg : Int) + 1)
            ∧ ((StablePoti.exec Platform.avr (StablePoti.new 7 0 12 7) [PotiCall.poll ⟨1, 1023⟩, PotiCall.poll ⟨2, 0⟩, PotiCall.poll ⟨3, 1023⟩])._internalRawAvg + q.raw) * 2 + (((StablePoti.exec Platform.avr (StablePoti.new 7 0 12 7) [PotiCall.poll ⟨1, 1023⟩, PotiCall.poll ⟨2, 0⟩, PotiCall.poll ⟨3, 1023⟩])._addNumRawAvg : Int) + 1) ≤ 32767))
    ∧ (∀ n : Int, 0 ≤ n → n ≤ 1023 →
        (StablePoti.exec Platform.avr (StablePoti.new 7 0 12 7) [PotiCall.poll ⟨1, 1023⟩, PotiCall.poll ⟨2, 0⟩, PotiCall.poll ⟨3, 1023⟩])._prevValueInternal ≠ POTI_VALUE_UNDEFINED →
        0 ≤ n * 4 + (StablePoti.exec Platform.avr (StablePoti.new 7 0 12 7) [PotiCall.poll ⟨1, 1023⟩, PotiCall.poll ⟨2, 0⟩, PotiCall.poll ⟨3, 1023⟩])._prevValueInternal * ((StablePoti.exec Platform.avr (StablePoti.new 7 0 12 7) [PotiCall.poll ⟨1, 1023⟩, PotiCall.poll ⟨2, 0⟩, PotiCall.poll ⟨3, 1023⟩])._weightPrev : Int)
            + (((StablePoti.exec Platform.avr (StablePoti.new 7 0 12 7) [PotiCall.poll ⟨1, 1023⟩, PotiCall.poll ⟨2, 0⟩, PotiCall.poll ⟨3, 1023⟩])._weightPrev : Int) + 4) / 2
        ∧ n * 4 + (StablePoti.exec Platform.avr (StablePoti.new 7 0 12 7) [PotiCall.poll ⟨1, 1023⟩, PotiCall.poll ⟨2, 0⟩, PotiCall.poll ⟨3, 1023⟩])._prevValueInternal * ((StablePoti.exec Platform.avr (StablePoti.new 7 0 12 7) [PotiCall.poll ⟨1, 1023⟩, PotiCall.poll ⟨2, 0⟩, PotiCall.poll ⟨3, 1023⟩])._weightPrev : Int)
            + (((StablePoti.exec Platform.avr (StablePoti.new 7 0 12 7) [PotiCall.poll ⟨1, 1023⟩, PotiCall.poll ⟨2, 0⟩, PotiCall.poll ⟨3, 1023⟩])._weightPrev : Int) + 4) / 2 ≤ 32767) :=
  no_int_overflow Platform.arm32 (by decide) (StablePoti.new 7 0 12 7)
    ⟨⟨rfl, rfl, rfl⟩, rfl, rfl, rfl⟩ (by decide) (by decide)
    [PotiCall.poll ⟨1, 1023⟩, PotiCall.poll ⟨2, 0⟩, PotiCall.poll ⟨3, 1023⟩]
    (by
      intro q h
      simp only [List.mem_cons, PotiCall.poll.injEq, List.mem_singleton, reduceCtorEq,
        false_or, List.not_mem_nil, or_false] at h
      rcases h with rfl | rfl | rfl <;> decide)

/-! ## The two sides of `getMapping` -/

/-- Outside the center `getMapping` works on one side with `V` raw values and
`M` levels: `valTot = V`, `mapTot = M`; on the left side the raw value is below
`V`, on the right side its distance `_maxAnalogVal - rawValue` to the largest
analog value is an `int` below `V` (negative for a raw value above the largest
analog value). -/
theorem MappedPoti.side_totals_wide (pf : Platform) (hb : 16 ≤ pf.intBits)
    (hf : 24 ≤ pf.floatPrec) (p : MappedPoti)
    (hn1 : 2 ≤ p._numMapping) (hn2 : p._numMapping ≤ 255)
    (hodd : p._maxAnalogVal % 2 = 1) (hm1 : 1 ≤ p._maxAnalogVal)
    (hm2 : p._maxAnalogVal < 32767) (lo hi : Int)
    (hcen : (lo = 0 ∧ hi = 0)
      ∨ (0 < lo ∧ lo ≤ hi ∧ hi < p._maxAnalogVal ∧ 3 ≤ p._numMapping))
    (r : Int) (h0 : 0 ≤ r) (h1 : r ≤ p._maxAnalogVal + 32768)
    (hout : p.inCenter pf r lo hi = false) :
    ∃ V M : Nat, 1 ≤ M ∧ 2 * M ≤ p._numMapping ∧ 1 ≤ V ∧ V ≤ 32767
      ∧ (V : Int) ≤ p._maxAnalogVal ∧ p.valTot pf r lo hi = (V : ℚ) ∧ p.mapTot pf lo = (M : ℚ)
      ∧ ((p.leftSide pf r lo = true ∧ r < (V : Int))
        ∨ (p.leftSide pf r lo = false ∧ pf.wrap (p._maxAnalogVal - r) = p._maxAnalogVal - r
          ∧ p._maxAnalogVal - r < (V : Int))) := by
  have hmin := Platform.intMin_le pf hb
  have hmax := Platform.intMax_ge pf hb
  obtain ⟨mx, hmx⟩ := Int.eq_ofNat_of_zero_le (show 0 ≤ p._maxAnalogVal by omega)
  have hmxodd : mx % 2 = 1 := by omega
  have hmx2 : mx ≤ 32765 := by omega
  -- a center given or implied
  have centered_case : ∀ cl ch : Nat, p.centered lo = true → p.centerValLow pf lo = (cl : Int) →
      p.centerValHigh pf lo hi = (ch : Int) → cl ≤ ch → ch < mx → 3 ≤ p._numMapping →
      ∃ V M : Nat, 1 ≤ M ∧ 2 * M ≤ p._numMapping ∧ 1 ≤ V ∧ V ≤ 32767
        ∧ (V : Int) ≤ p._maxAnalogVal ∧ p.valTot pf r lo hi = (V : ℚ) ∧ p.mapTot pf lo = (M : ℚ)
        ∧ ((p.leftSide pf r lo = true ∧ r < (V : Int))
          ∨ (p.leftSide pf r lo = false ∧ pf.wrap (p._maxAnalogVal - r) = p._maxAnalogVal - r
            ∧ p._maxAnalogVal - r < (V : Int))) := by
    intro cl ch hce hcl hch c1 c2 c3
    have hmt : p.mapTot pf lo = (((p._numMapping - 1) / 2 : Nat) : ℚ) := by
      unfold MappedPoti.mapTot
      rw [hce]
      simp only [Bool.not_true, Bool.false_eq_true, if_false]
      rw [pf.wrap_small _ hb (by omega) (by omega), shiftRight_one_eq_div]
      have e : ((p._numMapping : Int) - 1) / 2 = (((p._numMapping - 1) / 2 : Nat) : Int) := by
        omega
      rw [e, Int.cast_natCast]
      exact pf.toFloat_natCast hf _ (by omega)
    have hside : r < (cl : Int) ∨ (ch : Int) < r := by
      simp only [MappedPoti.inCenter, hce, hcl, hch, Bool.true_and, Bool.and_eq_false_imp,
        decide_eq_true_eq, decide_eq_false_iff_not, not_le] at hout
      by_cases h : r < (cl : Int)
      · exact Or.inl h
      · exact Or.inr (hout (by omega))
    rcases hside with hs | hs
    · have hl : p.leftSide pf r lo = true := by
        simp only [MappedPoti.leftSide, hce, hcl, Bool.true_and, Bool.not_true, Bool.false_and,
          Bool.or_false, decide_eq_true_eq]
        exact hs
      have hv : p.valTot pf r lo hi = (cl : ℚ) := by
        simp only [MappedPoti.valTot, hl, if_true, hce, Bool.not_true, Bool.false_eq_true,
          if_false, hcl, Int.cast_natCast]
        exact pf.toFloat_natCast hf _ (by omega)
      exact ⟨cl, (p._numMapping - 1) / 2, by omega, by omega, by omega, by omega, by omega, hv,
        hmt, Or.inl ⟨hl, hs⟩⟩
    · have hl : p.leftSide pf r lo = false := by
        simp only [MappedPoti.leftSide, hce, hcl, Bool.true_and, Bool.not_true, Bool.false_and,
          Bool.or_false, decide_eq_false_iff_not, not_lt]
        omega
      have hv : p.valTot pf r lo hi = ((mx - ch : Nat) : ℚ) := by
        simp only [MappedPoti.valTot, hl, Bool.false_eq_true, if_false, hce, Bool.not_true, hch,
          hmx]
        rw [pf.wrap_small _ hb (by omega) (by omega)]
        have e : (mx : Int) - (ch : Int) = ((mx - ch : Nat) : Int) := by omega
        rw [e, Int.cast_natCast]
        exact pf.toFloat_natCast hf _ (by omega)
      have hraw : pf.wrap (p._maxAnalogVal - r) = p._maxAnalogVal - r :=
        pf.wrap_small _ hb (by omega) (by omega)
      exact ⟨mx - ch, (p._numMapping - 1) / 2, by omega, by omega, by omega, by omega, by omega,
        hv, hmt, Or.inr ⟨hl, hraw, by omega⟩⟩
  rcases hcen with ⟨rfl, rfl⟩ | ⟨c1, c2, c3, c4⟩
  · by_cases hpar : p._numMapping % 2 = 1
    · -- implicit center
      obtain ⟨-, e2, e3, e4, -, -⟩ := MappedPoti.implicit_band pf p hb (by omega) (by omega)
        (by omega)
      have hi : p.implicitCenter 0 = true := by simp [MappedPoti.implicitCenter, hpar]
      have hce : p.centered 0 = true := by simp [MappedPoti.centered, hi]
      have hn3 : (3 : Int) ≤ (p._numMapping : Int) := by omega
      have ha0 : 0 ≤ (p._maxAnalogVal + 1) / (p._numMapping : Int) :=
        Int.ediv_nonneg (by omega) (by omega)
      have ha3 : (p._maxAnalogVal + 1) / (p._numMapping : Int) * 3 ≤ p._maxAnalogVal + 1 :=
        calc (p._maxAnalogVal + 1) / (p._numMapping : Int) * 3
            ≤ (p._maxAnalogVal + 1) / (p._numMapping : Int) * (p._numMapping : Int) :=
              mul_le_mul_of_nonneg_left hn3 ha0
          _ ≤ p._maxAnalogVal + 1 := Int.ediv_mul_le _ (by omega)
      obtain ⟨cl, hcl⟩ := Int.eq_ofNat_of_zero_le
        (show 0 ≤ p._maxAnalogVal / 2 - (p._maxAnalogVal + 1) / (p._numMapping : Int) / 2 by omega)
      obtain ⟨ch, hch⟩ := Int.eq_ofNat_of_zero_le
        (show 0 ≤ p._maxAnalogVal / 2 + (p._maxAnalogVal + 1) / (p._numMapping : Int) / 2 by omega)
      refine centered_case cl ch hce ?_ ?_ (by omega) (by omega) (by omega)
      · simp only [MappedPoti.centerValLow, hi, if_true, e2, hcl]
      · simp only [MappedPoti.centerValHigh, hi, if_true, e3, hch]
    · -- no center
      have hi : p.implicitCenter 0 = false := by
        simp only [MappedPoti.implicitCenter, lt_self_iff_false, decide_False, Bool.not_false,
          Bool.true_and, decide_eq_false_iff_not]
        omega
      have hce : p.centered 0 = false := by simp [MappedPoti.centered, hi]
      have hhalf : (pf.wrap (p._maxAnalogVal + 1)) >>> 1 = (((mx + 1) / 2 : Nat) : Int) := by
        rw [hmx, pf.wrap_small _ hb (by omega) (by omega), shiftRight_one_eq_div]
        omega
      have hmt : p.mapTot pf 0 = ((p._numMapping / 2 : Nat) : ℚ) := by
        unfold MappedPoti.mapTot
        rw [hce]
        simp only [Bool.not_false, if_true, Nat.shiftRight_eq_div_pow, pow_one, Int.cast_natCast]
        exact pf.toFloat_natCast hf _ (by omega)
      have hvt : p.valTot pf r 0 0 = (((mx + 1) / 2 : Nat) : ℚ) := by
        have e : pf.toFloat ((((mx + 1) / 2 : Nat) : Int) : ℚ) = (((mx + 1) / 2 : Nat) : ℚ) := by
          rw [Int.cast_natCast]
          exact pf.toFloat_natCast hf _ (by omega)
        simp only [MappedPoti.valTot, hce, Bool.not_false, if_true, hhalf, e, ite_self]
      by_cases hx : r < (((mx + 1) / 2 : Nat) : Int)
      · have hl : p.leftSide pf r 0 = true := by
          simp only [MappedPoti.leftSide, hce, Bool.false_and, Bool.not_false, Bool.true_and,
            Bool.false_or, hhalf, decide_eq_true_eq]
          exact hx
        exact ⟨(mx + 1) / 2, p._numMapping / 2, by omega, by omega, by omega, by omega, by omega,
          hvt, hmt, Or.inl ⟨hl, hx⟩⟩
      · have hl : p.leftSide pf r 0 = false := by
          simp only [MappedPoti.leftSide, hce, Bool.false_and, Bool.not_false, Bool.true_and,
            Bool.false_or, hhalf, decide_eq_false_iff_not, not_lt]
          omega
        have hraw : pf.wrap (p._maxAnalogVal - r) = p._maxAnalogVal - r :=
          pf.wrap_small _ hb (by omega) (by omega)
        exact ⟨(mx + 1) / 2, p._numMapping / 2, by omega, by omega, by omega, by omega, by omega,
          hvt, hmt, Or.inr ⟨hl, hraw, by omega⟩⟩
  · -- center given
    have hi0 : p.implicitCenter lo = false := by simp [MappedPoti.implicitCenter, c1]
    have hce : p.centered lo = true := by simp [MappedPoti.centered, c1]
    obtain ⟨cl, hcl⟩ := Int.eq_ofNat_of_zero_le (show 0 ≤ lo by omega)
    obtain ⟨ch, hch⟩ := Int.eq_ofNat_of_zero_le (show 0 ≤ hi by omega)
    refine centered_case cl ch hce ?_ ?_ (by omega) (by omega) c4
    · unfold MappedPoti.centerValLow
      rw [hi0]
      simp only [Bool.false_eq_true, if_false]
      exact hcl
    · unfold MappedPoti.centerValHigh
      rw [hi0]
      simp only [Bool.false_eq_true, if_false]
      exact hch

/-- Outside the center `getMapping` works on one side with `V` raw values and
`M` levels: `valTot = V`, `mapTot = M`, and the value `x` that enters the
quotient is the raw value on the left side and its distance to the largest
analog value on the right side, with `x < V`. -/
theorem MappedPoti.side_totals (pf : Platform) (hb : 16 ≤ pf.intBits)
    (hf : 24 ≤ pf.floatPrec) (p : MappedPoti)
    (hn1 : 2 ≤ p._numMapping) (hn2 : p._numMapping ≤ 255)
    (hodd : p._maxAnalogVal % 2 = 1) (hm1 : 1 ≤ p._maxAnalogVal)
    (hm2 : p._maxAnalogVal < 32767) (lo hi : Int)
    (hcen : (lo = 0 ∧ hi = 0)
      ∨ (0 < lo ∧ lo ≤ hi ∧ hi < p._maxAnalogVal ∧ 3 ≤ p._numMapping))
    (r : Int) (h0 : 0 ≤ r) (h1 : r ≤ p._maxAnalogVal)
    (hout : p.inCenter pf r lo hi = false) :
    ∃ V M x : Nat, 1 ≤ M ∧ 2 * M ≤ p._numMapping ∧ V ≤ 32767 ∧ x + 1 ≤ V
      ∧ p.valTot pf r lo hi = (V : ℚ) ∧ p.mapTot pf lo = (M : ℚ)
      ∧ ((p.leftSide pf r lo = true ∧ r = (x : Int))
        ∨ (p.leftSide pf r lo = false ∧ pf.wrap (p._maxAnalogVal - r) = (x : Int)
          ∧ p._maxAnalogVal - r = (x : Int))) := by
  obtain ⟨V, M, hM, hMn, hV1, hV, -, hv, hm, hside⟩ := MappedPoti.side_totals_wide pf hb hf p
    hn1 hn2 hodd hm1 hm2 lo hi hcen r h0 (by omega) hout
  rcases hside with ⟨hl, e⟩ | ⟨hl, e, e2⟩
  · obtain ⟨x, rfl⟩ := Int.eq_ofNat_of_zero_le h0
    exact ⟨V, M, x, hM, hMn, hV, by omega, hv, hm, Or.inl ⟨hl, rfl⟩⟩
  · obtain ⟨x, hx⟩ := Int.eq_ofNat_of_zero_le (show 0 ≤ p._maxAnalogVal - r by omega)
    exact ⟨V, M, x, hM, hMn, hV, by omega, hv, hm, Or.inr ⟨hl, by rw [e, hx], hx⟩⟩

/-! ## No division by zero in `getMapping` -/

/-- C40 as stated fails with 16 bit `int` at the largest analog value 32767
(uneven and at least 3): `_maxAnalogVal + 1` is not an `int`, and with 2 levels
and stretch 0 the raw value 0, outside any center, is on the right side with
`valTot = -16384`; the divisor is -16384 and the bucket index is -1. -/
theorem MappedPoti.side_total_negative :
    ((MappedPoti.new 7 0 0 0 2 0).setMaxAnalogValue Platform.avr 32767).2._maxAnalogVal = 32767
    ∧ ((MappedPoti.new 7 0 0 0 2 0).setMaxAnalogValue Platform.avr 32767).2._numMapping = 2
    ∧ ((MappedPoti.new 7 0 0 0 2 0).setMaxAnalogValue Platform.avr 32767).2._stretch = 0
    ∧ MappedPoti.inCenter Platform.avr
        ((MappedPoti.new 7 0 0 0 2 0).setMaxAnalogValue Platform.avr 32767).2 0 0 0 = false
    ∧ MappedPoti.leftSide Platform.avr
        ((MappedPoti.new 7 0 0 0 2 0).setMaxAnalogValue Platform.avr 32767).2 0 0 = false
    ∧ MappedPoti.valTot Platform.avr
        ((MappedPoti.new 7 0 0 0 2 0).setMaxAnalogValue Platform.avr 32767).2 0 0 0 = -16384
    ∧ MappedPoti.mapTot Platform.avr
        ((MappedPoti.new 7 0 0 0 2 0).setMaxAnalogValue Platform.avr 32767).2 0 = 1
    ∧ MappedPoti.scale Platform.avr
        ((MappedPoti.new 7 0 0 0 2 0).setMaxAnalogValue Platform.avr 32767).2 = 1
    ∧ Platform.avr.divFloat (-16384) 1 = some (-16384)
    ∧ MappedPoti.divisor Platform.avr (-16384) 1 (-16384) (Platform.avr.wrap (32767 - 0)) = -16384
    ∧ MappedPoti.bucket Platform.avr (-16384) 1 (-16384) (Platform.avr.wrap (32767 - 0))
        = some (-1) := by
  decide!

/-- C40, amended.  On every platform with at least 16 bit `int` and 24 bit
significands, for 2 to 101 levels, stretch 0 to 20, an uneven largest analog
value `m` with `3 ≤ m < 32767`, no center given (`0, 0`) or a center
`0 < centerValLow ≤ centerValHigh < m` with at least 3 levels, and every raw
value in `0..m` outside the center: `valTot` and `mapTot` are at least 1,
`scale` is at least 1, the quotient `valTot / mapTot` has a result `stdDiv`, the
divisor of the bucket index is strictly positive, the bucket index has a
result and is not negative, and `getMapping` has a result. -/
theorem no_division_by_zero (pf : Platform) (hb : 16 ≤ pf.intBits) (hf : 24 ≤ pf.floatPrec)
    (hd : 24 ≤ pf.doublePrec) (p : MappedPoti)
    (hn1 : 2 ≤ p._numMapping) (hn2 : p._numMapping ≤ 101) (hst : p._stretch ≤ 20)
    (hodd : p._maxAnalogVal % 2 = 1) (hm1 : 3 ≤ p._maxAnalogVal)
    (hm2 : p._maxAnalogVal < 32767) (lo hi : Int)
    (hcen : (lo = 0 ∧ hi = 0)
      ∨ (0 < lo ∧ lo ≤ hi ∧ hi < p._maxAnalogVal ∧ 3 ≤ p._numMapping))
    (r : Int) (h0 : 0 ≤ r) (h1 : r ≤ p._maxAnalogVal)
    (hout : p.inCenter pf r lo hi = false) :
    1 ≤ p.valTot pf r lo hi ∧ 1 ≤ p.mapTot pf lo ∧ 1 ≤ p.scale pf
    ∧ (∃ stdDiv : ℚ, pf.divFloat (p.valTot pf r lo hi) (p.mapTot pf lo) = some stdDiv
        ∧ 0 < MappedPoti.divisor pf stdDiv (p.scale pf) (p.valTot pf r lo hi)
            (if p.leftSide pf r lo then r else pf.wrap (p._maxAnalogVal - r))
        ∧ ∃ t : Int, MappedPoti.bucket pf stdDiv (p.scale pf) (p.valTot pf r lo hi)
            (if p.leftSide pf r lo then r else pf.wrap (p._maxAnalogVal - r)) = some t
          ∧ 0 ≤ t)
    ∧ (MappedPoti.getMapping pf p r lo hi).isSome = true := by
  obtain ⟨V, M, x, hM, hMn, hV, hx, hv, hm, hside⟩ :=
    MappedPoti.side_totals pf hb hf p hn1 (by omega) hodd (by omega) hm2 lo hi hcen r h0 h1 hout
  obtain ⟨s1, -, -, -, i1, -, k0, -, -, -, -⟩ := MappedPoti.scale_facts pf p hf hd hst
  have hs : 0 < p.scale pf := by linarith
  obtain ⟨-, ha, -, -⟩ := MappedPoti.stdDiv_facts pf hf (p.scale pf) V M hs hM (by omega)
  have hV1 : (1 : ℚ) ≤ (V : ℚ) := by
    have : 1 ≤ V := by omega
    exact_mod_cast this
  have hM1 : (1 : ℚ) ≤ (M : ℚ) := by exact_mod_cast hM
  have hVq : (0 : ℚ) < (V : ℚ) := by linarith
  have hMq : (M : ℚ) ≠ 0 := by linarith
  obtain ⟨hdiv, g0, -, -⟩ := MappedPoti.quotient_bounds pf hd (pf.toFloat ((V : ℚ) / M))
    (p.scale pf) V x (by omega) ha k0 (by linarith) hVq
  have hbk := MappedPoti.bucket_eq_quotient pf (pf.toFloat ((V : ℚ) / M)) (p.scale pf) (V : ℚ)
    (x : Int) hs.ne' hVq.ne' hdiv.ne'
  have hx' : (if p.leftSide pf r lo then r else pf.wrap (p._maxAnalogVal - r)) = (x : Int) := by
    rcases hside with ⟨hl, e⟩ | ⟨hl, e, -⟩
    · rw [hl, if_pos rfl, e]
    · rw [hl, if_neg (by simp), e]
  have hsome : (MappedPoti.getMapping pf p r lo hi).isSome = true := by
    rcases hside with ⟨hl, e⟩ | ⟨hl, e, -⟩
    · subst e
      rw [(MappedPoti.getMapping_left pf hf hd p hst lo hi V M x hout hl hv hm hM (by omega)
        (by omega) hV hx).1]
      rfl
    · rw [(MappedPoti.getMapping_right pf hb hf hd p hst r lo hi V M x hout hl hv hm e hM
        (by omega) (by omega) hV hx).1]
      rfl
  rw [hx', hv, hm]
  refine ⟨hV1, hM1, s1, ⟨pf.toFloat ((V : ℚ) / M), ?_, hdiv, _, hbk, truncQ_nonneg _ g0⟩, hsome⟩
  simp only [Platform.divFloat, if_neg hMq]

theorem no_division_by_zero_witness :
    (1 : ℚ) ≤ (MappedPoti.new 7 0 0 0 4 20).valTot Platform.avr 300 0 0
    ∧ (1 : ℚ) ≤ (MappedPoti.new 7 0 0 0 4 20).mapTot Platform.avr 0
    ∧ (1 : ℚ) ≤ (MappedPoti.new 7 0 0 0 4 20).scale Platform.avr
    ∧ (∃ stdDiv : ℚ, Platform.avr.divFloat ((MappedPoti.new 7 0 0 0 4 20).valTot Platform.avr 300 0 0)
          ((MappedPoti.new 7 0 0 0 4 20).mapTot Platform.avr 0) = some stdDiv
        ∧ 0 < MappedPoti.divisor Platform.avr stdDiv ((MappedPoti.new 7 0 0 0 4 20).scale Platform.avr)
            ((MappedPoti.new 7 0 0 0 4 20).valTot Platform.avr 300 0 0)
            (if (MappedPoti.new 7 0 0 0 4 20).leftSide Platform.avr 300 0 then 300
              else Platform.avr.wrap ((MappedPoti.new 7 0 0 0 4 20)._maxAnalogVal - 300))
        ∧ ∃ t : Int, MappedPoti.bucket Platform.avr stdDiv
            ((MappedPoti.new 7 0 0 0 4 20).scale Platform.avr)
            ((MappedPoti.new 7 0 0 0 4 20).valTot Platform.avr 300 0 0)
            (if (MappedPoti.new 7 0 0 0 4 20).leftSide Platform.avr 300 0 then 300
              else Platform.avr.wrap ((MappedPoti.new 7 0 0 0 4 20)._maxAnalogVal - 300)) = some t
          ∧ 0 ≤ t)
    ∧ (MappedPoti.getMapping Platform.avr (MappedPoti.new 7 0 0 0 4 20) 300 0 0).isSome = true :=
  no_division_by_zero Platform.avr (by decide) (by decide) (by decide)
    (MappedPoti.new 7 0 0 0 4 20) (by decide) (by decide) (by decide) (by decide) (by decide)
    (by decide) 0 0 (Or.inl ⟨rfl, rfl⟩) 300 (by decide) (by decide) (by decide!)

/-! ## Linear mapping without stretch -/

theorem floor_natCast_ratio (x M V : Nat) :
    Rat.floor ((x : ℚ) * (M : ℚ) / (V : ℚ)) = ((x * M / V : Nat) : Int) := by
  have h := Rat.floor_intCast_div_natCast ((x * M : Nat) : Int) V
  rw [Int.cast_natCast] at h
  have h2 : Rat.floor ((x : ℚ) * (M : ℚ) / (V : ℚ)) = ⌊((x * M : Nat) : ℚ) / (V : ℚ)⌋ := by
    rw [Nat.cast_mul]
    rfl
  rw [h2, h]
  norm_cast

/-- Without stretch the truncated quotient of `getMapping` is the linear bucket
index `x * M / V` or one less, and it is the linear bucket index where `x * M`
is not a multiple of `V`. -/
theorem MappedPoti.level_linear (pf : Platform) (hf : 24 ≤ pf.floatPrec)
    (hd : 24 ≤ pf.doublePrec) (p : MappedPoti) (h0 : p._stretch = 0) (V M x : Nat)
    (hM : 1 ≤ M) (hM2 : M ≤ 50) (hV : 1 ≤ V) (hx : x ≤ 32767) :
    (truncQ (MappedPoti.quotient pf (pf.toFloat ((V : ℚ) / M)) (p.scale pf) (V : ℚ)
        (x : Int))).toNat ≤ x * M / V
    ∧ x * M / V ≤ (truncQ (MappedPoti.quotient pf (pf.toFloat ((V : ℚ) / M)) (p.scale pf) (V : ℚ)
        (x : Int))).toNat + 1
    ∧ (x * M % V ≠ 0 → (truncQ (MappedPoti.quotient pf (pf.toFloat ((V : ℚ) / M)) (p.scale pf)
        (V : ℚ) (x : Int))).toNat = x * M / V) := by
  have hxM : x * M ≤ 32767 * 50 := Nat.mul_le_mul hx hM2
  have hxMq : ((x : ℚ) * M) ≤ 1638350 := by
    have : ((x * M : Nat) : ℚ) ≤ ((32767 * 50 : Nat) : ℚ) := by exact_mod_cast hxM
    push_cast at this
    linarith
  have hxM0 : (0 : ℚ) ≤ (x : ℚ) * M := by positivity
  have hdm := Nat.div_add_mod (x * M) V
  have hmod : x * M % V < V := Nat.mod_lt _ (by omega)
  generalize hL : x * M / V = L at hdm ⊢
  generalize hR : x * M % V = R at hdm hmod ⊢
  have hq : (V : ℚ) * L + R = (x : ℚ) * M := by exact_mod_cast hdm
  have hRV : (R : ℚ) + 1 ≤ V := by
    have : R + 1 ≤ V := by omega
    exact_mod_cast this
  have hR0 : (0 : ℚ) ≤ (R : ℚ) := by positivity
  have hV1 : (1 : ℚ) ≤ (V : ℚ) := by exact_mod_cast hV
  have up := MappedPoti.level_lt_of pf hf hd p h0 V M x (L + 1) hM hV (by omega) (by
    push_cast
    nlinarith)
  refine ⟨by omega, ?_, ?_⟩
  · rcases Nat.eq_zero_or_pos L with h | h
    · omega
    · obtain ⟨l, rfl⟩ : ∃ l, L = l + 1 := ⟨L - 1, by omega⟩
      have lo := MappedPoti.level_ge_of pf hf hd p h0 V M x l hM hV (by omega) (by
        push_cast at hq
        nlinarith)
      omega
  · intro hne
    have hR1 : (1 : ℚ) ≤ (R : ℚ) := by
      have : 1 ≤ R := by omega
      exact_mod_cast this
    have lo := MappedPoti.level_ge_of pf hf hd p h0 V M x L hM hV (by omega) (by nlinarith)
    omega

/-- C31 as stated fails: with 28 levels, stretch 0 and the largest analog
value 1023 a side has 512 raw values and 14 levels, `512 / 14` is not a `float`
and is rounded up, and the raw value 256 gets level 6 where
`floor(256 * 14 / 512) = 7`; on the right side the raw value 767 gets level 21
where `27 - floor(256 * 14 / 512) = 20`.  With 16 bit and with 32 bit `int`. -/
theorem MappedPoti.linear_level_off :
    (MappedPoti.new 7 0 0 0 28 0)._stretch = 0
    ∧ (MappedPoti.new 7 0 0 0 28 0)._numMapping = 28
    ∧ (MappedPoti.new 7 0 0 0 28 0)._maxAnalogVal = 1023
    ∧ (∀ pf ∈ [Platform.avr, Platform.arm32],
        (MappedPoti.new 7 0 0 0 28 0).leftSide pf 256 0 = true
        ∧ (MappedPoti.new 7 0 0 0 28 0).valTot pf 256 0 0 = 512
        ∧ (MappedPoti.new 7 0 0 0 28 0).mapTot pf 0 = 14
        ∧ MappedPoti.getMapping pf (MappedPoti.new 7 0 0 0 28 0) 256 0 0 = some 6
        ∧ (MappedPoti.new 7 0 0 0 28 0).linearLevel pf 256 0 0 = 7
        ∧ (MappedPoti.new 7 0 0 0 28 0).leftSide pf 767 0 = false
        ∧ (MappedPoti.new 7 0 0 0 28 0).valTot pf 767 0 0 = 512
        ∧ MappedPoti.getMapping pf (MappedPoti.new 7 0 0 0 28 0) 767 0 0 = some 21
        ∧ (MappedPoti.new 7 0 0 0 28 0).linearLevel pf 767 0 0 = 20) := by
  decide!

/-- C31, amended.  On every platform with at least 16 bit `int` and 24 bit
significands, for stretch 0, 2 to 101 levels, an uneven largest analog value
`m` with `3 ≤ m < 32767`, no center given or a center
`0 < centerValLow ≤ centerValHigh < m` with at least 3 levels, and a raw value
in `0..m` outside the center: `getMapping` has a level; on the left side it is
the level of linear bucketing or one less, on the right side the level of
linear bucketing or one more; and it is the level of linear bucketing
whenever `distance * mapTot / valTot` is not a whole number or is below 1. -/
theorem linear_mapping (pf : Platform) (hb : 16 ≤ pf.intBits) (hf : 24 ≤ pf.floatPrec)
    (hd : 24 ≤ pf.doublePrec) (p : MappedPoti)
    (hn1 : 2 ≤ p._numMapping) (hn2 : p._numMapping ≤ 101) (hst : p._stretch = 0)
    (hodd : p._maxAnalogVal % 2 = 1) (hm1 : 3 ≤ p._maxAnalogVal)
    (hm2 : p._maxAnalogVal < 32767) (lo hi : Int)
    (hcen : (lo = 0 ∧ hi = 0)
      ∨ (0 < lo ∧ lo ≤ hi ∧ hi < p._maxAnalogVal ∧ 3 ≤ p._numMapping))
    (r : Int) (h0 : 0 ≤ r) (h1 : r ≤ p._maxAnalogVal)
    (hout : p.inCenter pf r lo hi = false) :
    ∃ lvl : Nat, MappedPoti.getMapping pf p r lo hi = some lvl
      ∧ (p.leftSide pf r lo = true →
          p.linearLevel pf r lo hi - 1 ≤ (lvl : Int) ∧ (lvl : Int) ≤ p.linearLevel pf r lo hi)
      ∧ (p.leftSide pf r lo = false →
          p.linearLevel pf r lo hi ≤ (lvl : Int) ∧ (lvl : Int) ≤ p.linearLevel pf r lo hi + 1)
      ∧ (((p.linearBucket pf r lo hi : Int) : ℚ) ≠ p.sideRatio pf r lo hi →
          (lvl : Int) = p.linearLevel pf r lo hi)
      ∧ (p.linearBucket pf r lo hi = 0 → (lvl : Int) = p.linearLevel pf r lo hi) := by
  obtain ⟨V, M, x, hM, hMn, hV, hx, hv, hm, hside⟩ :=
    MappedPoti.side_totals pf hb hf p hn1 (by omega) hodd (by omega) hm2 lo hi hcen r h0 h1 hout
  obtain ⟨up, lw, ex⟩ := MappedPoti.level_linear pf hf hd p hst V M x hM (by omega) (by omega)
    (by omega)
  have hVq : (0 : ℚ) < (V : ℚ) := by
    have : 0 < V := by omega
    exact_mod_cast this
  have hdist : p.sideDistance pf r lo = (x : Int) := by
    unfold MappedPoti.sideDistance
    rcases hside with ⟨hl, e⟩ | ⟨hl, -, e⟩
    · rw [hl, if_pos rfl, e]
    · rw [hl, if_neg (by simp), e]
  have hratio : p.sideRatio pf r lo hi = (x : ℚ) * (M : ℚ) / (V : ℚ) := by
    unfold MappedPoti.sideRatio
    rw [hdist, hv, hm, Int.cast_natCast]
  have hbucket : p.linearBucket pf r lo hi = ((x * M / V : Nat) : Int) := by
    unfold MappedPoti.linearBucket
    rw [hratio]
    exact floor_natCast_ratio x M V
  have hwhole : ((p.linearBucket pf r lo hi : Int) : ℚ) ≠ p.sideRatio pf r lo hi →
      x * M % V ≠ 0 := by
    intro hne hmod
    apply hne
    rw [hbucket, hratio, Int.cast_natCast]
    have hdm := Nat.div_add_mod (x * M) V
    rw [hmod, Nat.add_zero] at hdm
    have hq : (V : ℚ) * ((x * M / V : Nat) : ℚ) = (x : ℚ) * M := by exact_mod_cast hdm
    rw [eq_div_iff hVq.ne']
    linarith
  generalize hT : (truncQ (MappedPoti.quotient pf (pf.toFloat ((V : ℚ) / M)) (p.scale pf) (V : ℚ)
    (x : Int))).toNat = T at up lw ex
  rcases hside with ⟨hl, e⟩ | ⟨hl, e, e2⟩
  · subst e
    obtain ⟨g, gM⟩ := MappedPoti.getMapping_left pf hf hd p (by omega) lo hi V M x hout hl hv hm
      hM (by omega) (by omega) hV hx
    rw [hT] at g gM
    have hlin : p.linearLevel pf (x : Int) lo hi = ((x * M / V : Nat) : Int) := by
      unfold MappedPoti.linearLevel
      rw [hl, if_pos rfl, hbucket]
    refine ⟨T, g, ?_, ?_, ?_, ?_⟩
    · intro _
      rw [hlin]
      omega
    · intro h
      rw [hl] at h
      exact absurd h (by simp)
    · intro h
      rw [hlin, ex (hwhole h)]
    · intro h
      rw [hlin]
      rw [hbucket] at h
      omega
  · obtain ⟨g, gM⟩ := MappedPoti.getMapping_right pf hb hf hd p (by omega) r lo hi V M x hout hl
      hv hm e hM (by omega) (by omega) hV hx
    rw [hT] at g gM
    have hlin : p.linearLevel pf r lo hi
        = (p._numMapping : Int) - 1 - ((x * M / V : Nat) : Int) := by
      unfold MappedPoti.linearLevel
      rw [hl, if_neg (by simp), hbucket]
    refine ⟨p._numMapping - 1 - T, g, ?_, ?_, ?_, ?_⟩
    · intro h
      rw [hl] at h
      exact absurd h (by simp)
    · intro _
      rw [hlin]
      omega
    · intro h
      rw [hlin, ← ex (hwhole h)]
      omega
    · intro h
      rw [hlin]
      rw [hbucket] at h
      omega

theorem linear_mapping_witness :
    ∃ lvl : Nat, MappedPoti.getMapping Platform.avr (MappedPoti.new 7 0 0 0 28 0) 300 0 0 = some lvl
      ∧ ((MappedPoti.new 7 0 0 0 28 0).leftSide Platform.avr 300 0 = true →
          (MappedPoti.new 7 0 0 0 28 0).linearLevel Platform.avr 300 0 0 - 1 ≤ (lvl : Int)
          ∧ (lvl : Int) ≤ (MappedPoti.new 7 0 0 0 28 0).linearLevel Platform.avr 300 0 0)
      ∧ ((MappedPoti.new 7 0 0 0 28 0).leftSide Platform.avr 300 0 = false →
          (MappedPoti.new 7 0 0 0 28 0).linearLevel Platform.avr 300 0 0 ≤ (lvl : Int)
          ∧ (lvl : Int) ≤ (MappedPoti.new 7 0 0 0 28 0).linearLevel Platform.avr 300 0 0 + 1)
      ∧ ((((MappedPoti.new 7 0 0 0 28 0).linearBucket Platform.avr 300 0 0 : Int) : ℚ)
            ≠ (MappedPoti.new 7 0 0 0 28 0).sideRatio Platform.avr 300 0 0 →
          (lvl : Int) = (MappedPoti.new 7 0 0 0 28 0).linearLevel Platform.avr 300 0 0)
      ∧ ((MappedPoti.new 7 0 0 0 28 0).linearBucket Platform.avr 300 0 0 = 0 →
          (lvl : Int) = (MappedPoti.new 7 0 0 0 28 0).linearLevel Platform.avr 300 0 0) :=
  linear_mapping Platform.avr (by decide) (by decide) (by decide)
    (MappedPoti.new 7 0 0 0 28 0) (by decide) (by decide) (by decide) (by decide) (by decide)
    (by decide) 0 0 (Or.inl ⟨rfl, rfl⟩) 300 (by decide) (by decide) (by decide!)

/-! ## Level correction and samples above the largest analog value -/

theorem roundFloat_neg (prec : Nat) (q : ℚ) : roundFloat prec (-q) = -roundFloat prec q := by
  unfold roundFloat
  rw [Rat.neg_num, Rat.neg_den, Int.natAbs_neg]
  rcases lt_trichotomy q.num 0 with h | h | h
  · rw [if_neg (by omega), if_neg (by omega), if_neg (by omega), if_pos h, neg_neg]
  · rw [if_pos (by omega), if_pos h, neg_zero]
  · rw [if_neg (by omega), if_pos (by omega), if_neg (by omega), if_neg (by omega)]

theorem truncQ_neg (q : ℚ) (hq : 0 ≤ q) : truncQ (-q) = -truncQ q := by
  rcases hq.eq_or_lt with h | h
  · rw [← h]
    rfl
  · unfold truncQ
    rw [if_neg (by linarith), if_pos hq, neg_neg]

/-- Without stretch the divisor of `getMapping` does not depend on the value,
and the quotient of a negative value is the negated quotient of its amount. -/
theorem MappedPoti.quotient_neg (pf : Platform) (hf : 24 ≤ pf.floatPrec)
    (hd : 24 ≤ pf.doublePrec) (p : MappedPoti) (h0 : p._stretch = 0) (a V : ℚ) (y : Nat) :
    MappedPoti.divisor pf a (p.scale pf) V (-(y : Int))
        = MappedPoti.divisor pf a (p.scale pf) V (y : Int)
    ∧ MappedPoti.quotient pf a (p.scale pf) V (-(y : Int))
        = -MappedPoti.quotient pf a (p.scale pf) V (y : Int) := by
  obtain ⟨-, -, -, -, -, -, -, -, -, -, hz⟩ := MappedPoti.scale_facts pf p hf hd (by omega)
  obtain ⟨-, hinv, hk⟩ := hz h0
  have hdv : MappedPoti.divisor pf a (p.scale pf) V (-(y : Int))
      = MappedPoti.divisor pf a (p.scale pf) V (y : Int) := by
    unfold MappedPoti.divisor
    rw [hk, hinv]
    simp only [zero_mul, Platform.toDouble_zero, zero_div, zero_add]
  refine ⟨hdv, ?_⟩
  unfold MappedPoti.quotient
  rw [hdv]
  have e : pf.toDouble (((-(y : Int) : Int) : ℚ)) = -pf.toDouble (((y : Int) : ℚ)) := by
    rw [Int.cast_neg]
    exact roundFloat_neg _ _
  rw [e, neg_div]
  exact roundFloat_neg _ _

/-- Level of a raw value above the largest analog value without stretch: the
highest level plus the truncated quotient of the excess `y`, corrected. -/
theorem MappedPoti.getMapping_beyond (pf : Platform) (hb : 16 ≤ pf.intBits)
    (hf : 24 ≤ pf.floatPrec) (hd : 24 ≤ pf.doublePrec) (p : MappedPoti)
    (hst : p._stretch = 0) (raw lo hi : Int)
    (V M y : Nat) (hc : p.inCenter pf raw lo hi = false)
    (hl : p.leftSide pf raw lo = false)
    (hv : p.valTot pf raw lo hi = (V : ℚ)) (hm : p.mapTot pf lo = (M : ℚ))
    (hraw : pf.wrap (p._maxAnalogVal - raw) = -(y : Int))
    (hM : 1 ≤ M) (hM2 : M ≤ 50) (hn1 : 2 ≤ p._numMapping) (hn : p._numMapping ≤ 101)
    (hV : 1 ≤ V) (hy : y ≤ 32767) (hyM : y * M < (256 - p._numMapping) * V) :
    MappedPoti.getMapping pf p raw lo hi
      = some (p.correction (p._numMapping - 1
          + (truncQ (MappedPoti.quotient pf (pf.toFloat ((V : ℚ) / M)) (p.scale pf) (V : ℚ)
              (y : Int))).toNat))
    ∧ p._numMapping - 1
        + (truncQ (MappedPoti.quotient pf (pf.toFloat ((V : ℚ) / M)) (p.scale pf) (V : ℚ)
            (y : Int))).toNat < 256 := by
  obtain ⟨s1, -, -, -, i1, -, k0, -, -, -, -⟩ := MappedPoti.scale_facts pf p hf hd (by omega)
  have hs : 0 < p.scale pf := by linarith
  obtain ⟨-, ha, -, -⟩ := MappedPoti.stdDiv_facts pf hf (p.scale pf) V M hs hM hV
  have hVq : (0 : ℚ) < (V : ℚ) := by exact_mod_cast hV
  have hMq : (M : ℚ) ≠ 0 := by
    have : 0 < M := by omega
    exact_mod_cast this.ne'
  obtain ⟨hdiv, g0, -, -⟩ := MappedPoti.quotient_bounds pf hd (pf.toFloat ((V : ℚ) / M))
    (p.scale pf) V y (by omega) ha k0 (by linarith) hVq
  obtain ⟨hdn, hqn⟩ := MappedPoti.quotient_neg pf hf hd p hst (pf.toFloat ((V : ℚ) / M)) (V : ℚ) y
  have hyMq : (y : ℚ) * M ≤ 1638350 := by
    have h : y * M ≤ 32767 * 50 := Nat.mul_le_mul hy hM2
    have : ((y * M : Nat) : ℚ) ≤ ((32767 * 50 : Nat) : ℚ) := by exact_mod_cast h
    push_cast at this
    linarith
  have hyM0 : (0 : ℚ) ≤ (y : ℚ) * M := by positivity
  have hlt := MappedPoti.level_lt_of pf hf hd p hst V M y (256 - p._numMapping) hM hV (by omega)
    (by
      have h : y * M + 1 ≤ (256 - p._numMapping) * V := hyM
      have : ((y * M + 1 : Nat) : ℚ) ≤ (((256 - p._numMapping) * V : Nat) : ℚ) := by
        exact_mod_cast h
      push_cast at this
      nlinarith)
  have ht0 := truncQ_nonneg _ g0
  generalize hq : truncQ (MappedPoti.quotient pf (pf.toFloat ((V : ℚ) / M)) (p.scale pf) (V : ℚ)
    (y : Int)) = t at ht0 hlt ⊢
  have hbk : MappedPoti.bucket pf (pf.toFloat ((V : ℚ) / M)) (p.scale pf) (V : ℚ) (-(y : Int))
      = some (-t) := by
    rw [MappedPoti.bucket_eq_quotient pf _ _ _ _ hs.ne' hVq.ne' (by rw [hdn]; exact hdiv.ne'),
      hqn, truncQ_neg _ g0, hq]
  obtain ⟨m, rfl⟩ := Int.eq_ofNat_of_zero_le ht0
  rw [Int.toNat_natCast] at hlt ⊢
  have hw : pf.wrap ((p._numMapping : Int) - 1) = ((p._numMapping - 1 : Nat) : Int) := by
    rw [pf.wrap_small _ hb (by omega) (by omega)]
    omega
  have e1 : pf.toDouble (((p._numMapping - 1 : Nat) : Int) : ℚ) = ((p._numMapping - 1 : Nat) : ℚ) := by
    rw [Int.cast_natCast]
    exact roundFloat_small_nat _ (by omega) _ (by omega)
  have hsub : ((p._numMapping - 1 : Nat) : ℚ) - ((-((m : Nat) : Int) : Int) : ℚ)
      = ((p._numMapping - 1 + m : Nat) : ℚ) := by
    push_cast
    ring
  have e2 : pf.toDouble ((p._numMapping - 1 + m : Nat) : ℚ)
      = ((p._numMapping - 1 + m : Nat) : ℚ) :=
    roundFloat_small_nat _ (by omega) _ (by omega)
  have e3 : pf.toFloat ((p._numMapping - 1 + m : Nat) : ℚ)
      = ((p._numMapping - 1 + m : Nat) : ℚ) :=
    roundFloat_small_nat _ (by omega) _ (by omega)
  refine ⟨?_, by omega⟩
  unfold MappedPoti.getMapping
  rw [hc]
  rw [if_neg (by simp)]
  unfold MappedPoti.tmpFloat
  rw [hl, hv, hm, hraw]
  simp only [Platform.divFloat, if_neg hMq, Option.some_bind, Bool.false_eq_true, if_false, hbk,
    Option.map_some', hw, e1, hsub, e2, e3]
  rw [floatToUint8_natCast _ (by omega), Option.map_some']

/-- C32 as stated fails for samples above the largest analog value.  With 4
levels, stretch 20 and the largest analog value 1023 the sample 1535 gets level
1, which is neither 0 nor 3: the divisor is negative there.  With 100 levels,
stretch 0 and the largest analog value 1023 the sample 3148 has no level: the
computed level 306 is not a `uint8_t`.  With 16 bit and with 32 bit `int`. -/
theorem MappedPoti.beyond_not_boundary :
    (MappedPoti.new 7 0 0 0 4 20)._maxAnalogVal = 1023
    ∧ (MappedPoti.new 7 0 0 0 4 20)._numMapping = 4
    ∧ (MappedPoti.new 7 0 0 0 100 0)._maxAnalogVal = 1023
    ∧ (MappedPoti.new 7 0 0 0 100 0)._numMapping = 100
    ∧ (∀ pf ∈ [Platform.avr, Platform.arm32],
        MappedPoti.getMapping pf (MappedPoti.new 7 0 0 0 4 20) 1535 0 0 = some 1
        ∧ MappedPoti.tmpFloat pf (MappedPoti.new 7 0 0 0 100 0) 3148 0 0 = some 306
        ∧ MappedPoti.getMapping pf (MappedPoti.new 7 0 0 0 100 0) 3148 0 0 = none) := by
  decide!

/-- C32, amended.  The correction at the end of `getMapping` returns
`numMapping - 1` for a computed level equal to `numMapping` (1 to 255 levels),
0 for a computed level above it and the computed level itself below it, and
outside the center `getMapping` is this correction of the computed level.  On
every platform with at least 16 bit `int` and 24 bit significands, for stretch
0, 2 to 101 levels, an uneven largest analog value `m` with `3 ≤ m < 32767`, no
center given or a center `0 < centerValLow ≤ centerValHigh < m` with at least
3 levels, every sample `r` with `m < r ≤ 32767` and
`(r - m) * mapTot < (256 - numMapping) * valTot` gets level 0 or the highest
level `numMapping - 1`. -/
theorem correction_and_beyond (pf : Platform) (hb : 16 ≤ pf.intBits) (hf : 24 ≤ pf.floatPrec)
    (hd : 24 ≤ pf.doublePrec) (p : MappedPoti) :
    (1 ≤ p._numMapping → p._numMapping ≤ 255 → p.correction p._numMapping = p._numMapping - 1)
    ∧ (∀ m : Nat, p._numMapping < m → p.correction m = 0)
    ∧ (∀ m : Nat, m < p._numMapping → p.correction m = m)
    ∧ (∀ r lo hi : Int, p.inCenter pf r lo hi = false →
        MappedPoti.getMapping pf p r lo hi
          = (p.tmpFloat pf r lo hi).bind fun t => (floatToUint8 t).map p.correction)
    ∧ (∀ r lo hi : Int, 2 ≤ p._numMapping → p._numMapping ≤ 101 → p._stretch = 0 →
        p._maxAnalogVal % 2 = 1 → 3 ≤ p._maxAnalogVal → p._maxAnalogVal < 32767 →
        ((lo = 0 ∧ hi = 0)
          ∨ (0 < lo ∧ lo ≤ hi ∧ hi < p._maxAnalogVal ∧ 3 ≤ p._numMapping)) →
        p._maxAnalogVal < r → r ≤ 32767 →
        ((r - p._maxAnalogVal : Int) : ℚ) * p.mapTot pf lo
          < ((256 - p._numMapping : Nat) : ℚ) * p.valTot pf r lo hi →
        ∃ lvl : Nat, MappedPoti.getMapping pf p r lo hi = some lvl
          ∧ (lvl = 0 ∨ lvl = p._numMapping - 1)) := by
  refine ⟨?_, ?_, ?_, ?_, ?_⟩
  · intro h1 h2
    unfold MappedPoti.correction
    rw [if_neg (by omega), if_pos rfl]
    omega
  · intro m h
    unfold MappedPoti.correction
    rw [if_pos h]
  · intro m h
    unfold MappedPoti.correction
    rw [if_neg (by omega), if_neg (by omega)]
  · intro r lo hi hc
    unfold MappedPoti.getMapping
    rw [hc]
    rw [if_neg (by simp)]
  · intro r lo hi hn1 hn2 hst hodd hm1 hm2 hcen hr1 hr2 hex
    have hout : p.inCenter pf r lo hi = false := by
      have hmin := Platform.intMin_le pf hb
      have hmax := Platform.intMax_ge pf hb
      by_cases hce : p.centered lo = true
      · have hch : p.centerValHigh pf lo hi < r := by
          rcases hcen with ⟨rfl, rfl⟩ | ⟨c1, c2, c3, c4⟩
          · have hpar : p._numMapping % 2 = 1 := by
              simp only [MappedPoti.centered, lt_self_iff_false, gt_iff_lt, decide_False,
                Bool.false_or, MappedPoti.implicitCenter, Bool.not_false, Bool.true_and,
                decide_eq_true_eq] at hce
              omega
            obtain ⟨-, -, e3, -, e5, -⟩ := MappedPoti.implicit_band pf p hb (by omega) (by omega)
              (by omega)
            have hi : p.implicitCenter 0 = true := by simp [MappedPoti.implicitCenter, hpar]
            simp only [MappedPoti.centerValHigh, hi, if_true]
            omega
          · have hi0 : p.implicitCenter lo = false := by simp [MappedPoti.implicitCenter, c1]
            simp only [MappedPoti.centerValHigh, hi0, Bool.false_eq_true, if_false]
            omega
        simp only [MappedPoti.inCenter, hce, Bool.true_and, Bool.and_eq_false_imp,
          decide_eq_true_eq, decide_eq_false_iff_not, not_le]
        intro _
        exact hch
      · simp only [Bool.not_eq_true] at hce
        simp only [MappedPoti.inCenter, hce, Bool.false_and]
    obtain ⟨V, M, hM, hMn, hV1, hV, hVm, hv, hm, hside⟩ := MappedPoti.side_totals_wide pf hb hf p
      hn1 (by omega) hodd (by omega) hm2 lo hi hcen r (by omega) (by omega) hout
    rcases hside with ⟨hl, e⟩ | ⟨hl, e, e2⟩
    · exfalso
      omega
    · obtain ⟨y, hy⟩ := Int.eq_ofNat_of_zero_le (show 0 ≤ r - p._maxAnalogVal by omega)
      have hraw : pf.wrap (p._maxAnalogVal - r) = -(y : Int) := by
        rw [e]
        omega
      rw [hy, hv, hm, Int.cast_natCast] at hex
      have hyM : y * M < (256 - p._numMapping) * V := by exact_mod_cast hex
      obtain ⟨g, gT⟩ := MappedPoti.getMapping_beyond pf hb hf hd p hst r lo hi V M y hout hl hv hm
        hraw hM (by omega) hn1 hn2 hV1 (by omega) hyM
      refine ⟨_, g, ?_⟩
      generalize (truncQ (MappedPoti.quotient pf (pf.toFloat ((V : ℚ) / M)) (p.scale pf) (V : ℚ)
        (y : Int))).toNat = T at gT
      unfold MappedPoti.correction
      rcases Nat.lt_or_ge 1 T with h | h
      · left
        rw [if_pos (by omega)]
      · right
        rcases Nat.eq_zero_or_pos T with h2 | h2
        · rw [if_neg (by omega), if_neg (by omega), h2, Nat.add_zero]
        · rw [if_neg (by omega), if_pos (by omega)]
          omega

theorem correction_and_beyond_witness :
    ∃ lvl : Nat, MappedPoti.getMapping Platform.avr (MappedPoti.new 7 0 0 0 4 0) 1535 0 0 = some lvl
      ∧ (lvl = 0 ∨ lvl = (MappedPoti.new 7 0 0 0 4 0)._numMapping - 1) :=
  (correction_and_beyond Platform.avr (by decide) (by decide) (by decide)
    (MappedPoti.new 7 0 0 0 4 0)).2.2.2.2 1535 0 0 (by decide) (by decide) (by decide) (by decide)
    (by decide) (by decide) (Or.inl ⟨rfl, rfl⟩) (by decide) (by decide) (by decide!)

/-! ## Centered value and centered level -/

/-- The level of a raw value in the analog range, with a center given, lies
below the middle level left of the center, is the middle level in the center
and lies above it right of the center. -/
theorem MappedPoti.level_sign (pf : Platform) (hb : 16 ≤ pf.intBits)
    (hf : 24 ≤ pf.floatPrec) (hd : 24 ≤ pf.doublePrec) (p : MappedPoti)
    (hst : p._stretch ≤ 20) (hn1 : 3 ≤ p._numMapping) (hn2 : p._numMapping ≤ 255)
    (lo hi : Int) (hm2 : p._maxAnalogVal < 32767)
    (hcen : 0 < lo ∧ lo ≤ hi ∧ hi < p._maxAnalogVal)
    (r : Int) (h0 : 0 ≤ r) (h1 : r ≤ p._maxAnalogVal) (lvl : Nat)
    (h : MappedPoti.getMapping pf p r lo hi = some lvl) :
    (r < lo → lvl < p._numMapping / 2) ∧ (lo ≤ r → r ≤ hi → lvl = p._numMapping / 2)
    ∧ (hi < r → p._numMapping / 2 < lvl) := by
  obtain ⟨c1, c2, c3⟩ := hcen
  obtain ⟨cl, rfl⟩ := Int.eq_ofNat_of_zero_le (show 0 ≤ lo by omega)
  obtain ⟨ch, rfl⟩ := Int.eq_ofNat_of_zero_le (show 0 ≤ hi by omega)
  obtain ⟨mx, hmx⟩ := Int.eq_ofNat_of_zero_le (show 0 ≤ p._maxAnalogVal by omega)
  have hi0 : p.implicitCenter (cl : Int) = false := by simp [MappedPoti.implicitCenter, c1]
  have hce : p.centered (cl : Int) = true := by simp [MappedPoti.centered, c1]
  have hcl : p.centerValLow pf (cl : Int) = (cl : Int) := by
    unfold MappedPoti.centerValLow
    rw [hi0]
    simp only [Bool.false_eq_true, if_false]
  have hch : p.centerValHigh pf (cl : Int) (ch : Int) = (ch : Int) := by
    unfold MappedPoti.centerValHigh
    rw [hi0]
    simp only [Bool.false_eq_true, if_false]
  obtain ⟨L, C, R⟩ := MappedPoti.centered_levels pf hb hf hd p hst hn1 hn2 (cl : Int) (ch : Int)
    cl ch mx hce hcl hch hmx (by omega) (by omega) (by omega)
  refine ⟨?_, ?_, ?_⟩
  · intro hr
    obtain ⟨x, rfl⟩ := Int.eq_ofNat_of_zero_le h0
    obtain ⟨g, gM⟩ := L x (by omega)
    rw [g] at h
    obtain rfl := Option.some.inj h
    omega
  · intro hr1 hr2
    rw [C r hr1 hr2] at h
    exact (Option.some.inj h).symm
  · intro hr
    obtain ⟨x, hx⟩ := Int.eq_ofNat_of_zero_le (show 0 ≤ p._maxAnalogVal - r by omega)
    have e : r = (mx : Int) - (x : Int) := by omega
    obtain ⟨g, gM⟩ := R x (by omega)
    rw [e, g] at h
    obtain rfl := Option.some.inj h
    omega

/-- A call of `CenteredPoti::hasChanged` keeps the current value or stores the
stabilized value, which is then not undefined; the stabilizer state of the
result is the one `getStabilizedRawValue` leaves. -/
theorem CenteredPoti.centered_hasChanged_value (pf : Platform) (M : Int) (k : Nat)
    (p : CenteredPoti) (current : Nat) (raw : Int) (res : Bool × CenteredPoti)
    (h : p.hasChanged pf current raw = some res)
    (a : StablePoti.Inv M k (p.toStablePoti.getStabilizedRawValue pf current raw).2) :
    StablePoti.Inv M k res.2.toStablePoti
    ∧ (res.2.getValue = p.getValue
      ∨ (res.2.getValue = (p.toStablePoti.getStabilizedRawValue pf current raw).1
        ∧ (p.toStablePoti.getStabilizedRawValue pf current raw).1 ≠ POTI_VALUE_UNDEFINED)) := by
  have hf := StablePoti.getStabilizedRawValue_frame pf p.toStablePoti current raw
  unfold CenteredPoti.hasChanged at h
  split_ifs at h with h1 h2
  · obtain rfl := (Option.some.inj h).symm
    exact ⟨a, Or.inl hf.1⟩
  · obtain rfl := (Option.some.inj h).symm
    exact ⟨a, Or.inl hf.1⟩
  · simp only [Option.map_eq_some'] at h
    obtain ⟨lvl, -, hl⟩ := h
    split_ifs at hl with h3
    · obtain rfl := hl.symm
      exact ⟨a, Or.inr ⟨rfl, h1⟩⟩
    · obtain rfl := hl.symm
      exact ⟨a, Or.inl hf.1⟩

/-- After every sequence of polls with samples in `0..M` and resets the
current value of a `CenteredPoti` is undefined or in `0..M`. -/
theorem CenteredPoti.centered_exec_value (pf : Platform) (hb : 16 ≤ pf.intBits) (M : Int)
    (hM0 : 0 ≤ M) (hM : 16 * M + 8 ≤ pf.intMax) (hM2 : M ≤ 4095) (k : Nat) (hk : k ≤ 7) :
    ∀ (cs : List PotiCall) (p p' : CenteredPoti), StablePoti.Inv M k p.toStablePoti →
      (p.getValue = POTI_VALUE_UNDEFINED ∨ (0 ≤ p.getValue ∧ p.getValue ≤ M)) →
      (∀ q : Poll, PotiCall.poll q ∈ cs → 0 ≤ q.raw ∧ q.raw ≤ M) →
      CenteredPoti.exec pf p cs = some p' →
      (p'.getValue = POTI_VALUE_UNDEFINED ∨ (0 ≤ p'.getValue ∧ p'.getValue ≤ M)) := by
  intro cs
  induction cs with
  | nil =>
    intro p p' _ hv _ h
    simp only [CenteredPoti.exec, Option.some.injEq] at h
    subst h
    exact hv
  | cons c cs ih =>
    intro p p' hinv hv hq h
    cases c with
    | poll q =>
      simp only [CenteredPoti.exec, Option.bind_eq_some] at h
      obtain ⟨res, hres, hrest⟩ := h
      obtain ⟨r0, r1⟩ := hq q (List.mem_cons_self _ _)
      obtain ⟨a, b⟩ := StablePoti.getStabilized_inv pf hb M hM0 hM hM2 k hk p.toStablePoti hinv
        q.current q.raw r0 r1
      obtain ⟨i1, i2⟩ := CenteredPoti.centered_hasChanged_value pf M k p q.current q.raw res hres a
      refine ih res.2 p' i1 ?_ (fun q' h' => hq q' (List.mem_cons_of_mem _ h')) hrest
      rcases i2 with e | ⟨e, hne⟩
      · rw [e]
        exact hv
      · rw [e]
        exact Or.inr (b.resolve_left hne)
    | reset =>
      simp only [CenteredPoti.exec] at h
      have hi : StablePoti.Inv M k p.toStablePoti.reset := by
        have := StablePoti.reset_inv M p.toStablePoti hinv.2.1
        rwa [hinv.1] at this
      exact ih p.reset p' hi (Or.inl rfl) (fun q' h' => hq q' (List.mem_cons_of_mem _ h')) h

/-- C35 as stated fails with 16 bit `int`: for the largest analog value 4095
and weight 12 the weighting `4 * 0 + 12 * 4095 + 8` is not an `int`.  A
`CenteredPoti` with 3 levels, stretch 20 and the center 2037..2057, polled with
the samples 4095 and 0, has the current value -1024 afterwards;
`getCenteredValue()` is -3061 and `getCenteredMappedValue()` is 0. -/
theorem CenteredPoti.centered_sign_mismatch :
    ((CenteredPoti.new Platform.avr 7 0 12 0 3 20 10 2047).setMaxAnalogValue Platform.avr
        4095).2._maxAnalogVal = 4095
    ∧ ((CenteredPoti.new Platform.avr 7 0 12 0 3 20 10 2047).setMaxAnalogValue Platform.avr
        4095).2._centerValLow = 2037
    ∧ ((CenteredPoti.new Platform.avr 7 0 12 0 3 20 10 2047).setMaxAnalogValue Platform.avr
        4095).2._centerValHigh = 2057
    ∧ (CenteredPoti.exec Platform.avr
        ((CenteredPoti.new Platform.avr 7 0 12 0 3 20 10 2047).setMaxAnalogValue Platform.avr
          4095).2 [PotiCall.poll ⟨0, 4095⟩, PotiCall.poll ⟨1, 0⟩]).map
        (fun c => (c.getValue, c.getCenteredValue Platform.avr, c.getCenteredMappedValue))
      = some (-1024, -3061, 0) := by
  decide!

/-- C35, amended.  On every platform with at least 16 bit `int` and 24 bit
significands, for a constructed `CenteredPoti` with 3 to 101 levels, stretch 0
to 20, weight 0 to 12, 0 to 7 extra samples, an uneven largest analog value
`m` with `16 * m + 8` an `int` and `m ≤ 4095`, and a center
`0 < _centerValLow ≤ _centerValHigh < m`: every sequence of `reset()` calls and
`hasChanged()` calls with samples in `0..m` has a defined result, and whenever
the current value is defined afterwards, `getCenteredValue()` is negative, zero
or positive exactly when `getCenteredMappedValue()` is negative, zero or
positive; the centered level is 0 exactly for a current value in the center. -/
theorem centered_sign_agreement (pf : Platform) (hb : 16 ≤ pf.intBits)
    (hf : 24 ≤ pf.floatPrec) (hd : 24 ≤ pf.doublePrec) (c : CenteredPoti)
    (cs : List PotiCall) (hfr : c.Fresh) (hn1 : 3 ≤ c._numMapping) (hn2 : c._numMapping ≤ 101)
    (hst : c._stretch ≤ 20) (hw : c._weightPrev ≤ 12) (hk : c._addNumRawAvg ≤ 7)
    (hodd : c._maxAnalogVal % 2 = 1) (hM : 16 * c._maxAnalogVal + 8 ≤ pf.intMax)
    (hM2 : c._maxAnalogVal ≤ 4095)
    (hcen : 0 < c._centerValLow ∧ c._centerValLow ≤ c._centerValHigh
      ∧ c._centerValHigh < c._maxAnalogVal)
    (hq : ∀ q : Poll, PotiCall.poll q ∈ cs → 0 ≤ q.raw ∧ q.raw ≤ c._maxAnalogVal) :
    ∃ c', CenteredPoti.exec pf c cs = some c'
      ∧ (c'.getValue ≠ POTI_VALUE_UNDEFINED →
          (c'.getCenteredValue pf < 0 ↔ c'.getCenteredMappedValue < 0)
          ∧ (c'.getCenteredValue pf = 0 ↔ c'.getCenteredMappedValue = 0)
          ∧ (0 < c'.getCenteredValue pf ↔ 0 < c'.getCenteredMappedValue)
          ∧ (c'.getCenteredMappedValue = 0
              ↔ (c'._centerValLow ≤ c'.getValue ∧ c'.getValue ≤ c'._centerValHigh))) := by
  have hmin := Platform.intMin_le pf hb
  have hmax := Platform.intMax_ge pf hb
  have hinv := StablePoti.fresh_inv c._maxAnalogVal c.toStablePoti hfr.1 hw
  obtain ⟨c', hc'⟩ := CenteredPoti.centered_exec_defined pf hb hf hd c._numMapping c._stretch
    c._addNumRawAvg c._maxAnalogVal c._centerValLow c._centerValHigh hn1 (by omega) hst hodd
    (by omega) hM hM2 hk (Or.inr hcen) cs c rfl rfl rfl rfl rfl hinv hq
  obtain ⟨hc, g1, -⟩ := CenteredPoti.centered_exec_paired pf cs c c'
    (Or.inl ⟨hfr.1.1.2.1, hfr.2.1⟩) (Or.inl ⟨hfr.1.1.2.2, hfr.2.2⟩) hc'
  have hval := CenteredPoti.centered_exec_value pf hb c._maxAnalogVal (by omega) hM hM2
    c._addNumRawAvg hk cs c c' hinv (Or.inl hfr.1.1.2.1) hq hc'
  simp only [CenteredPoti.config, MappedPoti.config, Prod.mk.injEq] at hc
  obtain ⟨⟨-, en, es, em⟩, elo, ehi⟩ := hc
  refine ⟨c', hc', ?_⟩
  intro hne
  obtain ⟨v0, v1⟩ := hval.resolve_left hne
  have hg : MappedPoti.getMapping pf c'.toMappedPoti c'.getValue c'._centerValLow
      c'._centerValHigh = some c'.getMappedValue := by
    rcases g1 with h | h
    · exact absurd h.1 hne
    · exact h
  have hlt := MappedPoti.getMapping_lt pf c'.toMappedPoti _ _ _ _ hg (by omega) (by omega)
  obtain ⟨sl, sc, sr⟩ := MappedPoti.level_sign pf hb hf hd c'.toMappedPoti (by omega) (by omega)
    (by omega) c'._centerValLow c'._centerValHigh (by omega)
    ⟨by omega, by omega, by omega⟩ c'.getValue v0 (by omega) c'.getMappedValue hg
  have hcv : c'._curValue = c'.getValue := rfl
  have hcm : c'._curMapValue = c'.getMappedValue := rfl
  have hsh : c'._numMapping >>> 1 = c'._numMapping / 2 := by
    rw [Nat.shiftRight_eq_div_pow, pow_one]
  have hmv : c'.getCenteredMappedValue
      = (c'.getMappedValue : Int) - ((c'._numMapping / 2 : Nat) : Int) := by
    unfold CenteredPoti.getCenteredMappedValue
    rw [hcm, hsh, if_neg]
    unfold POTI_MAPPING_UNDEFINED
    omega
  rw [hmv]
  unfold CenteredPoti.getCenteredValue
  rw [hcv, if_neg hne]
  generalize c'.getValue = v at hne v0 v1 hg sl sc sr ⊢
  generalize c'.getMappedValue = l at hg hlt sl sc sr hmv ⊢
  by_cases hl : v < c'._centerValLow
  · have := sl hl
    rw [if_pos hl, pf.wrap_small _ hb (by omega) (by omega)]
    omega
  · rw [if_neg hl]
    by_cases hh : v > c'._centerValHigh
    · have := sr hh
      rw [if_pos hh, pf.wrap_small _ hb (by omega) (by omega)]
      omega
    · have := sc (by omega) (by omega)
      rw [if_neg hh]
      omega

theorem centered_sign_agreement_witness :
    ∃ c', CenteredPoti.exec Platform.avr (CenteredPoti.new Platform.avr 7 0 0 0 5 20 10 0)
        [PotiCall.poll ⟨0, 100⟩, PotiCall.poll ⟨1, 900⟩] = some c'
      ∧ (c'.getValue ≠ POTI_VALUE_UNDEFINED →
          (c'.getCenteredValue Platform.avr < 0 ↔ c'.getCenteredMappedValue < 0)
          ∧ (c'.getCenteredValue Platform.avr = 0 ↔ c'.getCenteredMappedValue = 0)
          ∧ (0 < c'.getCenteredValue Platform.avr ↔ 0 < c'.getCenteredMappedValue)
          ∧ (c'.getCenteredMappedValue = 0
              ↔ (c'._centerValLow ≤ c'.getValue ∧ c'.getValue ≤ c'._centerValHigh))) :=
  centered_sign_agreement Platform.avr (by decide) (by decide) (by decide)
    (CenteredPoti.new Platform.avr 7 0 0 0 5 20 10 0)
    [PotiCall.poll ⟨0, 100⟩, PotiCall.poll ⟨1, 900⟩]
    ⟨⟨⟨rfl, rfl, rfl⟩, rfl, rfl, rfl⟩, rfl, rfl⟩ (by decide) (by decide) (by decide) (by decide)
    (by decide) (by decide) (by decide) (by decide) (by decide)
    (by
      intro q hq
      simp only [List.mem_cons, PotiCall.poll.injEq, List.mem_singleton, List.not_mem_nil,
        or_false] at hq
      rcases hq with rfl | rfl <;> decide)

/-! ## The domain of the levels -/

/-- Every result of `getMapping` as a function into `uint8_t` is below the
number of levels: the center returns `_numMapping >> 1` and the correction maps
every byte below `_numMapping`. -/
theorem MappedPoti.getMappingByte_lt (pf : Platform) (p : MappedPoti) (byte : Nat)
    (raw lo hi : Int) (hn1 : 1 ≤ p._numMapping) (hn2 : p._numMapping ≤ 255) :
    p.getMappingByte pf byte raw lo hi < p._numMapping := by
  unfold MappedPoti.getMappingByte
  split_ifs
  · rw [Nat.shiftRight_eq_div_pow, pow_one]
    omega
  · unfold MappedPoti.correction
    split_ifs <;> omega

/-- Where `getMapping` has a defined result it is the result of `getMapping`
as a function into `uint8_t`, whatever the byte. -/
theorem MappedPoti.getMappingByte_of_some (pf : Platform) (p : MappedPoti) (byte : Nat)
    (raw lo hi : Int) (l : Nat) (h : MappedPoti.getMapping pf p raw lo hi = some l) :
    p.getMappingByte pf byte raw lo hi = l := by
  unfold MappedPoti.getMapping at h
  unfold MappedPoti.getMappingByte
  split_ifs at h ⊢ with hc
  · exact Option.some.inj h
  · cases ht : p.tmpFloat pf raw lo hi with
    | none =>
      rw [ht] at h
      exact absurd h (by simp)
    | some t =>
      rw [ht] at h
      simp only [Option.some_bind, Option.map_eq_some'] at h
      obtain ⟨b, hb, rfl⟩ := h
      simp only [Option.some_bind, hb, Option.getD_some]

theorem MappedPoti.hasChangedByte_levels (pf : Platform) (p : MappedPoti) (byte current : Nat)
    (raw : Int) (hn1 : 1 ≤ p._numMapping) (hn2 : p._numMapping ≤ 255)
    (h1 : p._curMapValue = POTI_MAPPING_UNDEFINED ∨ p._curMapValue < p._numMapping)
    (h2 : p._prevMapValue = POTI_MAPPING_UNDEFINED ∨ p._prevMapValue < p._numMapping) :
    (p.hasChangedByte pf byte current raw).2._numMapping = p._numMapping
    ∧ ((p.hasChangedByte pf byte current raw).2._curMapValue = POTI_MAPPING_UNDEFINED
      ∨ (p.hasChangedByte pf byte current raw).2._curMapValue < p._numMapping)
    ∧ ((p.hasChangedByte pf byte current raw).2._prevMapValue = POTI_MAPPING_UNDEFINED
      ∨ (p.hasChangedByte pf byte current raw).2._prevMapValue < p._numMapping) := by
  unfold MappedPoti.hasChangedByte
  split_ifs
  · exact ⟨rfl, h1, h2⟩
  · exact ⟨rfl, h1, h2⟩
  · exact ⟨rfl, Or.inr (MappedPoti.getMappingByte_lt pf p byte _ 0 0 hn1 hn2), h1⟩
  · exact ⟨rfl, h1, h2⟩

theorem CenteredPoti.centered_hasChangedByte_levels (pf : Platform) (p : CenteredPoti)
    (byte current : Nat) (raw : Int) (hn1 : 1 ≤ p._numMapping) (hn2 : p._numMapping ≤ 255)
    (h1 : p._curMapValue = POTI_MAPPING_UNDEFINED ∨ p._curMapValue < p._numMapping)
    (h2 : p._prevMapValue = POTI_MAPPING_UNDEFINED ∨ p._prevMapValue < p._numMapping) :
    (p.hasChangedByte pf byte current raw).2._numMapping = p._numMapping
    ∧ ((p.hasChangedByte pf byte current raw).2._curMapValue = POTI_MAPPING_UNDEFINED
      ∨ (p.hasChangedByte pf byte current raw).2._curMapValue < p._numMapping)
    ∧ ((p.hasChangedByte pf byte current raw).2._prevMapValue = POTI_MAPPING_UNDEFINED
      ∨ (p.hasChangedByte pf byte current raw).2._prevMapValue < p._numMapping) := by
  unfold CenteredPoti.hasChangedByte
  split_ifs
  · exact ⟨rfl, h1, h2⟩
  · exact ⟨rfl, h1, h2⟩
  · exact ⟨rfl, Or.inr (MappedPoti.getMappingByte_lt pf p.toMappedPoti byte _ _ _ hn1 hn2), h1⟩
  · exact ⟨rfl, h1, h2⟩

/-- After every sequence of polls and resets, whatever the samples and the
bytes of undefined conversions, the number of levels of a `MappedPoti` is
unchanged and both levels are undefined or below it. -/
theorem MappedPoti.execByte_levels (pf : Platform) (n : Nat) (hn1 : 1 ≤ n) (hn2 : n ≤ 255) :
    ∀ (cs : List (PotiCall × Nat)) (p : MappedPoti), p._numMapping = n →
      (p._curMapValue = POTI_MAPPING_UNDEFINED ∨ p._curMapValue < n) →
      (p._prevMapValue = POTI_MAPPING_UNDEFINED ∨ p._prevMapValue < n) →
      (MappedPoti.execByte pf p cs)._numMapping = n
      ∧ ((MappedPoti.execByte pf p cs)._curMapValue = POTI_MAPPING_UNDEFINED
        ∨ (MappedPoti.execByte pf p cs)._curMapValue < n)
      ∧ ((MappedPoti.execByte pf p cs)._prevMapValue = POTI_MAPPING_UNDEFINED
        ∨ (MappedPoti.execByte pf p cs)._prevMapValue < n) := by
  intro cs
  induction cs with
  | nil => intro p e h1 h2; exact ⟨e, h1, h2⟩
  | cons c cs ih =>
    intro p e h1 h2
    obtain ⟨c, b⟩ := c
    cases c with
    | poll q =>
      obtain ⟨a1, a2, a3⟩ := MappedPoti.hasChangedByte_levels pf p b q.current q.raw
        (by omega) (by omega) (by rw [e]; exact h1) (by rw [e]; exact h2)
      rw [e] at a1 a2 a3
      exact ih _ a1 a2 a3
    | reset => exact ih p.reset e (Or.inl rfl) (Or.inl rfl)

/-- The same for `CenteredPoti`. -/
theorem CenteredPoti.centered_execByte_levels (pf : Platform) (n : Nat) (hn1 : 1 ≤ n)
    (hn2 : n ≤ 255) :
    ∀ (cs : List (PotiCall × Nat)) (p : CenteredPoti), p._numMapping = n →
      (p._curMapValue = POTI_MAPPING_UNDEFINED ∨ p._curMapValue < n) →
      (p._prevMapValue = POTI_MAPPING_UNDEFINED ∨ p._prevMapValue < n) →
      (CenteredPoti.execByte pf p cs)._numMapping = n
      ∧ ((CenteredPoti.execByte pf p cs)._curMapValue = POTI_MAPPING_UNDEFINED
        ∨ (CenteredPoti.execByte pf p cs)._curMapValue < n)
      ∧ ((CenteredPoti.execByte pf p cs)._prevMapValue = POTI_MAPPING_UNDEFINED
        ∨ (CenteredPoti.execByte pf p cs)._prevMapValue < n) := by
  intro cs
  induction cs with
  | nil => intro p e h1 h2; exact ⟨e, h1, h2⟩
  | cons c cs ih =>
    intro p e h1 h2
    obtain ⟨c, b⟩ := c
    cases c with
    | poll q =>
      obtain ⟨a1, a2, a3⟩ := CenteredPoti.centered_hasChangedByte_levels pf p b q.current q.raw
        (by omega) (by omega) (by rw [e]; exact h1) (by rw [e]; exact h2)
      rw [e] at a1 a2 a3
      exact ih _ a1 a2 a3
    | reset => exact ih p.reset e (Or.inl rfl) (Or.inl rfl)

/-- A call of `MappedPoti::hasChanged` with a defined result has this result
with `getMapping` as a function into `uint8_t`, whatever the byte. -/
theorem MappedPoti.hasChangedByte_of_some (pf : Platform) (p : MappedPoti) (byte current : Nat)
    (raw : Int) (res : Bool × MappedPoti) (h : p.hasChanged pf current raw = some res) :
    p.hasChangedByte pf byte current raw = res := by
  unfold MappedPoti.hasChanged at h
  unfold MappedPoti.hasChangedByte
  split_ifs at h with h1 h2
  · rw [if_pos h1]
    exact Option.some.inj h
  · rw [if_neg h1, if_pos h2]
    exact Option.some.inj h
  · rw [if_neg h1, if_neg h2]
    simp only [Option.map_eq_some'] at h
    obtain ⟨l, hm, hl⟩ := h
    rw [MappedPoti.getMappingByte_of_some pf p byte _ 0 0 l hm]
    exact hl

/-- The same for `CenteredPoti::hasChanged`. -/
theorem CenteredPoti.centered_hasChangedByte_of_some (pf : Platform) (p : CenteredPoti)
    (byte current : Nat) (raw : Int) (res : Bool × CenteredPoti)
    (h : p.hasChanged pf current raw = some res) :
    p.hasChangedByte pf byte current raw = res := by
  unfold CenteredPoti.hasChanged at h
  unfold CenteredPoti.hasChangedByte
  split_ifs at h with h1 h2
  · rw [if_pos h1]
    exact Option.some.inj h
  · rw [if_neg h1, if_pos h2]
    exact Option.some.inj h
  · rw [if_neg h1, if_neg h2]
    simp only [Option.map_eq_some'] at h
    obtain ⟨l, hm, hl⟩ := h
    rw [MappedPoti.getMappingByte_of_some pf p.toMappedPoti byte _ _ _ l hm]
    exact hl

/-- A sequence of calls on a `MappedPoti` with a defined result has this result
with `getMapping` as a function into `uint8_t`, whatever the bytes. -/
theorem MappedPoti.execByte_of_some (pf : Platform) :
    ∀ (cs : List (PotiCall × Nat)) (p p' : MappedPoti),
      MappedPoti.exec pf p (cs.map Prod.fst) = some p' → MappedPoti.execByte pf p cs = p' := by
  intro cs
  induction cs with
  | nil =>
    intro p p' h
    simp only [List.map_nil, MappedPoti.exec, Option.some.injEq] at h
    exact h
  | cons c cs ih =>
    intro p p' h
    obtain ⟨c, b⟩ := c
    cases c with
    | poll q =>
      simp only [List.map_cons, MappedPoti.exec, Option.bind_eq_some] at h
      obtain ⟨res, hres, hrest⟩ := h
      simp only [MappedPoti.execByte]
      rw [MappedPoti.hasChangedByte_of_some pf p b q.current q.raw res hres]
      exact ih res.2 p' hrest
    | reset =>
      simp only [List.map_cons, MappedPoti.exec] at h
      simp only [MappedPoti.execByte]
      exact ih p.reset p' h

/-- The same for `CenteredPoti`. -/
theorem CenteredPoti.centered_execByte_of_some (pf : Platform) :
    ∀ (cs : List (PotiCall × Nat)) (p p' : CenteredPoti),
      CenteredPoti.exec pf p (cs.map Prod.fst) = some p' → CenteredPoti.execByte pf p cs = p' := by
  intro cs
  induction cs with
  | nil =>
    intro p p' h
    simp only [List.map_nil, CenteredPoti.exec, Option.some.injEq] at h
    exact h
  | cons c cs ih =>
    intro p p' h
    obtain ⟨c, b⟩ := c
    cases c with
    | poll q =>
      simp only [List.map_cons, CenteredPoti.exec, Option.bind_eq_some] at h
      obtain ⟨res, hres, hrest⟩ := h
      simp only [CenteredPoti.execByte]
      rw [CenteredPoti.centered_hasChangedByte_of_some pf p b q.current q.raw res hres]
      exact ih res.2 p' hrest
    | reset =>
      simp only [List.map_cons, CenteredPoti.exec] at h
      simp only [CenteredPoti.execByte]
      exact ih p.reset p' h

/-- C21. Level domain: on every platform, for every constructed `MappedPoti`
and `CenteredPoti` (the number of levels is a `uint8_t` of at least 1) and
every sequence of `hasChanged()` and `reset()` calls, whatever the samples and
whatever byte an undefined conversion to `uint8_t` leaves, `getMappedValue()`
and `getMappedPrevValue()` are each `POTI_MAPPING_UNDEFINED` or in
`0 .. numMapping - 1`; `getMapping` returns a level in `0 .. numMapping - 1`
for every raw value and every center; and where the calls have a defined
result in the model without the byte, it is this one. -/
theorem level_in_domain (pf : Platform) (m : MappedPoti) (c : CenteredPoti)
    (hm : m.Fresh) (hc : c.Fresh) (hm1 : 1 ≤ m._numMapping) (hm2 : m._numMapping ≤ 255)
    (hc1 : 1 ≤ c._numMapping) (hc2 : c._numMapping ≤ 255) (cs : List (PotiCall × Nat)) :
    ((MappedPoti.execByte pf m cs).getMappedValue = POTI_MAPPING_UNDEFINED
        ∨ (MappedPoti.execByte pf m cs).getMappedValue < m._numMapping)
    ∧ ((MappedPoti.execByte pf m cs).getMappedPrevValue = POTI_MAPPING_UNDEFINED
        ∨ (MappedPoti.execByte pf m cs).getMappedPrevValue < m._numMapping)
    ∧ ((CenteredPoti.execByte pf c cs).getMappedValue = POTI_MAPPING_UNDEFINED
        ∨ (CenteredPoti.execByte pf c cs).getMappedValue < c._numMapping)
    ∧ ((CenteredPoti.execByte pf c cs).getMappedPrevValue = POTI_MAPPING_UNDEFINED
        ∨ (CenteredPoti.execByte pf c cs).getMappedPrevValue < c._numMapping)
    ∧ (∀ (byte : Nat) (raw lo hi : Int),
        m.getMappingByte pf byte raw lo hi < m._numMapping
        ∧ c.getMappingByte pf byte raw lo hi < c._numMapping
        ∧ (∀ l : Nat, MappedPoti.getMapping pf m raw lo hi = some l →
            m.getMappingByte pf byte raw lo hi = l ∧ l < m._numMapping))
    ∧ (∀ m' : MappedPoti, MappedPoti.exec pf m (cs.map Prod.fst) = some m' →
        MappedPoti.execByte pf m cs = m')
    ∧ (∀ c' : CenteredPoti, CenteredPoti.exec pf c (cs.map Prod.fst) = some c' →
        CenteredPoti.execByte pf c cs = c') := by
  obtain ⟨-, a2, a3⟩ := MappedPoti.execByte_levels pf m._numMapping hm1 hm2 cs m rfl
    (Or.inl hm.2.1) (Or.inl hm.2.2)
  obtain ⟨-, b2, b3⟩ := CenteredPoti.centered_execByte_levels pf c._numMapping hc1 hc2 cs c rfl
    (Or.inl hc.2.1) (Or.inl hc.2.2)
  refine ⟨a2, a3, b2, b3, ?_, ?_, ?_⟩
  · intro byte raw lo hi
    refine ⟨MappedPoti.getMappingByte_lt pf m byte raw lo hi hm1 hm2,
      MappedPoti.getMappingByte_lt pf c.toMappedPoti byte raw lo hi hc1 hc2, ?_⟩
    intro l hl
    have e := MappedPoti.getMappingByte_of_some pf m byte raw lo hi l hl
    refine ⟨e, ?_⟩
    rw [← e]
    exact MappedPoti.getMappingByte_lt pf m byte raw lo hi hm1 hm2
  · exact fun m' h => MappedPoti.execByte_of_some pf cs m m' h
  · exact fun c' h => CenteredPoti.centered_execByte_of_some pf cs c c' h

/-- Witness for C21 with 16 bit `int`: a `MappedPoti` with 4 levels, the
largest analog value 4095 and weight 12, and a `CenteredPoti` with 5 levels,
polled with the samples 4095 and 0, reset and polled with 900.  In the second
poll of the `MappedPoti` the weighting leaves the range of `int`, the
stabilized value is -1024 and the conversion to `uint8_t` is not defined; with
the byte 50 left by it the level is corrected to 0. -/
theorem level_in_domain_witness :
    (MappedPoti.execByte Platform.avr
        ((MappedPoti.new 7 0 12 0 4 0).setMaxAnalogValue Platform.avr 4095).2
        [(PotiCall.poll ⟨0, 4095⟩, 0), (PotiCall.poll ⟨1, 0⟩, 50)]).getMappedValue = 0
    ∧ (MappedPoti.execByte Platform.avr
        ((MappedPoti.new 7 0 12 0 4 0).setMaxAnalogValue Platform.avr 4095).2
        [(PotiCall.poll ⟨0, 4095⟩, 0), (PotiCall.poll ⟨1, 0⟩, 50)]).getMappedPrevValue = 3
    ∧ (((MappedPoti.execByte Platform.avr
          ((MappedPoti.new 7 0 12 0 4 0).setMaxAnalogValue Platform.avr 4095).2
          [(PotiCall.poll ⟨0, 4095⟩, 0), (PotiCall.poll ⟨1, 0⟩, 50), (PotiCall.reset, 0),
            (PotiCall.poll ⟨2, 900⟩, 0)]).getMappedValue = POTI_MAPPING_UNDEFINED
        ∨ (MappedPoti.execByte Platform.avr
          ((MappedPoti.new 7 0 12 0 4 0).setMaxAnalogValue Platform.avr 4095).2
          [(PotiCall.poll ⟨0, 4095⟩, 0), (PotiCall.poll ⟨1, 0⟩, 50), (PotiCall.reset, 0),
            (PotiCall.poll ⟨2, 900⟩, 0)]).getMappedValue
          < ((MappedPoti.new 7 0 12 0 4 0).setMaxAnalogValue Platform.avr 4095).2._numMapping)
      ∧ ((CenteredPoti.execByte Platform.avr (CenteredPoti.new Platform.avr 7 0 4 3 5 1 0 0)
          [(PotiCall.poll ⟨0, 4095⟩, 0), (PotiCall.poll ⟨1, 0⟩, 50), (PotiCall.reset, 0),
            (PotiCall.poll ⟨2, 900⟩, 0)]).getMappedValue = POTI_MAPPING_UNDEFINED
        ∨ (CenteredPoti.execByte Platform.avr (CenteredPoti.new Platform.avr 7 0 4 3 5 1 0 0)
          [(PotiCall.poll ⟨0, 4095⟩, 0), (PotiCall.poll ⟨1, 0⟩, 50), (PotiCall.reset, 0),
            (PotiCall.poll ⟨2, 900⟩, 0)]).getMappedValue
          < (CenteredPoti.new Platform.avr 7 0 4 3 5 1 0 0)._numMapping)) :=
  ⟨by decide!, by decide!,
    (level_in_domain Platform.avr
      ((MappedPoti.new 7 0 12 0 4 0).setMaxAnalogValue Platform.avr 4095).2
      (CenteredPoti.new Platform.avr 7 0 4 3 5 1 0 0)
      ⟨⟨⟨rfl, rfl, rfl⟩, rfl, rfl, rfl⟩, rfl, rfl⟩ ⟨⟨⟨rfl, rfl, rfl⟩, rfl, rfl, rfl⟩, rfl, rfl⟩
      (by decide) (by decide) (by decide) (by decide)
      [(PotiCall.poll ⟨0, 4095⟩, 0), (PotiCall.poll ⟨1, 0⟩, 50), (PotiCall.reset, 0),
        (PotiCall.poll ⟨2, 900⟩, 0)]).1,
    (level_in_domain Platform.avr
      ((MappedPoti.new 7 0 12 0 4 0).setMaxAnalogValue Platform.avr 4095).2
      (CenteredPoti.new Platform.avr 7 0 4 3 5 1 0 0)
      ⟨⟨⟨rfl, rfl, rfl⟩, rfl, rfl, rfl⟩, rfl, rfl⟩ ⟨⟨⟨rfl, rfl, rfl⟩, rfl, rfl, rfl⟩, rfl, rfl⟩
      (by decide) (by decide) (by decide) (by decide)
      [(PotiCall.poll ⟨0, 4095⟩, 0), (PotiCall.poll ⟨1, 0⟩, 50), (PotiCall.reset, 0),
        (PotiCall.poll ⟨2, 900⟩, 0)]).2.2.1⟩
